import Mathlib

/-! # Session protocol engine of the Go client: turns, streams, multiplexer, callbacks

A shallow embedding of `go/client` (turns.go, run.go, event_mux.go, session.go,
helpers.go, tool_results.go, content_blocks.go, hooks.go, permissions.go,
message_blocks.go, permission_updates.go, input_stream.go) and the properties
proved about it.

Conventions of the embedding:
* Go pointers that the source tests against `nil` are `Option`s.
* A Go map from strings is an association list (`GoMap`) read with `GoMap.get`,
  written with `GoMap.set` and shrunk with `GoMap.delete`.
* Go strings are Lean strings, except where `structpb` looks at their bytes: the
  text of a content block and the message of a tool handler's error are
  `GoString`s, which may fail to be valid UTF-8. `uint32` turn indices are
  naturals (no arithmetic is done on them).
* A buffered channel is bounded where the bound matters: `Stream.runOn` is the
  loop of a Stream on its feed of 64 slots, `Stream.run` the loop when the feed
  never fills.
* Goroutines are interleaved explicitly: `Session.runSteps` runs the receive
  loop and the dispatch goroutines under a schedule, `eventMux.runAround` one
  iteration of the multiplexer loop among the actions of other goroutines.
* Heap objects with pointer identity (subscriptions) live in a list and are
  named by their index in it.
-/

namespace Client

/-! ## Go maps keyed by strings -/

/-- Association-list rendering of a Go `map[string]V`. -/
abbrev GoMap (β : Type) := List (String × β)

/-- Map read `m[k]`; `none` stands for the missing key. -/
def GoMap.get {β : Type} (m : GoMap β) (k : String) : Option β :=
  match m with
  | [] => none
  | (k', v) :: rest => if k' = k then some v else GoMap.get rest k

/-- Builtin `delete(m, k)`. -/
def GoMap.delete {β : Type} (m : GoMap β) (k : String) : GoMap β :=
  m.filter (fun kv => !(decide (kv.1 = k)))

/-- Map write `m[k] = v`. -/
def GoMap.set {β : Type} (m : GoMap β) (k : String) (v : β) : GoMap β :=
  (k, v) :: GoMap.delete m k

/-! ## Wire types

The protobuf package `gen/claude_sidecar/v1` is generated code that is not part
of the client sources; its messages are rendered here with the fields the
client reads or writes. -/

/-- Modelled from the spec: `structpb.Value`, the JSON-like value of the wire
encoding (null, bool, number, string, list, struct). Numbers are carried as
integers; nothing here computes with them. -/
inductive Value where
  | null : Value
  | bool (b : Bool) : Value
  | number (n : Int) : Value
  | string (s : String) : Value
  | list (items : List Value) : Value
  | struct (fields : List (String × Value)) : Value

/-- Modelled from the spec: `structpb.Struct`, a map from field names to values. -/
abbrev Struct := GoMap Value

/-- Modelled from the spec: `pb.UserMessage`. -/
structure UserMessage where
  Content : String
  deriving DecidableEq, Repr

/-- Modelled from the spec: `pb.AssistantMessage`. -/
structure AssistantMessage where
  Model : String
  deriving DecidableEq, Repr

/-- Modelled from the spec: `pb.SystemMessage`. -/
structure SystemMessage where
  Subtype : String
  deriving DecidableEq, Repr

/-- Modelled from the spec: `pb.ResultMessage`. -/
structure ResultMessage where
  Result : String
  deriving DecidableEq, Repr

/-- Modelled from the spec: `pb.StreamEvent`. -/
structure StreamEvent where
  Uuid : String
  deriving DecidableEq, Repr

/-- Modelled from the spec: the `Msg` oneof of `pb.MessageEvent`. A set case
carries its message; `unset` is the oneof with no case set. -/
inductive Msg where
  | unset : Msg
  | user (m : UserMessage) : Msg
  | assistant (m : AssistantMessage) : Msg
  | system (m : SystemMessage) : Msg
  | result (m : ResultMessage) : Msg
  | streamEvent (m : StreamEvent) : Msg
  deriving DecidableEq, Repr

/-- Modelled from the spec: `pb.MessageEvent`, a message kind plus the
`is_partial` flag. -/
structure MessageEvent where
  IsPartial : Bool
  msg : Msg
  deriving DecidableEq, Repr

/-- Generated getter `GetUser`. -/
def MessageEvent.GetUser (m : MessageEvent) : Option UserMessage :=
  match m.msg with
  | .user u => some u
  | _ => none

/-- Generated getter `GetAssistant`. -/
def MessageEvent.GetAssistant (m : MessageEvent) : Option AssistantMessage :=
  match m.msg with
  | .assistant a => some a
  | _ => none

/-- Generated getter `GetSystem`. -/
def MessageEvent.GetSystem (m : MessageEvent) : Option SystemMessage :=
  match m.msg with
  | .system s => some s
  | _ => none

/-- Generated getter `GetResult`. -/
def MessageEvent.GetResult (m : MessageEvent) : Option ResultMessage :=
  match m.msg with
  | .result r => some r
  | _ => none

/-- Generated getter `GetStreamEvent`. -/
def MessageEvent.GetStreamEvent (m : MessageEvent) : Option StreamEvent :=
  match m.msg with
  | .streamEvent s => some s
  | _ => none

/-- Modelled from the spec: `pb.TurnBoundary_Kind`. -/
inductive TurnBoundaryKind where
  | UNSPECIFIED
  | TURN_BEGIN
  | TURN_END
  deriving DecidableEq, Repr

/-- Modelled from the spec: `pb.TurnBoundary`. -/
structure TurnBoundary where
  Kind : TurnBoundaryKind
  TurnIndex : Nat
  deriving DecidableEq, Repr

/-- Modelled from the spec: `pb.StderrLine`. -/
structure StderrLine where
  Line : String
  deriving DecidableEq, Repr

/-- Modelled from the spec: `pb.SidecarError`. -/
structure SidecarError where
  Code : String
  Message : String
  Fatal : Bool
  deriving DecidableEq, Repr

/-- Modelled from the spec: `pb.ToolInvocationRequest`. -/
structure ToolInvocationRequest where
  InvocationId : String
  ToolFqn : String
  deriving DecidableEq, Repr

/-- Modelled from the spec: `pb.HookInvocationRequest`. -/
structure HookInvocationRequest where
  InvocationId : String
  HookEvent : String
  Matcher : String
  deriving DecidableEq, Repr

/-- Modelled from the spec: `pb.PermissionDecisionRequest`. -/
structure PermissionDecisionRequest where
  InvocationId : String
  ToolName : String
  Prompt : String
  Attempt : Nat
  deriving DecidableEq, Repr

/-- Modelled from the spec: the `Payload` oneof of `pb.ServerEvent`. The four
payloads that run.go tests against nil are optional; the callback requests,
which session.go dereferences unguarded, are present whenever their case is
set, as the decoder produces them. -/
inductive ServerPayload where
  | unset : ServerPayload
  | sessionInit : ServerPayload
  | sessionClosed (reason : String) : ServerPayload
  | turn (t : Option TurnBoundary) : ServerPayload
  | message (m : Option MessageEvent) : ServerPayload
  | stderrLine (l : Option StderrLine) : ServerPayload
  | error (e : Option SidecarError) : ServerPayload
  | toolRequest (r : ToolInvocationRequest) : ServerPayload
  | hookRequest (r : HookInvocationRequest) : ServerPayload
  | permissionRequest (r : PermissionDecisionRequest) : ServerPayload
  deriving DecidableEq, Repr

/-- Modelled from the spec: `pb.ServerEvent`, the inbound envelope. An empty
`RequestId` or `TurnId` is the absent id. -/
structure ServerEvent where
  RequestId : String
  TurnId : String
  Payload : ServerPayload
  deriving DecidableEq, Repr

/-! ## turns.go -/

def messageKindUser : String := "user"
def messageKindAssistant : String := "assistant"
def messageKindSystem : String := "system"
def messageKindResult : String := "result"
def messageKindStreamEvent : String := "stream_event"

/-- The `Turn` struct of turns.go. -/
structure Turn where
  RequestID : String
  TurnID : String
  TurnIndex : Nat
  Started : Bool
  Ended : Bool
  Events : List ServerEvent
  Messages : List MessageEvent
  Partials : List MessageEvent
  StreamEvents : List StreamEvent
  Stderr : List String
  Result : Option ResultMessage
  Errors : List (Option SidecarError)
  latest : GoMap MessageEvent
  deriving DecidableEq, Repr

/-- Constructor `newTurn`: only the turn id is set, `latest` is an empty map. -/
def newTurn (turnID : String) : Turn :=
  { RequestID := "", TurnID := turnID, TurnIndex := 0, Started := false, Ended := false,
    Events := [], Messages := [], Partials := [], StreamEvents := [], Stderr := [],
    Result := none, Errors := [], latest := [] }

/-- Function `messageKind`: the map key of a message, empty for an unset oneof. -/
def messageKind (message : MessageEvent) : String :=
  match message.msg with
  | .user _ => messageKindUser
  | .assistant _ => messageKindAssistant
  | .system _ => messageKindSystem
  | .result _ => messageKindResult
  | .streamEvent _ => messageKindStreamEvent
  | .unset => ""

/-- Method `Turn.LatestMessage` on a non-nil Turn. -/
def Turn.LatestMessage (t : Turn) (kind : String) : Option MessageEvent :=
  t.latest.get kind

/-- Method `Turn.LatestUser`. -/
def Turn.LatestUser (t : Turn) : Option UserMessage :=
  match t.LatestMessage messageKindUser with
  | none => none
  | some event => event.GetUser

/-- Method `Turn.LatestAssistant`. -/
def Turn.LatestAssistant (t : Turn) : Option AssistantMessage :=
  match t.LatestMessage messageKindAssistant with
  | none => none
  | some event => event.GetAssistant

/-- The backwards scan of `MergedAssistant` over `t.Partials`, written over the
reversed list: the first assistant payload met from the end. -/
def scanPartials : List MessageEvent → Option AssistantMessage
  | [] => none
  | p :: rest =>
    match p.GetAssistant with
    | some a => some a
    | none => scanPartials rest

/-- Method `Turn.MergedAssistant` on a non-nil Turn. -/
def Turn.MergedAssistant (t : Turn) : Option AssistantMessage :=
  match t.LatestAssistant with
  | some assistant => some assistant
  | none => scanPartials t.Partials.reverse

/-- Method `Turn.LatestSystem`. -/
def Turn.LatestSystem (t : Turn) : Option SystemMessage :=
  match t.LatestMessage messageKindSystem with
  | none => none
  | some event => event.GetSystem

/-- Method `Turn.LatestResult` on a non-nil Turn. -/
def Turn.LatestResult (t : Turn) : Option ResultMessage :=
  match t.Result with
  | some r => some r
  | none =>
    match t.LatestMessage messageKindResult with
    | none => none
    | some event => event.GetResult

/-- Method `Turn.LatestStreamEvent`. -/
def Turn.LatestStreamEvent (t : Turn) : Option StreamEvent :=
  match t.LatestMessage messageKindStreamEvent with
  | none => none
  | some event => event.GetStreamEvent

/-- Method `Turn.addMessage`; `none` is the nil message, which is ignored. The
five statements of the body are applied in source order. -/
def Turn.addMessage (t : Turn) (message : Option MessageEvent) : Turn :=
  match message with
  | none => t
  | some message =>
    let t1 : Turn :=
      if message.IsPartial then { t with Partials := t.Partials ++ [message] }
      else { t with Messages := t.Messages ++ [message] }
    let kind := messageKind message
    let t2 : Turn :=
      if kind ≠ "" then { t1 with latest := t1.latest.set kind message } else t1
    let t3 : Turn :=
      match message.GetStreamEvent with
      | some streamEvent => { t2 with StreamEvents := t2.StreamEvents ++ [streamEvent] }
      | none => t2
    match message.GetResult with
    | some result => { t3 with Result := some result }
    | none => t3

/-- Folding a sequence of message events into a Turn with `addMessage`. -/
def foldMessages (t : Turn) (ms : List MessageEvent) : Turn :=
  ms.foldl (fun acc m => acc.addMessage (some m)) t

/-! ## run.go

`Stream.run` is a loop around a two-way `select`. Its input is the sequence of
outcomes of that select: an event received from the subscription channel, the
channel found closed, or the context found done. Its outputs are the values it
sends on `s.partials`, `s.done` and `s.err`. The channels `s.done` and `s.err`
have capacity 1 and get one value at most, so a send on them never waits. The
send on `s.partials` (run.go:161) is a plain send on a channel of capacity 64:
it waits while the channel is full. `Stream.runLoopOn` and `Stream.runOn` are
the loop with that send; `Stream.runLoop` and `Stream.run` are the loop of a
Stream whose reader takes every message off `s.partials`, so that no send
waits. -/

/-- The struct `RunResult`. -/
structure RunResult where
  Turn : Option Turn
  deriving DecidableEq, Repr

/-- The two errors `Stream.run` sends: `io.EOF` and `ctx.Err()`. -/
inductive StreamError where
  | EOF
  | ctxErr
  deriving DecidableEq, Repr

/-- One outcome of the `select` in `Stream.run`. -/
inductive StreamInput where
  | event (e : ServerEvent)
  | chanClosed
  | ctxDone
  deriving DecidableEq, Repr

/-- What `Stream.run` has sent on its three output channels, and whether it
has returned (its deferred unsubscribe and channel closes have run). -/
structure StreamOutcome where
  partials : List MessageEvent
  done : Option RunResult
  err : Option StreamError
  returned : Bool
  deriving DecidableEq, Repr

/-- Lines 139 to 142 of run.go: capture the request id once, log the event. -/
def Stream.record (turn : Turn) (event : ServerEvent) : Turn :=
  let t1 : Turn :=
    if turn.RequestID = "" ∧ event.RequestId ≠ "" then { turn with RequestID := event.RequestId }
    else turn
  { t1 with Events := t1.Events ++ [event] }

/-- The loop of `Stream.run`, from the state `turn` (nil before the first
event with a turn id) and the partials already sent, when no send on
`s.partials` waits. An exhausted input list leaves the loop waiting in its
`select`. -/
def Stream.runLoop (turn : Option Turn) (partials : List MessageEvent) :
    List StreamInput → StreamOutcome
  | [] => { partials := partials, done := none, err := none, returned := false }
  | .ctxDone :: _ =>
    { partials := partials, done := none, err := some .ctxErr, returned := true }
  | .chanClosed :: _ =>
    match turn with
    | some t =>
      { partials := partials, done := some { Turn := some t }, err := none, returned := true }
    | none => { partials := partials, done := none, err := some .EOF, returned := true }
  | .event event :: rest =>
    let start : Option Turn :=
      match turn with
      | some t => some t
      | none => if event.TurnId ≠ "" then some (newTurn event.TurnId) else none
    match start with
    | none => Stream.runLoop none partials rest
    | some t0 =>
      let t := Stream.record t0 event
      match event.Payload with
      | .turn (some tb) =>
        if tb.Kind = .TURN_BEGIN then
          Stream.runLoop (some { t with Started := true, TurnIndex := tb.TurnIndex }) partials rest
        else if tb.Kind = .TURN_END then
          let t1 : Turn := { t with Ended := true }
          let t2 : Turn := if t1.TurnIndex = 0 then { t1 with TurnIndex := tb.TurnIndex } else t1
          { partials := partials, done := some { Turn := some t2 }, err := none,
            returned := true }
        else Stream.runLoop (some t) partials rest
      | .message (some m) =>
        let partials1 := if m.IsPartial then partials ++ [m] else partials
        Stream.runLoop (some (t.addMessage (some m))) partials1 rest
      | .stderrLine (some l) =>
        Stream.runLoop (some { t with Stderr := t.Stderr ++ [l.Line] }) partials rest
      | .error (some e) =>
        Stream.runLoop (some { t with Errors := t.Errors ++ [some e] }) partials rest
      | _ => Stream.runLoop (some t) partials rest

/-- Method `Stream.run`: the loop started with no turn and nothing sent. -/
def Stream.run (inputs : List StreamInput) : StreamOutcome :=
  Stream.runLoop none [] inputs

/-- The capacity of the channel `s.partials` (run.go:101). -/
def partialsBuffer : Nat := 64

/-- The loop of `Stream.run` with the send on `s.partials` as the source has it
(run.go:160-163): a send outside any `select` on a channel of bounded
capacity. `room` is the number of sends that can complete, the capacity of the
channel plus the number of messages its reader takes in all. The send that
comes after them waits for good: the message is not folded, nothing of what
follows is looked at, the context included, and the loop never returns. -/
def Stream.runLoopOn (room : Nat) (turn : Option Turn) (partials : List MessageEvent) :
    List StreamInput → StreamOutcome
  | [] => { partials := partials, done := none, err := none, returned := false }
  | .ctxDone :: _ =>
    { partials := partials, done := none, err := some .ctxErr, returned := true }
  | .chanClosed :: _ =>
    match turn with
    | some t =>
      { partials := partials, done := some { Turn := some t }, err := none, returned := true }
    | none => { partials := partials, done := none, err := some .EOF, returned := true }
  | .event event :: rest =>
    let start : Option Turn :=
      match turn with
      | some t => some t
      | none => if event.TurnId ≠ "" then some (newTurn event.TurnId) else none
    match start with
    | none => Stream.runLoopOn room none partials rest
    | some t0 =>
      let t := Stream.record t0 event
      match event.Payload with
      | .turn (some tb) =>
        if tb.Kind = .TURN_BEGIN then
          Stream.runLoopOn room (some { t with Started := true, TurnIndex := tb.TurnIndex })
            partials rest
        else if tb.Kind = .TURN_END then
          let t1 : Turn := { t with Ended := true }
          let t2 : Turn := if t1.TurnIndex = 0 then { t1 with TurnIndex := tb.TurnIndex } else t1
          { partials := partials, done := some { Turn := some t2 }, err := none,
            returned := true }
        else Stream.runLoopOn room (some t) partials rest
      | .message (some m) =>
        if m.IsPartial then
          if partials.length < room then
            Stream.runLoopOn room (some (t.addMessage (some m))) (partials ++ [m]) rest
          else { partials := partials, done := none, err := none, returned := false }
        else Stream.runLoopOn room (some (t.addMessage (some m))) partials rest
      | .stderrLine (some l) =>
        Stream.runLoopOn room (some { t with Stderr := t.Stderr ++ [l.Line] }) partials rest
      | .error (some e) =>
        Stream.runLoopOn room (some { t with Errors := t.Errors ++ [some e] }) partials rest
      | _ => Stream.runLoopOn room (some t) partials rest

/-- Method `Stream.run` of a Stream whose reader takes `reads` messages off
`Partials()` in all; `Session.Run` and `QueryTurn` never read that channel, so
`reads` is 0 for them. -/
def Stream.runOn (reads : Nat) (inputs : List StreamInput) : StreamOutcome :=
  Stream.runLoopOn (partialsBuffer + reads) none [] inputs

/-! ## turns.go: CollectTurns

`CollectTurns` is a goroutine around a two-way `select`. Its input is the
sequence of events it receives before it finds the channel closed or the
context done; both of these flush the open turns and return. Its output is
the sequence of Turns it sends on `out`, whose reader is taken to drain it.
The flush ranges over a Go map, so its order is not fixed; nothing below
depends on the order the association list gives it. -/

/-- The state of the loop of `CollectTurns`: the map `turns`, the Turns sent on
`out` so far, and whether the goroutine has died on a nil dereference. -/
structure CollectState where
  turns : GoMap Turn
  out : List Turn
  crashed : Bool
  deriving DecidableEq, Repr

/-- The state `CollectTurns` starts its loop in. -/
def CollectTurns.init : CollectState := { turns := [], out := [], crashed := false }

/-- One iteration of the loop of `CollectTurns` for a received event (lines 127
to 160 of turns.go). Lines 136 to 139 are the statements of `Stream.record`.
The Turn is a pointer held by the map, so every change to it is a change to
the map entry. `payload.Turn.Kind` and `payload.StderrLine.Line` dereference
their payload unguarded: a nil payload there ends the goroutine in a panic. -/
def CollectTurns.step (st : CollectState) (event : ServerEvent) : CollectState :=
  if st.crashed then st
  else if event.TurnId = "" then st
  else
    let turn0 : Turn :=
      match st.turns.get event.TurnId with
      | some t => t
      | none => newTurn event.TurnId
    let turn := Stream.record turn0 event
    match event.Payload with
    | .turn none => { st with crashed := true }
    | .turn (some tb) =>
      match tb.Kind with
      | .TURN_BEGIN =>
        let t1 : Turn := { turn with Started := true, TurnIndex := tb.TurnIndex }
        { st with turns := st.turns.set event.TurnId t1 }
      | .TURN_END =>
        let t1 : Turn := { turn with Ended := true }
        let t2 : Turn := if t1.TurnIndex = 0 then { t1 with TurnIndex := tb.TurnIndex } else t1
        { st with out := st.out ++ [t2], turns := st.turns.delete event.TurnId }
      | .UNSPECIFIED => { st with turns := st.turns.set event.TurnId turn }
    | .message m => { st with turns := st.turns.set event.TurnId (turn.addMessage m) }
    | .stderrLine none => { st with crashed := true }
    | .stderrLine (some l) =>
      let t1 : Turn := { turn with Stderr := turn.Stderr ++ [l.Line] }
      { st with turns := st.turns.set event.TurnId t1 }
    | .error e =>
      let t1 : Turn := { turn with Errors := turn.Errors ++ [e] }
      { st with turns := st.turns.set event.TurnId t1 }
    | _ => { st with turns := st.turns.set event.TurnId turn }

/-- The loop of `CollectTurns` over the events it receives. -/
def CollectTurns.loop (st : CollectState) (events : List ServerEvent) : CollectState :=
  events.foldl CollectTurns.step st

/-- The flush of `CollectTurns` when the channel is closed or the context is
done: every Turn still in the map is sent. -/
def CollectTurns.flush (st : CollectState) : List Turn :=
  if st.crashed then st.out else st.out ++ st.turns.map (fun kv => kv.2)

/-- Function `CollectTurns`: the Turns sent on `out` when the given events are
received and the loop then ends by closure or cancellation. -/
def CollectTurns (events : List ServerEvent) : List Turn :=
  CollectTurns.flush (CollectTurns.loop CollectTurns.init events)

/-! ## event_mux.go -/

/-- The struct `eventQueue` (the mutex and condition variable are the
atomicity of the operations below). -/
structure eventQueue where
  items : List ServerEvent
  closed : Bool
  deriving DecidableEq, Repr

/-- Constructor `newEventQueue`. -/
def newEventQueue : eventQueue := { items := [], closed := false }

/-- Method `eventQueue.Push`: the queue afterwards and the returned flag. -/
def eventQueue.Push (q : eventQueue) (event : ServerEvent) : eventQueue × Bool :=
  if q.closed then (q, false) else ({ q with items := q.items ++ [event] }, true)

/-- Method `eventQueue.Pop`: `none` while the call waits (queue empty and open),
otherwise the queue afterwards with the popped event, `none` for `ok = false`. -/
def eventQueue.Pop (q : eventQueue) : Option (eventQueue × Option ServerEvent) :=
  match q.items with
  | [] => if q.closed then some (q, none) else none
  | event :: rest => some ({ q with items := rest }, some event)

/-- Method `eventQueue.Close`. -/
def eventQueue.Close (q : eventQueue) : eventQueue := { q with closed := true }

/-- The struct `subscription`: its queue, the values its pump has sent on the
`out` channel so far, whether the pump has closed `out`, and whether the
`sync.Once` of `Close` has fired. The reader of `out` is taken to drain it. -/
structure subscription where
  queue : eventQueue
  out : List ServerEvent
  outClosed : Bool
  once : Bool
  deriving DecidableEq, Repr

/-- Constructor `newSubscription` (the pump it starts is `subscription.run`). -/
def newSubscription : subscription :=
  { queue := newEventQueue, out := [], outClosed := false, once := false }

/-- One iteration of the pump `subscription.run`. -/
def subscription.run (s : subscription) : subscription :=
  if s.outClosed then s
  else
    match s.queue.Pop with
    | none => s
    | some (_, none) => { s with outClosed := true }
    | some (q, some event) => { s with queue := q, out := s.out ++ [event] }

/-- Method `subscription.Enqueue`. -/
def subscription.Enqueue (s : subscription) (event : ServerEvent) : subscription :=
  { s with queue := (s.queue.Push event).1 }

/-- Method `subscription.Close`. -/
def subscription.Close (s : subscription) : subscription :=
  if s.once then s else { s with queue := s.queue.Close, once := true }

/-- Every event `Enqueue` has put on the subscription so far, in order: what
the pump already moved to `out`, then what still waits in the queue. -/
def subscription.enqueued (s : subscription) : List ServerEvent :=
  s.out ++ s.queue.items

/-- The struct `eventMux`. Subscriptions are heap objects: `subs` is the heap,
and `byRequest` and `global` hold indices into it (the pointers). -/
structure eventMux where
  queue : eventQueue
  byRequest : GoMap (List Nat)
  global : List Nat
  closed : Bool
  subs : List subscription
  deriving DecidableEq, Repr

/-- Constructor `newEventMux`. -/
def newEventMux : eventMux :=
  { queue := newEventQueue, byRequest := [], global := [], closed := false, subs := [] }

/-- Replace the heap object at index `i` by its image under `f`. -/
def updateAt (f : subscription → subscription) : List subscription → Nat → List subscription
  | [], _ => []
  | s :: rest, 0 => f s :: rest
  | s :: rest, i + 1 => s :: updateAt f rest i

/-- Call `Close` on each of the subscriptions `ids` in turn. -/
def closeEach (subs : List subscription) (ids : List Nat) : List subscription :=
  ids.foldl (fun acc i => updateAt subscription.Close acc i) subs

/-- Call `Enqueue(event)` on each of the subscriptions `ids` in turn. -/
def enqueueEach (subs : List subscription) (ids : List Nat) (event : ServerEvent) :
    List subscription :=
  ids.foldl (fun acc i => updateAt (fun s => s.Enqueue event) acc i) subs

/-- Method `eventMux.Enqueue`. -/
def eventMux.Enqueue (m : eventMux) (event : ServerEvent) : eventMux :=
  { m with queue := (m.queue.Push event).1 }

/-- Method `eventMux.Close`. -/
def eventMux.Close (m : eventMux) : eventMux :=
  { m with queue := m.queue.Close }

/-- Method `eventMux.SubscribeAll`: the multiplexer afterwards and the pointer
to the new subscription. -/
def eventMux.SubscribeAll (m : eventMux) : eventMux × Nat :=
  let sub := m.subs.length
  if m.closed then ({ m with subs := m.subs ++ [newSubscription.Close] }, sub)
  else ({ m with subs := m.subs ++ [newSubscription], global := m.global ++ [sub] }, sub)

/-- Read `m.byRequest[requestID]`, the nil slice for a missing key. -/
def eventMux.requestSubs (m : eventMux) (requestID : String) : List Nat :=
  (m.byRequest.get requestID).getD []

/-- Method `eventMux.SubscribeRequest`. -/
def eventMux.SubscribeRequest (m : eventMux) (requestID : String) : eventMux × Nat :=
  let sub := m.subs.length
  if m.closed then ({ m with subs := m.subs ++ [newSubscription.Close] }, sub)
  else
    ({ m with
        subs := m.subs ++ [newSubscription],
        byRequest := m.byRequest.set requestID (m.requestSubs requestID ++ [sub]) }, sub)

/-- Method `eventMux.UnsubscribeRequest`; `none` is the nil subscription. -/
def eventMux.UnsubscribeRequest (m : eventMux) (requestID : String) (sub : Option Nat) :
    eventMux :=
  match sub with
  | none => m
  | some sub =>
    if requestID = "" then m
    else
      let subs := (m.requestSubs requestID).erase sub
      let byRequest :=
        if subs.length = 0 then m.byRequest.delete requestID
        else m.byRequest.set requestID subs
      { m with byRequest := byRequest, subs := updateAt subscription.Close m.subs sub }

/-- Method `eventMux.subscriptionsFor`. -/
def eventMux.subscriptionsFor (m : eventMux) (event : ServerEvent) : List Nat :=
  if event.RequestId = "" then m.global
  else m.global ++ m.requestSubs event.RequestId

/-- Function `isTurnEnd`. -/
def isTurnEnd (event : ServerEvent) : Bool :=
  match event.Payload with
  | .turn (some tb) => decide (tb.Kind = .TURN_END)
  | _ => false

/-- Method `eventMux.closeRequest`. -/
def eventMux.closeRequest (m : eventMux) (requestID : String) : eventMux :=
  if requestID = "" then m
  else
    { m with
      byRequest := m.byRequest.delete requestID,
      subs := closeEach m.subs (m.requestSubs requestID) }

/-- Method `eventMux.closeAll`. -/
def eventMux.closeAll (m : eventMux) : eventMux :=
  if m.closed then m
  else
    { m with
      closed := true,
      global := [],
      byRequest := [],
      subs := closeEach m.subs (m.global ++ (m.byRequest.map (fun kv => kv.2)).flatten) }

/-- The body of the loop of `eventMux.run` for a popped event when no other
goroutine acts on the multiplexer meanwhile: enqueue the event to the
snapshot `subscriptionsFor` returns, then evict the request on a TURN_END.
`eventMux.processAround` is the body with the actions of other goroutines
between its steps. -/
def eventMux.process (m : eventMux) (event : ServerEvent) : eventMux :=
  let m1 : eventMux := { m with subs := enqueueEach m.subs (m.subscriptionsFor event) event }
  if isTurnEnd event then m1.closeRequest event.RequestId else m1

/-- One iteration of `eventMux.run`: wait on an empty open queue, close
everything once the queue is closed and drained, else process the popped
event. After `closeAll` the loop has returned and nothing more happens. -/
def eventMux.run (m : eventMux) : eventMux :=
  if m.closed then m
  else
    match m.queue.Pop with
    | none => m
    | some (_, none) => m.closeAll
    | some (q, some event) => eventMux.process { m with queue := q } event

/-! ### The multiplexer as a transition system

The goroutines that share one multiplexer act on it through the operations
below. A call of the API is atomic under the mutex of the multiplexer or of a
queue. The action `run` is one iteration of the loop with no action of
another goroutine between its steps; `eventMux.runAround` is the iteration
with such actions. -/

/-- One action on a multiplexer: a call of its API, one iteration of its `run`
loop, or one iteration of the pump of a subscription. -/
inductive MuxOp where
  | subscribeAll
  | subscribeRequest (requestID : String)
  | unsubscribeRequest (requestID : String) (sub : Option Nat)
  | enqueue (event : ServerEvent)
  | close
  | run
  | pump (sub : Nat)
  deriving DecidableEq, Repr

/-- The multiplexer after one action. -/
def eventMux.step (m : eventMux) : MuxOp → eventMux
  | .subscribeAll => m.SubscribeAll.1
  | .subscribeRequest requestID => (m.SubscribeRequest requestID).1
  | .unsubscribeRequest requestID sub => m.UnsubscribeRequest requestID sub
  | .enqueue event => m.Enqueue event
  | .close => m.Close
  | .run => m.run
  | .pump sub => { m with subs := updateAt subscription.run m.subs sub }

/-- The multiplexer after a sequence of actions. -/
def eventMux.steps (m : eventMux) (ops : List MuxOp) : eventMux :=
  ops.foldl eventMux.step m

/-- The subscription behind a pointer. -/
def eventMux.sub (m : eventMux) (sub : Nat) : Option subscription :=
  m.subs[sub]?

/-- The events enqueued so far to the subscription behind a pointer. -/
def eventMux.enqueuedTo (m : eventMux) (sub : Nat) : List ServerEvent :=
  match m.sub sub with
  | some s => s.enqueued
  | none => []

/-- The subscription behind the pointer exists and has not been closed. -/
def eventMux.isOpen (m : eventMux) (sub : Nat) : Prop :=
  ∃ s, m.sub sub = some s ∧ s.queue.closed = false ∧ s.once = false

/-- The subscription behind the pointer exists and has been closed. -/
def eventMux.isClosed (m : eventMux) (sub : Nat) : Prop :=
  ∃ s, m.sub sub = some s ∧ s.queue.closed = true

/-- The way the client calls `UnsubscribeRequest` (run.go:111): with the request
id the subscription was obtained under from `SubscribeRequest`, so the
subscription is registered under that id or not registered at all. Every other
action is unconstrained. -/
def MuxOp.ok (m : eventMux) : MuxOp → Bool
  | .unsubscribeRequest requestID (some sub) =>
    decide (requestID = "") ||
      (!(m.global.contains sub) &&
        m.byRequest.all (fun kv => !(kv.2.contains sub) || decide (kv.1 = requestID)))
  | _ => true

/-- Every action of the sequence is called the way the client calls it. -/
def okFrom (m : eventMux) : List MuxOp → Bool
  | [] => true
  | op :: rest => op.ok m && okFrom (m.step op) rest

/-! ## Go values and structpb (helpers.go) -/

/-- A Go string as `structpb` sees it: a text, which is valid UTF-8 and is
written as a Lean string, or a sequence of bytes that is not valid UTF-8. -/
inductive GoString where
  | text (s : String) : GoString
  | invalid (bytes : List Nat) : GoString
  deriving DecidableEq, Repr

/-- A Go value held in an `any`, as far as `structpb` tells values apart: the
nil interface, a bool, an integer of any integer type, a float64, a string
that is valid UTF-8, a string that is not, a `[]byte`, a `[]any`, a
`map[string]any` (nil or not), or a value of any other type. Like the numbers
of `Value`, floats are finite and are carried as integers, and an integer is
one that float64 holds exactly, so that its conversion to float64 keeps its
value. -/
inductive GoValue where
  | nil : GoValue
  | bool (b : Bool) : GoValue
  | int (n : Int) : GoValue
  | float64 (x : Int) : GoValue
  | string (s : String) : GoValue
  | invalidString (bytes : List Nat) : GoValue
  | bytes (b : List Nat) : GoValue
  | slice (items : List GoValue) : GoValue
  | map (fields : List (String × GoValue)) : GoValue
  | other : GoValue

/-- A Go string held in an `any`. -/
def GoString.toAny : GoString → GoValue
  | .text s => .string s
  | .invalid raw => .invalidString raw

/-- The 64 characters of the standard base64 alphabet. -/
def base64Alphabet : List Char :=
  "ABCDEFGHIJKLMNOPQRSTUVWXYZabcdefghijklmnopqrstuvwxyz0123456789+/".toList

/-- The character of the standard base64 alphabet for a value below 64. -/
def base64Char (n : Nat) : Char :=
  base64Alphabet.getD n 'A'

/-- The standard base64 encoding of a sequence of bytes, with padding. -/
def base64Chars : List Nat → List Char
  | [] => []
  | [a] => [base64Char (a / 4), base64Char (a % 4 * 16), '=', '=']
  | [a, b] =>
    [base64Char (a / 4), base64Char (a % 4 * 16 + b / 16), base64Char (b % 16 * 4), '=']
  | a :: b :: c :: rest =>
    base64Char (a / 4) :: base64Char (a % 4 * 16 + b / 16) ::
      base64Char (b % 16 * 4 + c / 64) :: base64Char (c % 64) :: base64Chars rest

/-- Modelled from the spec: `base64.StdEncoding.EncodeToString`. -/
def base64.EncodeToString (b : List Nat) : String :=
  String.mk (base64Chars (b.map (fun x => x % 256)))

mutual
/-- Modelled from the spec: `(*structpb.Value).AsInterface`. The null value
becomes the nil interface, a number a float64, a list a `[]any` and a struct a
`map[string]any`. -/
def Value.AsInterface : Value → GoValue
  | .null => .nil
  | .bool b => .bool b
  | .number n => .float64 n
  | .string s => .string s
  | .list items => .slice (ListValue.AsSlice items)
  | .struct fields => .map (Struct.AsMap fields)
/-- Modelled from the spec: `(*structpb.ListValue).AsSlice`. -/
def ListValue.AsSlice : List Value → List GoValue
  | [] => []
  | v :: rest => v.AsInterface :: ListValue.AsSlice rest
/-- Modelled from the spec: `(*structpb.Struct).AsMap`. -/
def Struct.AsMap : List (String × Value) → List (String × GoValue)
  | [] => []
  | (k, v) :: rest => (k, v.AsInterface) :: Struct.AsMap rest
end

mutual
/-- Modelled from the spec: `structpb.NewValue`; `none` is a returned error. Nil
becomes the null value, every integer and float a number, a string that is
valid UTF-8 a string, a `[]byte` the string of its base64 encoding; a string
that is not valid UTF-8 and a value of any other type are refused. -/
def structpb.NewValue : GoValue → Option Value
  | .nil => some .null
  | .bool b => some (.bool b)
  | .int n => some (.number n)
  | .float64 x => some (.number x)
  | .string s => some (.string s)
  | .invalidString _ => none
  | .bytes b => some (.string (base64.EncodeToString b))
  | .slice items => (structpb.NewList items).map Value.list
  | .map fields => (structpb.NewStruct fields).map Value.struct
  | .other => none
/-- Modelled from the spec: `structpb.NewList`. -/
def structpb.NewList : List GoValue → Option (List Value)
  | [] => some []
  | g :: rest =>
    match structpb.NewValue g with
    | none => none
    | some v => (structpb.NewList rest).map (fun vs => v :: vs)
/-- Modelled from the spec: `structpb.NewStruct`. -/
def structpb.NewStruct : List (String × GoValue) → Option (List (String × Value))
  | [] => some []
  | (k, g) :: rest =>
    match structpb.NewValue g with
    | none => none
    | some v => (structpb.NewStruct rest).map (fun vs => (k, v) :: vs)
end

mutual
/-- What a Go value that `structpb` accepts looks like after a passage through
it: every integer is the float64 of the same value and every `[]byte` the
string of its base64 encoding. -/
def GoValue.normal : GoValue → GoValue
  | .nil => .nil
  | .bool b => .bool b
  | .int n => .float64 n
  | .float64 x => .float64 x
  | .string s => .string s
  | .invalidString raw => .invalidString raw
  | .bytes b => .string (base64.EncodeToString b)
  | .slice items => .slice (GoValue.normalItems items)
  | .map fields => .map (GoValue.normalFields fields)
  | .other => .other
/-- The items of a `[]any`, each after a passage through `structpb`. -/
def GoValue.normalItems : List GoValue → List GoValue
  | [] => []
  | g :: rest => g.normal :: GoValue.normalItems rest
/-- The fields of a `map[string]any`, each after a passage through `structpb`. -/
def GoValue.normalFields : List (String × GoValue) → List (String × GoValue)
  | [] => []
  | (k, g) :: rest => (k, g.normal) :: GoValue.normalFields rest
end

mutual
/-- The Go value is made of the types `encoding/json` decodes into: nil, bool,
float64, string, `[]any` and `map[string]any`; the strings `encoding/json`
returns are valid UTF-8. -/
def GoValue.isJSON : GoValue → Bool
  | .nil => true
  | .bool _ => true
  | .int _ => false
  | .float64 _ => true
  | .string _ => true
  | .invalidString _ => false
  | .bytes _ => false
  | .slice items => GoValue.itemsJSON items
  | .map fields => GoValue.fieldsJSON fields
  | .other => false
/-- Every item of the `[]any` is made of the types of decoded JSON. -/
def GoValue.itemsJSON : List GoValue → Bool
  | [] => true
  | g :: rest => g.isJSON && GoValue.itemsJSON rest
/-- Every field of the `map[string]any` is made of the types of decoded JSON. -/
def GoValue.fieldsJSON : List (String × GoValue) → Bool
  | [] => true
  | (_, g) :: rest => g.isJSON && GoValue.fieldsJSON rest
end

/-- Function `StructToMap`; `none` is the nil struct, which gives an empty map. -/
def StructToMap (value : Option Struct) : GoMap GoValue :=
  match value with
  | none => []
  | some st => Struct.AsMap st

/-- Function `MapToStruct`; `none` is a returned error. -/
def MapToStruct (value : GoMap GoValue) : Option Struct :=
  structpb.NewStruct value

/-! ## content_blocks.go, tool_results.go, helpers.go, hooks.go -/

/-- The type `ContentBlock`, a `map[string]any`. -/
abbrev ContentBlock := GoMap GoValue

/-- Function `ContentBlockText`. -/
def ContentBlockText (text : GoString) : ContentBlock :=
  GoMap.set (GoMap.set [] "type" (.string "text")) "text" text.toAny

/-- Function `ToolResultBlocks`; `none` is the nil struct, which the function
returns when `structpb.NewStruct` fails, its error being discarded
(tool_results.go:21-22). -/
def ToolResultBlocks (blocks : List ContentBlock) (isError : Bool) (extra : GoMap GoValue) :
    Option Struct :=
  let content : List GoValue := blocks.map (fun block => GoValue.map block)
  let payload : GoMap GoValue :=
    GoMap.set (GoMap.set [] "content" (.slice content)) "is_error" (.bool isError)
  structpb.NewStruct (extra.foldl (fun acc kv => GoMap.set acc kv.1 kv.2) payload)

/-- Function `ToolResultText`. -/
def ToolResultText (text : GoString) : Option Struct :=
  ToolResultBlocks [ContentBlockText text] false []

/-- Function `ToolResultError`. -/
def ToolResultError (text : GoString) : Option Struct :=
  ToolResultBlocks [ContentBlockText text] true []

/-- Modelled from the spec: `pb.HookOutput`; `Continue_` is the optional bool. -/
structure HookOutput where
  Continue_ : Option Bool
  StopReason : String
  Decision : String
  Reason : String
  SystemMessage : String
  SuppressOutput : Bool
  deriving DecidableEq, Repr

/-- Modelled from the spec: `pb.PermissionDecision`. -/
structure PermissionDecision where
  Behavior : String
  Reason : String
  deriving DecidableEq, Repr

/-- Function `boolPtr`. -/
def boolPtr (value : Bool) : Option Bool := some value

/-! ## session.go -/

/-- Modelled from the spec: the `Payload` oneof of `pb.ClientEvent`, the
outbound envelope variants. -/
inductive ClientPayload where
  | unset : ClientPayload
  | hello (protocolVersion clientName clientVersion : String) : ClientPayload
  | queryText (promptText : String) : ClientPayload
  | queryStream (inputStreamId : String) : ClientPayload
  | inputChunk (inputStreamId : String) (event : Option Struct) : ClientPayload
  | endInput (inputStreamId : String) : ClientPayload
  | interrupt : ClientPayload
  | cancel (reason : String) : ClientPayload
  | setPermissionMode (mode : String) : ClientPayload
  | setModel (model : String) : ClientPayload
  | toolResponse (InvocationId : String) (ToolResult : Option Struct) : ClientPayload
  | hookResponse (InvocationId : String) (Output : Option HookOutput) : ClientPayload
  | permissionResponse (InvocationId : String) (Decision : Option PermissionDecision) :
      ClientPayload

/-- Modelled from the spec: `pb.ClientEvent`, the outbound envelope. -/
structure ClientEvent where
  RequestId : String
  SidecarSessionId : String
  Payload : ClientPayload

/-- What a call of a user-supplied hook or permission handler does: return a
value and an error (either may be nil), panic, or never return. The error is
given by its message, which the client copies as it is. -/
inductive HandlerOutcome (α : Type) where
  | returned (value : Option α) (err : Option String) : HandlerOutcome α
  | panicked : HandlerOutcome α
  | blocked : HandlerOutcome α

/-- What a call of a user-supplied tool handler does. The error it returns is
given by its message (`err.Error()`), a Go string that need not be valid
UTF-8: the message goes through `structpb`, which tells the two apart. -/
inductive ToolOutcome where
  | returned (value : Option Struct) (err : Option GoString) : ToolOutcome
  | panicked : ToolOutcome
  | blocked : ToolOutcome

/-- The struct `Handlers` of types.go; `none` is the nil function. -/
structure Handlers where
  Tool : Option (ToolInvocationRequest → ToolOutcome)
  Hook : Option (HookInvocationRequest → HandlerOutcome HookOutput)
  Permission : Option (PermissionDecisionRequest → HandlerOutcome PermissionDecision)

/-- The fields of `Session` that `send` and `handleCallback` read. -/
structure Session where
  sessionID : String
  handlers : Handlers

/-- Method `Session.send`: the envelope handed to `stream.Send`. -/
def Session.send (s : Session) (event : ClientEvent) : ClientEvent :=
  if event.SidecarSessionId = "" then { event with SidecarSessionId := s.sessionID }
  else event

/-- Method `Session.sendToolResponse`: the envelope it hands to the transport. -/
def Session.sendToolResponse (s : Session) (req : ToolInvocationRequest)
    (result : Option Struct) : ClientEvent :=
  s.send { RequestId := "", SidecarSessionId := "",
           Payload := .toolResponse req.InvocationId result }

/-- Method `Session.sendHookResponse`. -/
def Session.sendHookResponse (s : Session) (req : HookInvocationRequest)
    (output : Option HookOutput) : ClientEvent :=
  s.send { RequestId := "", SidecarSessionId := "",
           Payload := .hookResponse req.InvocationId output }

/-- Method `Session.sendPermissionResponse`. -/
def Session.sendPermissionResponse (s : Session) (req : PermissionDecisionRequest)
    (decision : Option PermissionDecision) : ClientEvent :=
  s.send { RequestId := "", SidecarSessionId := "",
           Payload := .permissionResponse req.InvocationId decision }

/-- The effect of the goroutine `handleCallback` starts for one event: the
envelopes it hands to the transport, in order, and whether it ended in a panic
that nothing recovers (in Go such a panic terminates the process). -/
structure Dispatch where
  sent : List ClientEvent
  crashed : Bool

/-- The hook output built when the hook handler is missing or returns an error. -/
def hookStopOutput (reason : String) : HookOutput :=
  { Continue_ := boolPtr false, StopReason := reason, Decision := "", Reason := "",
    SystemMessage := "", SuppressOutput := false }

/-- Method `Session.handleCallback`, with the goroutine it starts run to its end. -/
def Session.handleCallback (s : Session) (event : ServerEvent) : Dispatch :=
  match event.Payload with
  | .toolRequest req =>
    match s.handlers.Tool with
    | none =>
      { sent := [s.sendToolResponse req (ToolResultError (.text "missing tool handler"))],
        crashed := false }
    | some handler =>
      match handler req with
      | .returned result err =>
        let result1 :=
          match err with
          | some msg => ToolResultError msg
          | none => result
        { sent := [s.sendToolResponse req result1], crashed := false }
      | .panicked => { sent := [], crashed := true }
      | .blocked => { sent := [], crashed := false }
  | .hookRequest req =>
    match s.handlers.Hook with
    | none =>
      { sent := [s.sendHookResponse req (some (hookStopOutput "no hook handler"))],
        crashed := false }
    | some handler =>
      match handler req with
      | .returned output err =>
        let output1 :=
          match err with
          | some msg => some (hookStopOutput msg)
          | none => output
        { sent := [s.sendHookResponse req output1], crashed := false }
      | .panicked => { sent := [], crashed := true }
      | .blocked => { sent := [], crashed := false }
  | .permissionRequest req =>
    match s.handlers.Permission with
    | none =>
      { sent := [s.sendPermissionResponse req
          (some { Behavior := "deny", Reason := "no permission handler" })],
        crashed := false }
    | some handler =>
      match handler req with
      | .returned decision err =>
        let decision1 :=
          match err with
          | some msg => some { Behavior := "deny", Reason := msg }
          | none => decision
        { sent := [s.sendPermissionResponse req decision1], crashed := false }
      | .panicked => { sent := [], crashed := true }
      | .blocked => { sent := [], crashed := false }
  | _ => { sent := [], crashed := false }

/-- The state the receive loop works on: the multiplexer, the envelopes handed
to the transport so far, whether the process has been terminated by a panic,
and whether the loop has returned. -/
structure SessionState where
  mux : eventMux
  sent : List ClientEvent
  crashed : Bool
  stopped : Bool

/-- One iteration of the loop of `Session.startRecvLoop`; `none` is `Recv`
returning an error. This is the iteration in the schedule in which the
dispatch goroutine of the event runs to its end before the loop enqueues the
event (`Session.runStep` has every schedule); a terminated process does
nothing more. -/
def Session.recvStep (s : Session) (st : SessionState) (r : Option ServerEvent) :
    SessionState :=
  if st.crashed ∨ st.stopped then st
  else
    match r with
    | none => { st with mux := st.mux.Close, stopped := true }
    | some event =>
      let d := s.handleCallback event
      if d.crashed then { st with sent := st.sent ++ d.sent, crashed := true }
      else { st with sent := st.sent ++ d.sent, mux := st.mux.Enqueue event }

/-- The receive loop of `Session.startRecvLoop` over the successive results of
`stream.Recv`. -/
def Session.startRecvLoop (s : Session) (st : SessionState) (recvs : List (Option ServerEvent)) :
    SessionState :=
  recvs.foldl (fun acc r => s.recvStep acc r) st

/-- One step of the goroutines of a session. The receive loop takes the next
result of `Recv` and calls `handleCallback`, which starts the dispatch
goroutine of an invocation and returns at once (session.go:175-180); the
receive loop enqueues the event it holds (session.go:181); or the dispatch
goroutine at position `i` among those running runs to its end. -/
inductive SessionOp where
  | recv (r : Option ServerEvent)
  | enqueue
  | finish (i : Nat)

/-- The session while its goroutines run: the state the receive loop works on,
the event the loop has passed to `handleCallback` and not yet enqueued, and
the dispatch goroutines started and not yet ended, each with the effect it
has when it ends. -/
structure SessionRun where
  state : SessionState
  held : Option ServerEvent
  running : List Dispatch

/-- The event is a callback invocation: `handleCallback` starts a goroutine
for it. -/
def ServerEvent.isInvocation (event : ServerEvent) : Bool :=
  match event.Payload with
  | .toolRequest _ => true
  | .hookRequest _ => true
  | .permissionRequest _ => true
  | _ => false

/-- The session after one step of its goroutines. A step that cannot be taken
(the process has been terminated by a panic, the loop has returned or still
holds an event, there is no such goroutine) changes nothing. -/
def Session.runStep (s : Session) (r : SessionRun) : SessionOp → SessionRun
  | .recv res =>
    if r.state.crashed ∨ r.state.stopped ∨ r.held.isSome then r
    else
      match res with
      | none => { r with state := { r.state with mux := r.state.mux.Close, stopped := true } }
      | some event =>
        { r with
          held := some event,
          running :=
            if event.isInvocation then r.running ++ [s.handleCallback event] else r.running }
  | .enqueue =>
    if r.state.crashed then r
    else
      match r.held with
      | none => r
      | some event =>
        { r with state := { r.state with mux := r.state.mux.Enqueue event }, held := none }
  | .finish i =>
    if r.state.crashed then r
    else
      match r.running[i]? with
      | none => r
      | some d =>
        { r with
          state := { r.state with sent := r.state.sent ++ d.sent, crashed := d.crashed },
          running := r.running.eraseIdx i }

/-- The session after a sequence of steps of its goroutines. -/
def Session.runSteps (s : Session) (r : SessionRun) (ops : List SessionOp) : SessionRun :=
  ops.foldl s.runStep r

/-! ## Reference notions the properties are stated against -/

/-- The payload of the last result message of a sequence, partial or final. -/
def lastResult (ms : List MessageEvent) : Option ResultMessage :=
  (ms.filterMap MessageEvent.GetResult).getLast?

/-- The payload of the last assistant message of a sequence, partial or final. -/
def lastAssistant (ms : List MessageEvent) : Option AssistantMessage :=
  (ms.filterMap MessageEvent.GetAssistant).getLast?

/-- The payload of the last assistant message with the given `is_partial` flag. -/
def lastAssistantWhere (flag : Bool) (ms : List MessageEvent) : Option AssistantMessage :=
  lastAssistant (ms.filter (fun m => m.IsPartial == flag))

/-- What the specification gives for `MergedAssistant`: the last non-partial
assistant message, else the last partial one, else nothing. -/
def specMergedAssistant (ms : List MessageEvent) : Option AssistantMessage :=
  match lastAssistantWhere false ms with
  | some a => some a
  | none => lastAssistantWhere true ms

/-- A final assistant message, as in the tests of the client. -/
def finalAssistant : MessageEvent :=
  { IsPartial := false, msg := .assistant { Model := "final" } }

/-- A partial assistant message, as in the tests of the client. -/
def partialAssistant : MessageEvent :=
  { IsPartial := true, msg := .assistant { Model := "partial" } }

/-- A TURN_BEGIN event of turn `turn-1` of request `req-1`, as in the tests. -/
def turnBeginEvent : ServerEvent :=
  { RequestId := "req-1", TurnId := "turn-1",
    Payload := .turn (some { Kind := .TURN_BEGIN, TurnIndex := 1 }) }

/-- A partial assistant message event of turn `turn-1` of request `req-1`. -/
def partialEvent : ServerEvent :=
  { RequestId := "req-1", TurnId := "turn-1", Payload := .message (some partialAssistant) }

/-- The inputs of a Stream that receives the given events and then finds its
subscription channel closed. -/
def thenClosed (events : List ServerEvent) : List StreamInput :=
  events.map StreamInput.event ++ [StreamInput.chanClosed]

/-! ## Invariants of the multiplexer and sample events -/

/-- A closed subscription with the enqueued events `L`. -/
def Frozen (L : List ServerEvent) (s : subscription) : Prop :=
  s.queue.closed = true ∧ s.enqueued = L

/-- Every pointer in the registry points into the heap. -/
def eventMux.Valid (m : eventMux) : Prop :=
  (∀ x ∈ m.global, x < m.subs.length) ∧ (∀ k, ∀ x ∈ m.requestSubs k, x < m.subs.length)

/-- The subscription `sub` is a heap object that is registered, if at all, under
the request id `A` only, and every event enqueued to it so far is tagged `A`. -/
def eventMux.Scoped (m : eventMux) (sub : Nat) (A : String) : Prop :=
  sub < m.subs.length ∧ sub ∉ m.global ∧ (∀ k, sub ∈ m.requestSubs k → k = A) ∧
    ∀ e ∈ m.enqueuedTo sub, e.RequestId = A ∧ e.RequestId ≠ ""

/-- The registry and heap of a multiplexer used the way the client uses it: no
pointer is registered twice, and every registered subscription is open. -/
structure eventMux.WF (m : eventMux) : Prop where
  global_nodup : m.global.Nodup
  request_nodup : ∀ k, (m.requestSubs k).Nodup
  request_global : ∀ k, ∀ x ∈ m.requestSubs k, x ∉ m.global
  request_key : ∀ k1 k2 x, x ∈ m.requestSubs k1 → x ∈ m.requestSubs k2 → k1 = k2
  global_open : ∀ x ∈ m.global, m.isOpen x
  request_open : ∀ k, ∀ x ∈ m.requestSubs k, m.isOpen x
  closed_empty : m.closed = true → m.global = [] ∧ ∀ k, m.requestSubs k = []

/-- A TURN_END event of request `req-a`, as in the routing test of the client. -/
def turnEndA : ServerEvent :=
  { RequestId := "req-a", TurnId := "turn-a",
    Payload := .turn (some { Kind := .TURN_END, TurnIndex := 0 }) }

/-- A TURN_BEGIN event of request `req-a`. -/
def turnBeginA : ServerEvent :=
  { RequestId := "req-a", TurnId := "turn-a",
    Payload := .turn (some { Kind := .TURN_BEGIN, TurnIndex := 0 }) }

/-- A TURN_BEGIN event of request `req-b`. -/
def turnBeginB : ServerEvent :=
  { RequestId := "req-b", TurnId := "turn-b",
    Payload := .turn (some { Kind := .TURN_BEGIN, TurnIndex := 0 }) }

/-- A session-level event, which carries no request id. -/
def sessionInitEvent : ServerEvent :=
  { RequestId := "", TurnId := "", Payload := .sessionInit }

/-- A multiplexer with a global subscription (pointer 0) and a subscription
under `req-a` (pointer 1), that has TURN_END of `req-a` at the head of its queue. -/
def muxBeforeTurnEndA : eventMux :=
  newEventMux.steps [.subscribeAll, .subscribeRequest "req-a", .enqueue turnEndA]

/-! ## Canonical negative responses and sample sessions -/

/-- The canonical negative tool result: a struct with `is_error` true whose
`content` is one block of type `text` carrying the given text. -/
def IsToolErrorResult (result : Option Struct) (text : String) : Prop :=
  ∃ st block, result = some st ∧ st.get "is_error" = some (.bool true) ∧
    st.get "content" = some (.list [.struct block]) ∧
    GoMap.get block "type" = some (.string "text") ∧
    GoMap.get block "text" = some (.string text)

/-- The canonical negative hook output: `continue` set to false, with the given
stop reason. -/
def IsHookStop (output : Option HookOutput) (reason : String) : Prop :=
  ∃ o, output = some o ∧ o.Continue_ = some false ∧ o.StopReason = reason

/-- The canonical negative permission decision: behavior `deny` with the given
reason. -/
def IsPermissionDeny (decision : Option PermissionDecision) (reason : String) : Prop :=
  ∃ d, decision = some d ∧ d.Behavior = "deny" ∧ d.Reason = reason

/-- An inbound event carrying a tool invocation. -/
def toolEvent (req : ToolInvocationRequest) : ServerEvent :=
  { RequestId := "", TurnId := "", Payload := .toolRequest req }

/-- An inbound event carrying a hook invocation. -/
def hookEvent (req : HookInvocationRequest) : ServerEvent :=
  { RequestId := "", TurnId := "", Payload := .hookRequest req }

/-- An inbound event carrying a permission invocation. -/
def permissionEvent (req : PermissionDecisionRequest) : ServerEvent :=
  { RequestId := "", TurnId := "", Payload := .permissionRequest req }

/-- A session with no handler registered, as `Handlers{}` in the tests. -/
def bareSession : Session :=
  { sessionID := "sess-1", handlers := { Tool := none, Hook := none, Permission := none } }

/-- A session whose three handlers fail with the error `boom`, each returning a
value next to the error. -/
def failingSession : Session :=
  { sessionID := "sess-1",
    handlers :=
      { Tool := some (fun _ => .returned (ToolResultText (.text "ignored")) (some (.text "boom"))),
        Hook := some (fun _ => .returned (some (hookStopOutput "ignored")) (some "boom")),
        Permission :=
          some (fun _ => .returned (some { Behavior := "allow", Reason := "ignored" })
            (some "boom")) } }

/-- A session whose tool handler fails with an error whose message is the
single byte 0xff, which is not valid UTF-8 (`errors.New("\xff")`). -/
def garbledSession : Session :=
  { sessionID := "sess-1",
    handlers :=
      { Tool := some (fun _ => .returned none (some (.invalid [255]))), Hook := none,
        Permission := none } }

/-- A session whose tool handler panics. -/
def panickingSession : Session :=
  { sessionID := "sess-1",
    handlers := { Tool := some (fun _ => .panicked), Hook := none, Permission := none } }

/-- The tool invocation of the tests. -/
def pingRequest : ToolInvocationRequest :=
  { InvocationId := "inv-1", ToolFqn := "mcp__echo__ping" }

/-- A hook invocation. -/
def hookRequest1 : HookInvocationRequest :=
  { InvocationId := "hook-1", HookEvent := "PreToolUse", Matcher := "" }

/-- The permission invocation of the tests. -/
def permRequest : PermissionDecisionRequest :=
  { InvocationId := "perm-1", ToolName := "mcp__echo__ping", Prompt := "", Attempt := 1 }

/-- The state of a session whose receive loop is about to start. -/
def freshState : SessionState :=
  { mux := newEventMux, sent := [], crashed := false, stopped := false }

/-- A session whose receive loop is about to start, with no goroutine running. -/
def freshRun : SessionRun :=
  { state := freshState, held := none, running := [] }

/-- A schedule in which the tool handler is still running while the loop
enqueues the invocation and receives and enqueues the next event; then the
handler panics, and the event received after that is not enqueued. -/
def panicLate : List SessionOp :=
  [.recv (some (toolEvent pingRequest)), .enqueue, .recv (some turnBeginA), .enqueue,
    .finish 0, .recv (some turnBeginB), .enqueue]

/-- A schedule in which the tool handler panics before the loop has enqueued
the invocation. -/
def panicAtOnce : List SessionOp :=
  [.recv (some (toolEvent pingRequest)), .finish 0, .enqueue, .recv (some turnBeginA),
    .enqueue]

/-! ## Folding events in a Stream -/

/-- What one iteration of `Stream.run` does to the Turn being built when it
folds an event (lines 139 to 173 of run.go). -/
def Stream.foldEvent (turn : Turn) (event : ServerEvent) : Turn :=
  let t := Stream.record turn event
  match event.Payload with
  | .turn (some tb) =>
    if tb.Kind = .TURN_BEGIN then { t with Started := true, TurnIndex := tb.TurnIndex }
    else if tb.Kind = .TURN_END then
      let t1 : Turn := { t with Ended := true }
      if t1.TurnIndex = 0 then { t1 with TurnIndex := tb.TurnIndex } else t1
    else t
  | .message (some m) => t.addMessage (some m)
  | .stderrLine (some l) => { t with Stderr := t.Stderr ++ [l.Line] }
  | .error (some e) => { t with Errors := t.Errors ++ [some e] }
  | _ => t

/-- What one iteration of `Stream.run` sends on `s.partials` when it folds an
event. -/
def Stream.mirrored (event : ServerEvent) : List MessageEvent :=
  match event.Payload with
  | .message (some m) => if m.IsPartial then [m] else []
  | _ => []

/-- The partial messages the events carry, in order: what the loop sends on
`s.partials` when it folds them all. -/
def partialsIn (events : List ServerEvent) : List MessageEvent :=
  (events.map Stream.mirrored).flatten

/-- The events from the first one that carries a turn id on: the loop discards
those before it. -/
def fromFirstTurnId (events : List ServerEvent) : List ServerEvent :=
  events.dropWhile (fun e => decide (e.TurnId = ""))

/-- A TURN_BEGIN followed by 65 partial messages, one more than the channel
`s.partials` holds. -/
def manyPartials : List ServerEvent :=
  turnBeginEvent :: List.replicate 65 partialEvent

/-- The inputs of a Stream that receives the given events and then finds its
context done, whatever is offered to it afterwards. -/
def thenCancelled (events : List ServerEvent) (rest : List StreamInput) : List StreamInput :=
  events.map StreamInput.event ++ StreamInput.ctxDone :: rest

/-- A stderr line of request `req-1` that carries no turn id. -/
def stderrNoTurn : ServerEvent :=
  { RequestId := "req-1", TurnId := "", Payload := .stderrLine (some { Line := "warning" }) }

/-- The Turn after `Stream.run` has folded the given events into it, in order. -/
def Stream.foldEvents (turn : Turn) (events : List ServerEvent) : Turn :=
  events.foldl Stream.foldEvent turn

/-- The correlation a Turn built by a Stream of request `R` has: it carries the
request id `R`, every event of its log is tagged `R`, its turn id is not
empty, and the first event of its log carries that turn id. -/
def Stream.Correlated (R : String) (t : Turn) : Prop :=
  t.RequestID = R ∧ (∀ e ∈ t.Events, e.RequestId = R) ∧ t.TurnID ≠ "" ∧
    ∃ e0 rest, t.Events = e0 :: rest ∧ e0.TurnId = t.TurnID

/-- The input is not an event, or is an event tagged with the request id `R`. -/
def StreamInput.taggedWith (R : String) : StreamInput → Bool
  | .event e => decide (e.RequestId = R)
  | _ => true

/-- The TURN_END event of turn `turn-1` of request `req-1`, as in the tests. -/
def turnEndEvent : ServerEvent :=
  { RequestId := "req-1", TurnId := "turn-1",
    Payload := .turn (some { Kind := .TURN_END, TurnIndex := 1 }) }

/-! ## Reference notions for CollectTurns -/

/-- The five events of the aggregation example, all tagged turn `T1` and request
`R1`: TURN_BEGIN with index 1, a partial assistant message, a final assistant
message, a final result message `ok`, TURN_END with index 1. -/
def aggregationExample (T1 R1 : String) (p f : AssistantMessage) : List ServerEvent :=
  [ { RequestId := R1, TurnId := T1,
      Payload := .turn (some { Kind := .TURN_BEGIN, TurnIndex := 1 }) },
    { RequestId := R1, TurnId := T1,
      Payload := .message (some { IsPartial := true, msg := .assistant p }) },
    { RequestId := R1, TurnId := T1,
      Payload := .message (some { IsPartial := false, msg := .assistant f }) },
    { RequestId := R1, TurnId := T1,
      Payload := .message (some { IsPartial := false, msg := .result { Result := "ok" } }) },
    { RequestId := R1, TurnId := T1,
      Payload := .turn (some { Kind := .TURN_END, TurnIndex := 1 }) } ]

/-- The event does not carry one of the two nil payloads that `CollectTurns`
dereferences: a turn boundary or a stderr line, when set, is present. -/
def ServerEvent.payloadPresent (e : ServerEvent) : Bool :=
  match e.Payload with
  | .turn none => false
  | .stderrLine none => false
  | _ => true

/-- What one iteration of `CollectTurns` does to the Turn of the event, for an
event whose payload is present (lines 136 to 160 of turns.go). -/
def CollectTurns.fold (turn : Turn) (event : ServerEvent) : Turn :=
  let t := Stream.record turn event
  match event.Payload with
  | .turn (some tb) =>
    match tb.Kind with
    | .TURN_BEGIN => { t with Started := true, TurnIndex := tb.TurnIndex }
    | .TURN_END =>
      let t1 : Turn := { t with Ended := true }
      if t1.TurnIndex = 0 then { t1 with TurnIndex := tb.TurnIndex } else t1
    | .UNSPECIFIED => t
  | .message m => t.addMessage m
  | .stderrLine (some l) => { t with Stderr := t.Stderr ++ [l.Line] }
  | .error e => { t with Errors := t.Errors ++ [e] }
  | _ => t

/-- The Turns `CollectTurns` emits for one turn id `T` when it receives, for
that id, the given events in order and is then closed, starting with the Turn
`cur` open for `T` (none when the id has no open Turn): a Turn is emitted at
every TURN_END, the next event of the id starts a new Turn, and a Turn left
open at the end is emitted by the flush. -/
def CollectTurns.collectFor (T : String) : Option Turn → List ServerEvent → List Turn
  | cur, [] => cur.toList
  | cur, e :: rest =>
    if isTurnEnd e = true then
      CollectTurns.fold (cur.getD (newTurn T)) e :: CollectTurns.collectFor T none rest
    else CollectTurns.collectFor T (some (CollectTurns.fold (cur.getD (newTurn T)) e)) rest

/-- The list `l` is an interleaving of `A` and `B` that keeps the order of each. -/
inductive Interleave : List ServerEvent → List ServerEvent → List ServerEvent → Prop where
  | nil : Interleave [] [] []
  | left (a : ServerEvent) {A B l : List ServerEvent} :
      Interleave A B l → Interleave (a :: A) B (a :: l)
  | right (b : ServerEvent) {A B l : List ServerEvent} :
      Interleave A B l → Interleave A (b :: B) (b :: l)

/-- The state of the loop of `CollectTurns` is sound: it has not crashed, every
Turn in the map sits under its own turn id, no key occurs twice or is empty,
and no emitted Turn has an empty turn id. -/
structure CollectState.Keyed (st : CollectState) : Prop where
  alive : st.crashed = false
  keyed : ∀ kv ∈ st.turns, kv.2.TurnID = kv.1
  nodup : st.turns.Pairwise (fun a b => a.1 ≠ b.1)
  nonempty : ∀ kv ∈ st.turns, kv.1 ≠ ""
  out_nonempty : ∀ t ∈ st.out, t.TurnID ≠ ""

/-- No event carrying the turn id `T` follows the first TURN_END that carries it. -/
def noEventAfterEnd (T : String) : List ServerEvent → Bool
  | [] => true
  | e :: rest =>
    if e.TurnId = T ∧ isTurnEnd e = true then rest.all (fun x => decide (x.TurnId ≠ T))
    else noEventAfterEnd T rest

/-! ## Published events and sample multiplexers -/

/-- A protocol error event of request `req-b` with the fatal flag set. -/
def fatalErrorB : ServerEvent :=
  { RequestId := "req-b", TurnId := "turn-b",
    Payload := .error (some { Code := "INTERNAL", Message := "boom", Fatal := true }) }

/-- The event the next iteration of `run` publishes: the head of the queue of
a multiplexer that has not closed, if there is one. -/
def eventMux.processing (m : eventMux) : Option ServerEvent :=
  if m.closed then none else m.queue.items.head?

/-- The event one action publishes: only an iteration of `run` publishes, and
then the event it finds to process. -/
def publishedBy (m : eventMux) : MuxOp → List ServerEvent
  | .run => m.processing.toList
  | _ => []

/-- The events the multiplexer publishes, in order, along a sequence of
actions: one for every iteration of `run` that finds an event to process. -/
def processedBy (m : eventMux) : List MuxOp → List ServerEvent
  | [] => []
  | op :: rest => publishedBy m op ++ processedBy (m.step op) rest

/-- The subscription `sub` holds the events `L` and is either an open global
subscription of an open multiplexer, listed once and under no request id, or
a closed subscription of a closed multiplexer. -/
def eventMux.GlobalSub (m : eventMux) (sub : Nat) (L : List ServerEvent) : Prop :=
  m.enqueuedTo sub = L ∧
    ((m.closed = false ∧ m.global.count sub = 1 ∧ (∀ k, sub ∉ m.requestSubs k) ∧
        m.isOpen sub) ∨
      (m.closed = true ∧ m.isClosed sub))

/-- A multiplexer with a global subscription (pointer 0), a subscription under
`req-a` (pointer 1) and two under `req-b` (pointers 2 and 3). -/
def muxWithFour : eventMux :=
  newEventMux.steps [.subscribeAll, .subscribeRequest "req-a", .subscribeRequest "req-b",
    .subscribeRequest "req-b"]

/-! ## The transport result of send, the Turn a Stream is building, messages of events -/

/-- Method `Session.send` with its return value: the envelope handed to
`stream.Send`, and the error that call returns, `none` for the nil error. The
transport is the function `streamSend`. -/
def Session.sendOn (s : Session) (streamSend : ClientEvent → Option String)
    (event : ClientEvent) : ClientEvent × Option String :=
  let event1 : ClientEvent :=
    if event.SidecarSessionId = "" then { event with SidecarSessionId := s.sessionID }
    else event
  (event1, streamSend event1)

/-- The message events a sequence of events carries, in order: the payloads of
its message events that are not nil. -/
def messagesOf (events : List ServerEvent) : List MessageEvent :=
  events.filterMap (fun e =>
    match e.Payload with
    | .message (some m) => some m
    | _ => none)

/-- The local variable `turn` of `Stream.run` when the loop returns or has used
up its inputs: nil until an event with a turn id arrives, then the Turn every
later event is folded into, up to and including the first TURN_END. -/
def Stream.turnAfter (turn : Option Turn) : List StreamInput → Option Turn
  | [] => turn
  | .ctxDone :: _ => turn
  | .chanClosed :: _ => turn
  | .event event :: rest =>
    let start : Option Turn :=
      match turn with
      | some t => some t
      | none => if event.TurnId ≠ "" then some (newTurn event.TurnId) else none
    match start with
    | none => Stream.turnAfter none rest
    | some t0 =>
      if isTurnEnd event = true then some (Stream.foldEvent t0 event)
      else Stream.turnAfter (some (Stream.foldEvent t0 event)) rest

/-- The partial messages of the Turn being built, none while there is no Turn. -/
def partialsOf : Option Turn → List MessageEvent
  | some t => t.Partials
  | none => []

/-- The Partials of a Turn are the partial messages of its log. -/
def Turn.PartialsLogged (t : Turn) : Prop :=
  t.Partials = (messagesOf t.Events).filter (fun m => m.IsPartial)

/-! ## Sequences of queue and subscription actions; hooks.go and permissions.go helpers -/

/-- Successive calls of `Push`, one for each event: the queue afterwards and
the flags the calls return. -/
def eventQueue.pushAll (q : eventQueue) : List ServerEvent → eventQueue × List Bool
  | [] => (q, [])
  | event :: rest =>
    let r := q.Push event
    let rs := eventQueue.pushAll r.1 rest
    (rs.1, r.2 :: rs.2)

/-- Up to `n` successive calls of `Pop` by one caller: the results of the calls
that return, `none` for `(nil, false)`, and the queue afterwards. A call that
waits ends the sequence: nothing else acts on the queue to wake it. -/
def eventQueue.popN (q : eventQueue) : Nat → List (Option ServerEvent) × eventQueue
  | 0 => ([], q)
  | n + 1 =>
    match q.Pop with
    | none => ([], q)
    | some (q1, r) =>
      let rs := eventQueue.popN q1 n
      (r :: rs.1, rs.2)

/-- One action on a subscription: a call of `Enqueue` or `Close`, or one
iteration of its pump. -/
inductive SubOp where
  | enqueue (event : ServerEvent)
  | close
  | pump
  deriving DecidableEq, Repr

/-- The subscription after one action. -/
def subscription.step (s : subscription) : SubOp → subscription
  | .enqueue event => s.Enqueue event
  | .close => s.Close
  | .pump => s.run

/-- The subscription after a sequence of actions. -/
def subscription.steps (s : subscription) (ops : List SubOp) : subscription :=
  ops.foldl subscription.step s

/-- The events a sequence of actions passes to `Enqueue`, in order. -/
def SubOp.events (ops : List SubOp) : List ServerEvent :=
  ops.filterMap (fun op =>
    match op with
    | .enqueue event => some event
    | _ => none)

/-- Function `HookDefault`: an output with every field unset. -/
def HookDefault : Option HookOutput :=
  some { Continue_ := none, StopReason := "", Decision := "", Reason := "", SystemMessage := "",
         SuppressOutput := false }

/-- Function `HookContinue`. -/
def HookContinue : Option HookOutput :=
  some { Continue_ := boolPtr true, StopReason := "", Decision := "", Reason := "",
         SystemMessage := "", SuppressOutput := false }

/-- Function `HookBlock`. -/
def HookBlock (reason : String) (systemMessage : String) : Option HookOutput :=
  some { Continue_ := boolPtr false, StopReason := "", Decision := "block", Reason := reason,
         SystemMessage := systemMessage, SuppressOutput := false }

/-- Function `HookShouldContinue`; `none` is the nil output. The generated
getter `GetContinue_` of a set pointer is the value it points to. -/
def HookShouldContinue (output : Option HookOutput) : Bool :=
  match output with
  | none => true
  | some o =>
    if o.Decision = "block" then false
    else
      match o.Continue_ with
      | none => true
      | some c => c

/-- A hook output with the decision `block` and continue omitted. -/
def blockOmitted : HookOutput :=
  { Continue_ := none, StopReason := "", Decision := "block", Reason := "", SystemMessage := "",
    SuppressOutput := false }

/-- A hook output with the decision `approve` and continue omitted. -/
def approveOmitted : HookOutput :=
  { Continue_ := none, StopReason := "", Decision := "approve", Reason := "",
    SystemMessage := "", SuppressOutput := false }

/-- Function `PermissionAllow`. -/
def PermissionAllow (reason : String) : Option PermissionDecision :=
  some { Behavior := "allow", Reason := reason }

/-- Function `PermissionDeny`. -/
def PermissionDeny (reason : String) : Option PermissionDecision :=
  some { Behavior := "deny", Reason := reason }

/-- Function `PermissionAsk`. -/
def PermissionAsk (reason : String) : Option PermissionDecision :=
  some { Behavior := "ask", Reason := reason }

/-- Function `DefaultPermissionPrompt` on a request that is not nil. -/
def DefaultPermissionPrompt (req : PermissionDecisionRequest) : String :=
  if req.Prompt ≠ "" then req.Prompt
  else if req.ToolName ≠ "" then "Allow tool " ++ req.ToolName ++ " to run? (y/n): "
  else "Allow the requested tool to run? (y/n): "

/-- What a call of a `ConfirmHandler` does: return its three values, panic, or
never return. -/
inductive ConfirmOutcome where
  | returned (ok : Bool) (reason : String) (err : Option String) : ConfirmOutcome
  | panicked : ConfirmOutcome
  | blocked : ConfirmOutcome
  deriving DecidableEq, Repr

/-- A call the handler built by `AskConfirmHandler` makes to one of its two
callbacks, with the arguments of the call. -/
inductive PermissionCall where
  | decide (req : PermissionDecisionRequest)
  | confirm (prompt : String) (req : PermissionDecisionRequest)
  deriving DecidableEq, Repr

/-- One run of the handler built by `AskConfirmHandler`: the calls it made to
its callbacks, in order, and what the run did. -/
structure AskResult where
  calls : List PermissionCall
  outcome : HandlerOutcome PermissionDecision

/-- Function `AskConfirmHandlerWithPrompt`, applied to a request: the closure it
returns, run on `req`. A callback that panics or never returns does the same
to the handler. `none` is the nil function. -/
def AskConfirmHandlerWithPrompt
    (decide : Option (PermissionDecisionRequest → HandlerOutcome PermissionDecision))
    (confirm : Option (String → PermissionDecisionRequest → ConfirmOutcome))
    (prompt : Option (PermissionDecisionRequest → String))
    (req : PermissionDecisionRequest) : AskResult :=
  if req.Attempt ≤ 1 then
    match decide with
    | some decide => { calls := [.decide req], outcome := decide req }
    | none =>
      match confirm with
      | some _ =>
        { calls := [], outcome := .returned (PermissionAsk "confirmation required") none }
      | none => { calls := [], outcome := .returned (PermissionDeny "no permission handler") none }
  else
    match confirm with
    | some confirm =>
      let promptText0 := DefaultPermissionPrompt req
      let promptText :=
        match prompt with
        | some p => p req
        | none => promptText0
      match confirm promptText req with
      | .returned ok reason err =>
        match err with
        | some msg =>
          { calls := [.confirm promptText req], outcome := .returned (PermissionDeny msg) none }
        | none =>
          if ok then
            { calls := [.confirm promptText req],
              outcome := .returned (PermissionAllow reason) none }
          else
            { calls := [.confirm promptText req],
              outcome := .returned (PermissionDeny reason) none }
      | .panicked => { calls := [.confirm promptText req], outcome := .panicked }
      | .blocked => { calls := [.confirm promptText req], outcome := .blocked }
    | none =>
      match decide with
      | some decide => { calls := [.decide req], outcome := decide req }
      | none =>
        { calls := [], outcome := .returned (PermissionDeny "no confirmation handler") none }

/-- Function `AskConfirmHandler`. -/
def AskConfirmHandler
    (decide : Option (PermissionDecisionRequest → HandlerOutcome PermissionDecision))
    (confirm : Option (String → PermissionDecisionRequest → ConfirmOutcome))
    (req : PermissionDecisionRequest) : AskResult :=
  AskConfirmHandlerWithPrompt decide confirm (some DefaultPermissionPrompt) req

/-- The `decide` callback of the permission test: it asks for confirmation. -/
def askDecide (_ : PermissionDecisionRequest) : HandlerOutcome PermissionDecision :=
  .returned (PermissionAsk "needs confirmation") none

/-- The `confirm` callback of the permission test: it approves. -/
def approveConfirm (_ : String) (_ : PermissionDecisionRequest) : ConfirmOutcome :=
  .returned true "approved" none

/-! ## Folding the events of one turn id in CollectTurns -/

/-- The Turn `CollectTurns` holds for a turn id after folding the given events
into `turn`, in order. -/
def CollectTurns.foldAll (turn : Turn) (events : List ServerEvent) : Turn :=
  events.foldl CollectTurns.fold turn

/-! ## The queue of the multiplexer along a sequence of actions; the actions of the receive loop -/

/-- The event one action adds to the queue of the multiplexer: `Enqueue` on a
queue that is not closed adds its event, and no other action adds any. -/
def pushedBy (m : eventMux) : MuxOp → List ServerEvent
  | .enqueue event => if m.queue.closed then [] else [event]
  | _ => []

/-- The events added to the queue of the multiplexer along a sequence of
actions, in order. -/
def acceptedBy (m : eventMux) : List MuxOp → List ServerEvent
  | [] => []
  | op :: rest => pushedBy m op ++ acceptedBy (m.step op) rest

/-- The action is one of the two the receive loop takes on the multiplexer: a
call of `Enqueue` or a call of `Close`. -/
def MuxOp.isFeed : MuxOp → Bool
  | .enqueue _ => true
  | .close => true
  | _ => false

/-- The actions the receive loop takes on the multiplexer when `stream.Recv`
returns the given events and then an error: `Enqueue` for each event in turn,
then `Close`. -/
def recvOps (events : List ServerEvent) : List MuxOp :=
  events.map MuxOp.enqueue ++ [MuxOp.close]

/-- A multiplexer that has closed its subscriptions had found its queue closed
and empty. -/
def eventMux.Drained (m : eventMux) : Prop :=
  m.closed = true → m.queue.items = [] ∧ m.queue.closed = true

/-- An interleaving of the actions of the receive loop for a tool invocation
and a TURN_BEGIN with a subscription, iterations of `run` and of a pump. -/
def interleavedOps : List MuxOp :=
  [.subscribeAll, .enqueue (toolEvent pingRequest), .run, .enqueue turnBeginA, .close, .run,
    .pump 0, .run]

/-- Method `Session.Close` on the state of the session: it closes the queue of
the multiplexer. Its `cancel()` ends the context handed to the handlers and
its `CloseSend()` the sending half of the stream; neither stops `Recv` from
returning events, the stream being attached on the context of the caller. -/
def Session.Close (_ : Session) (st : SessionState) : SessionState :=
  { st with mux := st.mux.Close }

/-- The state `newSession` leaves: a new multiplexer with the global
subscription behind `Events()` (pointer 0), nothing sent, the receive loop
about to start. -/
def attachedState : SessionState :=
  { mux := newEventMux.SubscribeAll.1, sent := [], crashed := false, stopped := false }

/-! ## Turn boundaries in the two folds -/

/-- The payload of the event is not one of the four nil payloads: a turn
boundary, message, stderr line or error, when set, is present. -/
def ServerEvent.payloadNonNil (e : ServerEvent) : Bool :=
  match e.Payload with
  | .turn none => false
  | .message none => false
  | .stderrLine none => false
  | .error none => false
  | _ => true

/-- The event is a TURN_BEGIN boundary. -/
def isTurnBegin (event : ServerEvent) : Bool :=
  match event.Payload with
  | .turn (some tb) => decide (tb.Kind = .TURN_BEGIN)
  | _ => false

/-- The turn index a boundary event carries, 0 for any other event. -/
def boundaryIndex (event : ServerEvent) : Nat :=
  match event.Payload with
  | .turn (some tb) => tb.TurnIndex
  | _ => 0

/-- The boundary flags of a Turn record its log: Started is set exactly when the
log holds a TURN_BEGIN, Ended exactly when it holds a TURN_END. -/
def Turn.BoundariesLogged (t : Turn) : Prop :=
  t.Started = t.Events.any isTurnBegin ∧ t.Ended = t.Events.any isTurnEnd

/-- A TURN_BEGIN of turn `turn-1` with the turn index 0. -/
def turnBeginZero : ServerEvent :=
  { RequestId := "req-1", TurnId := "turn-1",
    Payload := .turn (some { Kind := .TURN_BEGIN, TurnIndex := 0 }) }

/-- A TURN_END of turn `turn-1` with the turn index 5. -/
def turnEndFive : ServerEvent :=
  { RequestId := "req-1", TurnId := "turn-1",
    Payload := .turn (some { Kind := .TURN_END, TurnIndex := 5 }) }

/-! ## The two critical sections of processing; the registry of a closed multiplexer -/

/-- The actions other goroutines take on the multiplexer while `eventMux.run`
works on one popped event. `enqueues` holds, for each recipient in turn,
the actions that take effect after `subscriptionsFor` has released the mutex
(or after the Enqueue to the previous recipient) and before the Enqueue to
that recipient; `evict` those that take effect after the last Enqueue and
before `closeRequest` takes the mutex; `closes` holds, for each evicted
subscription in turn, those that take effect before its Close. -/
structure Interleaving where
  enqueues : List (List MuxOp)
  evict : List MuxOp
  closes : List (List MuxOp)

/-- The action is an iteration of the loop `eventMux.run`. -/
def MuxOp.isRun : MuxOp → Bool
  | .run => true
  | _ => false

/-- The action is a call `UnsubscribeRequest(requestID, sub)` that closes the
subscription `sub`: one with a request id that is not empty. -/
def MuxOp.closes (sub : Nat) : MuxOp → Bool
  | .unsubscribeRequest requestID (some i) => decide (i = sub) && !(decide (requestID = ""))
  | _ => false

/-- No action of the interleaving is an iteration of `eventMux.run`: they are
the actions of goroutines other than the one that runs the loop. -/
def Interleaving.foreign (il : Interleaving) : Prop :=
  (∀ gap ∈ il.enqueues, ∀ op ∈ gap, op.isRun = false) ∧ (∀ op ∈ il.evict, op.isRun = false) ∧
    ∀ gap ∈ il.closes, ∀ op ∈ gap, op.isRun = false

/-- The interleaving in which no other goroutine acts. -/
def Interleaving.idle : Interleaving :=
  { enqueues := [], evict := [], closes := [] }

/-- A subscription whose `sync.Once` has fired has a closed queue. -/
def subscription.Sound (s : subscription) : Prop :=
  s.once = true → s.queue.closed = true

/-- The subscription behind the pointer `j` has been enqueued exactly the
events `L`, and it is registered under the request id `A` or closed. -/
def eventMux.Holds (m : eventMux) (j : Nat) (A : String) (L : List ServerEvent) : Prop :=
  ∃ s, m.sub j = some s ∧ s.enqueued = L ∧ s.Sound ∧
    (j ∈ m.requestSubs A ∨ s.queue.closed = true)

/-- Call `f` on each of the subscriptions `ids` in turn, each call after the
actions of the matching element of `gaps` have taken effect. -/
def eventMux.applyAround (f : subscription → subscription) (m : eventMux) :
    List Nat → List (List MuxOp) → eventMux
  | [], _ => m
  | i :: rest, gaps =>
    let m1 := m.steps (gaps.headD [])
    eventMux.applyAround f { m1 with subs := updateAt f m1.subs i } rest gaps.tail

/-- The multiplexer when `closeRequest` is about to take the mutex for a
popped event (event_mux.go:170-175): the recipients are those
`subscriptionsFor` returned at the start, each Enqueue and the call of
`closeRequest` come after the actions of other goroutines the interleaving
puts before them. -/
def eventMux.beforeEvict (m : eventMux) (event : ServerEvent) (il : Interleaving) : eventMux :=
  (eventMux.applyAround (fun s => s.Enqueue event) m (m.subscriptionsFor event)
    il.enqueues).steps il.evict

/-- The body of the loop of `eventMux.run` for a popped event as the source has
it (event_mux.go:170-176, 192-203), with the actions of other goroutines that
take effect meanwhile. `subscriptionsFor` computes the recipients under the
mutex and releases it; the event is enqueued to each recipient without the
mutex; on a TURN_END `closeRequest` takes the mutex again to read and delete
the list of the request, releases it, and closes the subscriptions of that
list. -/
def eventMux.processAround (m : eventMux) (event : ServerEvent) (il : Interleaving) :
    eventMux :=
  if isTurnEnd event then
    let m2 := m.beforeEvict event il
    if event.RequestId = "" then m2
    else
      eventMux.applyAround subscription.Close
        { m2 with byRequest := m2.byRequest.delete event.RequestId }
        (m2.requestSubs event.RequestId) il.closes
  else
    eventMux.applyAround (fun s => s.Enqueue event) m (m.subscriptionsFor event) il.enqueues

/-- One iteration of `eventMux.run` with the actions of other goroutines that
take effect while it works on the popped event. -/
def eventMux.runAround (m : eventMux) (il : Interleaving) : eventMux :=
  if m.closed then m
  else
    match m.queue.Pop with
    | none => m
    | some (_, none) => m.closeAll
    | some (q, some event) => eventMux.processAround { m with queue := q } event il

/-- The interleaving in which `SubscribeRequest("req-a")` takes effect between
the computation of the recipients and the first Enqueue. -/
def lateSubscribe : Interleaving :=
  { enqueues := [[.subscribeRequest "req-a"]], evict := [], closes := [] }

/-- The interleaving in which the Stream that holds the subscription with
pointer `sub` under `req-a` returns, and its deferred
`UnsubscribeRequest("req-a", sub)` takes effect, between the computation of
the recipients and the first Enqueue. -/
def earlyUnsubscribe (sub : Nat) : Interleaving :=
  { enqueues := [[.unsubscribeRequest "req-a" (some sub)]], evict := [], closes := [] }

/-- A closed multiplexer has an empty registry. -/
def eventMux.ClosedEmpty (m : eventMux) : Prop :=
  m.closed = true → m.global = [] ∧ m.byRequest = []

/-- What a subscription looks like from outside: whether its queue is closed
and the events enqueued to it so far. -/
def eventMux.view (m : eventMux) (sub : Nat) : Option (Bool × List ServerEvent) :=
  (m.sub sub).map (fun s => (s.queue.closed, s.enqueued))

/-- A multiplexer with one subscription under `req-a` (pointer 0). -/
def muxWithA : eventMux :=
  newEventMux.steps [.subscribeRequest "req-a"]

/-! ## message_blocks.go -/

/-- Modelled from the spec: `pb.TextBlock`. -/
structure pb.TextBlock where
  Text : String

/-- Modelled from the spec: `pb.ThinkingBlock`. -/
structure pb.ThinkingBlock where
  Thinking : String
  Signature : String

/-- Modelled from the spec: `pb.ToolUseBlock`; `Input` is a pointer that may
be nil. -/
structure pb.ToolUseBlock where
  Id : String
  Name : String
  Input : Option Struct

/-- Modelled from the spec: `pb.ToolResultBlock`; `Content` is a pointer that
may be nil. -/
structure pb.ToolResultBlock where
  ToolUseId : String
  Content : Option Value
  IsError : Bool

/-- Modelled from the spec: `pb.ContentBlock`, with its `Block` oneof. A set
case carries its inner payload, which the client dereferences unguarded;
`unset` is the oneof with no case set. -/
inductive pb.ContentBlock where
  | unset : pb.ContentBlock
  | text (p : pb.TextBlock) : pb.ContentBlock
  | thinking (p : pb.ThinkingBlock) : pb.ContentBlock
  | toolUse (p : pb.ToolUseBlock) : pb.ContentBlock
  | toolResult (p : pb.ToolResultBlock) : pb.ContentBlock

/-- The interface `MessageBlock` with its four implementations `TextBlock`,
`ThinkingBlock`, `ToolUseBlock` and `ToolResultBlock`; `unsupported` is any
other value of the interface, the nil interface included. -/
inductive MessageBlock where
  | TextBlock (Text : String) : MessageBlock
  | ThinkingBlock (Thinking : String) (Signature : String) : MessageBlock
  | ToolUseBlock (ID : String) (Name : String) (Input : GoMap GoValue) : MessageBlock
  | ToolResultBlock (ToolUseID : String) (Content : GoValue) (IsError : Bool) : MessageBlock
  | unsupported : MessageBlock

/-- Function `MessageBlockFromProto`; the argument `none` is the nil block, the
result `none` a returned error. -/
def MessageBlockFromProto (block : Option pb.ContentBlock) : Option MessageBlock :=
  match block with
  | none => none
  | some (.text p) => some (.TextBlock p.Text)
  | some (.thinking p) => some (.ThinkingBlock p.Thinking p.Signature)
  | some (.toolUse p) => some (.ToolUseBlock p.Id p.Name (StructToMap p.Input))
  | some (.toolResult p) =>
    let content : GoValue :=
      match p.Content with
      | some v => v.AsInterface
      | none => .nil
    some (.ToolResultBlock p.ToolUseId content p.IsError)
  | some .unset => none

/-- Function `MessageBlockToProto`; `none` is a returned error. The test
`payload.Content != nil` is a test against the nil interface. -/
def MessageBlockToProto (block : MessageBlock) : Option pb.ContentBlock :=
  match block with
  | .TextBlock text => some (.text { Text := text })
  | .ThinkingBlock thinking signature =>
    some (.thinking { Thinking := thinking, Signature := signature })
  | .ToolUseBlock id name input =>
    match MapToStruct input with
    | none => none
    | some st => some (.toolUse { Id := id, Name := name, Input := some st })
  | .ToolResultBlock id content isError =>
    match content with
    | .nil => some (.toolResult { ToolUseId := id, Content := none, IsError := isError })
    | c =>
      match structpb.NewValue c with
      | none => none
      | some v => some (.toolResult { ToolUseId := id, Content := some v, IsError := isError })
  | .unsupported => none

/-- Decoding a proto block with `MessageBlockFromProto` and encoding the result
with `MessageBlockToProto`; `none` when either returns an error. -/
def pb.ContentBlock.roundTrip (b : pb.ContentBlock) : Option pb.ContentBlock :=
  match MessageBlockFromProto (some b) with
  | none => none
  | some g => MessageBlockToProto g

/-! ## permission_updates.go -/

/-- Function `PermissionSuggestionList`, given the field
`req.PermissionSuggestions` of a request that is not nil; the argument `none`
is the nil field and the result `none` the nil slice. -/
def PermissionSuggestionList (suggestions : Option Value) : Option (List GoValue) :=
  match suggestions with
  | none => none
  | some v =>
    match v.AsInterface with
    | .slice raw => some raw
    | _ => none

/-- Function `PermissionSuggestionsValue`: `none` is a returned error,
`some none` the nil value returned without an error. -/
def PermissionSuggestionsValue (updates : List (GoMap GoValue)) : Option (Option Value) :=
  if updates.length = 0 then some none
  else (structpb.NewValue (.slice (updates.map GoValue.map))).map some

/-! ## input_stream.go -/

/-- The struct `UserInputMessage`. -/
structure UserInputMessage where
  Role : String
  Content : GoValue

/-- The struct `UserInputEvent`; an empty `AdditionalFields` is the nil map. -/
structure UserInputEvent where
  Message : UserInputMessage
  ParentToolUseID : String
  SessionID : String
  AdditionalFields : GoMap GoValue

/-- Function `UserTextEvent`. -/
def UserTextEvent (text : String) : UserInputEvent :=
  { Message := { Role := "user", Content := .string text }, ParentToolUseID := "",
    SessionID := "", AdditionalFields := [] }

/-- The map `UserInputEvent.ToMap` has built before it copies the additional
fields into it (lines 54 to 70 of input_stream.go). -/
def UserInputEvent.baseMap (e : UserInputEvent) : GoMap GoValue :=
  let role := if e.Message.Role = "" then "user" else e.Message.Role
  let message : GoMap GoValue :=
    GoMap.set (GoMap.set [] "role" (.string role)) "content" e.Message.Content
  let payload : GoMap GoValue :=
    GoMap.set (GoMap.set [] "type" (.string "user")) "message" (.map message)
  let payload1 : GoMap GoValue :=
    if e.ParentToolUseID ≠ "" then GoMap.set payload "parent_tool_use_id"
      (.string e.ParentToolUseID)
    else payload
  if e.SessionID ≠ "" then GoMap.set payload1 "session_id" (.string e.SessionID)
  else payload1

/-- Method `UserInputEvent.ToMap`. -/
def UserInputEvent.ToMap (e : UserInputEvent) : GoMap GoValue :=
  e.AdditionalFields.foldl (fun payload kv => GoMap.set payload kv.1 kv.2) e.baseMap

/-- The four keys `UserInputEvent.ToMap` writes itself. -/
def userInputKeys : List String :=
  ["type", "message", "parent_tool_use_id", "session_id"]

/-- The text event `hello` with the additional fields `type` and `session_id`. -/
def overriddenEvent : UserInputEvent :=
  { UserTextEvent "hello" with
    AdditionalFields := [("type", .string "assistant"), ("session_id", .string "s-9")] }

/-- The text event `hello` of session `s-1` with an additional field `uuid`. -/
def plainEvent : UserInputEvent :=
  { UserTextEvent "hello" with
    SessionID := "s-1", AdditionalFields := [("uuid", .string "u-1")] }

end Client

/-! # Theorems -/

namespace Client

/-! ## Go maps -/

theorem GoMap.get_delete_self {β : Type} (m : GoMap β) (k : String) :
    (GoMap.delete m k).get k = none := by
  induction m with
  | nil => rfl
  | cons kv rest ih =>
    obtain ⟨k', v⟩ := kv
    by_cases h : k' = k
    · simpa [GoMap.delete, List.filter_cons, h] using ih
    · simpa [GoMap.delete, List.filter_cons, h, GoMap.get] using ih

theorem GoMap.get_delete_ne {β : Type} (m : GoMap β) (k k' : String) (hne : k' ≠ k) :
    (GoMap.delete m k).get k' = m.get k' := by
  induction m with
  | nil => rfl
  | cons kv rest ih =>
    obtain ⟨k0, v⟩ := kv
    by_cases h : k0 = k
    · subst h
      have h2 : ¬ k0 = k' := fun h => hne h.symm
      simpa [GoMap.delete, List.filter_cons, GoMap.get, h2] using ih
    · by_cases h3 : k0 = k'
      · subst h3
        simp [GoMap.delete, List.filter_cons, h, GoMap.get]
      · simpa [GoMap.delete, List.filter_cons, h, GoMap.get, h3] using ih

theorem GoMap.get_set_self {β : Type} (m : GoMap β) (k : String) (v : β) :
    (GoMap.set m k v).get k = some v := by
  simp [GoMap.set, GoMap.get]

theorem GoMap.get_set_ne {β : Type} (m : GoMap β) (k k' : String) (v : β) (hne : k' ≠ k) :
    (GoMap.set m k v).get k' = m.get k' := by
  have h2 : ¬ k = k' := fun h => hne h.symm
  simp [GoMap.set, GoMap.get, h2, GoMap.get_delete_ne m k k' hne]

/-! ## Turn aggregation (turns.go) -/

theorem foldMessages_append (t : Turn) (ms : List MessageEvent) (m : MessageEvent) :
    foldMessages t (ms ++ [m]) = (foldMessages t ms).addMessage (some m) := by
  simp [foldMessages, List.foldl_append]

theorem messageKind_ne_empty_of_set (m : MessageEvent) (h : m.msg ≠ .unset) :
    messageKind m ≠ "" := by
  cases hm : m.msg <;> simp_all [messageKind, messageKindUser, messageKindAssistant,
    messageKindSystem, messageKindResult, messageKindStreamEvent]

theorem addMessage_latest (t : Turn) (m : MessageEvent) :
    (t.addMessage (some m)).latest =
      if messageKind m ≠ "" then t.latest.set (messageKind m) m else t.latest := by
  cases hm : m.msg <;> cases hp : m.IsPartial <;>
    simp [Turn.addMessage, messageKind, MessageEvent.GetStreamEvent, MessageEvent.GetResult,
      hm, hp, messageKindUser, messageKindAssistant, messageKindSystem, messageKindResult,
      messageKindStreamEvent]

theorem addMessage_Result (t : Turn) (m : MessageEvent) :
    (t.addMessage (some m)).Result =
      match m.GetResult with
      | some r => some r
      | none => t.Result := by
  cases hm : m.msg <;> cases hp : m.IsPartial <;>
    simp [Turn.addMessage, messageKind, MessageEvent.GetStreamEvent, MessageEvent.GetResult,
      hm, hp, messageKindUser, messageKindAssistant, messageKindSystem, messageKindResult,
      messageKindStreamEvent]

theorem addMessage_Partials (t : Turn) (m : MessageEvent) :
    (t.addMessage (some m)).Partials =
      if m.IsPartial then t.Partials ++ [m] else t.Partials := by
  cases hm : m.msg <;> cases hp : m.IsPartial <;>
    simp [Turn.addMessage, messageKind, MessageEvent.GetStreamEvent, MessageEvent.GetResult,
      hm, hp, messageKindUser, messageKindAssistant, messageKindSystem, messageKindResult,
      messageKindStreamEvent]

theorem addMessage_Messages (t : Turn) (m : MessageEvent) :
    (t.addMessage (some m)).Messages =
      if m.IsPartial then t.Messages else t.Messages ++ [m] := by
  cases hm : m.msg <;> cases hp : m.IsPartial <;>
    simp [Turn.addMessage, messageKind, MessageEvent.GetStreamEvent, MessageEvent.GetResult,
      hm, hp, messageKindUser, messageKindAssistant, messageKindSystem, messageKindResult,
      messageKindStreamEvent]

/-- Whatever its `is_partial` flag, a message with a set kind becomes the
latest-by-kind entry of its kind. -/
theorem addMessage_latest_self (t : Turn) (m : MessageEvent) (h : messageKind m ≠ "") :
    (t.addMessage (some m)).LatestMessage (messageKind m) = some m := by
  simp [Turn.LatestMessage, addMessage_latest, h, GoMap.get_set_self]

/-- The other keys of latest-by-kind are left as they were. -/
theorem addMessage_latest_other (t : Turn) (m : MessageEvent) (k : String)
    (h : k ≠ messageKind m) :
    (t.addMessage (some m)).LatestMessage k = t.LatestMessage k := by
  unfold Turn.LatestMessage
  rw [addMessage_latest]
  split
  · exact GoMap.get_set_ne _ _ _ _ h
  · rfl

theorem messageKind_eq_result_iff (m : MessageEvent) :
    messageKind m = messageKindResult ↔ m.GetResult ≠ none := by
  cases hm : m.msg <;>
    simp [messageKind, MessageEvent.GetResult, hm, messageKindUser, messageKindAssistant,
      messageKindSystem, messageKindResult, messageKindStreamEvent]

theorem messageKind_eq_assistant_iff (m : MessageEvent) :
    messageKind m = messageKindAssistant ↔ m.GetAssistant ≠ none := by
  cases hm : m.msg <;>
    simp [messageKind, MessageEvent.GetAssistant, hm, messageKindUser, messageKindAssistant,
      messageKindSystem, messageKindResult, messageKindStreamEvent]

theorem addMessage_LatestResult (t : Turn) (m : MessageEvent) :
    (t.addMessage (some m)).LatestResult =
      match m.GetResult with
      | some r => some r
      | none => t.LatestResult := by
  unfold Turn.LatestResult
  rw [addMessage_Result]
  cases hr : m.GetResult with
  | some r => rfl
  | none =>
    have hk : messageKindResult ≠ messageKind m := by
      intro h
      exact (messageKind_eq_result_iff m).mp h.symm hr
    simp only [addMessage_latest_other t m _ hk]

theorem lastResult_append (ms : List MessageEvent) (m : MessageEvent) :
    lastResult (ms ++ [m]) =
      match m.GetResult with
      | some r => some r
      | none => lastResult ms := by
  unfold lastResult
  cases hr : m.GetResult <;> simp [List.filterMap_append, hr]

theorem lastAssistant_append (ms : List MessageEvent) (m : MessageEvent) :
    lastAssistant (ms ++ [m]) =
      match m.GetAssistant with
      | some a => some a
      | none => lastAssistant ms := by
  unfold lastAssistant
  cases hr : m.GetAssistant <;> simp [List.filterMap_append, hr]

theorem LatestResult_newTurn (turnID : String) : (newTurn turnID).LatestResult = none := rfl

theorem LatestResult_foldMessages (turnID : String) (ms : List MessageEvent) :
    (foldMessages (newTurn turnID) ms).LatestResult = lastResult ms := by
  induction ms using List.reverseRecOn with
  | nil => rfl
  | append_singleton ms m ih =>
    rw [foldMessages_append, addMessage_LatestResult, lastResult_append, ih]

theorem lastResult_eq_none_iff (ms : List MessageEvent) :
    lastResult ms = none ↔ ∀ m ∈ ms, messageKind m ≠ messageKindResult := by
  unfold lastResult
  rw [List.getLast?_eq_none_iff, List.filterMap_eq_nil_iff]
  constructor
  · intro h m hm hk
    exact (messageKind_eq_result_iff m).mp hk (h m hm)
  · intro h m hm
    by_contra hne
    exact h m hm ((messageKind_eq_result_iff m).mpr hne)

theorem addMessage_LatestAssistant (t : Turn) (m : MessageEvent) :
    (t.addMessage (some m)).LatestAssistant =
      match m.GetAssistant with
      | some a => some a
      | none => t.LatestAssistant := by
  unfold Turn.LatestAssistant
  cases hr : m.GetAssistant with
  | some a =>
    have hk : messageKind m = messageKindAssistant :=
      (messageKind_eq_assistant_iff m).mpr (by simp [hr])
    have hne : messageKind m ≠ "" := by rw [hk]; decide
    have h := addMessage_latest_self t m hne
    rw [hk] at h
    simp [h, hr]
  | none =>
    have hk : messageKindAssistant ≠ messageKind m := by
      intro h
      exact (messageKind_eq_assistant_iff m).mp h.symm hr
    simp only [addMessage_latest_other t m _ hk]

theorem LatestAssistant_foldMessages (turnID : String) (ms : List MessageEvent) :
    (foldMessages (newTurn turnID) ms).LatestAssistant = lastAssistant ms := by
  induction ms using List.reverseRecOn with
  | nil => rfl
  | append_singleton ms m ih =>
    rw [foldMessages_append, addMessage_LatestAssistant, lastAssistant_append, ih]

theorem Partials_foldMessages (turnID : String) (ms : List MessageEvent) :
    (foldMessages (newTurn turnID) ms).Partials = ms.filter (fun m => m.IsPartial) := by
  induction ms using List.reverseRecOn with
  | nil => rfl
  | append_singleton ms m ih =>
    rw [foldMessages_append, addMessage_Partials, ih]
    cases hp : m.IsPartial <;> simp [List.filter_append, hp]

theorem scanPartials_eq_none (l : List MessageEvent) (h : ∀ p ∈ l, p.GetAssistant = none) :
    scanPartials l = none := by
  induction l with
  | nil => rfl
  | cons p rest ih =>
    have hp : p.GetAssistant = none := h p (List.mem_cons_self _ _)
    simp only [scanPartials, hp]
    exact ih (fun q hq => h q (List.mem_cons_of_mem _ hq))

theorem lastAssistant_eq_none (ms : List MessageEvent) (h : lastAssistant ms = none) :
    ∀ m ∈ ms, m.GetAssistant = none := by
  unfold lastAssistant at h
  rw [List.getLast?_eq_none_iff, List.filterMap_eq_nil_iff] at h
  exact h

/-- What the code computes: `MergedAssistant` is the payload of the last
assistant message folded, partial or final; the scan over the partials never
decides the answer. -/
theorem MergedAssistant_foldMessages (turnID : String) (ms : List MessageEvent) :
    (foldMessages (newTurn turnID) ms).MergedAssistant = lastAssistant ms := by
  unfold Turn.MergedAssistant
  rw [LatestAssistant_foldMessages]
  cases h : lastAssistant ms with
  | some a => rfl
  | none =>
    simp only
    apply scanPartials_eq_none
    intro p hp
    rw [Partials_foldMessages, List.mem_reverse] at hp
    exact lastAssistant_eq_none ms h p (List.mem_of_mem_filter hp)

/-- C1 (code defect): folding a partial assistant message into a Turn whose
latest assistant entry is a final message replaces that entry by the partial
one, although the index is meant to hold non-partial messages only. -/
theorem C1_partial_overwrites_latest :
    ((newTurn "turn-1").addMessage (some finalAssistant)).LatestMessage "assistant"
        = some finalAssistant ∧
      partialAssistant.IsPartial = true ∧
      (((newTurn "turn-1").addMessage (some finalAssistant)).addMessage
          (some partialAssistant)).LatestMessage "assistant" = some partialAssistant := by
  decide

/-- C9 (code defect): after a final assistant message followed by a partial
one, `MergedAssistant` returns the partial payload, where the last non-partial
assistant message is the final one. -/
theorem C9_merged_assistant_prefers_later_partial :
    (foldMessages (newTurn "turn-1") [finalAssistant, partialAssistant]).MergedAssistant
        = some { Model := "partial" } ∧
      specMergedAssistant [finalAssistant, partialAssistant] = some { Model := "final" } := by
  decide

/-- C10: for every sequence of message events folded into a fresh Turn,
`LatestResult` is the payload of the last result message of the sequence,
partial or final, and it is nil exactly when the sequence has no result
message. -/
theorem C10_latest_result_is_last_result (turnID : String) (ms : List MessageEvent) :
    (foldMessages (newTurn turnID) ms).LatestResult = lastResult ms ∧
      ((foldMessages (newTurn turnID) ms).LatestResult = none ↔
        ∀ m ∈ ms, messageKind m ≠ messageKindResult) := by
  refine ⟨LatestResult_foldMessages turnID ms, ?_⟩
  rw [LatestResult_foldMessages]
  exact lastResult_eq_none_iff ms

/-! ## Stream.run (run.go) -/


theorem record_Ended (t : Turn) (e : ServerEvent) : (Stream.record t e).Ended = t.Ended := by
  unfold Stream.record
  split <;> rfl

theorem addMessage_Ended (t : Turn) (m : Option MessageEvent) :
    (t.addMessage m).Ended = t.Ended := by
  cases m with
  | none => rfl
  | some m =>
    cases hm : m.msg <;> cases hp : m.IsPartial <;>
      simp [Turn.addMessage, messageKind, MessageEvent.GetStreamEvent, MessageEvent.GetResult,
        hm, hp, messageKindUser, messageKindAssistant, messageKindSystem, messageKindResult,
        messageKindStreamEvent]

theorem runLoop_open_turn_closed (events : List ServerEvent)
    (hno : ∀ e ∈ events, isTurnEnd e = false) :
    ∀ (t : Turn) (ps : List MessageEvent), t.Ended = false →
      ∃ t1 ps1, Stream.runLoop (some t) ps (thenClosed events) =
          { partials := ps1, done := some { Turn := some t1 }, err := none, returned := true } ∧
        t1.Ended = false := by
  induction events with
  | nil =>
    intro t ps ht
    exact ⟨t, ps, rfl, ht⟩
  | cons e rest ih =>
    intro t ps ht
    have hrest : ∀ e ∈ rest, isTurnEnd e = false := fun x hx => hno x (List.mem_cons_of_mem _ hx)
    have he : isTurnEnd e = false := hno e (List.mem_cons_self _ _)
    have hrec : (Stream.record t e).Ended = false := by rw [record_Ended]; exact ht
    replace ih := ih hrest
    simp only [thenClosed, List.map_cons, List.cons_append, Stream.runLoop]
    cases hpay : e.Payload with
    | turn tb =>
      cases tb with
      | none => exact ih _ ps hrec
      | some tb =>
        cases hk : tb.Kind with
        | UNSPECIFIED => simpa [hk] using ih _ ps hrec
        | TURN_BEGIN => simpa [hk] using ih _ ps (by simpa using hrec)
        | TURN_END => simp [isTurnEnd, hpay, hk] at he
    | message m =>
      cases m with
      | none => exact ih _ ps hrec
      | some m => exact ih _ _ (by rw [addMessage_Ended]; exact hrec)
    | stderrLine l =>
      cases l with
      | none => exact ih _ ps hrec
      | some l => exact ih _ ps (by simpa using hrec)
    | error x =>
      cases x with
      | none => exact ih _ ps hrec
      | some x => exact ih _ ps (by simpa using hrec)
    | unset => exact ih _ ps hrec
    | sessionInit => exact ih _ ps hrec
    | sessionClosed r => exact ih _ ps hrec
    | toolRequest r => exact ih _ ps hrec
    | hookRequest r => exact ih _ ps hrec
    | permissionRequest r => exact ih _ ps hrec


theorem runLoop_skip (e : ServerEvent) (h : e.TurnId = "") (ps : List MessageEvent)
    (rest : List StreamInput) :
    Stream.runLoop none ps (.event e :: rest) = Stream.runLoop none ps rest := by
  simp [Stream.runLoop, h]

theorem runLoop_start (e : ServerEvent) (h : e.TurnId ≠ "") (ps : List MessageEvent)
    (rest : List StreamInput) :
    Stream.runLoop none ps (.event e :: rest) =
      Stream.runLoop (some (newTurn e.TurnId)) ps (.event e :: rest) := by
  simp [Stream.runLoop, h]

theorem runLoop_none_closed (events : List ServerEvent)
    (hno : ∀ e ∈ events, isTurnEnd e = false) (ps : List MessageEvent) :
    (Stream.runLoop none ps (thenClosed events)).returned = true ∧
      ((∀ e ∈ events, e.TurnId = "") →
        (Stream.runLoop none ps (thenClosed events)).err = some .EOF ∧
        (Stream.runLoop none ps (thenClosed events)).done = none) ∧
      ((∃ e ∈ events, e.TurnId ≠ "") →
        (Stream.runLoop none ps (thenClosed events)).err = none ∧
        ∃ t, (Stream.runLoop none ps (thenClosed events)).done = some { Turn := some t } ∧
          t.Ended = false) := by
  induction events with
  | nil =>
    refine ⟨rfl, fun _ => ⟨rfl, rfl⟩, ?_⟩
    rintro ⟨e, he, _⟩
    cases he
  | cons e rest ih =>
    by_cases hid : e.TurnId = ""
    · have hstep : Stream.runLoop none ps (thenClosed (e :: rest)) =
          Stream.runLoop none ps (thenClosed rest) := runLoop_skip e hid ps _
      rw [hstep]
      obtain ⟨h1, h2, h3⟩ := ih (fun x hx => hno x (List.mem_cons_of_mem _ hx))
      refine ⟨h1, fun hall => h2 (fun x hx => hall x (List.mem_cons_of_mem _ hx)), ?_⟩
      rintro ⟨x, hx, hxid⟩
      rcases List.mem_cons.mp hx with rfl | hx
      · exact absurd hid hxid
      · exact h3 ⟨x, hx, hxid⟩
    · have hstep : Stream.runLoop none ps (thenClosed (e :: rest)) =
          Stream.runLoop (some (newTurn e.TurnId)) ps (thenClosed (e :: rest)) :=
        runLoop_start e hid ps _
      rw [hstep]
      obtain ⟨t1, ps1, hrun, hend⟩ :=
        runLoop_open_turn_closed (e :: rest) hno (newTurn e.TurnId) ps rfl
      rw [hrun]
      refine ⟨rfl, ?_, fun _ => ⟨rfl, t1, rfl, hend⟩⟩
      intro hall
      exact absurd (hall e (List.mem_cons_self _ _)) hid

/-! ## Subscriptions and the heap (event_mux.go) -/

theorem updateAt_length (f : subscription → subscription) (subs : List subscription) (i : Nat) :
    (updateAt f subs i).length = subs.length := by
  induction subs generalizing i with
  | nil => rfl
  | cons s rest ih =>
    cases i with
    | zero => rfl
    | succ i => simp [updateAt, ih]

theorem updateAt_get_self (f : subscription → subscription) (subs : List subscription)
    (i : Nat) : (updateAt f subs i)[i]? = (subs[i]?).map f := by
  induction subs generalizing i with
  | nil => rfl
  | cons s rest ih =>
    cases i with
    | zero => simp [updateAt]
    | succ i => simpa [updateAt] using ih i

theorem updateAt_get_ne (f : subscription → subscription) (subs : List subscription)
    (i j : Nat) (h : j ≠ i) : (updateAt f subs i)[j]? = subs[j]? := by
  induction subs generalizing i j with
  | nil => rfl
  | cons s rest ih =>
    cases i with
    | zero =>
      cases j with
      | zero => exact absurd rfl h
      | succ j => simp [updateAt]
    | succ i =>
      cases j with
      | zero => simp [updateAt]
      | succ j => simpa [updateAt] using ih i j (fun hji => h (by rw [hji]))

/-- Applying `f` to the heap objects `ids` in turn applies it to each object as
many times as the object occurs in `ids`. -/
theorem foldl_updateAt_get (f : subscription → subscription) (ids : List Nat)
    (subs : List subscription) (j : Nat) :
    (ids.foldl (fun acc i => updateAt f acc i) subs)[j]? = (subs[j]?).map (f^[ids.count j]) := by
  induction ids generalizing subs with
  | nil => simp
  | cons i rest ih =>
    rw [List.foldl_cons, ih]
    by_cases h : j = i
    · subst h
      rw [updateAt_get_self, List.count_cons_self, Function.iterate_succ]
      cases subs[j]? <;> rfl
    · rw [updateAt_get_ne f subs i j h, List.count_cons_of_ne (fun hij => h hij)]

theorem foldl_updateAt_length (f : subscription → subscription) (ids : List Nat)
    (subs : List subscription) :
    (ids.foldl (fun acc i => updateAt f acc i) subs).length = subs.length := by
  induction ids generalizing subs with
  | nil => rfl
  | cons i rest ih => rw [List.foldl_cons, ih, updateAt_length]


theorem Enqueue_closed (s : subscription) (e : ServerEvent) (h : s.queue.closed = true) :
    s.Enqueue e = s := by
  simp [subscription.Enqueue, eventQueue.Push, h]

theorem Enqueue_open (s : subscription) (e : ServerEvent) (h : s.queue.closed = false) :
    (s.Enqueue e).enqueued = s.enqueued ++ [e] ∧ (s.Enqueue e).queue.closed = false ∧
      (s.Enqueue e).once = s.once := by
  simp [subscription.Enqueue, eventQueue.Push, h, subscription.enqueued]

theorem Close_enqueued (s : subscription) : s.Close.enqueued = s.enqueued := by
  unfold subscription.Close
  split <;> rfl

theorem Close_closed_of_closed (s : subscription) (h : s.queue.closed = true) :
    s.Close.queue.closed = true := by
  unfold subscription.Close
  split
  · exact h
  · rfl

theorem Close_closed_of_once (s : subscription) (h : s.once = false) :
    s.Close.queue.closed = true := by
  simp [subscription.Close, h, eventQueue.Close]

theorem run_enqueued (s : subscription) : s.run.enqueued = s.enqueued := by
  unfold subscription.run
  split
  · rfl
  · cases hq : s.queue.items with
    | nil =>
      cases hc : s.queue.closed <;> simp [eventQueue.Pop, hq, hc, subscription.enqueued]
    | cons x rest => simp [eventQueue.Pop, hq, subscription.enqueued]

theorem run_closed (s : subscription) : s.run.queue.closed = s.queue.closed := by
  unfold subscription.run
  split
  · rfl
  · cases hq : s.queue.items with
    | nil => cases hc : s.queue.closed <;> simp [eventQueue.Pop, hq, hc]
    | cons x rest => simp [eventQueue.Pop, hq]

theorem run_once (s : subscription) : s.run.once = s.once := by
  unfold subscription.run
  split
  · rfl
  · cases hq : s.queue.items with
    | nil => cases hc : s.queue.closed <;> simp [eventQueue.Pop, hq, hc]
    | cons x rest => simp [eventQueue.Pop, hq]

theorem Frozen.Enqueue {L : List ServerEvent} {s : subscription} (h : Frozen L s)
    (e : ServerEvent) : Frozen L (s.Enqueue e) := by
  rw [Enqueue_closed s e h.1]; exact h

theorem Frozen.Close {L : List ServerEvent} {s : subscription} (h : Frozen L s) :
    Frozen L s.Close :=
  ⟨Close_closed_of_closed s h.1, by rw [Close_enqueued]; exact h.2⟩

theorem Frozen.run {L : List ServerEvent} {s : subscription} (h : Frozen L s) :
    Frozen L s.run :=
  ⟨by rw [run_closed]; exact h.1, by rw [run_enqueued]; exact h.2⟩

theorem iterate_preserves {P : subscription → Prop} {f : subscription → subscription}
    (hf : ∀ s, P s → P (f s)) (n : Nat) (s : subscription) (h : P s) : P (f^[n] s) := by
  induction n generalizing s with
  | zero => exact h
  | succ n ih => exact ih (f s) (hf s h)

theorem get_append_of_some {subs : List subscription} {j : Nat} {s : subscription}
    (h : subs[j]? = some s) (l : List subscription) : (subs ++ l)[j]? = some s := by
  have hj : j < subs.length := by
    by_contra hlt
    rw [List.getElem?_eq_none (Nat.le_of_not_lt hlt)] at h
    cases h
  rw [List.getElem?_append_left hj]
  exact h

theorem updateAt_preserves {P : subscription → Prop} {f : subscription → subscription}
    (hf : ∀ s, P s → P (f s)) {subs : List subscription} {j : Nat}
    (h : ∃ s, subs[j]? = some s ∧ P s) (i : Nat) :
    ∃ s, (updateAt f subs i)[j]? = some s ∧ P s := by
  obtain ⟨s, hs, hP⟩ := h
  by_cases hji : j = i
  · subst hji
    exact ⟨f s, by rw [updateAt_get_self, hs]; rfl, hf s hP⟩
  · exact ⟨s, by rw [updateAt_get_ne f subs i j hji, hs], hP⟩

theorem foldl_updateAt_preserves {P : subscription → Prop} {f : subscription → subscription}
    (hf : ∀ s, P s → P (f s)) {subs : List subscription} {j : Nat}
    (h : ∃ s, subs[j]? = some s ∧ P s) (ids : List Nat) :
    ∃ s, (ids.foldl (fun acc i => updateAt f acc i) subs)[j]? = some s ∧ P s := by
  obtain ⟨s, hs, hP⟩ := h
  exact ⟨f^[ids.count j] s, by rw [foldl_updateAt_get, hs]; rfl, iterate_preserves hf _ s hP⟩

theorem foldl_updateAt_preserves_mem {P : subscription → Prop} {f : subscription → subscription}
    {subs : List subscription} {j : Nat} (ids : List Nat)
    (hf : j ∈ ids → ∀ s, P s → P (f s))
    (h : ∃ s, subs[j]? = some s ∧ P s) :
    ∃ s, (ids.foldl (fun acc i => updateAt f acc i) subs)[j]? = some s ∧ P s := by
  by_cases hj : j ∈ ids
  · exact foldl_updateAt_preserves (hf hj) h ids
  · obtain ⟨s, hs, hP⟩ := h
    refine ⟨s, ?_, hP⟩
    rw [foldl_updateAt_get, hs, List.count_eq_zero_of_not_mem hj]
    rfl

/-- A property of subscriptions that `Close` and the pump keep, and that
`Enqueue` keeps for the events routed to the subscription, holds of a heap
object after any action, once it holds of it. -/
theorem step_preserves_routed {P : subscription → Prop} (m : eventMux) (op : MuxOp) (j : Nat)
    (hE : ∀ e s, j ∈ m.subscriptionsFor e → P s → P (s.Enqueue e))
    (hC : ∀ s, P s → P s.Close) (hR : ∀ s, P s → P s.run)
    (h : ∃ s, m.sub j = some s ∧ P s) : ∃ s, (m.step op).sub j = some s ∧ P s := by
  unfold eventMux.sub at *
  cases op with
  | subscribeAll =>
    obtain ⟨s, hs, hP⟩ := h
    refine ⟨s, ?_, hP⟩
    simp only [eventMux.step, eventMux.SubscribeAll]
    split <;> exact get_append_of_some hs _
  | subscribeRequest r =>
    obtain ⟨s, hs, hP⟩ := h
    refine ⟨s, ?_, hP⟩
    simp only [eventMux.step, eventMux.SubscribeRequest]
    split <;> exact get_append_of_some hs _
  | unsubscribeRequest r sub =>
    simp only [eventMux.step, eventMux.UnsubscribeRequest]
    cases sub with
    | none => exact h
    | some i =>
      simp only
      split
      · exact h
      · exact updateAt_preserves hC h i
  | enqueue e => exact h
  | close => exact h
  | run =>
    simp only [eventMux.step, eventMux.run]
    split
    · exact h
    · split
      · exact h
      · simp only [eventMux.closeAll]
        split
        · exact h
        · exact foldl_updateAt_preserves hC h _
      · rename_i q event _
        simp only [eventMux.process]
        have h1 := foldl_updateAt_preserves_mem (f := fun s => s.Enqueue event)
          (eventMux.subscriptionsFor { m with queue := q } event)
          (fun hj s hs => hE event s hj hs) h
        split
        · simp only [eventMux.closeRequest]
          split
          · exact h1
          · exact foldl_updateAt_preserves hC h1 _
        · exact h1
  | pump i => exact updateAt_preserves hR h i

theorem step_preserves {P : subscription → Prop}
    (hE : ∀ e s, P s → P (s.Enqueue e)) (hC : ∀ s, P s → P s.Close)
    (hR : ∀ s, P s → P s.run) (m : eventMux) (op : MuxOp) (j : Nat)
    (h : ∃ s, m.sub j = some s ∧ P s) : ∃ s, (m.step op).sub j = some s ∧ P s :=
  step_preserves_routed m op j (fun e s _ hs => hE e s hs) hC hR h

theorem steps_preserves {P : subscription → Prop}
    (hE : ∀ e s, P s → P (s.Enqueue e)) (hC : ∀ s, P s → P s.Close)
    (hR : ∀ s, P s → P s.run) (ops : List MuxOp) (m : eventMux) (j : Nat)
    (h : ∃ s, m.sub j = some s ∧ P s) : ∃ s, (m.steps ops).sub j = some s ∧ P s := by
  induction ops generalizing m with
  | nil => exact h
  | cons op rest ih =>
    exact ih (m.step op) (step_preserves hE hC hR m op j h)

/-- A closed subscription is enqueued nothing more, whatever happens next. -/
theorem steps_frozen (ops : List MuxOp) (m : eventMux) (j : Nat) (L : List ServerEvent)
    (h : ∃ s, m.sub j = some s ∧ Frozen L s) :
    (m.steps ops).enqueuedTo j = L ∧ (m.steps ops).isClosed j := by
  obtain ⟨s, hs, hF⟩ := steps_preserves (P := Frozen L) (fun e s h => h.Enqueue e)
    (fun s h => h.Close) (fun s h => h.run) ops m j h
  exact ⟨by simp [eventMux.enqueuedTo, hs, hF.2], s, hs, hF.1⟩

/-! ## The registry of the multiplexer -/

theorem getD_set {β : Type} (b : GoMap (List β)) (k k' : String) (l : List β) :
    ((GoMap.set b k l).get k').getD [] = if k' = k then l else (b.get k').getD [] := by
  by_cases h : k' = k
  · subst h
    simp [GoMap.get_set_self]
  · simp [GoMap.get_set_ne b k k' l h, h]

theorem getD_delete {β : Type} (b : GoMap (List β)) (k k' : String) :
    ((GoMap.delete b k).get k').getD [] = if k' = k then [] else (b.get k').getD [] := by
  by_cases h : k' = k
  · subst h
    simp [GoMap.get_delete_self]
  · simp [GoMap.get_delete_ne b k k' h, h]

/-- What an action may do to the registry and to the size of the heap: a
pointer found in the registry afterwards was there before, or is the pointer
of the one subscription the action allocated. -/
theorem step_registry (m : eventMux) (op : MuxOp) :
    (∀ x ∈ (m.step op).global,
        x ∈ m.global ∨ (x = m.subs.length ∧ (m.step op).subs.length = m.subs.length + 1)) ∧
      (∀ k, ∀ x ∈ (m.step op).requestSubs k,
        x ∈ m.requestSubs k ∨
          (x = m.subs.length ∧ (m.step op).subs.length = m.subs.length + 1)) ∧
      m.subs.length ≤ (m.step op).subs.length := by
  cases op with
  | subscribeAll =>
    simp only [eventMux.step, eventMux.SubscribeAll]
    split
    · exact ⟨fun x hx => Or.inl hx, fun k x hx => Or.inl hx, by simp⟩
    · refine ⟨fun x hx => ?_, fun k x hx => Or.inl hx, by simp⟩
      rcases List.mem_append.mp hx with h | h
      · exact Or.inl h
      · exact Or.inr ⟨by simpa using h, by simp⟩
  | subscribeRequest r =>
    simp only [eventMux.step, eventMux.SubscribeRequest]
    split
    · exact ⟨fun x hx => Or.inl hx, fun k x hx => Or.inl hx, by simp⟩
    · refine ⟨fun x hx => Or.inl hx, fun k x hx => ?_, by simp⟩
      simp only [eventMux.requestSubs, getD_set] at hx
      split at hx
      · rename_i hk
        subst hk
        rcases List.mem_append.mp hx with h | h
        · exact Or.inl h
        · exact Or.inr ⟨by simpa using h, by simp⟩
      · exact Or.inl hx
  | unsubscribeRequest r sub =>
    simp only [eventMux.step, eventMux.UnsubscribeRequest]
    cases sub with
    | none => exact ⟨fun x hx => Or.inl hx, fun k x hx => Or.inl hx, le_refl _⟩
    | some i =>
      simp only
      split
      · exact ⟨fun x hx => Or.inl hx, fun k x hx => Or.inl hx, le_refl _⟩
      · refine ⟨fun x hx => Or.inl hx, fun k x hx => Or.inl ?_, by simp [updateAt_length]⟩
        simp only [eventMux.requestSubs] at hx ⊢
        split at hx
        · rw [getD_delete] at hx
          split at hx
          · cases hx
          · exact hx
        · rw [getD_set] at hx
          split at hx
          · rename_i hk
            subst hk
            exact List.mem_of_mem_erase hx
          · exact hx
  | enqueue e => exact ⟨fun x hx => Or.inl hx, fun k x hx => Or.inl hx, le_refl _⟩
  | close => exact ⟨fun x hx => Or.inl hx, fun k x hx => Or.inl hx, le_refl _⟩
  | run =>
    simp only [eventMux.step, eventMux.run]
    split
    · exact ⟨fun x hx => Or.inl hx, fun k x hx => Or.inl hx, le_refl _⟩
    · split
      · exact ⟨fun x hx => Or.inl hx, fun k x hx => Or.inl hx, le_refl _⟩
      · simp only [eventMux.closeAll]
        split
        · exact ⟨fun x hx => Or.inl hx, fun k x hx => Or.inl hx, le_refl _⟩
        · refine ⟨fun x hx => (by cases hx), fun k x hx => ?_, ?_⟩
          · simp [eventMux.requestSubs, GoMap.get] at hx
          · simp [closeEach, foldl_updateAt_length]
      · rename_i q event _
        simp only [eventMux.process]
        split
        · simp only [eventMux.closeRequest]
          split
          · exact ⟨fun x hx => Or.inl hx, fun k x hx => Or.inl hx,
              by simp [enqueueEach, foldl_updateAt_length]⟩
          · refine ⟨fun x hx => Or.inl hx, fun k x hx => Or.inl ?_,
              by simp [closeEach, enqueueEach, foldl_updateAt_length]⟩
            simp only [eventMux.requestSubs, getD_delete] at hx ⊢
            split at hx
            · cases hx
            · exact hx
        · exact ⟨fun x hx => Or.inl hx, fun k x hx => Or.inl hx,
            by simp [enqueueEach, foldl_updateAt_length]⟩
  | pump i =>
    exact ⟨fun x hx => Or.inl hx, fun k x hx => Or.inl hx, by simp [eventMux.step, updateAt_length]⟩

theorem Valid_newEventMux : newEventMux.Valid :=
  ⟨fun x hx => (by cases hx),
    fun k x hx => (by simp [eventMux.requestSubs, newEventMux, GoMap.get] at hx)⟩

theorem Valid_step (m : eventMux) (op : MuxOp) (h : m.Valid) : (m.step op).Valid := by
  obtain ⟨hg, hr, hlen⟩ := step_registry m op
  refine ⟨fun x hx => ?_, fun k x hx => ?_⟩
  · rcases hg x hx with h1 | ⟨h1, h2⟩
    · exact lt_of_lt_of_le (h.1 x h1) hlen
    · omega
  · rcases hr k x hx with h1 | ⟨h1, h2⟩
    · exact lt_of_lt_of_le (h.2 k x h1) hlen
    · omega

theorem Valid_steps (ops : List MuxOp) (m : eventMux) (h : m.Valid) : (m.steps ops).Valid := by
  induction ops generalizing m with
  | nil => exact h
  | cons op rest ih => exact ih (m.step op) (Valid_step m op h)

theorem sub_of_lt (m : eventMux) (j : Nat) (h : j < m.subs.length) :
    ∃ s, m.sub j = some s := by
  exact ⟨m.subs[j], by simp [eventMux.sub, List.getElem?_eq_getElem h]⟩

theorem mem_subscriptionsFor (m : eventMux) (e : ServerEvent) (j : Nat)
    (h : j ∈ m.subscriptionsFor e) :
    j ∈ m.global ∨ (e.RequestId ≠ "" ∧ j ∈ m.requestSubs e.RequestId) := by
  unfold eventMux.subscriptionsFor at h
  split at h
  · exact Or.inl h
  · rename_i hne
    rcases List.mem_append.mp h with h1 | h1
    · exact Or.inl h1
    · exact Or.inr ⟨hne, h1⟩

theorem Scoped_step (m : eventMux) (op : MuxOp) (sub : Nat) (A : String)
    (h : m.Scoped sub A) : (m.step op).Scoped sub A := by
  obtain ⟨hlt, hglob, hkey, htag⟩ := h
  obtain ⟨hg, hr, hlen⟩ := step_registry m op
  refine ⟨lt_of_lt_of_le hlt hlen, fun hx => ?_, fun k hx => ?_, ?_⟩
  · rcases hg sub hx with h1 | ⟨h1, _⟩
    · exact hglob h1
    · omega
  · rcases hr k sub hx with h1 | ⟨h1, _⟩
    · exact hkey k h1
    · omega
  · obtain ⟨s, hs⟩ := sub_of_lt m sub hlt
    have hP : ∀ e ∈ s.enqueued, e.RequestId = A ∧ e.RequestId ≠ "" := by
      simpa [eventMux.enqueuedTo, hs] using htag
    obtain ⟨s1, hs1, hP1⟩ := step_preserves_routed
      (P := fun s => ∀ e ∈ s.enqueued, e.RequestId = A ∧ e.RequestId ≠ "") m op sub
      (by
        intro e s0 hmem h0
        rcases mem_subscriptionsFor m e sub hmem with h1 | ⟨hne, h1⟩
        · exact absurd h1 hglob
        · have hA : e.RequestId = A := hkey _ h1
          cases hc : s0.queue.closed with
          | true => rw [Enqueue_closed s0 e hc]; exact h0
          | false =>
            rw [(Enqueue_open s0 e hc).1]
            intro x hx
            rcases List.mem_append.mp hx with h2 | h2
            · exact h0 x h2
            · have hxe : x = e := by simpa using h2
              subst hxe
              exact ⟨hA, hne⟩)
      (by intro s0 h0; rw [Close_enqueued]; exact h0)
      (by intro s0 h0; rw [run_enqueued]; exact h0)
      ⟨s, hs, hP⟩
    simpa [eventMux.enqueuedTo, hs1] using hP1

theorem Scoped_steps (ops : List MuxOp) (m : eventMux) (sub : Nat) (A : String)
    (h : m.Scoped sub A) : (m.steps ops).Scoped sub A := by
  induction ops generalizing m with
  | nil => exact h
  | cons op rest ih => exact ih (m.step op) (Scoped_step m op sub A h)

theorem requestSubs_SubscribeRequest (m : eventMux) (A k : String) :
    (m.SubscribeRequest A).1.requestSubs k =
      if m.closed = false ∧ k = A then m.requestSubs A ++ [m.subs.length]
      else m.requestSubs k := by
  unfold eventMux.SubscribeRequest
  cases hc : m.closed with
  | true => simp [eventMux.requestSubs]
  | false =>
    have h := getD_set m.byRequest A k (m.requestSubs A ++ [m.subs.length])
    by_cases hk : k = A
    · subst hk
      simpa [eventMux.requestSubs] using h
    · simpa [eventMux.requestSubs, hk] using h

theorem sub_SubscribeRequest (m : eventMux) (A : String) :
    (m.SubscribeRequest A).1.sub m.subs.length =
      some (if m.closed then newSubscription.Close else newSubscription) := by
  unfold eventMux.SubscribeRequest eventMux.sub
  cases hc : m.closed <;> simp

theorem Scoped_SubscribeRequest (m : eventMux) (A : String) (h : m.Valid) :
    (m.SubscribeRequest A).1.Scoped (m.SubscribeRequest A).2 A := by
  have hid : (m.SubscribeRequest A).2 = m.subs.length := by
    unfold eventMux.SubscribeRequest; split <;> rfl
  have hlen : (m.SubscribeRequest A).1.subs.length = m.subs.length + 1 := by
    unfold eventMux.SubscribeRequest; split <;> simp
  have hglob : (m.SubscribeRequest A).1.global = m.global := by
    unfold eventMux.SubscribeRequest; split <;> rfl
  rw [hid]
  refine ⟨by omega, fun hx => ?_, fun k hx => ?_, ?_⟩
  · rw [hglob] at hx
    exact absurd (h.1 _ hx) (lt_irrefl _)
  · rw [requestSubs_SubscribeRequest] at hx
    split at hx
    · rename_i hk; exact hk.2
    · exact absurd (h.2 k _ hx) (lt_irrefl _)
  · intro e he
    simp only [eventMux.enqueuedTo, sub_SubscribeRequest] at he
    split at he <;> simp [newSubscription, subscription.Close, subscription.enqueued,
      newEventQueue, eventQueue.Close] at he

theorem isOpen_lt {m : eventMux} {x : Nat} (h : m.isOpen x) : x < m.subs.length := by
  obtain ⟨s, hs, _⟩ := h
  by_contra hlt
  simp [eventMux.sub, List.getElem?_eq_none (Nat.le_of_not_lt hlt)] at hs

theorem WF_newEventMux : newEventMux.WF where
  global_nodup := List.nodup_nil
  request_nodup := fun k => by simp [eventMux.requestSubs, newEventMux, GoMap.get]
  request_global := fun k x hx => by simp [eventMux.requestSubs, newEventMux, GoMap.get] at hx
  request_key := fun k1 k2 x hx => by simp [eventMux.requestSubs, newEventMux, GoMap.get] at hx
  global_open := fun x hx => by cases hx
  request_open := fun k x hx => by simp [eventMux.requestSubs, newEventMux, GoMap.get] at hx
  closed_empty := fun h => by simp [newEventMux] at h

/-- The subscription behind a pointer after the multiplexer has processed an
event: enqueued the event once per occurrence among the recipients, then
closed once per occurrence in the evicted list. -/
theorem process_sub (m : eventMux) (e : ServerEvent) (j : Nat) :
    (m.process e).sub j = (m.sub j).map (fun s =>
      subscription.Close^[if isTurnEnd e = true ∧ e.RequestId ≠ ""
          then (m.requestSubs e.RequestId).count j else 0]
        ((fun s => s.Enqueue e)^[(m.subscriptionsFor e).count j] s)) := by
  unfold eventMux.process eventMux.sub
  by_cases hend : isTurnEnd e = true
  · by_cases hr : e.RequestId = ""
    · simp only [hend, if_true, eventMux.closeRequest, hr, enqueueEach, foldl_updateAt_get]
      cases m.subs[j]? <;> simp
    · simp only [hend, if_true, eventMux.closeRequest, hr, if_false, closeEach, enqueueEach,
        foldl_updateAt_get, eventMux.requestSubs]
      cases m.subs[j]? <;> simp [hr]
  · have hend1 : isTurnEnd e = false := by simpa using hend
    simp only [hend1, Bool.false_eq_true, if_false, false_and, enqueueEach, foldl_updateAt_get]
    cases m.subs[j]? <;> simp

theorem process_global (m : eventMux) (e : ServerEvent) : (m.process e).global = m.global := by
  unfold eventMux.process eventMux.closeRequest
  split
  · split <;> rfl
  · rfl

theorem process_closed (m : eventMux) (e : ServerEvent) : (m.process e).closed = m.closed := by
  unfold eventMux.process eventMux.closeRequest
  split
  · split <;> rfl
  · rfl

theorem process_requestSubs (m : eventMux) (e : ServerEvent) (k : String) :
    (m.process e).requestSubs k =
      if isTurnEnd e = true ∧ e.RequestId ≠ "" ∧ k = e.RequestId then []
      else m.requestSubs k := by
  unfold eventMux.process
  by_cases hend : isTurnEnd e = true
  · by_cases hr : e.RequestId = ""
    · simp [hend, eventMux.closeRequest, hr, eventMux.requestSubs]
    · have h := getD_delete m.byRequest e.RequestId k
      by_cases hk : k = e.RequestId
      · simpa [hend, eventMux.closeRequest, hr, eventMux.requestSubs, hk] using h
      · simpa [hend, eventMux.closeRequest, hr, eventMux.requestSubs, hk] using h
  · simp [hend, eventMux.requestSubs]

/-- One iteration of `run` on an open multiplexer whose queue has the event at
its head processes that event. -/
theorem run_eq_process (m : eventMux) (e : ServerEvent) (rest : List ServerEvent)
    (hopen : m.closed = false) (hhead : m.queue.items = e :: rest) :
    m.run = eventMux.process { m with queue := { m.queue with items := rest } } e := by
  simp [eventMux.run, hopen, eventQueue.Pop, hhead]

theorem process_turn_end (m : eventMux) (hwf : m.WF) (A : String) (hA : A ≠ "") (j : Nat)
    (hreg : j ∈ m.requestSubs A) (e : ServerEvent) (hend : isTurnEnd e = true)
    (htag : e.RequestId = A) :
    (∃ s, (m.process e).sub j = some s ∧ Frozen (m.enqueuedTo j ++ [e]) s) ∧
      j ∉ (m.process e).global ∧ ∀ k, j ∉ (m.process e).requestSubs k := by
  subst htag
  have hglob : j ∉ m.global := hwf.request_global _ j hreg
  obtain ⟨s, hs, hclosed, honce⟩ := hwf.request_open _ j hreg
  have hc2 : (m.requestSubs e.RequestId).count j = 1 :=
    List.count_eq_one_of_mem (hwf.request_nodup _) hreg
  have hc1 : (m.subscriptionsFor e).count j = 1 := by
    simp [eventMux.subscriptionsFor, hA, List.count_append, hc2,
      List.count_eq_zero_of_not_mem hglob]
  refine ⟨?_, ?_, ?_⟩
  · refine ⟨(s.Enqueue e).Close, ?_, ?_, ?_⟩
    · rw [process_sub, hs]
      simp [hend, hA, hc1, hc2]
    · exact Close_closed_of_once _ (by rw [(Enqueue_open s e hclosed).2.2]; exact honce)
    · rw [Close_enqueued, (Enqueue_open s e hclosed).1]
      simp [eventMux.enqueuedTo, hs]
  · rw [process_global]; exact hglob
  · intro k hk
    rw [process_requestSubs] at hk
    split at hk
    · cases hk
    · rename_i hne
      have hkA : k = e.RequestId := hwf.request_key _ _ j hk hreg
      exact hne ⟨hend, hA, hkA⟩

theorem WF_queue (m : eventMux) (q : eventQueue) (h : m.WF) : eventMux.WF { m with queue := q } :=
  ⟨h.1, h.2, h.3, h.4, h.5, h.6, h.7⟩

theorem get_mem {β : Type} (b : GoMap β) (k : String) (v : β) (h : b.get k = some v) :
    (k, v) ∈ b := by
  induction b with
  | nil => cases h
  | cons kv rest ih =>
    obtain ⟨k0, v0⟩ := kv
    by_cases hk : k0 = k
    · subst hk
      simp [GoMap.get] at h
      subst h
      exact List.mem_cons_self _ _
    · simp [GoMap.get, hk] at h
      exact List.mem_cons_of_mem _ (ih h)

theorem mem_requestSubs_entry (m : eventMux) (k : String) (x : Nat)
    (h : x ∈ m.requestSubs k) : ∃ kv ∈ m.byRequest, kv.1 = k ∧ x ∈ kv.2 := by
  unfold eventMux.requestSubs at h
  cases hg : m.byRequest.get k with
  | none => simp [hg] at h
  | some l =>
    rw [hg] at h
    exact ⟨(k, l), get_mem _ _ _ hg, rfl, h⟩

theorem ok_unsubscribe (m : eventMux) (r : String) (i : Nat) (hr : r ≠ "")
    (h : (MuxOp.unsubscribeRequest r (some i)).ok m = true) :
    i ∉ m.global ∧ ∀ k, i ∈ m.requestSubs k → k = r := by
  simp only [MuxOp.ok, hr, decide_False, Bool.false_or, Bool.and_eq_true, Bool.not_eq_true',
    List.all_eq_true, Bool.or_eq_true, decide_eq_true_eq] at h
  refine ⟨by simpa using h.1, fun k hk => ?_⟩
  obtain ⟨kv, hkv, hk1, hk2⟩ := mem_requestSubs_entry m k i hk
  rcases h.2 kv hkv with h1 | h1
  · simp [hk2] at h1
  · rw [← hk1]; exact h1

theorem isOpen_of_sub_eq {m m1 : eventMux} {x : Nat} (h : m1.sub x = m.sub x)
    (ho : m.isOpen x) : m1.isOpen x := by
  obtain ⟨s, hs, h1, h2⟩ := ho
  exact ⟨s, by rw [h, hs], h1, h2⟩

theorem isOpen_append {m m1 : eventMux} {x : Nat} (l : List subscription)
    (h : m1.subs = m.subs ++ l) (ho : m.isOpen x) : m1.isOpen x := by
  obtain ⟨s, hs, h1, h2⟩ := ho
  refine ⟨s, ?_, h1, h2⟩
  unfold eventMux.sub at *
  rw [h]
  exact get_append_of_some hs l

theorem requestSubs_Unsubscribe (m : eventMux) (r : String) (i : Nat) (hr : r ≠ "")
    (k : String) :
    (m.UnsubscribeRequest r (some i)).requestSubs k =
      if k = r then (m.requestSubs r).erase i else m.requestSubs k := by
  simp only [eventMux.UnsubscribeRequest, hr, if_false, eventMux.requestSubs]
  split
  · rename_i hlen
    rw [getD_delete]
    by_cases hk : k = r
    · simp [hk, List.length_eq_zero.mp hlen]
    · simp [hk]
  · rw [getD_set]

theorem WF_process (m : eventMux) (e : ServerEvent) (h : m.WF) : (m.process e).WF := by
  have hsubset : ∀ k x, x ∈ (m.process e).requestSubs k → x ∈ m.requestSubs k := by
    intro k x hx
    rw [process_requestSubs] at hx
    split at hx
    · cases hx
    · exact hx
  have hopen : ∀ x, m.isOpen x →
      (isTurnEnd e = true ∧ e.RequestId ≠ "" → x ∉ m.requestSubs e.RequestId) →
      (m.process e).isOpen x := by
    intro x ⟨s, hs, h1, h2⟩ hnot
    have hcount : (if isTurnEnd e = true ∧ e.RequestId ≠ ""
        then (m.requestSubs e.RequestId).count x else 0) = 0 := by
      split
      · rename_i hc
        exact List.count_eq_zero_of_not_mem (hnot hc)
      · rfl
    refine ⟨(fun s => s.Enqueue e)^[(m.subscriptionsFor e).count x] s, ?_, ?_⟩
    · rw [process_sub, hs, hcount]; rfl
    · exact iterate_preserves (P := fun s => s.queue.closed = false ∧ s.once = false)
        (fun s0 h0 => ⟨(Enqueue_open s0 e h0.1).2.1, by rw [(Enqueue_open s0 e h0.1).2.2]; exact h0.2⟩)
        _ s ⟨h1, h2⟩
  refine ⟨?_, ?_, ?_, ?_, ?_, ?_, ?_⟩
  · rw [process_global]; exact h.global_nodup
  · intro k
    rw [process_requestSubs]
    split
    · exact List.nodup_nil
    · exact h.request_nodup k
  · intro k x hx
    rw [process_global]
    exact h.request_global k x (hsubset k x hx)
  · intro k1 k2 x h1 h2
    exact h.request_key k1 k2 x (hsubset _ _ h1) (hsubset _ _ h2)
  · intro x hx
    rw [process_global] at hx
    exact hopen x (h.global_open x hx) (fun _ hmem => h.request_global _ x hmem hx)
  · intro k x hx
    have hx0 := hsubset k x hx
    refine hopen x (h.request_open k x hx0) (fun hc hmem => ?_)
    have hk : k = e.RequestId := h.request_key _ _ x hx0 hmem
    rw [process_requestSubs] at hx
    simp [hc.1, hc.2, hk] at hx
  · intro hc
    rw [process_closed] at hc
    obtain ⟨hg, hr⟩ := h.closed_empty hc
    refine ⟨by rw [process_global]; exact hg, fun k => ?_⟩
    rw [process_requestSubs]
    split
    · rfl
    · exact hr k

theorem WF_closeAll (m : eventMux) (h : m.WF) : m.closeAll.WF := by
  unfold eventMux.closeAll
  split
  · exact h
  · refine ⟨List.nodup_nil, fun k => ?_, fun k x hx => ?_, fun k1 k2 x hx => ?_,
      fun x hx => (by cases hx), fun k x hx => ?_, fun _ => ⟨rfl, fun k => ?_⟩⟩ <;>
      simp [eventMux.requestSubs, GoMap.get] at *

theorem WF_SubscribeAll (m : eventMux) (h : m.WF) : m.SubscribeAll.1.WF := by
  unfold eventMux.SubscribeAll
  cases hc : m.closed with
  | true =>
    simp only [if_true]
    exact ⟨h.1, h.2, h.3, h.4, fun x hx => isOpen_append _ rfl (h.5 x hx),
      fun k x hx => isOpen_append _ rfl (h.6 k x hx), fun _ => h.7 hc⟩
  | false =>
    simp only [Bool.false_eq_true, if_false]
    have hnew : eventMux.isOpen
        { m with subs := m.subs ++ [newSubscription], global := m.global ++ [m.subs.length] }
        m.subs.length :=
      ⟨newSubscription, by simp [eventMux.sub], rfl, rfl⟩
    refine ⟨?_, h.2, ?_, h.4, ?_, fun k x hx => isOpen_append _ rfl (h.6 k x hx), ?_⟩
    · refine List.Nodup.append h.1 (List.nodup_singleton _) ?_
      intro x hx hx1
      have hlt := isOpen_lt (h.5 x hx)
      simp at hx1
      omega
    · intro k x hx hmem
      rcases List.mem_append.mp hmem with h1 | h1
      · exact h.3 k x hx h1
      · have hlt := isOpen_lt (h.6 k x hx)
        simp at h1
        omega
    · intro x hx
      rcases List.mem_append.mp hx with h1 | h1
      · exact isOpen_append _ rfl (h.5 x h1)
      · have hx1 : x = m.subs.length := by simpa using h1
        subst hx1
        exact hnew
    · intro hcl
      simp [hc] at hcl

theorem WF_SubscribeRequest (m : eventMux) (r : String) (h : m.WF) :
    (m.SubscribeRequest r).1.WF := by
  have hreq := requestSubs_SubscribeRequest m r
  have hglob : (m.SubscribeRequest r).1.global = m.global := by
    unfold eventMux.SubscribeRequest; split <;> rfl
  have hsubs : ∃ s, (m.SubscribeRequest r).1.subs = m.subs ++ [s] ∧
      (m.closed = false → s = newSubscription) := by
    unfold eventMux.SubscribeRequest
    cases hc : m.closed with
    | true => exact ⟨_, rfl, fun h => by cases h⟩
    | false => exact ⟨_, rfl, fun _ => rfl⟩
  have hclosed : (m.SubscribeRequest r).1.closed = m.closed := by
    unfold eventMux.SubscribeRequest; split <;> rfl
  obtain ⟨snew, hsnew, hsopen⟩ := hsubs
  have hold : ∀ x, m.isOpen x → (m.SubscribeRequest r).1.isOpen x :=
    fun x hx => isOpen_append _ hsnew hx
  have hfresh : ∀ k, m.subs.length ∉ m.requestSubs k :=
    fun k hmem => absurd (isOpen_lt (h.6 k _ hmem)) (lt_irrefl _)
  have hmem : ∀ k x, x ∈ (m.SubscribeRequest r).1.requestSubs k →
      x ∈ m.requestSubs k ∨ (m.closed = false ∧ k = r ∧ x = m.subs.length) := by
    intro k x hx
    rw [hreq] at hx
    split at hx
    · rename_i hc
      rcases List.mem_append.mp hx with h1 | h1
      · rw [hc.2]; exact Or.inl h1
      · exact Or.inr ⟨hc.1, hc.2, by simpa using h1⟩
    · exact Or.inl hx
  refine ⟨by rw [hglob]; exact h.1, ?_, ?_, ?_, ?_, ?_, ?_⟩
  · intro k
    rw [hreq]
    split
    · refine List.Nodup.append (h.2 r) (List.nodup_singleton _) ?_
      intro x hx hx1
      have hx2 : x = m.subs.length := by simpa using hx1
      subst hx2
      exact hfresh r hx
    · exact h.2 k
  · intro k x hx
    rw [hglob]
    rcases hmem k x hx with h1 | ⟨_, _, h1⟩
    · exact h.3 k x h1
    · intro hg
      have hlt := isOpen_lt (h.5 x hg)
      omega
  · intro k1 k2 x h1 h2
    rcases hmem k1 x h1 with a1 | ⟨_, a1, a2⟩ <;> rcases hmem k2 x h2 with b1 | ⟨_, b1, b2⟩
    · exact h.4 k1 k2 x a1 b1
    · subst b2; exact absurd a1 (hfresh k1)
    · subst a2; exact absurd b1 (hfresh k2)
    · rw [a1, b1]
  · intro x hx
    rw [hglob] at hx
    exact hold x (h.5 x hx)
  · intro k x hx
    rcases hmem k x hx with h1 | ⟨hc, _, h1⟩
    · exact hold x (h.6 k x h1)
    · subst h1
      refine ⟨snew, ?_, ?_, ?_⟩
      · simp [eventMux.sub, hsnew]
      · rw [hsopen hc]; rfl
      · rw [hsopen hc]; rfl
  · intro hcl
    rw [hclosed] at hcl
    obtain ⟨hg, hr⟩ := h.7 hcl
    refine ⟨by rw [hglob]; exact hg, fun k => ?_⟩
    rw [hreq]
    simp [hcl, hr k]

theorem WF_Unsubscribe (m : eventMux) (r : String) (sub : Option Nat) (h : m.WF)
    (hok : (MuxOp.unsubscribeRequest r sub).ok m = true) : (m.UnsubscribeRequest r sub).WF := by
  cases sub with
  | none => exact h
  | some i =>
    by_cases hr : r = ""
    · simp only [eventMux.UnsubscribeRequest, hr, if_true]; exact h
    · obtain ⟨hig, hikey⟩ := ok_unsubscribe m r i hr hok
      have hreq := requestSubs_Unsubscribe m r i hr
      have hglob : (m.UnsubscribeRequest r (some i)).global = m.global := by
        simp [eventMux.UnsubscribeRequest, hr]
      have hclosed : (m.UnsubscribeRequest r (some i)).closed = m.closed := by
        simp [eventMux.UnsubscribeRequest, hr]
      have hsub : ∀ x, x ≠ i → (m.UnsubscribeRequest r (some i)).sub x = m.sub x := by
        intro x hx
        simp only [eventMux.UnsubscribeRequest, hr, if_false, eventMux.sub]
        exact updateAt_get_ne _ _ _ _ hx
      have hmem : ∀ k x, x ∈ (m.UnsubscribeRequest r (some i)).requestSubs k →
          x ∈ m.requestSubs k ∧ x ≠ i := by
        intro k x hx
        rw [hreq] at hx
        split at hx
        · rename_i hk
          subst hk
          refine ⟨List.mem_of_mem_erase hx, fun hxi => ?_⟩
          subst hxi
          exact absurd hx ((h.2 k).not_mem_erase)
        · rename_i hk
          exact ⟨hx, fun hxi => hk (hikey k (hxi ▸ hx))⟩
      refine ⟨by rw [hglob]; exact h.1, ?_, ?_, ?_, ?_, ?_, ?_⟩
      · intro k
        rw [hreq]
        split
        · exact (h.2 r).erase i
        · exact h.2 k
      · intro k x hx
        rw [hglob]
        exact h.3 k x (hmem k x hx).1
      · intro k1 k2 x h1 h2
        exact h.4 k1 k2 x (hmem _ _ h1).1 (hmem _ _ h2).1
      · intro x hx
        rw [hglob] at hx
        exact isOpen_of_sub_eq (hsub x (fun hxi => hig (hxi ▸ hx))) (h.5 x hx)
      · intro k x hx
        exact isOpen_of_sub_eq (hsub x (hmem k x hx).2) (h.6 k x (hmem k x hx).1)
      · intro hcl
        rw [hclosed] at hcl
        obtain ⟨hg, hrq⟩ := h.7 hcl
        refine ⟨by rw [hglob]; exact hg, fun k => ?_⟩
        rw [hreq]
        split
        · simp [hrq r]
        · exact hrq k

theorem WF_run (m : eventMux) (h : m.WF) : m.run.WF := by
  unfold eventMux.run
  split
  · exact h
  · split
    · exact h
    · exact WF_closeAll m h
    · exact WF_process _ _ (WF_queue m _ h)

theorem WF_pump (m : eventMux) (i : Nat) (h : m.WF) :
    eventMux.WF { m with subs := updateAt subscription.run m.subs i } := by
  have hopen : ∀ x, m.isOpen x →
      eventMux.isOpen { m with subs := updateAt subscription.run m.subs i } x := by
    intro x ⟨s, hs, h1, h2⟩
    obtain ⟨s1, hs1, hP⟩ := updateAt_preserves
      (P := fun s => s.queue.closed = false ∧ s.once = false)
      (fun s0 h0 => ⟨by rw [run_closed]; exact h0.1, by rw [run_once]; exact h0.2⟩)
      ⟨s, hs, h1, h2⟩ i
    exact ⟨s1, hs1, hP.1, hP.2⟩
  exact ⟨h.1, h.2, h.3, h.4, fun x hx => hopen x (h.5 x hx),
    fun k x hx => hopen x (h.6 k x hx), h.7⟩

/-- The registry invariant is kept by every action called the way the client
calls it. -/
theorem WF_step (m : eventMux) (op : MuxOp) (h : m.WF) (hok : op.ok m = true) :
    (m.step op).WF := by
  cases op with
  | subscribeAll => exact WF_SubscribeAll m h
  | subscribeRequest r => exact WF_SubscribeRequest m r h
  | unsubscribeRequest r sub => exact WF_Unsubscribe m r sub h hok
  | enqueue e => exact WF_queue m _ h
  | close => exact WF_queue m _ h
  | run => exact WF_run m h
  | pump i => exact WF_pump m i h

theorem WF_steps (ops : List MuxOp) (m : eventMux) (h : m.WF) (hok : okFrom m ops = true) :
    (m.steps ops).WF := by
  induction ops generalizing m with
  | nil => exact h
  | cons op rest ih =>
    simp only [okFrom, Bool.and_eq_true] at hok
    exact ih (m.step op) (WF_step m op h hok.1) hok.2

theorem closed_false_of_registered (m : eventMux) (h : m.WF) (k : String) (x : Nat)
    (hx : x ∈ m.requestSubs k) : m.closed = false := by
  cases hc : m.closed with
  | false => rfl
  | true =>
    rw [(h.closed_empty hc).2 k] at hx
    cases hx

/-- The first event routed to a fresh subscription registered under the
request id of the event is all that has been enqueued to it afterwards. -/
theorem process_first_event (m : eventMux) (j : Nat) (e : ServerEvent) (A : String)
    (hA : A ≠ "") (htag : e.RequestId = A) (hsub : m.sub j = some newSubscription)
    (hg : j ∉ m.global) (hcount : (m.requestSubs A).count j = 1) :
    (m.process e).enqueuedTo j = [e] := by
  subst htag
  have hfor : (m.subscriptionsFor e).count j = 1 := by
    simp [eventMux.subscriptionsFor, hA, List.count_append, hcount,
      List.count_eq_zero_of_not_mem hg]
  have hclose : ∀ n (s : subscription), (subscription.Close^[n] s).enqueued = s.enqueued := by
    intro n s
    exact iterate_preserves (P := fun s1 => s1.enqueued = s.enqueued)
      (fun s0 h0 => (Close_enqueued s0).trans h0) n s rfl
  simp only [eventMux.enqueuedTo, process_sub, hsub, Option.map_some', hfor,
    Function.iterate_one]
  rw [hclose]
  rfl

/-- C3 (as stated, refuted): after the multiplexer has processed the TURN_END of
`req-a`, `SubscribeRequest("req-a")` returns a subscription (pointer 2) that
is not closed, and the next event tagged `req-a` is enqueued to it. -/
theorem C3_resubscribe_gets_open_subscription :
    isTurnEnd turnEndA = true ∧
      muxBeforeTurnEndA.queue.items = [turnEndA] ∧
      (muxBeforeTurnEndA.run.SubscribeRequest "req-a").2 = 2 ∧
      ((muxBeforeTurnEndA.run.SubscribeRequest "req-a").1.sub 2).map
          (fun s => s.queue.closed) = some false ∧
      (((muxBeforeTurnEndA.run.SubscribeRequest "req-a").1.steps
          [.enqueue turnBeginA, .run]).enqueuedTo 2) = [turnBeginA] := by
  decide

/-- C3 (amended): once the multiplexer has processed a TURN_END tagged A, no
subscription is registered under A any more; whatever happened since,
`SubscribeRequest(A)` returns a new subscription with nothing enqueued. If the
multiplexer has not closed, the subscription is open and registered under A,
and the next processed event tagged A is enqueued to it. If the multiplexer
has closed, the subscription is already closed and is enqueued nothing
afterwards. -/
theorem C3_subscribe_after_turn_end (ops : List MuxOp) (A : String) (hA : A ≠ "")
    (e : ServerEvent) (rest : List ServerEvent) (later : List MuxOp)
    (hopen : (newEventMux.steps ops).closed = false)
    (hhead : (newEventMux.steps ops).queue.items = e :: rest)
    (hend : isTurnEnd e = true) (htag : e.RequestId = A) :
    (newEventMux.steps ops).run.requestSubs A = [] ∧
      (((newEventMux.steps ops).run.steps later).SubscribeRequest A).1.enqueuedTo
        (((newEventMux.steps ops).run.steps later).SubscribeRequest A).2 = [] ∧
      (((newEventMux.steps ops).run.steps later).closed = false →
        (((newEventMux.steps ops).run.steps later).SubscribeRequest A).1.isOpen
            (((newEventMux.steps ops).run.steps later).SubscribeRequest A).2 ∧
          (((newEventMux.steps ops).run.steps later).SubscribeRequest A).2 ∈
            (((newEventMux.steps ops).run.steps later).SubscribeRequest A).1.requestSubs A ∧
          ∀ e2 rest2, e2.RequestId = A →
            (((newEventMux.steps ops).run.steps later).SubscribeRequest A).1.queue.items
              = e2 :: rest2 →
            (((newEventMux.steps ops).run.steps later).SubscribeRequest A).1.run.enqueuedTo
              (((newEventMux.steps ops).run.steps later).SubscribeRequest A).2 = [e2]) ∧
      (((newEventMux.steps ops).run.steps later).closed = true →
        (((newEventMux.steps ops).run.steps later).SubscribeRequest A).1.isClosed
            (((newEventMux.steps ops).run.steps later).SubscribeRequest A).2 ∧
          ∀ after,
            ((((newEventMux.steps ops).run.steps later).SubscribeRequest A).1.steps
              after).enqueuedTo
                (((newEventMux.steps ops).run.steps later).SubscribeRequest A).2 = []) := by
  have hevicted : (newEventMux.steps ops).run.requestSubs A = [] := by
    rw [run_eq_process _ e rest hopen hhead, process_requestSubs]
    simp [hend, htag, hA]
  have hvalid : ((newEventMux.steps ops).run.steps later).Valid :=
    Valid_steps later _ (Valid_step _ .run (Valid_steps ops _ Valid_newEventMux))
  generalize (newEventMux.steps ops).run.steps later = m1 at hvalid ⊢
  have hid : (m1.SubscribeRequest A).2 = m1.subs.length := by
    unfold eventMux.SubscribeRequest; split <;> rfl
  have hsub := sub_SubscribeRequest m1 A
  rw [hid]
  refine ⟨hevicted, ?_, fun hc => ⟨?_, ?_, ?_⟩, fun hc => ⟨?_, ?_⟩⟩
  · simp only [eventMux.enqueuedTo, hsub]
    split <;> rfl
  · exact ⟨newSubscription, by rw [hsub, hc]; rfl, rfl, rfl⟩
  · rw [requestSubs_SubscribeRequest]
    simp [hc]
  · intro e2 rest2 htag2 hhead2
    have hc2 : (m1.SubscribeRequest A).1.closed = false := by
      unfold eventMux.SubscribeRequest; simp [hc]
    have hglob : (m1.SubscribeRequest A).1.global = m1.global := by
      unfold eventMux.SubscribeRequest; split <;> rfl
    have hcount : ((m1.SubscribeRequest A).1.requestSubs A).count m1.subs.length = 1 := by
      rw [requestSubs_SubscribeRequest]
      simp only [hc, true_and, if_true, List.count_append]
      rw [List.count_eq_zero_of_not_mem
        (fun hmem => absurd (hvalid.2 A _ hmem) (lt_irrefl _))]
      simp
    have hnotg : m1.subs.length ∉ (m1.SubscribeRequest A).1.global := by
      rw [hglob]
      exact fun hmem => absurd (hvalid.1 _ hmem) (lt_irrefl _)
    rw [run_eq_process _ e2 rest2 hc2 hhead2]
    exact process_first_event _ m1.subs.length e2 A hA htag2
      (by rw [hc] at hsub; exact hsub) hnotg hcount
  · exact ⟨newSubscription.Close, by rw [hsub, hc]; rfl, rfl⟩
  · intro after
    exact (steps_frozen after _ m1.subs.length []
      ⟨newSubscription.Close, by rw [hsub, hc]; rfl, rfl, rfl⟩).1

/-- C3 (amended), applied to the multiplexer of the routing test: after the
TURN_END of `req-a` a new subscription under `req-a` is enqueued the next
event of `req-a`. -/
theorem C3_subscribe_after_turn_end_witness :
    (newEventMux.steps [.subscribeAll, .subscribeRequest "req-a", .enqueue turnEndA]).run.requestSubs
        "req-a" = [] ∧
      ((((newEventMux.steps
          [.subscribeAll, .subscribeRequest "req-a", .enqueue turnEndA]).run.steps
            [.enqueue turnBeginA]).SubscribeRequest "req-a").1.run.enqueuedTo
        ((((newEventMux.steps
          [.subscribeAll, .subscribeRequest "req-a", .enqueue turnEndA]).run.steps
            [.enqueue turnBeginA]).SubscribeRequest "req-a").2)) = [turnBeginA] :=
  ⟨(C3_subscribe_after_turn_end [.subscribeAll, .subscribeRequest "req-a", .enqueue turnEndA]
      "req-a" (by decide) turnEndA [] [.enqueue turnBeginA] (by decide) (by decide)
      (by decide) (by decide)).1,
    ((C3_subscribe_after_turn_end [.subscribeAll, .subscribeRequest "req-a", .enqueue turnEndA]
      "req-a" (by decide) turnEndA [] [.enqueue turnBeginA] (by decide) (by decide)
      (by decide) (by decide)).2.2.1 (by decide)).2.2 turnBeginA [] (by decide) (by decide)⟩

/-- C4: every event the multiplexer enqueues to a subscription obtained from
`SubscribeRequest(A)`, at any point of any history and whatever happens
afterwards, carries the request id A, which is then non-empty: no event
tagged with another id B and no event without a request id is enqueued to it. -/
theorem C4_request_isolation (before after : List MuxOp) (A : String) (e : ServerEvent)
    (he : e ∈ (((newEventMux.steps before).SubscribeRequest A).1.steps after).enqueuedTo
      ((newEventMux.steps before).SubscribeRequest A).2) :
    e.RequestId = A ∧ e.RequestId ≠ "" ∧ ∀ B, A ≠ B → e.RequestId ≠ B := by
  have h := (Scoped_steps after _ _ A
    (Scoped_SubscribeRequest (newEventMux.steps before) A
      (Valid_steps before _ Valid_newEventMux))).2.2.2 e he
  exact ⟨h.1, h.2, fun B hB hEq => hB (h.1.symm.trans hEq)⟩

/-- C4, applied to a subscription under `req-a` while events of `req-a`, of
`req-b` and of no request are processed: only the first is enqueued to it. -/
theorem C4_request_isolation_witness :
    (((newEventMux.steps [.subscribeAll]).SubscribeRequest "req-a").1.steps
        [.subscribeRequest "req-b", .enqueue turnBeginA, .enqueue turnBeginB,
          .enqueue sessionInitEvent, .run, .run, .run]).enqueuedTo
        ((newEventMux.steps [.subscribeAll]).SubscribeRequest "req-a").2 = [turnBeginA] ∧
      (turnBeginA.RequestId = "req-a" ∧ turnBeginA.RequestId ≠ "" ∧
        ∀ B, "req-a" ≠ B → turnBeginA.RequestId ≠ B) :=
  ⟨by decide,
    C4_request_isolation [.subscribeAll]
      [.subscribeRequest "req-b", .enqueue turnBeginA, .enqueue turnBeginB,
        .enqueue sessionInitEvent, .run, .run, .run] "req-a" turnBeginA (by decide)⟩

/-! ## Callback dispatch (session.go) -/

theorem ToolResultError_text (text : String) :
    ToolResultError (.text text) =
      some [("is_error", .bool true),
        ("content", .list [.struct [("text", .string text), ("type", .string "text")]])] := by
  simp [ToolResultError, ToolResultBlocks, ContentBlockText, GoString.toAny, GoMap.set,
    GoMap.delete, structpb.NewStruct, structpb.NewValue, structpb.NewList]

theorem ToolResultError_invalid (raw : List Nat) : ToolResultError (.invalid raw) = none := by
  simp [ToolResultError, ToolResultBlocks, ContentBlockText, GoString.toAny, GoMap.set,
    GoMap.delete, structpb.NewStruct, structpb.NewValue, structpb.NewList]

theorem ToolResultError_isError (text : String) :
    IsToolErrorResult (ToolResultError (.text text)) text := by
  rw [ToolResultError_text]
  refine ⟨_, [("text", .string text), ("type", .string "text")], rfl, ?_, ?_, ?_, ?_⟩ <;>
    simp [GoMap.get]

theorem send_sessionID (s : Session) (p : ClientPayload) :
    s.send { RequestId := "", SidecarSessionId := "", Payload := p } =
      { RequestId := "", SidecarSessionId := s.sessionID, Payload := p } := by
  simp [Session.send]

/-- C6: with no handler registered for its kind, a tool, hook or permission
invocation gets exactly one response, carrying its invocation id and the
canonical negative payload of the kind, and nothing panics. -/
theorem C6_missing_handler_default (s : Session) (rid tid : String) :
    (∀ req : ToolInvocationRequest, s.handlers.Tool = none →
      ∃ result,
        s.handleCallback { RequestId := rid, TurnId := tid, Payload := .toolRequest req } =
          { sent := [{ RequestId := "", SidecarSessionId := s.sessionID,
                       Payload := .toolResponse req.InvocationId result }],
            crashed := false } ∧
        IsToolErrorResult result "missing tool handler") ∧
    (∀ req : HookInvocationRequest, s.handlers.Hook = none →
      ∃ output,
        s.handleCallback { RequestId := rid, TurnId := tid, Payload := .hookRequest req } =
          { sent := [{ RequestId := "", SidecarSessionId := s.sessionID,
                       Payload := .hookResponse req.InvocationId output }],
            crashed := false } ∧
        IsHookStop output "no hook handler") ∧
    (∀ req : PermissionDecisionRequest, s.handlers.Permission = none →
      ∃ decision,
        s.handleCallback { RequestId := rid, TurnId := tid, Payload := .permissionRequest req } =
          { sent := [{ RequestId := "", SidecarSessionId := s.sessionID,
                       Payload := .permissionResponse req.InvocationId decision }],
            crashed := false } ∧
        IsPermissionDeny decision "no permission handler") := by
  refine ⟨fun req h => ⟨ToolResultError (.text "missing tool handler"), ?_,
      ToolResultError_isError _⟩,
    fun req h => ⟨some (hookStopOutput "no hook handler"), ?_, _, rfl, rfl, rfl⟩,
    fun req h => ⟨some { Behavior := "deny", Reason := "no permission handler" }, ?_,
      _, rfl, rfl, rfl⟩⟩ <;>
    simp [Session.handleCallback, h, Session.sendToolResponse, Session.sendHookResponse,
      Session.sendPermissionResponse, send_sessionID]

/-- C6, applied to the session with no handlers and the invocations of the tests. -/
theorem C6_missing_handler_default_witness :
    (∃ result,
      bareSession.handleCallback (toolEvent pingRequest) =
        { sent := [{ RequestId := "", SidecarSessionId := "sess-1",
                     Payload := .toolResponse "inv-1" result }],
          crashed := false } ∧
      IsToolErrorResult result "missing tool handler") ∧
    (∃ output,
      bareSession.handleCallback (hookEvent hookRequest1) =
        { sent := [{ RequestId := "", SidecarSessionId := "sess-1",
                     Payload := .hookResponse "hook-1" output }],
          crashed := false } ∧
      IsHookStop output "no hook handler") ∧
    (∃ decision,
      bareSession.handleCallback (permissionEvent permRequest) =
        { sent := [{ RequestId := "", SidecarSessionId := "sess-1",
                     Payload := .permissionResponse "perm-1" decision }],
          crashed := false } ∧
      IsPermissionDeny decision "no permission handler") :=
  ⟨(C6_missing_handler_default bareSession "" "").1 pingRequest rfl,
    (C6_missing_handler_default bareSession "" "").2.1 hookRequest1 rfl,
    (C6_missing_handler_default bareSession "" "").2.2 permRequest rfl⟩

theorem recvStep_crashed (s : Session) (st : SessionState) (r : Option ServerEvent)
    (h : st.crashed = true) : s.recvStep st r = st := by
  simp [Session.recvStep, h]

theorem startRecvLoop_crashed (s : Session) (st : SessionState)
    (recvs : List (Option ServerEvent)) (h : st.crashed = true) :
    s.startRecvLoop st recvs = st := by
  induction recvs with
  | nil => rfl
  | cons r rest ih =>
    simp only [Session.startRecvLoop, List.foldl_cons] at ih ⊢
    rw [recvStep_crashed s st r h]
    exact ih

/-! ## Stream.run: cancellation, delivery at TURN_END, correlation -/

theorem addMessage_frame (t : Turn) (m : Option MessageEvent) :
    (t.addMessage m).Events = t.Events ∧ (t.addMessage m).TurnID = t.TurnID ∧
      (t.addMessage m).RequestID = t.RequestID ∧ (t.addMessage m).Started = t.Started ∧
      (t.addMessage m).TurnIndex = t.TurnIndex ∧ (t.addMessage m).Stderr = t.Stderr ∧
      (t.addMessage m).Errors = t.Errors := by
  cases m with
  | none => simp [Turn.addMessage]
  | some m =>
    cases hm : m.msg <;> cases hp : m.IsPartial <;>
      simp [Turn.addMessage, messageKind, MessageEvent.GetStreamEvent, MessageEvent.GetResult,
        hm, hp, messageKindUser, messageKindAssistant, messageKindSystem, messageKindResult,
        messageKindStreamEvent]

theorem record_frame (t : Turn) (e : ServerEvent) :
    (Stream.record t e).Events = t.Events ++ [e] ∧ (Stream.record t e).TurnID = t.TurnID ∧
      (Stream.record t e).RequestID =
        (if t.RequestID = "" ∧ e.RequestId ≠ "" then e.RequestId else t.RequestID) := by
  unfold Stream.record
  split <;> simp [*]

theorem foldEvent_frame (t : Turn) (e : ServerEvent) :
    (Stream.foldEvent t e).Events = t.Events ++ [e] ∧ (Stream.foldEvent t e).TurnID = t.TurnID ∧
      (Stream.foldEvent t e).RequestID =
        (if t.RequestID = "" ∧ e.RequestId ≠ "" then e.RequestId else t.RequestID) := by
  have hr := record_frame t e
  unfold Stream.foldEvent
  cases hpay : e.Payload with
  | turn tb =>
    cases tb with
    | none => exact hr
    | some tb =>
      cases hk : tb.Kind
      · simpa [hk] using hr
      · simpa [hk] using hr
      · by_cases hz : (Stream.record t e).TurnIndex = 0 <;> simpa [hk, hz] using hr
  | message m =>
    cases m with
    | none => exact hr
    | some m =>
      obtain ⟨h1, h2, h3, _⟩ := addMessage_frame (Stream.record t e) (some m)
      simp only [h1, h2, h3]
      exact hr
  | stderrLine l => cases l <;> simpa using hr
  | error x => cases x <;> simpa using hr
  | unset => exact hr
  | sessionInit => exact hr
  | sessionClosed r => exact hr
  | toolRequest r => exact hr
  | hookRequest r => exact hr
  | permissionRequest r => exact hr

theorem foldEvent_Ended (t : Turn) (e : ServerEvent) :
    (Stream.foldEvent t e).Ended = (t.Ended || isTurnEnd e) := by
  have hr := record_Ended t e
  unfold Stream.foldEvent isTurnEnd
  cases hpay : e.Payload with
  | turn tb =>
    cases tb with
    | none => simpa using hr
    | some tb =>
      cases hk : tb.Kind
      · simpa [hk] using hr
      · simpa [hk] using hr
      · by_cases hz : (Stream.record t e).TurnIndex = 0 <;> simp [hk, hz]
  | message m =>
    cases m with
    | none => simpa using hr
    | some m => simpa [addMessage_Ended] using hr
  | stderrLine l => cases l <;> simpa using hr
  | error x => cases x <;> simpa using hr
  | unset => simpa using hr
  | sessionInit => simpa using hr
  | sessionClosed r => simpa using hr
  | toolRequest r => simpa using hr
  | hookRequest r => simpa using hr
  | permissionRequest r => simpa using hr

/-- One iteration of `Stream.run` with a Turn under construction: a TURN_END
delivers the folded Turn and returns, any other event is folded and mirrored
and the loop goes on. -/
theorem runLoop_event (t : Turn) (ps : List MessageEvent) (e : ServerEvent)
    (rest : List StreamInput) :
    Stream.runLoop (some t) ps (.event e :: rest) =
      if isTurnEnd e = true then
        { partials := ps, done := some { Turn := some (Stream.foldEvent t e) }, err := none,
          returned := true }
      else Stream.runLoop (some (Stream.foldEvent t e)) (ps ++ Stream.mirrored e) rest := by
  simp only [Stream.runLoop, Stream.foldEvent, Stream.mirrored, isTurnEnd]
  cases hpay : e.Payload with
  | turn tb =>
    cases tb with
    | none => simp
    | some tb => cases hk : tb.Kind <;> simp [hk]
  | message m =>
    cases m with
    | none => simp
    | some m => cases hp : m.IsPartial <;> simp [hp]
  | stderrLine l => cases l <;> simp
  | error x => cases x <;> simp
  | unset => simp
  | sessionInit => simp
  | sessionClosed r => simp
  | toolRequest r => simp
  | hookRequest r => simp
  | permissionRequest r => simp

theorem foldEvents_Events (t : Turn) (es : List ServerEvent) :
    (Stream.foldEvents t es).Events = t.Events ++ es := by
  induction es generalizing t with
  | nil => simp [Stream.foldEvents]
  | cons e rest ih =>
    have h := ih (Stream.foldEvent t e)
    simp only [Stream.foldEvents, List.foldl_cons] at h ⊢
    rw [h, (foldEvent_frame t e).1]
    simp

theorem foldEvents_TurnID (t : Turn) (es : List ServerEvent) :
    (Stream.foldEvents t es).TurnID = t.TurnID := by
  induction es generalizing t with
  | nil => rfl
  | cons e rest ih =>
    have h := ih (Stream.foldEvent t e)
    simp only [Stream.foldEvents, List.foldl_cons] at h ⊢
    rw [h, (foldEvent_frame t e).2.1]

/-- Events that are no TURN_END are folded one after the other, and their
partial messages mirrored, before the loop looks at what follows. -/
theorem runLoop_events (es : List ServerEvent) (hno : ∀ e ∈ es, isTurnEnd e = false)
    (t : Turn) (ps : List MessageEvent) (tail : List StreamInput) :
    Stream.runLoop (some t) ps (es.map StreamInput.event ++ tail) =
      Stream.runLoop (some (Stream.foldEvents t es))
        (ps ++ (es.map Stream.mirrored).flatten) tail := by
  induction es generalizing t ps with
  | nil => simp [Stream.foldEvents]
  | cons e rest ih =>
    have he : isTurnEnd e = false := hno e (List.mem_cons_self _ _)
    simp only [List.map_cons, List.cons_append, runLoop_event, he, Bool.false_eq_true, if_false]
    rw [ih (fun x hx => hno x (List.mem_cons_of_mem _ hx))]
    simp [Stream.foldEvents, List.append_assoc]

theorem runLoop_skips (es : List ServerEvent) (hskip : ∀ e ∈ es, e.TurnId = "")
    (ps : List MessageEvent) (tail : List StreamInput) :
    Stream.runLoop none ps (es.map StreamInput.event ++ tail) = Stream.runLoop none ps tail := by
  induction es with
  | nil => rfl
  | cons e rest ih =>
    simp only [List.map_cons, List.cons_append]
    rw [runLoop_skip e (hskip e (List.mem_cons_self _ _))]
    exact ih (fun x hx => hskip x (List.mem_cons_of_mem _ hx))

/-- After events with no TURN_END among them the loop is still running, in some
state that does not depend on what follows. -/
theorem runLoop_no_turn_end (es : List ServerEvent) (hno : ∀ e ∈ es, isTurnEnd e = false) :
    ∀ (turn : Option Turn) (ps : List MessageEvent), ∃ turn1 ps1, ∀ tail,
      Stream.runLoop turn ps (es.map StreamInput.event ++ tail) =
        Stream.runLoop turn1 ps1 tail := by
  induction es with
  | nil => exact fun turn ps => ⟨turn, ps, fun _ => rfl⟩
  | cons e rest ih =>
    intro turn ps
    have he : isTurnEnd e = false := hno e (List.mem_cons_self _ _)
    have ih1 := ih (fun x hx => hno x (List.mem_cons_of_mem _ hx))
    cases turn with
    | some t =>
      obtain ⟨turn1, ps1, h⟩ := ih1 (some (Stream.foldEvent t e)) (ps ++ Stream.mirrored e)
      refine ⟨turn1, ps1, fun tail => ?_⟩
      simp only [List.map_cons, List.cons_append, runLoop_event, he, Bool.false_eq_true,
        if_false]
      exact h tail
    | none =>
      by_cases hid : e.TurnId = ""
      · obtain ⟨turn1, ps1, h⟩ := ih1 none ps
        refine ⟨turn1, ps1, fun tail => ?_⟩
        simp only [List.map_cons, List.cons_append]
        rw [runLoop_skip e hid]
        exact h tail
      · obtain ⟨turn1, ps1, h⟩ :=
          ih1 (some (Stream.foldEvent (newTurn e.TurnId) e)) (ps ++ Stream.mirrored e)
        refine ⟨turn1, ps1, fun tail => ?_⟩
        simp only [List.map_cons, List.cons_append]
        rw [runLoop_start e hid]
        simp only [runLoop_event, he, Bool.false_eq_true, if_false]
        exact h tail

/-- When the events delivered to a Stream are some events without a turn id,
then events with no TURN_END among them, then a TURN_END, the first of these
carrying a turn id, and no send on `s.partials` waits, the loop returns with
one RunResult and no error, whatever follows the TURN_END. The delivered Turn
has Ended = true, carries the turn id of that first event, and its log is exactly the events
from that first event to the TURN_END; the partial messages mirrored are
those of the events before the TURN_END. Nothing after the TURN_END is
folded or mirrored. -/
theorem run_turn_end_delivers_once (skip body post : List ServerEvent) (e : ServerEvent)
    (tail : List StreamInput)
    (hskip : ∀ x ∈ skip, x.TurnId = "")
    (hbody : ∀ x ∈ body, isTurnEnd x = false)
    (hend : isTurnEnd e = true)
    (hfirst : ∀ x, (body ++ [e]).head? = some x → x.TurnId ≠ "") :
    (Stream.run ((skip ++ body ++ [e] ++ post).map StreamInput.event ++ tail)).returned = true ∧
      (Stream.run ((skip ++ body ++ [e] ++ post).map StreamInput.event ++ tail)).err = none ∧
      (∃ t, (Stream.run ((skip ++ body ++ [e] ++ post).map StreamInput.event ++ tail)).done
            = some { Turn := some t } ∧
          t.Ended = true ∧ t.Events = body ++ [e] ∧
          ∀ x, (body ++ [e]).head? = some x → t.TurnID = x.TurnId) ∧
      (Stream.run ((skip ++ body ++ [e] ++ post).map StreamInput.event ++ tail)).partials
        = (body.map Stream.mirrored).flatten ∧
      Stream.run ((skip ++ body ++ [e] ++ post).map StreamInput.event ++ tail)
        = Stream.run ((skip ++ body ++ [e]).map StreamInput.event) := by
  have key : ∃ t, (∀ rest : List StreamInput,
      Stream.runLoop none [] ((body ++ [e]).map StreamInput.event ++ rest) =
        { partials := (body.map Stream.mirrored).flatten, done := some { Turn := some t },
          err := none, returned := true }) ∧
        t.Ended = true ∧ t.Events = body ++ [e] ∧
        ∀ x, (body ++ [e]).head? = some x → t.TurnID = x.TurnId := by
    cases body with
    | nil =>
      have hid : e.TurnId ≠ "" := hfirst e rfl
      refine ⟨Stream.foldEvent (newTurn e.TurnId) e, fun rest => ?_, ?_, ?_, ?_⟩
      · simp only [List.nil_append, List.map_cons, List.map_nil, List.cons_append]
        rw [runLoop_start e hid, runLoop_event]
        simp [hend]
      · rw [foldEvent_Ended]; simp [hend]
      · rw [(foldEvent_frame _ e).1]; rfl
      · intro x hx
        simp only [List.nil_append, List.head?_cons, Option.some.injEq] at hx
        subst hx
        rw [(foldEvent_frame _ _).2.1]; rfl
    | cons b bs =>
      have hid : b.TurnId ≠ "" := hfirst b rfl
      refine ⟨Stream.foldEvent (Stream.foldEvents (newTurn b.TurnId) (b :: bs)) e,
        fun rest => ?_, ?_, ?_, ?_⟩
      · have h1 : (b :: bs ++ [e]).map StreamInput.event ++ rest =
            StreamInput.event b :: ((bs ++ [e]).map StreamInput.event ++ rest) := by simp
        have h2 : (b :: bs ++ [e]).map StreamInput.event ++ rest =
            (b :: bs).map StreamInput.event ++ (StreamInput.event e :: rest) := by simp
        rw [h1, runLoop_start b hid, ← h1, h2, runLoop_events (b :: bs) hbody, runLoop_event]
        simp [hend]
      · rw [foldEvent_Ended]; simp [hend]
      · rw [(foldEvent_frame _ e).1, foldEvents_Events]; rfl
      · intro x hx
        simp only [List.cons_append, List.head?_cons, Option.some.injEq] at hx
        subst hx
        rw [(foldEvent_frame _ _).2.1, foldEvents_TurnID]; rfl
  have hrun : ∀ rest : List StreamInput,
      Stream.run ((skip ++ body ++ [e]).map StreamInput.event ++ rest) =
        Stream.runLoop none [] ((body ++ [e]).map StreamInput.event ++ rest) := by
    intro rest
    have h1 : (skip ++ body ++ [e]).map StreamInput.event ++ rest =
        skip.map StreamInput.event ++ ((body ++ [e]).map StreamInput.event ++ rest) := by simp
    rw [Stream.run, h1, runLoop_skips skip hskip]
  have hsplit : (skip ++ body ++ [e] ++ post).map StreamInput.event ++ tail =
      (skip ++ body ++ [e]).map StreamInput.event ++ (post.map StreamInput.event ++ tail) := by
    simp
  obtain ⟨t, ht, hE, hEv, hId⟩ := key
  have h0 : Stream.run ((skip ++ body ++ [e]).map StreamInput.event) =
      { partials := (body.map Stream.mirrored).flatten, done := some { Turn := some t },
        err := none, returned := true } := by
    have h6 := hrun []
    simp only [List.append_nil] at h6
    rw [h6]
    simpa using ht []
  rw [hsplit, hrun, ht, h0]
  exact ⟨rfl, rfl, ⟨t, rfl, hE, hEv, hId⟩, rfl, rfl⟩

theorem Correlated_foldEvent (R : String) (hR : R ≠ "") (t : Turn) (e : ServerEvent)
    (h : Stream.Correlated R t) (he : e.RequestId = R) :
    Stream.Correlated R (Stream.foldEvent t e) := by
  obtain ⟨h1, h2, h3, e0, rest, h4, h5⟩ := h
  obtain ⟨f1, f2, f3⟩ := foldEvent_frame t e
  refine ⟨?_, ?_, by rw [f2]; exact h3, e0, rest ++ [e], by rw [f1, h4]; rfl, by rw [f2]; exact h5⟩
  · rw [f3, h1]
    simp [hR]
  · intro x hx
    rw [f1] at hx
    rcases List.mem_append.mp hx with hx1 | hx1
    · exact h2 x hx1
    · have hxe : x = e := by simpa using hx1
      rw [hxe]; exact he

theorem Correlated_start (R : String) (hR : R ≠ "") (e : ServerEvent)
    (hid : e.TurnId ≠ "") (he : e.RequestId = R) :
    Stream.Correlated R (Stream.foldEvent (newTurn e.TurnId) e) := by
  obtain ⟨f1, f2, f3⟩ := foldEvent_frame (newTurn e.TurnId) e
  refine ⟨?_, ?_, by rw [f2]; exact hid, e, [], by rw [f1]; rfl, by rw [f2]; rfl⟩
  · rw [f3]
    simp [newTurn, he, hR]
  · intro x hx
    rw [f1] at hx
    have hxe : x = e := by simpa [newTurn] using hx
    rw [hxe]; exact he

theorem runLoop_some_correlated (R : String) (hR : R ≠ "") (inputs : List StreamInput)
    (htag : ∀ e, StreamInput.event e ∈ inputs → e.RequestId = R) :
    ∀ (t : Turn) (ps : List MessageEvent), Stream.Correlated R t →
      ∀ t1, (Stream.runLoop (some t) ps inputs).done = some { Turn := some t1 } →
        Stream.Correlated R t1 := by
  induction inputs with
  | nil => intro t ps _ t1 h; simp [Stream.runLoop] at h
  | cons x rest ih =>
    intro t ps ht t1 h
    cases x with
    | ctxDone => simp [Stream.runLoop] at h
    | chanClosed =>
      simp [Stream.runLoop] at h
      rw [← h]; exact ht
    | event e =>
      have he : e.RequestId = R := htag e (List.mem_cons_self _ _)
      have hnext := Correlated_foldEvent R hR t e ht he
      rw [runLoop_event] at h
      split at h
      · simp at h
        rw [← h]; exact hnext
      · exact ih (fun y hy => htag y (List.mem_cons_of_mem _ hy)) _ _ hnext t1 h

theorem runLoop_none_correlated (R : String) (hR : R ≠ "") (inputs : List StreamInput)
    (htag : ∀ e, StreamInput.event e ∈ inputs → e.RequestId = R) :
    ∀ (ps : List MessageEvent) t1,
      (Stream.runLoop none ps inputs).done = some { Turn := some t1 } →
        Stream.Correlated R t1 := by
  induction inputs with
  | nil => intro ps t1 h; simp [Stream.runLoop] at h
  | cons x rest ih =>
    intro ps t1 h
    have hrest : ∀ e, StreamInput.event e ∈ rest → e.RequestId = R :=
      fun y hy => htag y (List.mem_cons_of_mem _ hy)
    cases x with
    | ctxDone => simp [Stream.runLoop] at h
    | chanClosed => simp [Stream.runLoop] at h
    | event e =>
      have he : e.RequestId = R := htag e (List.mem_cons_self _ _)
      by_cases hid : e.TurnId = ""
      · rw [runLoop_skip e hid] at h
        exact ih hrest ps t1 h
      · have hnext := Correlated_start R hR e hid he
        rw [runLoop_start e hid, runLoop_event] at h
        split at h
        · simp at h
          rw [← h]; exact hnext
        · exact runLoop_some_correlated R hR rest hrest _ _ hnext t1 h

/-- C20 (the code departs from it): a Stream that receives TURN_BEGIN of
`turn-1`, a stderr line of the same request that carries no turn id, and
TURN_END of `turn-1` delivers a Turn whose turn id is `turn-1` and whose log
holds the three events, the one with the empty turn id among them: the loop
reads the turn id of an event only while no Turn is open (run.go:131-138) and
logs every later event (run.go:142). The helper `assertTurnCorrelation` of
the end-to-end tests requires of every event of a delivered Turn a turn id
that is not empty and equals that of the Turn. -/
theorem C20_log_holds_event_without_turn_id :
    (Stream.run ([turnBeginEvent, stderrNoTurn, turnEndEvent].map StreamInput.event)).done.map
        (fun r => r.Turn.map (fun t => (t.TurnID, t.Events.map (fun e => e.TurnId))))
      = some (some ("turn-1", ["turn-1", "", "turn-1"])) := by
  decide

/-- What the loop of `Stream.run` keeps of the correlation of a delivered Turn:
when all events it receives are tagged with its non-empty request id R, the
Turn carries the request id R, every event of its log carries R, its turn id
is not empty and is the turn id of the first event of its log. -/
theorem run_delivered_turn_correlation (R : String) (inputs : List StreamInput) (t : Turn)
    (hR : R ≠ "") (htag : ∀ x ∈ inputs, StreamInput.taggedWith R x = true)
    (hdone : (Stream.run inputs).done = some { Turn := some t }) :
    t.RequestID = R ∧ (∀ e ∈ t.Events, e.RequestId ≠ "" ∧ e.RequestId = t.RequestID) ∧
      t.TurnID ≠ "" ∧ ∃ e0 rest, t.Events = e0 :: rest ∧ e0.TurnId = t.TurnID := by
  have htag1 : ∀ e, StreamInput.event e ∈ inputs → e.RequestId = R := by
    intro e he
    simpa [StreamInput.taggedWith] using htag _ he
  obtain ⟨h1, h2, h3, h4⟩ := runLoop_none_correlated R hR inputs htag1 [] t hdone
  refine ⟨h1, fun e he => ⟨by rw [h2 e he]; exact hR, by rw [h2 e he, h1]⟩, h3, h4⟩

/-- The correlation the loop keeps, for the Turn delivered for TURN_BEGIN, a
stderr line without a turn id and TURN_END, all of request `req-1`. -/
theorem run_delivered_turn_correlation_example :
    ∃ t, (Stream.run ([turnBeginEvent, stderrNoTurn, turnEndEvent].map StreamInput.event)).done
        = some { Turn := some t } ∧
      t.RequestID = "req-1" ∧ (∀ e ∈ t.Events, e.RequestId ≠ "" ∧ e.RequestId = t.RequestID) ∧
      t.TurnID ≠ "" :=
  ⟨Stream.foldEvents (newTurn "turn-1") [turnBeginEvent, stderrNoTurn, turnEndEvent], by decide,
    (run_delivered_turn_correlation "req-1"
      ([turnBeginEvent, stderrNoTurn, turnEndEvent].map StreamInput.event)
      (Stream.foldEvents (newTurn "turn-1") [turnBeginEvent, stderrNoTurn, turnEndEvent])
      (by decide) (by decide) (by decide)).1,
    (run_delivered_turn_correlation "req-1"
      ([turnBeginEvent, stderrNoTurn, turnEndEvent].map StreamInput.event)
      (Stream.foldEvents (newTurn "turn-1") [turnBeginEvent, stderrNoTurn, turnEndEvent])
      (by decide) (by decide) (by decide)).2.1,
    (run_delivered_turn_correlation "req-1"
      ([turnBeginEvent, stderrNoTurn, turnEndEvent].map StreamInput.event)
      (Stream.foldEvents (newTurn "turn-1") [turnBeginEvent, stderrNoTurn, turnEndEvent])
      (by decide) (by decide) (by decide)).2.2.1⟩

/-! ## CollectTurns (turns.go) -/

theorem fold_TurnID (t : Turn) (e : ServerEvent) : (CollectTurns.fold t e).TurnID = t.TurnID := by
  have hr := (record_frame t e).2.1
  unfold CollectTurns.fold
  cases hpay : e.Payload with
  | turn tb =>
    cases tb with
    | none => exact hr
    | some tb =>
      cases hk : tb.Kind
      · simpa [hk] using hr
      · simpa [hk] using hr
      · by_cases hz : (Stream.record t e).TurnIndex = 0 <;> simpa [hk, hz] using hr
  | message m => simpa [(addMessage_frame (Stream.record t e) m).2.1] using hr
  | stderrLine l => cases l <;> simpa using hr
  | error x => simpa using hr
  | unset => exact hr
  | sessionInit => exact hr
  | sessionClosed r => exact hr
  | toolRequest r => exact hr
  | hookRequest r => exact hr
  | permissionRequest r => exact hr

/-- One iteration of `CollectTurns` for an event with a turn id and a present
payload: a TURN_END emits the folded Turn and drops it from the map, any other
event stores the folded Turn in the map. -/
theorem step_eq (st : CollectState) (e : ServerEvent) (hc : st.crashed = false)
    (hid : e.TurnId ≠ "") (hp : e.payloadPresent = true) :
    CollectTurns.step st e =
      if isTurnEnd e = true then
        { st with
          out := st.out ++
            [CollectTurns.fold ((st.turns.get e.TurnId).getD (newTurn e.TurnId)) e],
          turns := st.turns.delete e.TurnId }
      else
        { st with
          turns := st.turns.set e.TurnId
            (CollectTurns.fold ((st.turns.get e.TurnId).getD (newTurn e.TurnId)) e) } := by
  have hget : (match st.turns.get e.TurnId with
      | some t => t
      | none => newTurn e.TurnId) = (st.turns.get e.TurnId).getD (newTurn e.TurnId) := by
    cases st.turns.get e.TurnId <;> rfl
  simp only [CollectTurns.step, hc, hid, Bool.false_eq_true, if_false, hget, CollectTurns.fold,
    isTurnEnd]
  cases hpay : e.Payload with
  | turn tb =>
    cases tb with
    | none => simp [ServerEvent.payloadPresent, hpay] at hp
    | some tb => cases hk : tb.Kind <;> simp [hk]
  | message m => simp
  | stderrLine l =>
    cases l with
    | none => simp [ServerEvent.payloadPresent, hpay] at hp
    | some l => simp
  | error x => simp
  | unset => simp
  | sessionInit => simp
  | sessionClosed r => simp
  | toolRequest r => simp
  | hookRequest r => simp
  | permissionRequest r => simp

theorem step_skip (st : CollectState) (e : ServerEvent) (hid : e.TurnId = "") :
    CollectTurns.step st e = st := by
  simp [CollectTurns.step, hid]

theorem GoMap.mem_delete {β : Type} (m : GoMap β) (k : String) (kv : String × β) :
    kv ∈ GoMap.delete m k ↔ kv ∈ m ∧ kv.1 ≠ k := by
  simp [GoMap.delete, List.mem_filter]

theorem GoMap.pairwise_delete {β : Type} (m : GoMap β) (k : String)
    (h : m.Pairwise (fun a b => a.1 ≠ b.1)) :
    (GoMap.delete m k).Pairwise (fun a b => a.1 ≠ b.1) :=
  List.Pairwise.filter _ h

theorem GoMap.pairwise_set {β : Type} (m : GoMap β) (k : String) (v : β)
    (h : m.Pairwise (fun a b => a.1 ≠ b.1)) :
    (GoMap.set m k v).Pairwise (fun a b => a.1 ≠ b.1) := by
  refine List.Pairwise.cons ?_ (GoMap.pairwise_delete m k h)
  intro kv hkv
  exact fun hk => ((GoMap.mem_delete m k kv).mp hkv).2 hk.symm

/-- The Turns of a sound map that carry the turn id `T` are the entry under the
key `T`, if there is one. -/
theorem flush_filter (m : GoMap Turn) (T : String)
    (hkeyed : ∀ kv ∈ m, kv.2.TurnID = kv.1) (hnodup : m.Pairwise (fun a b => a.1 ≠ b.1)) :
    (m.map (fun kv => kv.2)).filter (fun t => decide (t.TurnID = T)) = (m.get T).toList := by
  induction m with
  | nil => rfl
  | cons kv rest ih =>
    obtain ⟨k, t⟩ := kv
    have hk : t.TurnID = k := hkeyed (k, t) (List.mem_cons_self _ _)
    have hrest := ih (fun x hx => hkeyed x (List.mem_cons_of_mem _ hx)) (List.Pairwise.of_cons hnodup)
    by_cases hkT : k = T
    · subst hkT
      have hnone : ∀ x ∈ rest, ¬ x.2.TurnID = k := by
        intro x hx hx1
        have h1 : x.2.TurnID = x.1 := hkeyed x (List.mem_cons_of_mem _ hx)
        exact (List.rel_of_pairwise_cons hnodup hx) (by rw [← h1, hx1])
      have hempty : (rest.map (fun kv => kv.2)).filter (fun t => decide (t.TurnID = k)) = [] := by
        rw [List.filter_eq_nil_iff]
        intro x hx
        obtain ⟨y, hy, rfl⟩ := List.mem_map.mp hx
        simpa using hnone y hy
      simp [GoMap.get, hk, hempty]
    · have hne : ¬ t.TurnID = T := by rw [hk]; exact hkT
      simp [GoMap.get, hkT, hne, hrest]

theorem Keyed_init : CollectTurns.init.Keyed :=
  ⟨rfl, fun kv h => (by cases h), List.Pairwise.nil, fun kv h => (by cases h),
    fun t h => (by cases h)⟩

theorem getD_TurnID (st : CollectState) (h : st.Keyed) (k : String) :
    ((st.turns.get k).getD (newTurn k)).TurnID = k := by
  cases hg : st.turns.get k with
  | none => rfl
  | some t => exact h.keyed (k, t) (get_mem _ _ _ hg)

theorem Keyed_step (st : CollectState) (e : ServerEvent) (h : st.Keyed)
    (hp : e.payloadPresent = true) : (CollectTurns.step st e).Keyed := by
  by_cases hid : e.TurnId = ""
  · rw [step_skip st e hid]; exact h
  · have hT : (CollectTurns.fold ((st.turns.get e.TurnId).getD (newTurn e.TurnId)) e).TurnID
        = e.TurnId := by
      rw [fold_TurnID, getD_TurnID st h]
    rw [step_eq st e h.alive hid hp]
    split
    · refine ⟨h.alive, ?_, GoMap.pairwise_delete _ _ h.nodup, ?_, ?_⟩
      · intro kv hkv
        exact h.keyed kv ((GoMap.mem_delete _ _ kv).mp hkv).1
      · intro kv hkv
        exact h.nonempty kv ((GoMap.mem_delete _ _ kv).mp hkv).1
      · intro t ht
        rcases List.mem_append.mp ht with h1 | h1
        · exact h.out_nonempty t h1
        · rw [List.mem_singleton.mp h1, hT]; exact hid
    · refine ⟨h.alive, ?_, GoMap.pairwise_set _ _ _ h.nodup, ?_, h.out_nonempty⟩
      · intro kv hkv
        rcases List.mem_cons.mp hkv with h1 | h1
        · rw [h1]; exact hT
        · exact h.keyed kv ((GoMap.mem_delete _ _ kv).mp h1).1
      · intro kv hkv
        rcases List.mem_cons.mp hkv with h1 | h1
        · rw [h1]; exact hid
        · exact h.nonempty kv ((GoMap.mem_delete _ _ kv).mp h1).1

/-- The Turns `CollectTurns` emits under a turn id `T` are those it emits for
the events carrying `T` alone: the events of other turn ids, and the events
without a turn id, do not bear on them. -/
theorem flush_loop_filter (T : String) (hT : T ≠ "") (events : List ServerEvent)
    (hp : ∀ e ∈ events, e.payloadPresent = true) :
    ∀ st : CollectState, st.Keyed →
      (CollectTurns.flush (CollectTurns.loop st events)).filter (fun t => decide (t.TurnID = T))
        = st.out.filter (fun t => decide (t.TurnID = T)) ++
          CollectTurns.collectFor T (st.turns.get T)
            (events.filter (fun e => decide (e.TurnId = T))) := by
  induction events with
  | nil =>
    intro st h
    simp only [CollectTurns.loop, List.foldl_nil, CollectTurns.flush, h.alive,
      Bool.false_eq_true, if_false, List.filter_append, List.filter_nil,
      CollectTurns.collectFor]
    rw [flush_filter st.turns T h.keyed h.nodup]
  | cons e rest ih =>
    intro st h
    have hpe : e.payloadPresent = true := hp e (List.mem_cons_self _ _)
    have hnext := Keyed_step st e h hpe
    have ih1 := ih (fun x hx => hp x (List.mem_cons_of_mem _ hx)) (CollectTurns.step st e) hnext
    simp only [CollectTurns.loop, List.foldl_cons] at ih1 ⊢
    rw [ih1]
    by_cases hid : e.TurnId = ""
    · have hne : ¬ e.TurnId = T := by rw [hid]; exact fun h => hT h.symm
      simp [step_skip st e hid, List.filter_cons, hne]
    · have hfT : (CollectTurns.fold ((st.turns.get e.TurnId).getD (newTurn e.TurnId)) e).TurnID
          = e.TurnId := by
        rw [fold_TurnID, getD_TurnID st h]
      rw [step_eq st e h.alive hid hpe]
      by_cases heT : e.TurnId = T
      · subst heT
        by_cases hend : isTurnEnd e = true
        · simp [hend, List.filter_cons, List.filter_append, hfT, CollectTurns.collectFor,
            GoMap.get_delete_self]
        · simp [hend, List.filter_cons, CollectTurns.collectFor, GoMap.get_set_self]
      · have hTe : T ≠ e.TurnId := fun h => heT h.symm
        by_cases hend : isTurnEnd e = true
        · simp [hend, List.filter_cons, List.filter_append, hfT, heT,
            GoMap.get_delete_ne _ _ _ hTe]
        · simp [hend, List.filter_cons, heT, GoMap.get_set_ne _ _ _ _ hTe]

theorem Keyed_loop (events : List ServerEvent) (hp : ∀ e ∈ events, e.payloadPresent = true) :
    ∀ st : CollectState, st.Keyed → (CollectTurns.loop st events).Keyed := by
  induction events with
  | nil => exact fun st h => h
  | cons e rest ih =>
    intro st h
    exact ih (fun x hx => hp x (List.mem_cons_of_mem _ hx)) _
      (Keyed_step st e h (hp e (List.mem_cons_self _ _)))

theorem CollectTurns_filter (T : String) (hT : T ≠ "") (events : List ServerEvent)
    (hp : ∀ e ∈ events, e.payloadPresent = true) :
    (CollectTurns events).filter (fun t => decide (t.TurnID = T)) =
      CollectTurns.collectFor T none (events.filter (fun e => decide (e.TurnId = T))) := by
  have h := flush_loop_filter T hT events hp CollectTurns.init Keyed_init
  simpa [CollectTurns, CollectTurns.init, GoMap.get] using h

theorem CollectTurns_TurnID_ne_empty (events : List ServerEvent)
    (hp : ∀ e ∈ events, e.payloadPresent = true) :
    ∀ t ∈ CollectTurns events, t.TurnID ≠ "" := by
  intro t ht
  have hk := Keyed_loop events hp CollectTurns.init Keyed_init
  simp only [CollectTurns, CollectTurns.flush, hk.alive, Bool.false_eq_true, if_false] at ht
  rcases List.mem_append.mp ht with h1 | h1
  · exact hk.out_nonempty t h1
  · obtain ⟨kv, hkv, rfl⟩ := List.mem_map.mp h1
    rw [hk.keyed kv hkv]
    exact hk.nonempty kv hkv

/-- Every Turn `CollectTurns` emits carries the turn id of one of the events. -/
theorem CollectTurns_TurnID_seen (events : List ServerEvent)
    (hp : ∀ e ∈ events, e.payloadPresent = true) :
    ∀ t ∈ CollectTurns events, ∃ e ∈ events, e.TurnId = t.TurnID := by
  intro t ht
  by_contra hno
  have hT := CollectTurns_TurnID_ne_empty events hp t ht
  have hmem : t ∈ (CollectTurns events).filter (fun x => decide (x.TurnID = t.TurnID)) := by
    simp [List.mem_filter, ht]
  rw [CollectTurns_filter t.TurnID hT events hp] at hmem
  have hnil : events.filter (fun e => decide (e.TurnId = t.TurnID)) = [] := by
    rw [List.filter_eq_nil_iff]
    intro e he hid
    exact hno ⟨e, he, by simpa using hid⟩
  rw [hnil] at hmem
  simp [CollectTurns.collectFor] at hmem

theorem collectFor_ne_nil (T : String) (events : List ServerEvent) :
    ∀ cur : Option Turn, (cur.isSome = true ∨ ∃ e ∈ events, e.TurnId = T) →
      CollectTurns.collectFor T cur (events.filter (fun e => decide (e.TurnId = T))) ≠ [] := by
  induction events with
  | nil =>
    intro cur h
    rcases h with h | ⟨e, he, _⟩
    · cases cur with
      | none => cases h
      | some t => simp [CollectTurns.collectFor]
    · cases he
  | cons e rest ih =>
    intro cur h
    by_cases hid : e.TurnId = T
    · simp only [List.filter_cons, hid, decide_True, if_true, CollectTurns.collectFor]
      split
      · simp
      · exact ih _ (Or.inl rfl)
    · simp only [List.filter_cons, hid, decide_False, Bool.false_eq_true, if_false]
      refine ih cur ?_
      rcases h with h | ⟨x, hx, hxid⟩
      · exact Or.inl h
      · rcases List.mem_cons.mp hx with rfl | hx1
        · exact absurd hxid hid
        · exact Or.inr ⟨x, hx1, hxid⟩

theorem collectFor_length_one (T : String) (events : List ServerEvent) :
    ∀ cur : Option Turn, noEventAfterEnd T events = true →
      (cur.isSome = true ∨ ∃ e ∈ events, e.TurnId = T) →
      (CollectTurns.collectFor T cur
        (events.filter (fun e => decide (e.TurnId = T)))).length = 1 := by
  induction events with
  | nil =>
    intro cur _ h
    rcases h with h | ⟨e, he, _⟩
    · cases cur with
      | none => cases h
      | some t => simp [CollectTurns.collectFor]
    · cases he
  | cons e rest ih =>
    intro cur hno h
    by_cases hid : e.TurnId = T
    · simp only [List.filter_cons, hid, decide_True, if_true, CollectTurns.collectFor]
      by_cases hend : isTurnEnd e = true
      · simp only [noEventAfterEnd, hid, hend, and_self, if_true, List.all_eq_true,
          decide_eq_true_eq] at hno
        have hnil : rest.filter (fun e => decide (e.TurnId = T)) = [] := by
          rw [List.filter_eq_nil_iff]
          intro x hx hxid
          exact hno x hx (by simpa using hxid)
        simp [hend, hnil, CollectTurns.collectFor]
      · have hno1 : noEventAfterEnd T rest = true := by
          simpa [noEventAfterEnd, hid, hend] using hno
        simp only [hend, if_false]
        exact ih _ hno1 (Or.inl rfl)
    · have hno1 : noEventAfterEnd T rest = true := by
        simpa [noEventAfterEnd, hid] using hno
      simp only [List.filter_cons, hid, decide_False, Bool.false_eq_true, if_false]
      refine ih cur hno1 ?_
      rcases h with h | ⟨x, hx, hxid⟩
      · exact Or.inl h
      · rcases List.mem_cons.mp hx with rfl | hx1
        · exact absurd hxid hid
        · exact Or.inr ⟨x, hx1, hxid⟩

/-- C11: fed TURN_BEGIN with index 1, a partial assistant message p, a final
assistant message f, a final result message `ok` and TURN_END with index 1,
all tagged turn T1 and request R1, and then closed, `CollectTurns` emits
exactly one Turn; it has the turn id T1, the request id R1, Started and Ended
true, the turn index 1, the partials [p], the messages [f, result ok], f as
`MergedAssistant()` and `ok` as the result of `LatestResult()`. -/
theorem C11_aggregation_example (T1 R1 : String) (p f : AssistantMessage) (hT : T1 ≠ "") :
    ∃ t, CollectTurns (aggregationExample T1 R1 p f) = [t] ∧
      t.TurnID = T1 ∧ t.RequestID = R1 ∧ t.Started = true ∧ t.Ended = true ∧ t.TurnIndex = 1 ∧
      t.Partials = [{ IsPartial := true, msg := .assistant p }] ∧
      t.Messages = [{ IsPartial := false, msg := .assistant f },
        { IsPartial := false, msg := .result { Result := "ok" } }] ∧
      t.MergedAssistant = some f ∧
      t.LatestResult.map (fun r => r.Result) = some "ok" := by
  by_cases hR : R1 = "" <;>
    simp [CollectTurns, CollectTurns.flush, CollectTurns.loop, CollectTurns.step,
      CollectTurns.init, aggregationExample, hT, hR, GoMap.get, GoMap.set, GoMap.delete,
      Stream.record, newTurn, Turn.addMessage, messageKind, MessageEvent.GetStreamEvent,
      MessageEvent.GetResult, MessageEvent.GetAssistant, messageKindUser, messageKindAssistant,
      messageKindSystem, messageKindResult, messageKindStreamEvent, Turn.MergedAssistant,
      Turn.LatestAssistant, Turn.LatestMessage, Turn.LatestResult]

/-- C11, applied to the ids and the messages of the aggregation test. -/
theorem C11_aggregation_example_witness :
    ∃ t, CollectTurns (aggregationExample "turn-1" "req-1" { Model := "partial" }
        { Model := "final" }) = [t] ∧
      t.TurnID = "turn-1" ∧ t.RequestID = "req-1" ∧ t.Started = true ∧ t.Ended = true ∧
      t.TurnIndex = 1 ∧ t.Partials = [partialAssistant] ∧
      t.Messages = [finalAssistant, { IsPartial := false, msg := .result { Result := "ok" } }] ∧
      t.MergedAssistant = some { Model := "final" } ∧
      t.LatestResult.map (fun r => r.Result) = some "ok" :=
  C11_aggregation_example "turn-1" "req-1" { Model := "partial" } { Model := "final" }
    (by decide)

/-- C18 (as stated, refuted): fed the TURN_END of `turn-1` followed by a message
of `turn-1` and then closed, `CollectTurns` emits two Turns with the turn id
`turn-1`: one at the TURN_END, one in the final flush. -/
theorem C18_turn_id_emitted_twice :
    (CollectTurns [turnEndEvent, partialEvent]).map (fun t => (t.TurnID, t.Ended))
      = [("turn-1", true), ("turn-1", false)] := by
  decide

/-- C18 (amended): for every sequence of events with present payloads fed to
`CollectTurns` and then closed, every turn id seen in the sequence is the
turn id of at least one emitted Turn, and of exactly one when no event
carrying the id follows the first TURN_END that carries it; every emitted
Turn carries a turn id seen in the sequence. -/
theorem C18_turn_emitted_once (events : List ServerEvent) (T : String)
    (hp : ∀ e ∈ events, e.payloadPresent = true) (hT : T ≠ "")
    (hseen : ∃ e ∈ events, e.TurnId = T) :
    1 ≤ ((CollectTurns events).filter (fun t => decide (t.TurnID = T))).length ∧
      (noEventAfterEnd T events = true →
        ((CollectTurns events).filter (fun t => decide (t.TurnID = T))).length = 1) ∧
      ∀ t ∈ CollectTurns events, ∃ e ∈ events, e.TurnId = t.TurnID := by
  rw [CollectTurns_filter T hT events hp]
  refine ⟨?_, fun hno => collectFor_length_one T events none hno (Or.inr hseen),
    CollectTurns_TurnID_seen events hp⟩
  exact List.length_pos.mpr (collectFor_ne_nil T events none (Or.inr hseen))

/-- C18 (amended), applied to a turn left open and to a turn closed by its
TURN_END: each turn id has exactly one emitted Turn. -/
theorem C18_turn_emitted_once_witness :
    ((CollectTurns [turnBeginA, turnBeginEvent, partialEvent, turnEndEvent]).filter
        (fun t => decide (t.TurnID = "turn-1"))).length = 1 ∧
      ((CollectTurns [turnBeginA, turnBeginEvent, partialEvent, turnEndEvent]).filter
        (fun t => decide (t.TurnID = "turn-a"))).length = 1 :=
  ⟨(C18_turn_emitted_once [turnBeginA, turnBeginEvent, partialEvent, turnEndEvent] "turn-1"
      (by decide) (by decide) ⟨turnEndEvent, by decide, rfl⟩).2.1 (by decide),
    (C18_turn_emitted_once [turnBeginA, turnBeginEvent, partialEvent, turnEndEvent] "turn-a"
      (by decide) (by decide) ⟨turnBeginA, by decide, rfl⟩).2.1 (by decide)⟩

theorem Interleave.mem {A B l : List ServerEvent} (h : Interleave A B l) :
    ∀ x ∈ l, x ∈ A ∨ x ∈ B := by
  induction h with
  | nil => intro x hx; cases hx
  | left a _ ih =>
    intro x hx
    rcases List.mem_cons.mp hx with rfl | h1
    · exact Or.inl (List.mem_cons_self _ _)
    · exact (ih x h1).imp (List.mem_cons_of_mem _) id
  | right b _ ih =>
    intro x hx
    rcases List.mem_cons.mp hx with rfl | h1
    · exact Or.inr (List.mem_cons_self _ _)
    · exact (ih x h1).imp id (List.mem_cons_of_mem _)

theorem Interleave.filter_left {A B l : List ServerEvent} (h : Interleave A B l)
    (p : ServerEvent → Bool) (hA : ∀ a ∈ A, p a = true) (hB : ∀ b ∈ B, p b = false) :
    l.filter p = A := by
  induction h with
  | nil => rfl
  | left a _ ih =>
    rw [List.filter_cons, hA a (List.mem_cons_self _ _)]
    simp only [if_true]
    rw [ih (fun x hx => hA x (List.mem_cons_of_mem _ hx)) hB]
  | right b _ ih =>
    rw [List.filter_cons, hB b (List.mem_cons_self _ _)]
    simp only [Bool.false_eq_true, if_false]
    exact ih hA (fun x hx => hB x (List.mem_cons_of_mem _ hx))

theorem Interleave.filter_right {A B l : List ServerEvent} (h : Interleave A B l)
    (p : ServerEvent → Bool) (hA : ∀ a ∈ A, p a = false) (hB : ∀ b ∈ B, p b = true) :
    l.filter p = B := by
  induction h with
  | nil => rfl
  | left a _ ih =>
    rw [List.filter_cons, hA a (List.mem_cons_self _ _)]
    simp only [Bool.false_eq_true, if_false]
    exact ih (fun x hx => hA x (List.mem_cons_of_mem _ hx)) hB
  | right b _ ih =>
    rw [List.filter_cons, hB b (List.mem_cons_self _ _)]
    simp only [if_true]
    rw [ih hA (fun x hx => hB x (List.mem_cons_of_mem _ hx))]

/-- The Turn `CollectTurns` builds from events of one turn id with no TURN_END
among them, followed by a TURN_END. -/
theorem collectFor_single (T : String) (init : List ServerEvent) (e : ServerEvent)
    (hinit : ∀ x ∈ init, isTurnEnd x = false) (hend : isTurnEnd e = true) :
    ∀ cur : Option Turn,
      CollectTurns.collectFor T cur (init ++ [e]) =
        [CollectTurns.fold (init.foldl CollectTurns.fold (cur.getD (newTurn T))) e] := by
  induction init with
  | nil => intro cur; simp [CollectTurns.collectFor, hend]
  | cons x rest ih =>
    intro cur
    have hx : isTurnEnd x = false := hinit x (List.mem_cons_self _ _)
    have h1 := ih (fun y hy => hinit y (List.mem_cons_of_mem _ hy))
      (some (CollectTurns.fold (cur.getD (newTurn T)) x))
    simp only [List.cons_append, CollectTurns.collectFor, hx, Bool.false_eq_true, if_false,
      List.foldl_cons]
    exact h1

/-- Fed alone the events of one turn id, `CollectTurns` emits what it emits for
that id. -/
theorem CollectTurns_single_id (T : String) (hT : T ≠ "") (events : List ServerEvent)
    (hp : ∀ e ∈ events, e.payloadPresent = true) (hid : ∀ e ∈ events, e.TurnId = T) :
    CollectTurns events = CollectTurns.collectFor T none events := by
  have hf := CollectTurns_filter T hT events hp
  have hall : events.filter (fun e => decide (e.TurnId = T)) = events := by
    rw [List.filter_eq_self]
    intro e he
    simpa using hid e he
  have hself : (CollectTurns events).filter (fun t => decide (t.TurnID = T))
      = CollectTurns events := by
    rw [List.filter_eq_self]
    intro t ht
    obtain ⟨e, he, heq⟩ := CollectTurns_TurnID_seen events hp t ht
    simpa using heq.symm.trans (hid e he)
  rw [hself, hall] at hf
  exact hf

/-- C19: for two sequences of events with present payloads, each carrying one
turn id of its own and ending in its only TURN_END, and for every
interleaving of the two that keeps the order of each, `CollectTurns` emits
exactly two Turns: the Turn it emits when fed the first sequence alone, which
is the one emitted under the first turn id, and the Turn it emits when fed
the second alone, every field included. -/
theorem C19_interleaved_turns (initA initB l : List ServerEvent) (endA endB : ServerEvent)
    (ta tb : String) (hta : ta ≠ "") (htb : tb ≠ "") (hne : ta ≠ tb)
    (hidA : ∀ a ∈ initA ++ [endA], a.TurnId = ta) (hidB : ∀ b ∈ initB ++ [endB], b.TurnId = tb)
    (hpA : ∀ a ∈ initA ++ [endA], a.payloadPresent = true)
    (hpB : ∀ b ∈ initB ++ [endB], b.payloadPresent = true)
    (hinitA : ∀ a ∈ initA, isTurnEnd a = false) (hendA : isTurnEnd endA = true)
    (hinitB : ∀ b ∈ initB, isTurnEnd b = false) (hendB : isTurnEnd endB = true)
    (hl : Interleave (initA ++ [endA]) (initB ++ [endB]) l) :
    ∃ tA tB, CollectTurns (initA ++ [endA]) = [tA] ∧ CollectTurns (initB ++ [endB]) = [tB] ∧
      (CollectTurns l).Perm [tA, tB] ∧
      (CollectTurns l).filter (fun t => decide (t.TurnID = ta)) = [tA] ∧
      (CollectTurns l).filter (fun t => decide (t.TurnID = tb)) = [tB] := by
  have hAlone : CollectTurns (initA ++ [endA]) = _ :=
    (CollectTurns_single_id ta hta _ hpA hidA).trans (collectFor_single ta initA endA hinitA hendA none)
  have hBlone : CollectTurns (initB ++ [endB]) = _ :=
    (CollectTurns_single_id tb htb _ hpB hidB).trans (collectFor_single tb initB endB hinitB hendB none)
  have hpl : ∀ e ∈ l, e.payloadPresent = true := by
    intro e he
    rcases hl.mem e he with h | h
    · exact hpA e h
    · exact hpB e h
  have hfA : l.filter (fun e => decide (e.TurnId = ta)) = initA ++ [endA] :=
    hl.filter_left _ (fun a ha => by simpa using hidA a ha)
      (fun b hb => by simpa [hidB b hb] using fun h : tb = ta => hne h.symm)
  have hfB : l.filter (fun e => decide (e.TurnId = tb)) = initB ++ [endB] :=
    hl.filter_right _ (fun a ha => by simpa [hidA a ha] using hne)
      (fun b hb => by simpa using hidB b hb)
  have hoA := CollectTurns_filter ta hta l hpl
  have hoB := CollectTurns_filter tb htb l hpl
  rw [hfA, collectFor_single ta initA endA hinitA hendA none] at hoA
  rw [hfB, collectFor_single tb initB endB hinitB hendB none] at hoB
  refine ⟨_, _, hAlone, hBlone, ?_, hoA, hoB⟩
  have hrest : (CollectTurns l).filter (fun t => !decide (t.TurnID = ta))
      = (CollectTurns l).filter (fun t => decide (t.TurnID = tb)) := by
    apply List.filter_congr
    intro t ht
    obtain ⟨e, he, heq⟩ := CollectTurns_TurnID_seen l hpl t ht
    rcases hl.mem e he with h | h
    · have h1 : t.TurnID = ta := heq.symm.trans (hidA e h)
      simp [h1, hne]
    · have h1 : t.TurnID = tb := heq.symm.trans (hidB e h)
      have hne1 : ¬ tb = ta := fun h => hne h.symm
      simp [h1, hne1]
  have hperm := List.filter_append_perm (fun t : Turn => decide (t.TurnID = ta)) (CollectTurns l)
  rw [hrest, hoA, hoB] at hperm
  exact hperm.symm

/-- C19, applied to TURN_BEGIN and TURN_END of `turn-a` of `req-a` interleaved
with TURN_BEGIN and TURN_END of `turn-1` of `req-1`. -/
theorem C19_interleaved_turns_witness :
    ∃ tA tB, CollectTurns ([turnBeginA] ++ [turnEndA]) = [tA] ∧
      CollectTurns ([turnBeginEvent] ++ [turnEndEvent]) = [tB] ∧
      (CollectTurns [turnBeginA, turnBeginEvent, turnEndEvent, turnEndA]).Perm [tA, tB] ∧
      (CollectTurns [turnBeginA, turnBeginEvent, turnEndEvent, turnEndA]).filter
        (fun t => decide (t.TurnID = "turn-a")) = [tA] ∧
      (CollectTurns [turnBeginA, turnBeginEvent, turnEndEvent, turnEndA]).filter
        (fun t => decide (t.TurnID = "turn-1")) = [tB] :=
  C19_interleaved_turns [turnBeginA] [turnBeginEvent]
    [turnBeginA, turnBeginEvent, turnEndEvent, turnEndA] turnEndA turnEndEvent "turn-a" "turn-1"
    (by decide) (by decide) (by decide) (by decide) (by decide) (by decide) (by decide)
    (by decide) (by decide) (by decide) (by decide)
    (Interleave.left turnBeginA (Interleave.right turnBeginEvent
      (Interleave.right turnEndEvent (Interleave.left turnEndA Interleave.nil))))

/-! ## The multiplexer: delivery to global subscriptions, frame of processing, closeAll, unsubscribe -/

theorem process_byRequest (m : eventMux) (e : ServerEvent) :
    (m.process e).byRequest =
      if isTurnEnd e = true ∧ e.RequestId ≠ "" then m.byRequest.delete e.RequestId
      else m.byRequest := by
  unfold eventMux.process eventMux.closeRequest
  by_cases hend : isTurnEnd e = true
  · by_cases hr : e.RequestId = "" <;> simp [hend, hr]
  · simp [hend]

/-- C13: processing a published event leaves the global list and the closed flag
as they are; it changes the per-request map only when the event is a TURN_END
with a non-empty request id, and then by deleting that id's entry; every
global subscription, and every subscription registered under another request
id (under any id when the event is no TURN_END), is open afterwards and
registered as before, whatever the payload of the event. -/
theorem C13_processing_frame (ops : List MuxOp) (e : ServerEvent) (rest : List ServerEvent)
    (hok : okFrom newEventMux ops = true)
    (hopen : (newEventMux.steps ops).closed = false)
    (hhead : (newEventMux.steps ops).queue.items = e :: rest) :
    (newEventMux.steps ops).run.global = (newEventMux.steps ops).global ∧
      (newEventMux.steps ops).run.closed = false ∧
      (∀ x ∈ (newEventMux.steps ops).global, (newEventMux.steps ops).run.isOpen x) ∧
      (isTurnEnd e = true ∧ e.RequestId ≠ "" →
        (newEventMux.steps ops).run.byRequest
          = (newEventMux.steps ops).byRequest.delete e.RequestId) ∧
      (¬ (isTurnEnd e = true ∧ e.RequestId ≠ "") →
        (newEventMux.steps ops).run.byRequest = (newEventMux.steps ops).byRequest) ∧
      (∀ k, (k ≠ e.RequestId ∨ isTurnEnd e = false) →
        (newEventMux.steps ops).run.byRequest.get k = (newEventMux.steps ops).byRequest.get k ∧
        ∀ x ∈ (newEventMux.steps ops).requestSubs k, (newEventMux.steps ops).run.isOpen x) := by
  have hwf : (newEventMux.steps ops).WF := WF_steps ops _ WF_newEventMux hok
  rw [run_eq_process _ e rest hopen hhead]
  generalize newEventMux.steps ops = m at hwf hopen ⊢
  have hwf1 := WF_process { m with queue := { m.queue with items := rest } } e (WF_queue m _ hwf)
  have hget : ∀ k, (k ≠ e.RequestId ∨ isTurnEnd e = false) →
      (eventMux.process { m with queue := { m.queue with items := rest } } e).byRequest.get k
        = m.byRequest.get k := by
    intro k hk
    rw [process_byRequest]
    split
    · rename_i hc
      rcases hk with hk | hk
      · exact GoMap.get_delete_ne _ _ _ hk
      · rw [hc.1] at hk; cases hk
    · rfl
  refine ⟨process_global _ e, (process_closed _ e).trans hopen, ?_, ?_, ?_, ?_⟩
  · intro x hx
    exact hwf1.global_open x (by rw [process_global]; exact hx)
  · intro hc
    rw [process_byRequest]; simp [hc]
  · intro hc
    rw [process_byRequest]; simp [hc]
  · intro k hk
    refine ⟨hget k hk, fun x hx => hwf1.request_open k x ?_⟩
    have h1 : (eventMux.process { m with queue := { m.queue with items := rest } } e).requestSubs k
        = m.requestSubs k := by
      simp only [eventMux.requestSubs]
      rw [hget k hk]
    rw [h1]; exact hx

/-- C13, applied to a fatal error of `req-b` processed by a multiplexer with a
global subscription, one under `req-a` and two under `req-b`: the registry
stays what it was. -/
theorem C13_processing_frame_witness :
    (muxWithFour.steps [.enqueue fatalErrorB]).run.global = [0] ∧
      (muxWithFour.steps [.enqueue fatalErrorB]).run.byRequest
        = (muxWithFour.steps [.enqueue fatalErrorB]).byRequest ∧
      (muxWithFour.steps [.enqueue fatalErrorB]).run.closed = false :=
  ⟨(C13_processing_frame [.subscribeAll, .subscribeRequest "req-a", .subscribeRequest "req-b",
      .subscribeRequest "req-b", .enqueue fatalErrorB] fatalErrorB [] (by decide) (by decide)
      (by decide)).1,
    (C13_processing_frame [.subscribeAll, .subscribeRequest "req-a", .subscribeRequest "req-b",
      .subscribeRequest "req-b", .enqueue fatalErrorB] fatalErrorB [] (by decide) (by decide)
      (by decide)).2.2.2.2.1 (by decide),
    (C13_processing_frame [.subscribeAll, .subscribeRequest "req-a", .subscribeRequest "req-b",
      .subscribeRequest "req-b", .enqueue fatalErrorB] fatalErrorB [] (by decide) (by decide)
      (by decide)).2.1⟩

theorem Close_iterate_closed (s : subscription) (h : s.once = false) (n : Nat) :
    (subscription.Close^[n + 1] s).queue.closed = true := by
  rw [Function.iterate_succ, Function.comp_apply]
  exact iterate_preserves (P := fun x => x.queue.closed = true)
    (fun x hx => Close_closed_of_closed x hx) n _ (Close_closed_of_once s h)

theorem closeAll_sub (m : eventMux) (hopen : m.closed = false) (j : Nat) :
    m.closeAll.sub j = (m.sub j).map
      (subscription.Close^[(m.global ++ (m.byRequest.map (fun kv => kv.2)).flatten).count j]) := by
  simp only [eventMux.closeAll, hopen, Bool.false_eq_true, if_false, eventMux.sub, closeEach,
    foldl_updateAt_get]

theorem closeAll_closes (m : eventMux) (hopen : m.closed = false) (j : Nat)
    (hj : m.isOpen j)
    (hmem : j ∈ m.global ++ (m.byRequest.map (fun kv => kv.2)).flatten) :
    m.closeAll.isClosed j := by
  obtain ⟨s, hs, _, honce⟩ := hj
  obtain ⟨n, hn⟩ := Nat.exists_eq_succ_of_ne_zero
    (Nat.pos_iff_ne_zero.mp (List.count_pos_iff.mpr hmem))
  refine ⟨_, by rw [closeAll_sub m hopen, hs]; rfl, ?_⟩
  rw [hn]
  exact Close_iterate_closed s honce n

/-- C14: when an open multiplexer the client has driven closes, every
subscription registered at that moment, global or under a request id, is
closed, the global list and the per-request map are empty and the closed flag
is set; `closeAll` is what `run` does once the queue is closed and drained,
and a second `closeAll` changes nothing. -/
theorem C14_closeAll (ops : List MuxOp) (hok : okFrom newEventMux ops = true)
    (hopen : (newEventMux.steps ops).closed = false) :
    (∀ x ∈ (newEventMux.steps ops).global, (newEventMux.steps ops).closeAll.isClosed x) ∧
      (∀ k, ∀ x ∈ (newEventMux.steps ops).requestSubs k,
        (newEventMux.steps ops).closeAll.isClosed x) ∧
      (newEventMux.steps ops).closeAll.global = [] ∧
      (newEventMux.steps ops).closeAll.byRequest = [] ∧
      (newEventMux.steps ops).closeAll.closed = true ∧
      (newEventMux.steps ops).closeAll.closeAll = (newEventMux.steps ops).closeAll ∧
      ((newEventMux.steps ops).queue.closed = true → (newEventMux.steps ops).queue.items = [] →
        (newEventMux.steps ops).run = (newEventMux.steps ops).closeAll) := by
  have hwf : (newEventMux.steps ops).WF := WF_steps ops _ WF_newEventMux hok
  generalize newEventMux.steps ops = m at hwf hopen ⊢
  refine ⟨?_, ?_, ?_, ?_, ?_, ?_, ?_⟩
  · intro x hx
    exact closeAll_closes m hopen x (hwf.global_open x hx) (List.mem_append_left _ hx)
  · intro k x hx
    obtain ⟨kv, hkv, _, hx1⟩ := mem_requestSubs_entry m k x hx
    refine closeAll_closes m hopen x (hwf.request_open k x hx) (List.mem_append_right _ ?_)
    exact List.mem_flatten.mpr ⟨kv.2, List.mem_map.mpr ⟨kv, hkv, rfl⟩, hx1⟩
  · simp [eventMux.closeAll, hopen]
  · simp [eventMux.closeAll, hopen]
  · simp [eventMux.closeAll, hopen]
  · simp [eventMux.closeAll, hopen]
  · intro hqc hqi
    simp [eventMux.run, hopen, eventQueue.Pop, hqc, hqi]

/-- C14, applied to a multiplexer with a global subscription, one under `req-a`
and two under `req-b`: after `closeAll` all four are closed. -/
theorem C14_closeAll_witness :
    (∀ x ∈ muxWithFour.global, muxWithFour.closeAll.isClosed x) ∧
      (∀ x ∈ muxWithFour.requestSubs "req-b", muxWithFour.closeAll.isClosed x) ∧
      muxWithFour.closeAll.byRequest = [] ∧
      muxWithFour.closeAll.closeAll = muxWithFour.closeAll :=
  ⟨(C14_closeAll [.subscribeAll, .subscribeRequest "req-a", .subscribeRequest "req-b",
      .subscribeRequest "req-b"] (by decide) (by decide)).1,
    (C14_closeAll [.subscribeAll, .subscribeRequest "req-a", .subscribeRequest "req-b",
      .subscribeRequest "req-b"] (by decide) (by decide)).2.1 "req-b",
    (C14_closeAll [.subscribeAll, .subscribeRequest "req-a", .subscribeRequest "req-b",
      .subscribeRequest "req-b"] (by decide) (by decide)).2.2.2.1,
    (C14_closeAll [.subscribeAll, .subscribeRequest "req-a", .subscribeRequest "req-b",
      .subscribeRequest "req-b"] (by decide) (by decide)).2.2.2.2.2.1⟩

theorem Close_Close (s : subscription) : s.Close.Close = s.Close := by
  unfold subscription.Close
  by_cases h : s.once = true <;> simp [h]

theorem updateAt_updateAt (f : subscription → subscription) (hf : ∀ s, f (f s) = f s)
    (subs : List subscription) (i : Nat) : updateAt f (updateAt f subs i) i = updateAt f subs i := by
  induction subs generalizing i with
  | nil => rfl
  | cons s rest ih =>
    cases i with
    | zero => simp [updateAt, hf]
    | succ i => simp [updateAt, ih]

theorem GoMap.delete_delete {β : Type} (m : GoMap β) (k : String) :
    GoMap.delete (GoMap.delete m k) k = GoMap.delete m k := by
  simp [GoMap.delete, List.filter_filter]

theorem GoMap.set_set {β : Type} (m : GoMap β) (k : String) (v : β) :
    GoMap.set (GoMap.set m k v) k v = GoMap.set m k v := by
  simp [GoMap.set, GoMap.delete, List.filter_cons, List.filter_filter]

theorem unsubscribe_eq (m : eventMux) (r : String) (s : Nat) (hr : r ≠ "") :
    m.UnsubscribeRequest r (some s) =
      { m with
        byRequest :=
          if ((m.requestSubs r).erase s).length = 0 then m.byRequest.delete r
          else m.byRequest.set r ((m.requestSubs r).erase s),
        subs := updateAt subscription.Close m.subs s } := by
  simp [eventMux.UnsubscribeRequest, hr]

/-- C15: for every non-empty request id r and subscription s registered under r
in a multiplexer the client has driven, `UnsubscribeRequest(r, s)` leaves
under r the other subscriptions in their order, with no entry for r when none
is left, leaves the global list, the entries of the other request ids, the
other subscriptions, the queue and the closed flag as they were, and closes
s; a second call changes nothing. -/
theorem C15_unsubscribe (ops : List MuxOp) (r : String) (s : Nat)
    (hok : okFrom newEventMux ops = true) (hr : r ≠ "")
    (hreg : s ∈ (newEventMux.steps ops).requestSubs r) :
    ((newEventMux.steps ops).UnsubscribeRequest r (some s)).requestSubs r
        = ((newEventMux.steps ops).requestSubs r).filter (fun x => x != s) ∧
      (((newEventMux.steps ops).requestSubs r).filter (fun x => x != s) = [] →
        ((newEventMux.steps ops).UnsubscribeRequest r (some s)).byRequest.get r = none) ∧
      ((newEventMux.steps ops).UnsubscribeRequest r (some s)).global
        = (newEventMux.steps ops).global ∧
      (∀ k, k ≠ r →
        ((newEventMux.steps ops).UnsubscribeRequest r (some s)).byRequest.get k
          = (newEventMux.steps ops).byRequest.get k) ∧
      ((newEventMux.steps ops).UnsubscribeRequest r (some s)).isClosed s ∧
      (∀ j, j ≠ s →
        ((newEventMux.steps ops).UnsubscribeRequest r (some s)).sub j
          = (newEventMux.steps ops).sub j) ∧
      ((newEventMux.steps ops).UnsubscribeRequest r (some s)).queue
        = (newEventMux.steps ops).queue ∧
      ((newEventMux.steps ops).UnsubscribeRequest r (some s)).closed
        = (newEventMux.steps ops).closed ∧
      ((newEventMux.steps ops).UnsubscribeRequest r (some s)).UnsubscribeRequest r (some s)
        = (newEventMux.steps ops).UnsubscribeRequest r (some s) := by
  have hwf : (newEventMux.steps ops).WF := WF_steps ops _ WF_newEventMux hok
  generalize newEventMux.steps ops = m at hwf hreg ⊢
  have hnodup := hwf.request_nodup r
  have herase : (m.requestSubs r).erase s = (m.requestSubs r).filter (fun x => x != s) :=
    hnodup.erase_eq_filter s
  have hreq := requestSubs_Unsubscribe m r s hr
  obtain ⟨sub0, hsub0, _, honce⟩ := hwf.request_open r s hreg
  refine ⟨?_, ?_, ?_, ?_, ?_, ?_, ?_, ?_, ?_⟩
  · rw [hreq r, if_pos rfl, herase]
  · intro hnil
    rw [← herase] at hnil
    simp [eventMux.UnsubscribeRequest, hr, hnil, GoMap.get_delete_self]
  · simp [eventMux.UnsubscribeRequest, hr]
  · intro k hk
    simp only [eventMux.UnsubscribeRequest, hr, if_false]
    split
    · exact GoMap.get_delete_ne _ _ _ hk
    · exact GoMap.get_set_ne _ _ _ _ hk
  · refine ⟨sub0.Close, ?_, Close_closed_of_once sub0 honce⟩
    simp only [eventMux.UnsubscribeRequest, hr, if_false, eventMux.sub]
    rw [updateAt_get_self]
    unfold eventMux.sub at hsub0
    rw [hsub0]; rfl
  · intro j hj
    simp only [eventMux.UnsubscribeRequest, hr, if_false, eventMux.sub]
    exact updateAt_get_ne _ _ _ _ hj
  · simp [eventMux.UnsubscribeRequest, hr]
  · simp [eventMux.UnsubscribeRequest, hr]
  · have hnot : s ∉ (m.requestSubs r).erase s := hnodup.not_mem_erase
    have h2 : ((m.UnsubscribeRequest r (some s)).requestSubs r).erase s
        = (m.requestSubs r).erase s := by
      rw [hreq r, if_pos rfl]
      exact List.erase_of_not_mem hnot
    rw [unsubscribe_eq (m.UnsubscribeRequest r (some s)) r s hr, h2, unsubscribe_eq m r s hr]
    by_cases hlen : ((m.requestSubs r).erase s).length = 0
    · simp [hlen, GoMap.delete_delete, updateAt_updateAt _ Close_Close]
    · simp [hlen, GoMap.set_set, updateAt_updateAt _ Close_Close]

/-- C15, applied to the first of the two subscriptions under `req-b`: the other
one stays, and so does everything else. -/
theorem C15_unsubscribe_witness :
    (muxWithFour.UnsubscribeRequest "req-b" (some 2)).requestSubs "req-b" = [3] ∧
      (muxWithFour.UnsubscribeRequest "req-b" (some 2)).global = [0] ∧
      (muxWithFour.UnsubscribeRequest "req-b" (some 2)).UnsubscribeRequest "req-b" (some 2)
        = muxWithFour.UnsubscribeRequest "req-b" (some 2) :=
  ⟨((C15_unsubscribe [.subscribeAll, .subscribeRequest "req-a", .subscribeRequest "req-b",
      .subscribeRequest "req-b"] "req-b" 2 (by decide) (by decide) (by decide)).1).trans
      (by decide),
    ((C15_unsubscribe [.subscribeAll, .subscribeRequest "req-a", .subscribeRequest "req-b",
      .subscribeRequest "req-b"] "req-b" 2 (by decide) (by decide) (by decide)).2.2.1).trans
      (by decide),
    (C15_unsubscribe [.subscribeAll, .subscribeRequest "req-a", .subscribeRequest "req-b",
      .subscribeRequest "req-b"] "req-b" 2 (by decide) (by decide) (by decide)).2.2.2.2.2.2.2.2⟩

theorem step_closed (m : eventMux) (op : MuxOp) (h : m.closed = true) :
    (m.step op).closed = true := by
  cases op with
  | subscribeAll => simp [eventMux.step, eventMux.SubscribeAll, h]
  | subscribeRequest r => simp [eventMux.step, eventMux.SubscribeRequest, h]
  | unsubscribeRequest r sub =>
    cases sub with
    | none => exact h
    | some i =>
      simp only [eventMux.step, eventMux.UnsubscribeRequest]
      split <;> exact h
  | enqueue e => exact h
  | close => exact h
  | run => simp [eventMux.step, eventMux.run, h]
  | pump i => exact h

theorem isOpen_enqueuedTo {m : eventMux} {j : Nat} {s : subscription} (h : m.sub j = some s) :
    m.enqueuedTo j = s.enqueued := by
  simp [eventMux.enqueuedTo, h]

/-- Every action the client can take keeps a global subscription in step with
the multiplexer: it is enqueued what the action publishes, and nothing else. -/
theorem GlobalSub_step (m : eventMux) (op : MuxOp) (sub : Nat) (L : List ServerEvent)
    (h : m.GlobalSub sub L) (hok : op.ok m = true) :
    (m.step op).GlobalSub sub (L ++ publishedBy m op) := by
  obtain ⟨hL, hcase⟩ := h
  rcases hcase with ⟨hopen, hcount, hreq, hisopen⟩ | ⟨hclosed, hisclosed⟩
  · -- open multiplexer, open global subscription
    obtain ⟨s, hs, hsc, hso⟩ := hisopen
    have hlt : sub < m.subs.length := isOpen_lt ⟨s, hs, hsc, hso⟩
    have hmem : sub ∈ m.global := List.count_pos_iff.mp (by omega)
    have hLs : s.enqueued = L := by rw [← hL, isOpen_enqueuedTo hs]
    obtain ⟨_, hregs, _⟩ := step_registry m op
    have hreq1 : ∀ k, sub ∉ (m.step op).requestSubs k := by
      intro k hk
      rcases hregs k sub hk with h1 | ⟨h1, _⟩
      · exact hreq k h1
      · omega
    cases op with
    | subscribeAll =>
      have hsub : (m.step .subscribeAll).sub sub = some s := by
        simp only [eventMux.step, eventMux.SubscribeAll, hopen, Bool.false_eq_true, if_false,
          eventMux.sub]
        exact get_append_of_some hs _
      refine ⟨by simp [publishedBy, isOpen_enqueuedTo hsub, hLs], Or.inl ⟨?_, ?_, hreq1, s, hsub, hsc, hso⟩⟩
      · simp [eventMux.step, eventMux.SubscribeAll, hopen]
      · simp only [eventMux.step, eventMux.SubscribeAll, hopen, Bool.false_eq_true, if_false,
          List.count_append, hcount]
        rw [List.count_eq_zero_of_not_mem (by simp; omega)]
    | subscribeRequest r =>
      have hsub : (m.step (.subscribeRequest r)).sub sub = some s := by
        simp only [eventMux.step, eventMux.SubscribeRequest, hopen, Bool.false_eq_true,
          if_false, eventMux.sub]
        exact get_append_of_some hs _
      refine ⟨by simp [publishedBy, isOpen_enqueuedTo hsub, hLs], Or.inl ⟨?_, ?_, hreq1, s, hsub, hsc, hso⟩⟩
      · simp [eventMux.step, eventMux.SubscribeRequest, hopen]
      · simpa [eventMux.step, eventMux.SubscribeRequest, hopen] using hcount
    | unsubscribeRequest r i =>
      cases i with
      | none => exact ⟨by simpa [publishedBy] using hL, Or.inl ⟨hopen, hcount, hreq, s, hs, hsc, hso⟩⟩
      | some i =>
        by_cases hr : r = ""
        · have hsame : m.step (.unsubscribeRequest r (some i)) = m := by
            simp [eventMux.step, eventMux.UnsubscribeRequest, hr]
          rw [hsame]
          exact ⟨by simpa [publishedBy] using hL, Or.inl ⟨hopen, hcount, hreq, s, hs, hsc, hso⟩⟩
        · have hi : i ∉ m.global := (ok_unsubscribe m r i hr hok).1
          have hne : sub ≠ i := fun h => hi (h ▸ hmem)
          have hsub : (m.step (.unsubscribeRequest r (some i))).sub sub = some s := by
            simp only [eventMux.step, eventMux.UnsubscribeRequest, hr, if_false, eventMux.sub]
            rw [updateAt_get_ne _ _ _ _ hne]
            exact hs
          refine ⟨by simp [publishedBy, isOpen_enqueuedTo hsub, hLs],
            Or.inl ⟨?_, ?_, hreq1, s, hsub, hsc, hso⟩⟩
          · simp [eventMux.step, eventMux.UnsubscribeRequest, hr, hopen]
          · simpa [eventMux.step, eventMux.UnsubscribeRequest, hr] using hcount
    | enqueue e => exact ⟨by simpa [publishedBy] using hL, Or.inl ⟨hopen, hcount, hreq, s, hs, hsc, hso⟩⟩
    | close => exact ⟨by simpa [publishedBy] using hL, Or.inl ⟨hopen, hcount, hreq, s, hs, hsc, hso⟩⟩
    | pump i =>
      obtain ⟨s1, hs1, hP⟩ := updateAt_preserves
        (P := fun x => x.enqueued = L ∧ x.queue.closed = false ∧ x.once = false)
        (fun x hx => ⟨by rw [run_enqueued]; exact hx.1, by rw [run_closed]; exact hx.2.1,
          by rw [run_once]; exact hx.2.2⟩)
        ⟨s, hs, hLs, hsc, hso⟩ i
      have hsub : (m.step (.pump i)).sub sub = some s1 := hs1
      exact ⟨by simp [publishedBy, isOpen_enqueuedTo hsub, hP.1],
        Or.inl ⟨hopen, hcount, hreq, s1, hsub, hP.2.1, hP.2.2⟩⟩
    | run =>
      cases hitems : m.queue.items with
      | nil =>
        have hproc : m.processing = none := by simp [eventMux.processing, hopen, hitems]
        simp only [publishedBy, hproc, Option.toList, List.append_nil]
        cases hqc : m.queue.closed with
        | false =>
          have hsame : m.step .run = m := by
            simp [eventMux.step, eventMux.run, hopen, eventQueue.Pop, hitems, hqc]
          rw [hsame]
          exact ⟨hL, Or.inl ⟨hopen, hcount, hreq, s, hs, hsc, hso⟩⟩
        | true =>
          have hrun : m.step .run = m.closeAll := by
            simp [eventMux.step, eventMux.run, hopen, eventQueue.Pop, hitems, hqc]
          rw [hrun]
          obtain ⟨n, hn⟩ := Nat.exists_eq_succ_of_ne_zero (Nat.pos_iff_ne_zero.mp
            (List.count_pos_iff.mpr (List.mem_append_left
              ((m.byRequest.map (fun kv => kv.2)).flatten) hmem)))
          have hsub : m.closeAll.sub sub = some (subscription.Close^[n + 1] s) := by
            rw [closeAll_sub m hopen, hs, hn]; rfl
          refine ⟨?_, Or.inr ⟨by simp [eventMux.closeAll, hopen], _, hsub,
            Close_iterate_closed s hso n⟩⟩
          rw [isOpen_enqueuedTo hsub]
          exact iterate_preserves (P := fun x => x.enqueued = L)
            (fun x hx => (Close_enqueued x).trans hx) _ s hLs
      | cons e rest =>
        have hproc : m.processing = some e := by simp [eventMux.processing, hopen, hitems]
        simp only [publishedBy, hproc, Option.toList]
        have hrun : m.step .run =
            eventMux.process { m with queue := { m.queue with items := rest } } e :=
          run_eq_process m e rest hopen hitems
        have hc1 : (eventMux.subscriptionsFor
            { m with queue := { m.queue with items := rest } } e).count sub = 1 := by
          unfold eventMux.subscriptionsFor
          split
          · exact hcount
          · rw [List.count_append]
            have h0 : List.count sub (eventMux.requestSubs
                { m with queue := { m.queue with items := rest } } e.RequestId) = 0 :=
              List.count_eq_zero_of_not_mem (hreq _)
            have h1 : List.count sub
                (eventMux.global { m with queue := { m.queue with items := rest } }) = 1 := hcount
            rw [h0, h1]
        have hc2 : (if isTurnEnd e = true ∧ e.RequestId ≠ "" then
            (eventMux.requestSubs { m with queue := { m.queue with items := rest } }
              e.RequestId).count sub else 0) = 0 := by
          split
          · exact List.count_eq_zero_of_not_mem (hreq _)
          · rfl
        have hsub : (m.step .run).sub sub = some (s.Enqueue e) := by
          rw [hrun, process_sub, hc1, hc2]
          have hs1 : eventMux.sub { m with queue := { m.queue with items := rest } } sub
              = some s := hs
          rw [hs1]; rfl
        obtain ⟨hE1, hE2, hE3⟩ := Enqueue_open s e hsc
        refine ⟨by rw [isOpen_enqueuedTo hsub, hE1, hLs],
          Or.inl ⟨?_, ?_, hreq1, s.Enqueue e, hsub, hE2, by rw [hE3]; exact hso⟩⟩
        · rw [hrun, process_closed]; exact hopen
        · rw [hrun, process_global]; exact hcount
  · -- closed multiplexer: nothing is published any more
    obtain ⟨s, hs, hsc⟩ := hisclosed
    have hLs : s.enqueued = L := by rw [← hL, isOpen_enqueuedTo hs]
    obtain ⟨s1, hs1, hF⟩ := step_preserves (P := Frozen L) (fun e x hx => hx.Enqueue e)
      (fun x hx => hx.Close) (fun x hx => hx.run) m op sub ⟨s, hs, hsc, hLs⟩
    have hnil : publishedBy m op = [] := by
      cases op <;> simp [publishedBy, eventMux.processing, hclosed]
    rw [hnil, List.append_nil]
    exact ⟨by rw [isOpen_enqueuedTo hs1, hF.2], Or.inr ⟨step_closed m op hclosed, s1, hs1, hF.1⟩⟩

theorem GlobalSub_steps (ops : List MuxOp) :
    ∀ (m : eventMux) (sub : Nat) (L : List ServerEvent), m.GlobalSub sub L →
      okFrom m ops = true → (m.steps ops).GlobalSub sub (L ++ processedBy m ops) := by
  induction ops with
  | nil => intro m sub L h _; simpa [processedBy, eventMux.steps] using h
  | cons op rest ih =>
    intro m sub L h hok
    simp only [okFrom, Bool.and_eq_true] at hok
    have h1 := ih (m.step op) sub _ (GlobalSub_step m op sub L h hok.1) hok.2
    simpa [processedBy, eventMux.steps, List.append_assoc] using h1

theorem GlobalSub_SubscribeAll (m : eventMux) (h : m.Valid) :
    m.SubscribeAll.1.GlobalSub m.SubscribeAll.2 [] := by
  have hfresh : m.subs.length ∉ m.global := fun hx => absurd (h.1 _ hx) (lt_irrefl _)
  cases hc : m.closed with
  | true =>
    refine ⟨?_, Or.inr ⟨by simp [eventMux.SubscribeAll, hc], newSubscription.Close, ?_, rfl⟩⟩
    · simp [eventMux.enqueuedTo, eventMux.sub, eventMux.SubscribeAll, hc, newSubscription,
        subscription.Close, subscription.enqueued, newEventQueue, eventQueue.Close]
    · simp [eventMux.sub, eventMux.SubscribeAll, hc]
  | false =>
    refine ⟨?_, Or.inl ⟨by simp [eventMux.SubscribeAll, hc], ?_, ?_, newSubscription, ?_,
      rfl, rfl⟩⟩
    · simp [eventMux.enqueuedTo, eventMux.sub, eventMux.SubscribeAll, hc, newSubscription,
        subscription.enqueued, newEventQueue]
    · simp [eventMux.SubscribeAll, hc, List.count_append, List.count_eq_zero_of_not_mem hfresh]
    · intro k hk
      have hk1 : m.subs.length ∈ m.requestSubs k := by
        simpa [eventMux.SubscribeAll, hc, eventMux.requestSubs] using hk
      exact absurd (h.2 k _ hk1) (lt_irrefl _)
    · simp [eventMux.sub, eventMux.SubscribeAll, hc]

/-- C12: a subscription obtained from `SubscribeAll`, at any point of any
history, is enqueued exactly the events the multiplexer publishes from then
on: every event once, in the order they are published, whatever their request
ids and payloads, as long as the client calls the multiplexer the way it
does. -/
theorem C12_global_receives_all (history ops : List MuxOp)
    (hok : okFrom (newEventMux.steps history).SubscribeAll.1 ops = true) :
    ((newEventMux.steps history).SubscribeAll.1.steps ops).enqueuedTo
        (newEventMux.steps history).SubscribeAll.2
      = processedBy (newEventMux.steps history).SubscribeAll.1 ops := by
  have h := GlobalSub_steps ops _ _ []
    (GlobalSub_SubscribeAll _ (Valid_steps history _ Valid_newEventMux)) hok
  simpa using h.1

/-- C12, applied to a global subscription while events of `req-a`, of `req-b`
and of no request are published, a TURN_END among them. -/
theorem C12_global_receives_all_witness :
    ((newEventMux.steps [.subscribeRequest "req-a"]).SubscribeAll.1.steps
        [.enqueue turnBeginA, .enqueue fatalErrorB, .run, .enqueue sessionInitEvent,
          .enqueue turnEndA, .run, .run, .run, .run]).enqueuedTo
        (newEventMux.steps [.subscribeRequest "req-a"]).SubscribeAll.2
      = processedBy (newEventMux.steps [.subscribeRequest "req-a"]).SubscribeAll.1
          [.enqueue turnBeginA, .enqueue fatalErrorB, .run, .enqueue sessionInitEvent,
            .enqueue turnEndA, .run, .run, .run, .run] ∧
      processedBy (newEventMux.steps [.subscribeRequest "req-a"]).SubscribeAll.1
          [.enqueue turnBeginA, .enqueue fatalErrorB, .run, .enqueue sessionInitEvent,
            .enqueue turnEndA, .run, .run, .run, .run]
        = [turnBeginA, fatalErrorB, sessionInitEvent, turnEndA] :=
  ⟨C12_global_receives_all [.subscribeRequest "req-a"]
      [.enqueue turnBeginA, .enqueue fatalErrorB, .run, .enqueue sessionInitEvent,
        .enqueue turnEndA, .run, .run, .run, .run] (by decide),
    by decide⟩

/-! ## The partials feed, send, and the split of messages by the partial flag -/

theorem record_Partials (t : Turn) (e : ServerEvent) :
    (Stream.record t e).Partials = t.Partials ∧ (Stream.record t e).Messages = t.Messages := by
  unfold Stream.record
  split <;> simp

theorem mirrored_eq (e : ServerEvent) :
    Stream.mirrored e = (messagesOf [e]).filter (fun m => m.IsPartial) := by
  unfold Stream.mirrored messagesOf
  cases hpay : e.Payload with
  | message m =>
    cases m with
    | none => simp [hpay]
    | some m => cases hp : m.IsPartial <;> simp [hpay, hp]
  | turn tb => simp [hpay]
  | stderrLine l => simp [hpay]
  | error x => simp [hpay]
  | unset => simp [hpay]
  | sessionInit => simp [hpay]
  | sessionClosed r => simp [hpay]
  | toolRequest r => simp [hpay]
  | hookRequest r => simp [hpay]
  | permissionRequest r => simp [hpay]

/-- Folding one event appends to Partials exactly what is mirrored for it, and
to Messages the message it carries when that is not partial. -/
theorem foldEvent_Partials (t : Turn) (e : ServerEvent) :
    (Stream.foldEvent t e).Partials = t.Partials ++ Stream.mirrored e ∧
      (Stream.foldEvent t e).Messages =
        t.Messages ++ (messagesOf [e]).filter (fun m => !m.IsPartial) := by
  have hr := record_Partials t e
  unfold Stream.foldEvent Stream.mirrored messagesOf
  cases hpay : e.Payload with
  | turn tb =>
    cases tb with
    | none => simpa [hpay] using hr
    | some tb =>
      cases hk : tb.Kind
      · simpa [hk, hpay] using hr
      · simpa [hk, hpay] using hr
      · by_cases hz : (Stream.record t e).TurnIndex = 0 <;> simpa [hk, hz, hpay] using hr
  | message m =>
    cases m with
    | none => simpa [hpay] using hr
    | some m =>
      cases hp : m.IsPartial <;>
        simp [addMessage_Partials, addMessage_Messages, hp, hr.1, hr.2, hpay]
  | stderrLine l => cases l <;> simpa [hpay] using hr
  | error x => cases x <;> simpa [hpay] using hr
  | unset => simpa [hpay] using hr
  | sessionInit => simpa [hpay] using hr
  | sessionClosed r => simpa [hpay] using hr
  | toolRequest r => simpa [hpay] using hr
  | hookRequest r => simpa [hpay] using hr
  | permissionRequest r => simpa [hpay] using hr

theorem messagesOf_append (a b : List ServerEvent) :
    messagesOf (a ++ b) = messagesOf a ++ messagesOf b := by
  simp [messagesOf, List.filterMap_append]

theorem foldEvents_Partials (t : Turn) (es : List ServerEvent) :
    (Stream.foldEvents t es).Partials =
        t.Partials ++ (messagesOf es).filter (fun m => m.IsPartial) ∧
      (Stream.foldEvents t es).Messages =
        t.Messages ++ (messagesOf es).filter (fun m => !m.IsPartial) := by
  induction es generalizing t with
  | nil => simp [Stream.foldEvents, messagesOf]
  | cons e rest ih =>
    have h := ih (Stream.foldEvent t e)
    have h1 := foldEvent_Partials t e
    have h2 : messagesOf (e :: rest) = messagesOf [e] ++ messagesOf rest :=
      messagesOf_append [e] rest
    simp only [Stream.foldEvents, List.foldl_cons] at h ⊢
    rw [h.1, h.2, h1.1, h1.2, h2, mirrored_eq]
    simp [List.filter_append, List.append_assoc]

theorem PartialsLogged_foldEvent (t : Turn) (e : ServerEvent) (h : t.PartialsLogged) :
    (Stream.foldEvent t e).PartialsLogged := by
  unfold Turn.PartialsLogged at h ⊢
  rw [(foldEvent_Partials t e).1, (foldEvent_frame t e).1, messagesOf_append, List.filter_append,
    h, mirrored_eq]

theorem turnAfter_some (t : Turn) (e : ServerEvent) (rest : List StreamInput) :
    Stream.turnAfter (some t) (.event e :: rest) =
      if isTurnEnd e = true then some (Stream.foldEvent t e)
      else Stream.turnAfter (some (Stream.foldEvent t e)) rest := by
  simp [Stream.turnAfter]

theorem turnAfter_skip (e : ServerEvent) (h : e.TurnId = "") (rest : List StreamInput) :
    Stream.turnAfter none (.event e :: rest) = Stream.turnAfter none rest := by
  simp [Stream.turnAfter, h]

theorem turnAfter_start (e : ServerEvent) (h : e.TurnId ≠ "") (rest : List StreamInput) :
    Stream.turnAfter none (.event e :: rest) =
      Stream.turnAfter (some (newTurn e.TurnId)) (.event e :: rest) := by
  simp [Stream.turnAfter, h]

/-- At every point of the loop of `Stream.run` the messages sent on `s.partials`
are the Partials of the Turn being built, and a delivered Turn is that Turn. -/
theorem runLoop_partials (inputs : List StreamInput) :
    ∀ (turn : Option Turn) (ps : List MessageEvent), ps = partialsOf turn →
      (Stream.runLoop turn ps inputs).partials = partialsOf (Stream.turnAfter turn inputs) ∧
        (∀ t, (Stream.runLoop turn ps inputs).done = some { Turn := some t } →
          Stream.turnAfter turn inputs = some t) := by
  induction inputs with
  | nil =>
    intro turn ps h
    simp [Stream.runLoop, Stream.turnAfter, h]
  | cons x rest ih =>
    intro turn ps h
    cases x with
    | ctxDone => simp [Stream.runLoop, Stream.turnAfter, h]
    | chanClosed =>
      cases turn with
      | none => simp [Stream.runLoop, Stream.turnAfter, h]
      | some t =>
        simp only [Stream.runLoop, Stream.turnAfter, h, true_and]
        intro t1 ht1
        simp only [Option.some.injEq, RunResult.mk.injEq] at ht1
        rw [ht1]
    | event e =>
      have hsome : ∀ (t : Turn) (ps : List MessageEvent), ps = t.Partials →
          (Stream.runLoop (some t) ps (.event e :: rest)).partials =
              partialsOf (Stream.turnAfter (some t) (.event e :: rest)) ∧
            (∀ t1, (Stream.runLoop (some t) ps (.event e :: rest)).done
                = some { Turn := some t1 } →
              Stream.turnAfter (some t) (.event e :: rest) = some t1) := by
        intro t ps hps
        rw [runLoop_event, turnAfter_some]
        by_cases hend : isTurnEnd e = true
        · have hm : Stream.mirrored e = [] := by
            unfold isTurnEnd at hend
            unfold Stream.mirrored
            cases hpay : e.Payload <;> simp_all
          simp only [hend, if_true, partialsOf, (foldEvent_Partials t e).1, hm, List.append_nil,
            hps, true_and]
          intro t1 ht1
          simp only [Option.some.injEq, RunResult.mk.injEq] at ht1
          rw [ht1]
        · simp only [hend, if_false]
          exact ih (some (Stream.foldEvent t e)) (ps ++ Stream.mirrored e)
            (by simp [partialsOf, (foldEvent_Partials t e).1, hps])
      cases turn with
      | some t => exact hsome t ps (by simpa [partialsOf] using h)
      | none =>
        by_cases hid : e.TurnId = ""
        · rw [runLoop_skip e hid, turnAfter_skip e hid]
          exact ih none ps h
        · rw [runLoop_start e hid, turnAfter_start e hid]
          exact hsome (newTurn e.TurnId) ps (by simpa [partialsOf, newTurn] using h)

theorem turnAfter_PartialsLogged (inputs : List StreamInput) :
    ∀ turn : Option Turn, (∀ t, turn = some t → t.PartialsLogged) →
      ∀ t, Stream.turnAfter turn inputs = some t → t.PartialsLogged := by
  induction inputs with
  | nil => exact fun turn h t ht => h t (by simpa [Stream.turnAfter] using ht)
  | cons x rest ih =>
    intro turn h
    cases x with
    | ctxDone => exact fun t ht => h t (by simpa [Stream.turnAfter] using ht)
    | chanClosed => exact fun t ht => h t (by simpa [Stream.turnAfter] using ht)
    | event e =>
      have hsome : ∀ t0 : Turn, t0.PartialsLogged →
          ∀ t, Stream.turnAfter (some t0) (.event e :: rest) = some t → t.PartialsLogged := by
        intro t0 h0 t ht
        rw [turnAfter_some] at ht
        by_cases hend : isTurnEnd e = true
        · simp only [hend, if_true, Option.some.injEq] at ht
          rw [← ht]
          exact PartialsLogged_foldEvent t0 e h0
        · simp only [hend, if_false] at ht
          refine ih (some (Stream.foldEvent t0 e)) ?_ t ht
          intro t1 ht1
          simp only [Option.some.injEq] at ht1
          rw [← ht1]
          exact PartialsLogged_foldEvent t0 e h0
      cases turn with
      | some t0 => exact hsome t0 (h t0 rfl)
      | none =>
        by_cases hid : e.TurnId = ""
        · rw [turnAfter_skip e hid]
          exact ih none (fun t ht => by cases ht)
        · rw [turnAfter_start e hid]
          exact hsome (newTurn e.TurnId) (by simp [Turn.PartialsLogged, newTurn, messagesOf])

/-- C21: for every sequence of inputs of a Stream, the messages `Stream.run`
has sent on the partials feed are, element for element and in order, the
Partials of the Turn it is building (none while no event has carried a turn
id); a Turn it delivers is that Turn. These are exactly the partial messages
of the events logged in the Turn, so every mirrored message has is_partial set. -/
theorem C21_partials_feed_mirrors_turn (inputs : List StreamInput) :
    (Stream.run inputs).partials = partialsOf (Stream.turnAfter none inputs) ∧
      (∀ t, (Stream.run inputs).done = some { Turn := some t } →
        Stream.turnAfter none inputs = some t ∧ (Stream.run inputs).partials = t.Partials) ∧
      (∀ t, Stream.turnAfter none inputs = some t →
        (Stream.run inputs).partials =
          (messagesOf t.Events).filter (fun m => m.IsPartial)) ∧
      ∀ m ∈ (Stream.run inputs).partials, m.IsPartial = true := by
  obtain ⟨h1, h2⟩ := runLoop_partials inputs none [] rfl
  have h3 : ∀ t, Stream.turnAfter none inputs = some t →
      (Stream.run inputs).partials = (messagesOf t.Events).filter (fun m => m.IsPartial) := by
    intro t ht
    have hl := turnAfter_PartialsLogged inputs none (fun t h => by cases h) t ht
    rw [Stream.run, h1, ht]
    exact hl
  refine ⟨h1, fun t ht => ?_, h3, ?_⟩
  · have ht1 := h2 t ht
    refine ⟨ht1, ?_⟩
    rw [Stream.run, h1, ht1]
    rfl
  · intro m hm
    cases ht : Stream.turnAfter none inputs with
    | none =>
      rw [Stream.run, h1, ht] at hm
      cases hm
    | some t =>
      rw [h3 t ht] at hm
      simpa using (List.mem_filter.mp hm).2

/-- C22: for every outbound envelope, `Session.send` hands the transport the
envelope with its session id set to the Session's own id when it was empty and
left as given otherwise, every other field unchanged, and returns exactly the
error `stream.Send` returns for that envelope. -/
theorem C22_send_defaults_session_id (s : Session) (streamSend : ClientEvent → Option String)
    (e : ClientEvent) :
    (s.sendOn streamSend e).1.SidecarSessionId =
        (if e.SidecarSessionId = "" then s.sessionID else e.SidecarSessionId) ∧
      (s.sendOn streamSend e).1.RequestId = e.RequestId ∧
      (s.sendOn streamSend e).1.Payload = e.Payload ∧
      (s.sendOn streamSend e).2 = streamSend (s.sendOn streamSend e).1 ∧
      (s.sendOn streamSend e).1 = s.send e := by
  unfold Session.sendOn Session.send
  by_cases h : e.SidecarSessionId = "" <;> simp [h]

/-- C25: folding non-nil message events into a Turn appends to Partials exactly
the messages with is_partial set and to Messages exactly the others, each in
arrival order. From a new Turn, Partials and Messages are these two
subsequences, every message occurs in exactly one of them as often as it was
folded, and the two lengths add up to the number of messages folded. The same
split holds for the messages carried by events folded by a Stream. -/
theorem C25_messages_split_by_partial_flag (t : Turn) (turnID : String)
    (ms : List MessageEvent) (es : List ServerEvent) :
    (foldMessages t ms).Partials = t.Partials ++ ms.filter (fun m => m.IsPartial) ∧
      (foldMessages t ms).Messages = t.Messages ++ ms.filter (fun m => !m.IsPartial) ∧
      (foldMessages (newTurn turnID) ms).Partials = ms.filter (fun m => m.IsPartial) ∧
      (foldMessages (newTurn turnID) ms).Messages = ms.filter (fun m => !m.IsPartial) ∧
      (foldMessages (newTurn turnID) ms).Partials.length +
        (foldMessages (newTurn turnID) ms).Messages.length = ms.length ∧
      (∀ m, (foldMessages (newTurn turnID) ms).Partials.count m +
          (foldMessages (newTurn turnID) ms).Messages.count m = ms.count m ∧
        (m.IsPartial = true → m ∉ (foldMessages (newTurn turnID) ms).Messages) ∧
        (m.IsPartial = false → m ∉ (foldMessages (newTurn turnID) ms).Partials)) ∧
      (Stream.foldEvents t es).Partials =
        t.Partials ++ (messagesOf es).filter (fun m => m.IsPartial) ∧
      (Stream.foldEvents t es).Messages =
        t.Messages ++ (messagesOf es).filter (fun m => !m.IsPartial) := by
  have key : ∀ t : Turn,
      (foldMessages t ms).Partials = t.Partials ++ ms.filter (fun m => m.IsPartial) ∧
      (foldMessages t ms).Messages = t.Messages ++ ms.filter (fun m => !m.IsPartial) := by
    intro t
    induction ms using List.reverseRecOn with
    | nil => simp [foldMessages]
    | append_singleton ms m ih =>
      rw [foldMessages_append, addMessage_Partials, addMessage_Messages, ih.1, ih.2]
      cases hp : m.IsPartial <;> simp [List.filter_append, hp]
  have hP := (key (newTurn turnID)).1
  have hM := (key (newTurn turnID)).2
  have hP1 : (foldMessages (newTurn turnID) ms).Partials = ms.filter (fun m => m.IsPartial) := by
    rw [hP]; rfl
  have hM1 : (foldMessages (newTurn turnID) ms).Messages =
      ms.filter (fun m => !m.IsPartial) := by
    rw [hM]; rfl
  have hlen : ∀ l : List MessageEvent,
      (l.filter (fun m => m.IsPartial)).length + (l.filter (fun m => !m.IsPartial)).length
        = l.length := by
    intro l
    induction l with
    | nil => rfl
    | cons m rest ih => cases hp : m.IsPartial <;> simp [List.filter_cons, hp] <;> omega
  have hcount : ∀ (x : MessageEvent) (l : List MessageEvent),
      (l.filter (fun m => m.IsPartial)).count x + (l.filter (fun m => !m.IsPartial)).count x
        = l.count x := by
    intro x l
    induction l with
    | nil => rfl
    | cons m rest ih =>
      cases hp : m.IsPartial <;> simp [List.filter_cons, hp, List.count_cons] <;> omega
  refine ⟨(key t).1, (key t).2, hP1, hM1, ?_, ?_, (foldEvents_Partials t es).1,
    (foldEvents_Partials t es).2⟩
  · rw [hP1, hM1]; exact hlen ms
  · intro m
    rw [hP1, hM1]
    refine ⟨hcount m ms, ?_, ?_⟩
    · intro hp hmem
      have := (List.mem_filter.mp hmem).2
      simp [hp] at this
    · intro hp hmem
      have := (List.mem_filter.mp hmem).2
      simp [hp] at this

/-! ## The event queue, Close, HookShouldContinue and AskConfirmHandler -/

theorem pushAll_open (es : List ServerEvent) :
    ∀ q : eventQueue, q.closed = false →
      (q.pushAll es).1 = { items := q.items ++ es, closed := false } ∧
        (q.pushAll es).2 = List.replicate es.length true := by
  induction es with
  | nil =>
    intro q h
    cases q
    simp_all [eventQueue.pushAll]
  | cons e rest ih =>
    intro q h
    have h1 := ih (q.Push e).1 (by simp [eventQueue.Push, h])
    simp only [eventQueue.pushAll, h1]
    simp [eventQueue.Push, h, List.replicate_succ]

/-- Popping a closed queue never waits: the queued events come out in order,
then every call returns `(nil, false)`. -/
theorem popN_closed (n : Nat) :
    ∀ items : List ServerEvent,
      (eventQueue.popN { items := items, closed := true } n).1 =
          (items.map some).take n ++ List.replicate (n - items.length) none ∧
        (eventQueue.popN { items := items, closed := true } n).2 =
          { items := items.drop n, closed := true } := by
  induction n with
  | zero => intro items; simp [eventQueue.popN]
  | succ n ih =>
    intro items
    cases items with
    | nil =>
      have h := ih []
      simp only [eventQueue.popN, eventQueue.Pop, if_true]
      simp only [h]
      simp [List.replicate_succ]
    | cons e rest =>
      have h := ih rest
      simp only [eventQueue.popN, eventQueue.Pop]
      simp only [h]
      simp

/-- C26: when events are pushed onto an open queue and the queue is then
closed, every push returns true, and successive Pop calls all return: they
yield the events that were queued, in push order, each with ok = true, and
every call after the last of them yields `(nil, false)`. Closing discards
nothing. -/
theorem C26_pop_after_close_drains_in_order (q : eventQueue) (es : List ServerEvent) (n : Nat)
    (hopen : q.closed = false) :
    (q.pushAll es).2 = List.replicate es.length true ∧
      (q.pushAll es).1.Close.items = q.items ++ es ∧
      ((q.pushAll es).1.Close.popN n).1 =
        ((q.items ++ es).map some).take n ++
          List.replicate (n - (q.items ++ es).length) none ∧
      ((q.pushAll es).1.Close.popN n).1.length = n ∧
      ((q.pushAll es).1.Close.popN n).2 = { items := (q.items ++ es).drop n, closed := true } := by
  obtain ⟨h1, h2⟩ := pushAll_open es q hopen
  have hc : (q.pushAll es).1.Close = { items := q.items ++ es, closed := true } := by
    rw [h1]; rfl
  obtain ⟨h3, h4⟩ := popN_closed n (q.items ++ es)
  rw [hc]
  refine ⟨h2, rfl, h3, ?_, h4⟩
  rw [h3]
  simp only [List.length_append, List.length_take, List.length_map, List.length_replicate]
  omega

/-- C26, applied to a new queue and two events: four Pop calls yield the two
events in push order and then `(nil, false)` twice. -/
theorem C26_pop_after_close_drains_in_order_witness :
    newEventQueue.closed = false ∧
      ((newEventQueue.pushAll [turnBeginA, turnEndA]).1.Close.popN 4).1 =
        [some turnBeginA, some turnEndA, none, none] :=
  ⟨rfl, (C26_pop_after_close_drains_in_order newEventQueue [turnBeginA, turnEndA] 4 rfl).2.2.1⟩

theorem steps_open_enqueued (ops : List SubOp) (hno : ∀ op ∈ ops, op ≠ SubOp.close) :
    ∀ s : subscription, s.queue.closed = false →
      (s.steps ops).enqueued = s.enqueued ++ SubOp.events ops ∧
        (s.steps ops).queue.closed = false := by
  induction ops with
  | nil => intro s h; simp [subscription.steps, SubOp.events, h]
  | cons op rest ih =>
    intro s h
    have ih1 := ih (fun x hx => hno x (List.mem_cons_of_mem _ hx))
    cases op with
    | enqueue e =>
      obtain ⟨h1, h2, _⟩ := Enqueue_open s e h
      obtain ⟨h3, h4⟩ := ih1 (s.Enqueue e) h2
      simp only [subscription.steps, List.foldl_cons, subscription.step] at h3 h4 ⊢
      rw [h3, h1]
      exact ⟨by simp [SubOp.events], h4⟩
    | close => exact absurd rfl (hno SubOp.close (List.mem_cons_self _ _))
    | pump =>
      obtain ⟨h3, h4⟩ := ih1 s.run (by rw [run_closed]; exact h)
      simp only [subscription.steps, List.foldl_cons, subscription.step] at h3 h4 ⊢
      rw [h3, run_enqueued]
      exact ⟨by simp [SubOp.events], h4⟩

/-- C27: `Push` returns false exactly when the queue is closed, and then leaves
the queue as it was; on an open queue it returns true and appends the event at
the tail, whatever the queue holds. `Push` always returns: it has no outcome in
which the caller waits. So `Enqueue` on a subscription is this push and
nothing else, and on an open subscription every enqueued event joins the
enqueue history whatever the pump has moved out of the queue in between. -/
theorem C27_push_refused_only_when_closed (q : eventQueue) (e : ServerEvent)
    (s : subscription) (ops : List SubOp) :
    ((q.Push e).2 = false ↔ q.closed = true) ∧
      (q.closed = true → (q.Push e).1 = q) ∧
      (q.closed = false →
        (q.Push e).2 = true ∧ (q.Push e).1.items = q.items ++ [e] ∧
          (q.Push e).1.closed = false) ∧
      (s.Enqueue e).queue = (s.queue.Push e).1 ∧ (s.Enqueue e).out = s.out ∧
      (s.Enqueue e).outClosed = s.outClosed ∧ (s.Enqueue e).once = s.once ∧
      (s.queue.closed = false → (∀ op ∈ ops, op ≠ SubOp.close) →
        (s.steps ops).enqueued = s.enqueued ++ SubOp.events ops) := by
  refine ⟨?_, ?_, ?_, rfl, rfl, rfl, rfl, fun h hno => (steps_open_enqueued ops hno s h).1⟩
  · cases h : q.closed <;> simp [eventQueue.Push, h]
  · intro h; simp [eventQueue.Push, h]
  · intro h; simp [eventQueue.Push, h]

/-- C27, applied to a new subscription: three events enqueued while the pump
has moved only the first one out are all in the enqueue history, and a push on
a closed queue is refused. -/
theorem C27_push_refused_only_when_closed_witness :
    (newSubscription.steps [SubOp.enqueue turnBeginA, SubOp.pump, SubOp.enqueue turnBeginB,
        SubOp.enqueue turnEndA]).enqueued = [turnBeginA, turnBeginB, turnEndA] ∧
      (newEventQueue.Close.Push turnBeginA).2 = false :=
  ⟨(C27_push_refused_only_when_closed newEventQueue turnBeginA newSubscription
      [SubOp.enqueue turnBeginA, SubOp.pump, SubOp.enqueue turnBeginB,
        SubOp.enqueue turnEndA]).2.2.2.2.2.2.2 rfl (by decide),
    (C27_push_refused_only_when_closed newEventQueue.Close turnBeginA newSubscription
      []).1.mpr rfl⟩

/-- On every subscription reached from a new one the `sync.Once` of `Close` has
fired exactly when the queue is closed. -/
theorem steps_once (ops : List SubOp) :
    ∀ s : subscription, s.once = s.queue.closed →
      (s.steps ops).once = (s.steps ops).queue.closed := by
  induction ops with
  | nil => exact fun s h => h
  | cons op rest ih =>
    intro s h
    refine ih (s.step op) ?_
    cases op with
    | enqueue e =>
      cases hc : s.queue.closed <;>
        simp_all [subscription.step, subscription.Enqueue, eventQueue.Push]
    | close =>
      cases hc : s.once <;> simp_all [subscription.step, subscription.Close, eventQueue.Close]
    | pump =>
      simp only [subscription.step]
      rw [run_once, run_closed]
      exact h

/-- C28: `Close` is idempotent on a queue and on a subscription: closing twice
leaves exactly the state closing once leaves, for every state. Closing a queue
sets its closed flag and keeps its items; closing a subscription keeps its
queued items and what its pump has sent, and on every subscription reached
from a new one by enqueues, closes and pump iterations it leaves the queue
closed. -/
theorem C28_close_idempotent (q : eventQueue) (s : subscription) (ops : List SubOp) :
    q.Close.Close = q.Close ∧ q.Close.closed = true ∧ q.Close.items = q.items ∧
      s.Close.Close = s.Close ∧ s.Close.once = true ∧
      s.Close.queue.items = s.queue.items ∧ s.Close.out = s.out ∧
      s.Close.outClosed = s.outClosed ∧
      (newSubscription.steps ops).Close.queue.closed = true ∧
      (newSubscription.steps ops).Close.Close = (newSubscription.steps ops).Close := by
  have hs : s.Close.once = true ∧ s.Close.queue.items = s.queue.items ∧ s.Close.out = s.out ∧
      s.Close.outClosed = s.outClosed := by
    cases h : s.once <;> simp [subscription.Close, h, eventQueue.Close]
  refine ⟨rfl, rfl, rfl, Close_Close s, hs.1, hs.2.1, hs.2.2.1, hs.2.2.2, ?_, Close_Close _⟩
  have hinv := steps_once ops newSubscription rfl
  cases h : (newSubscription.steps ops).once with
  | false => exact Close_closed_of_once _ h
  | true => exact Close_closed_of_closed _ (by rw [← hinv]; exact h)

/-- C29: `HookShouldContinue` is false exactly when the output is present and
its decision is `block` or its continue field is explicitly false. It is true
for the nil output and for `HookDefault()`, true whenever continue is omitted
without a block decision, and false for a block decision even when continue is
explicitly true. -/
theorem C29_hook_should_continue (o : Option HookOutput) (x : HookOutput) :
    (HookShouldContinue o = false ↔
        ∃ y, o = some y ∧ (y.Decision = "block" ∨ y.Continue_ = some false)) ∧
      HookShouldContinue none = true ∧
      HookShouldContinue HookDefault = true ∧
      (x.Continue_ = none → x.Decision ≠ "block" → HookShouldContinue (some x) = true) ∧
      (x.Decision = "block" → HookShouldContinue (some { x with Continue_ := some true }) = false)
      := by
  refine ⟨?_, rfl, by decide, ?_, ?_⟩
  · cases o with
    | none => simp [HookShouldContinue]
    | some y =>
      by_cases hd : y.Decision = "block"
      · simp [HookShouldContinue, hd]
      · cases hc : y.Continue_ with
        | none => simp [HookShouldContinue, hd, hc]
        | some c => cases c <;> simp [HookShouldContinue, hd, hc]
  · intro hc hd
    simp [HookShouldContinue, hd, hc]
  · intro hd
    simp [HookShouldContinue, hd]

/-- C29, applied to an output that blocks with continue set to true, which
stops, and to an output that approves with continue omitted, which goes on. -/
theorem C29_hook_should_continue_witness :
    HookShouldContinue (some { blockOmitted with Continue_ := some true }) = false ∧
      HookShouldContinue (some approveOmitted) = true :=
  ⟨(C29_hook_should_continue none blockOmitted).2.2.2.2 rfl,
    (C29_hook_should_continue none approveOmitted).2.2.2.1 rfl (by decide)⟩

/-- C30: the handler built by `AskConfirmHandler(decide, confirm)` with both
callbacks present, run on a request: at attempt 0 or 1 it calls `decide` only
and returns what `decide` returns; at attempt 2 or more it calls `confirm`
only, once, with the default prompt, and returns allow with the reason of
`confirm` if that answers true without an error, deny with that reason if it
answers false without an error, and deny with the message of the error
together with a nil error if `confirm` returns an error. -/
theorem C30_ask_confirm_flow
    (decide : PermissionDecisionRequest → HandlerOutcome PermissionDecision)
    (confirm : String → PermissionDecisionRequest → ConfirmOutcome)
    (req : PermissionDecisionRequest) :
    (req.Attempt ≤ 1 →
        AskConfirmHandler (some decide) (some confirm) req =
          { calls := [PermissionCall.decide req], outcome := decide req }) ∧
      (2 ≤ req.Attempt →
        (AskConfirmHandler (some decide) (some confirm) req).calls =
            [PermissionCall.confirm (DefaultPermissionPrompt req) req] ∧
          (∀ reason, confirm (DefaultPermissionPrompt req) req = .returned true reason none →
            (AskConfirmHandler (some decide) (some confirm) req).outcome =
              .returned (some { Behavior := "allow", Reason := reason }) none) ∧
          (∀ reason, confirm (DefaultPermissionPrompt req) req = .returned false reason none →
            (AskConfirmHandler (some decide) (some confirm) req).outcome =
              .returned (some { Behavior := "deny", Reason := reason }) none) ∧
          (∀ ok reason msg,
            confirm (DefaultPermissionPrompt req) req = .returned ok reason (some msg) →
            (AskConfirmHandler (some decide) (some confirm) req).outcome =
              .returned (some { Behavior := "deny", Reason := msg }) none)) := by
  constructor
  · intro h
    simp [AskConfirmHandler, AskConfirmHandlerWithPrompt, h]
  · intro h
    have h1 : ¬ req.Attempt ≤ 1 := by omega
    simp only [AskConfirmHandler, AskConfirmHandlerWithPrompt, h1, if_false]
    cases hc : confirm (DefaultPermissionPrompt req) req with
    | returned ok reason err =>
      cases err with
      | some msg => simp [PermissionDeny]
      | none => cases ok <;> simp [PermissionDeny, PermissionAllow]
    | panicked => simp
    | blocked => simp

/-- C30, applied to the two callbacks and the two requests of the permission
test: the first attempt returns the `ask` decision of `decide`, the second
returns allow with the reason `approved`. -/
theorem C30_ask_confirm_flow_witness :
    (AskConfirmHandler (some askDecide) (some approveConfirm) permRequest).outcome =
        .returned (some { Behavior := "ask", Reason := "needs confirmation" }) none ∧
      (AskConfirmHandler (some askDecide) (some approveConfirm)
          { permRequest with Attempt := 2 }).outcome =
        .returned (some { Behavior := "allow", Reason := "approved" }) none :=
  ⟨congrArg AskResult.outcome
      ((C30_ask_confirm_flow askDecide approveConfirm permRequest).1 (by decide)),
    ((C30_ask_confirm_flow askDecide approveConfirm { permRequest with Attempt := 2 }).2
      (by decide)).2.1 "approved" rfl⟩

/-! ## The log of the Turn emitted at a TURN_END by CollectTurns -/

theorem fold_Events (t : Turn) (e : ServerEvent) :
    (CollectTurns.fold t e).Events = t.Events ++ [e] := by
  have hr := (record_frame t e).1
  unfold CollectTurns.fold
  cases hpay : e.Payload with
  | turn tb =>
    cases tb with
    | none => exact hr
    | some tb =>
      cases hk : tb.Kind
      · simpa [hk] using hr
      · simpa [hk] using hr
      · by_cases hz : (Stream.record t e).TurnIndex = 0 <;> simpa [hk, hz] using hr
  | message m => simpa [(addMessage_frame (Stream.record t e) m).1] using hr
  | stderrLine l => cases l <;> simpa using hr
  | error x => simpa using hr
  | unset => exact hr
  | sessionInit => exact hr
  | sessionClosed r => exact hr
  | toolRequest r => exact hr
  | hookRequest r => exact hr
  | permissionRequest r => exact hr

theorem fold_Ended (t : Turn) (e : ServerEvent) (hend : isTurnEnd e = true) :
    (CollectTurns.fold t e).Ended = true := by
  unfold isTurnEnd at hend
  unfold CollectTurns.fold
  cases hpay : e.Payload with
  | turn tb =>
    cases tb with
    | none => simp [hpay] at hend
    | some tb =>
      have hk : tb.Kind = .TURN_END := by simpa [hpay] using hend
      by_cases hz : (Stream.record t e).TurnIndex = 0 <;> simp [hk, hz]
  | message m => simp [hpay] at hend
  | stderrLine l => simp [hpay] at hend
  | error x => simp [hpay] at hend
  | unset => simp [hpay] at hend
  | sessionInit => simp [hpay] at hend
  | sessionClosed r => simp [hpay] at hend
  | toolRequest r => simp [hpay] at hend
  | hookRequest r => simp [hpay] at hend
  | permissionRequest r => simp [hpay] at hend

theorem foldAll_Events (es : List ServerEvent) :
    ∀ t : Turn, (CollectTurns.foldAll t es).Events = t.Events ++ es := by
  induction es with
  | nil => intro t; simp [CollectTurns.foldAll]
  | cons e rest ih =>
    intro t
    have h := ih (CollectTurns.fold t e)
    simp only [CollectTurns.foldAll, List.foldl_cons] at h ⊢
    rw [h, fold_Events]
    simp

/-- Events of one turn id up to its first TURN_END: the Turn emitted there is
the fold of all of them. -/
theorem collectFor_first_end (T : String) (body : List ServerEvent)
    (hbody : ∀ x ∈ body, isTurnEnd x = false) (e : ServerEvent) (hend : isTurnEnd e = true)
    (rest : List ServerEvent) :
    ∀ cur : Option Turn,
      CollectTurns.collectFor T cur (body ++ e :: rest) =
        CollectTurns.fold (CollectTurns.foldAll (cur.getD (newTurn T)) body) e ::
          CollectTurns.collectFor T none rest := by
  induction body with
  | nil =>
    intro cur
    simp [CollectTurns.collectFor, hend, CollectTurns.foldAll]
  | cons b bs ih =>
    intro cur
    have hb : isTurnEnd b = false := hbody b (List.mem_cons_self _ _)
    have h := ih (fun x hx => hbody x (List.mem_cons_of_mem _ hx))
      (some (CollectTurns.fold (cur.getD (newTurn T)) b))
    have h0 : CollectTurns.collectFor T cur (b :: (bs ++ e :: rest)) =
        CollectTurns.collectFor T (some (CollectTurns.fold (cur.getD (newTurn T)) b))
          (bs ++ e :: rest) := by
      simp [CollectTurns.collectFor, hb]
    rw [List.cons_append, h0, h]
    simp [CollectTurns.foldAll]

/-- Every event logged in a Turn emitted for one turn id is one of the events
fed for that id, or was in the log of the Turn open at the start. -/
theorem collectFor_Events (T : String) (P : ServerEvent → Prop) (es : List ServerEvent) :
    ∀ cur : Option Turn, (∀ x ∈ es, P x) → (∀ c, cur = some c → ∀ x ∈ c.Events, P x) →
      ∀ t ∈ CollectTurns.collectFor T cur es, ∀ x ∈ t.Events, P x := by
  induction es with
  | nil =>
    intro cur _ hcur t ht
    cases cur with
    | none => simp [CollectTurns.collectFor] at ht
    | some c =>
      simp only [CollectTurns.collectFor, Option.toList, List.mem_singleton] at ht
      rw [ht]
      exact hcur c rfl
  | cons e rest ih =>
    intro cur hes hcur t ht
    have hfold : ∀ x ∈ (CollectTurns.fold (cur.getD (newTurn T)) e).Events, P x := by
      intro x hx
      rw [fold_Events] at hx
      rcases List.mem_append.mp hx with h1 | h1
      · cases cur with
        | none => simp [newTurn] at h1
        | some c => exact hcur c rfl x h1
      · rw [List.mem_singleton.mp h1]
        exact hes e (List.mem_cons_self _ _)
    have hrest : ∀ x ∈ rest, P x := fun x hx => hes x (List.mem_cons_of_mem _ hx)
    simp only [CollectTurns.collectFor] at ht
    split at ht
    · rcases List.mem_cons.mp ht with h1 | h1
      · rw [h1]; exact hfold
      · exact ih none hrest (fun c hc => by cases hc) t h1
    · refine ih _ hrest ?_ t ht
      intro c hc
      simp only [Option.some.injEq] at hc
      rw [← hc]
      exact hfold

/-- C24: when events with present payloads are fed to `CollectTurns` and `e` is
the first TURN_END carrying the turn id T, the first Turn emitted under T has
Ended = true and its log is exactly the events carrying T that came before
`e`, in arrival order, followed by `e`. Every event in the log of any emitted
Turn is one of the input events and carries the turn id of that Turn, which is
not empty: an event without a turn id is in no log. -/
theorem C24_log_of_first_turn_end (pre post : List ServerEvent) (e : ServerEvent) (T : String)
    (hp : ∀ x ∈ pre ++ e :: post, x.payloadPresent = true) (hT : T ≠ "")
    (heT : e.TurnId = T) (hend : isTurnEnd e = true)
    (hfirst : ∀ x ∈ pre, x.TurnId = T → isTurnEnd x = false) :
    (∃ t rest,
        (CollectTurns (pre ++ e :: post)).filter (fun t => decide (t.TurnID = T)) = t :: rest ∧
          t.Ended = true ∧
          t.Events = pre.filter (fun x => decide (x.TurnId = T)) ++ [e]) ∧
      ∀ t ∈ CollectTurns (pre ++ e :: post), ∀ x ∈ t.Events,
        x ∈ pre ++ e :: post ∧ x.TurnId = t.TurnID ∧ x.TurnId ≠ "" := by
  constructor
  · have hfilter : (pre ++ e :: post).filter (fun x => decide (x.TurnId = T)) =
        pre.filter (fun x => decide (x.TurnId = T)) ++
          e :: post.filter (fun x => decide (x.TurnId = T)) := by
      simp [List.filter_append, List.filter_cons, heT]
    have hbody : ∀ x ∈ pre.filter (fun x => decide (x.TurnId = T)), isTurnEnd x = false := by
      intro x hx
      obtain ⟨h1, h2⟩ := List.mem_filter.mp hx
      exact hfirst x h1 (by simpa using h2)
    rw [CollectTurns_filter T hT _ hp, hfilter, collectFor_first_end T _ hbody e hend]
    refine ⟨_, _, rfl, fold_Ended _ e hend, ?_⟩
    rw [fold_Events, foldAll_Events]
    simp [newTurn]
  · intro t ht x hx
    have hne := CollectTurns_TurnID_ne_empty _ hp t ht
    have hmem : t ∈ (CollectTurns (pre ++ e :: post)).filter
        (fun y => decide (y.TurnID = t.TurnID)) := by
      simp [List.mem_filter, ht]
    rw [CollectTurns_filter t.TurnID hne _ hp] at hmem
    have h := collectFor_Events t.TurnID
      (fun x => x ∈ pre ++ e :: post ∧ x.TurnId = t.TurnID) _ none
      (fun y hy => by
        obtain ⟨h1, h2⟩ := List.mem_filter.mp hy
        exact ⟨h1, by simpa using h2⟩)
      (fun c hc => by cases hc) t hmem x hx
    exact ⟨h.1, h.2, by rw [h.2]; exact hne⟩

/-- C24, applied to the events of the aggregation test mixed with events of
another turn and of no turn: the Turn emitted at the TURN_END of `turn-1` logs
the three events of `turn-1` up to that TURN_END, in order. -/
theorem C24_log_of_first_turn_end_witness :
    (∃ t rest,
        (CollectTurns ([turnBeginA, turnBeginEvent, stderrNoTurn, partialEvent] ++
            turnEndEvent :: [partialEvent])).filter
          (fun t => decide (t.TurnID = "turn-1")) = t :: rest ∧
          t.Ended = true ∧
          t.Events = [turnBeginA, turnBeginEvent, stderrNoTurn, partialEvent].filter
            (fun x => decide (x.TurnId = "turn-1")) ++ [turnEndEvent]) ∧
      [turnBeginA, turnBeginEvent, stderrNoTurn, partialEvent].filter
          (fun x => decide (x.TurnId = "turn-1")) ++ [turnEndEvent]
        = [turnBeginEvent, partialEvent, turnEndEvent] :=
  ⟨(C24_log_of_first_turn_end [turnBeginA, turnBeginEvent, stderrNoTurn, partialEvent]
      [partialEvent] turnEndEvent "turn-1" (by decide) (by decide) rfl (by decide)
      (by decide)).1,
    by decide⟩

/-! ## The receive loop and the multiplexer: every received event is published before termination closes -/

theorem process_queue (m : eventMux) (e : ServerEvent) : (m.process e).queue = m.queue := by
  unfold eventMux.process eventMux.closeRequest
  split
  · split <;> rfl
  · rfl

theorem closeAll_queue (m : eventMux) : m.closeAll.queue = m.queue := by
  unfold eventMux.closeAll
  split <;> rfl

/-- What one action does to the queue of the multiplexer: the event it
publishes leaves the head, the event it pushes joins the tail, and only
`Close` closes it. -/
theorem step_queue (m : eventMux) (op : MuxOp) :
    publishedBy m op ++ (m.step op).queue.items = m.queue.items ++ pushedBy m op ∧
      (m.step op).queue.closed = (m.queue.closed || decide (op = MuxOp.close)) := by
  cases op with
  | subscribeAll =>
    cases hc : m.closed <;> simp [publishedBy, pushedBy, eventMux.step, eventMux.SubscribeAll, hc]
  | subscribeRequest r =>
    cases hc : m.closed <;>
      simp [publishedBy, pushedBy, eventMux.step, eventMux.SubscribeRequest, hc]
  | unsubscribeRequest r sub =>
    cases sub with
    | none => simp [publishedBy, pushedBy, eventMux.step, eventMux.UnsubscribeRequest]
    | some i =>
      by_cases hr : r = "" <;>
        simp [publishedBy, pushedBy, eventMux.step, eventMux.UnsubscribeRequest, hr]
  | enqueue e =>
    cases hc : m.queue.closed <;>
      simp [publishedBy, pushedBy, eventMux.step, eventMux.Enqueue, eventQueue.Push, hc]
  | close => simp [publishedBy, pushedBy, eventMux.step, eventMux.Close, eventQueue.Close]
  | run =>
    cases hc : m.closed with
    | true => simp [publishedBy, pushedBy, eventMux.step, eventMux.run, eventMux.processing, hc]
    | false =>
      cases hq : m.queue.items with
      | nil =>
        cases hqc : m.queue.closed <;>
          simp [publishedBy, pushedBy, eventMux.step, eventMux.run, eventMux.processing, hc, hq,
            hqc, eventQueue.Pop, closeAll_queue]
      | cons e rest =>
        simp [publishedBy, pushedBy, eventMux.step, eventMux.run, eventMux.processing, hc, hq,
          eventQueue.Pop, process_queue]
  | pump i => simp [publishedBy, pushedBy, eventMux.step]

/-- Along every sequence of actions, the events published so far followed by
the events still queued are the events queued at the start followed by the
events accepted since: nothing is lost, duplicated or reordered. -/
theorem steps_conserve (ops : List MuxOp) :
    ∀ m : eventMux,
      processedBy m ops ++ (m.steps ops).queue.items = m.queue.items ++ acceptedBy m ops := by
  induction ops with
  | nil => intro m; simp [processedBy, acceptedBy, eventMux.steps]
  | cons op rest ih =>
    intro m
    have h := ih (m.step op)
    have h1 := (step_queue m op).1
    simp only [eventMux.steps, List.foldl_cons] at h ⊢
    simp only [processedBy, acceptedBy, List.append_assoc]
    rw [h, ← List.append_assoc, h1, List.append_assoc]

theorem steps_queue_closed (ops : List MuxOp) :
    ∀ m : eventMux, m.queue.closed = true → (m.steps ops).queue.closed = true := by
  induction ops with
  | nil => exact fun m h => h
  | cons op rest ih =>
    intro m h
    exact ih (m.step op) (by rw [(step_queue m op).2, h]; rfl)

theorem acceptedBy_closed (ops : List MuxOp) :
    ∀ m : eventMux, m.queue.closed = true → acceptedBy m ops = [] := by
  induction ops with
  | nil => intro m _; rfl
  | cons op rest ih =>
    intro m h
    have h1 : pushedBy m op = [] := by cases op <;> simp [pushedBy, h]
    simp only [acceptedBy, h1, List.nil_append]
    exact ih (m.step op) (by rw [(step_queue m op).2, h]; rfl)

/-- When the calls of `Enqueue` and `Close` among the actions are those of the
receive loop, the events accepted into the queue are the received events, and
the queue ends closed. -/
theorem acceptedBy_feed (ops : List MuxOp) :
    ∀ (m : eventMux) (events : List ServerEvent) (extra : List MuxOp),
      m.queue.closed = false →
      ops.filter MuxOp.isFeed = events.map MuxOp.enqueue ++ MuxOp.close :: extra →
      acceptedBy m ops = events ∧ (m.steps ops).queue.closed = true := by
  induction ops with
  | nil =>
    intro m events extra _ hf
    cases events <;> simp at hf
  | cons op rest ih =>
    intro m events extra hopen hf
    by_cases hfeed : op.isFeed = true
    · simp only [List.filter_cons, hfeed, if_true] at hf
      cases op with
      | enqueue e =>
        cases events with
        | nil => simp at hf
        | cons e1 evs =>
          simp only [List.map_cons, List.cons_append, List.cons.injEq, MuxOp.enqueue.injEq] at hf
          have hq : (m.step (MuxOp.enqueue e)).queue.closed = false := by
            rw [(step_queue m _).2, hopen]; simp
          obtain ⟨h1, h2⟩ := ih (m.step (MuxOp.enqueue e)) evs extra hq hf.2
          refine ⟨?_, by simpa [eventMux.steps] using h2⟩
          simp [acceptedBy, pushedBy, hopen, h1, hf.1.symm]
      | close =>
        cases events with
        | cons e1 evs => simp at hf
        | nil =>
          have hq : (m.step MuxOp.close).queue.closed = true := by
            rw [(step_queue m _).2]; simp
          refine ⟨?_, by simpa [eventMux.steps] using steps_queue_closed rest _ hq⟩
          simp [acceptedBy, pushedBy, acceptedBy_closed rest _ hq]
      | subscribeAll => simp [MuxOp.isFeed] at hfeed
      | subscribeRequest r => simp [MuxOp.isFeed] at hfeed
      | unsubscribeRequest r sub => simp [MuxOp.isFeed] at hfeed
      | run => simp [MuxOp.isFeed] at hfeed
      | pump i => simp [MuxOp.isFeed] at hfeed
    · simp only [List.filter_cons, hfeed, if_false] at hf
      have hne : op ≠ MuxOp.close := by
        intro h
        rw [h] at hfeed
        exact hfeed rfl
      have hpush : pushedBy m op = [] := by
        cases op <;> simp_all [pushedBy, MuxOp.isFeed]
      have hq : (m.step op).queue.closed = false := by
        rw [(step_queue m op).2, hopen]; simp [hne]
      obtain ⟨h1, h2⟩ := ih (m.step op) events extra hq hf
      exact ⟨by simp [acceptedBy, hpush, h1], by simpa [eventMux.steps] using h2⟩

theorem Drained_step (m : eventMux) (op : MuxOp) (h : m.Drained) : (m.step op).Drained := by
  cases hc : m.closed with
  | true =>
    obtain ⟨h1, h2⟩ := h hc
    intro _
    have hq := step_queue m op
    have hpub : publishedBy m op = [] := by
      cases op <;> simp [publishedBy, eventMux.processing, hc]
    have hpush : pushedBy m op = [] := by cases op <;> simp [pushedBy, h2]
    rw [hpub, hpush, h1] at hq
    exact ⟨by simpa using hq.1, by rw [hq.2, h2]; rfl⟩
  | false =>
    cases op with
    | subscribeAll => intro h1; simp [eventMux.step, eventMux.SubscribeAll, hc] at h1
    | subscribeRequest r => intro h1; simp [eventMux.step, eventMux.SubscribeRequest, hc] at h1
    | unsubscribeRequest r sub =>
      intro h1
      cases sub with
      | none => simp [eventMux.step, eventMux.UnsubscribeRequest, hc] at h1
      | some i =>
        by_cases hr : r = "" <;>
          simp [eventMux.step, eventMux.UnsubscribeRequest, hc, hr] at h1
    | enqueue e => intro h1; simp [eventMux.step, eventMux.Enqueue, hc] at h1
    | close => intro h1; simp [eventMux.step, eventMux.Close, hc] at h1
    | pump i => intro h1; simp [eventMux.step, hc] at h1
    | run =>
      intro h1
      cases hq : m.queue.items with
      | nil =>
        cases hqc : m.queue.closed with
        | false => simp [eventMux.step, eventMux.run, hc, hq, hqc, eventQueue.Pop] at h1
        | true =>
          have hrun : m.step MuxOp.run = m.closeAll := by
            simp [eventMux.step, eventMux.run, hc, hq, hqc, eventQueue.Pop]
          rw [hrun, closeAll_queue]
          exact ⟨hq, hqc⟩
      | cons e rest =>
        simp [eventMux.step, eventMux.run, hc, hq, eventQueue.Pop, process_closed] at h1

theorem Drained_steps (ops : List MuxOp) :
    ∀ m : eventMux, m.Drained → (m.steps ops).Drained := by
  induction ops with
  | nil => exact fun m h => h
  | cons op rest ih => exact fun m h => ih (m.step op) (Drained_step m op h)

theorem steps_closed (ops : List MuxOp) :
    ∀ m : eventMux, m.closed = true → (m.steps ops).closed = true := by
  induction ops with
  | nil => exact fun m h => h
  | cons op rest ih => exact fun m h => ih (m.step op) (step_closed m op h)

/-- Once the queue is closed, iterations of `run` drain it and then close the
multiplexer: one iteration more than there are queued events is enough. -/
theorem runs_close (k : Nat) :
    ∀ m : eventMux, m.queue.closed = true → m.queue.items.length < k →
      (m.steps (List.replicate k MuxOp.run)).closed = true := by
  induction k with
  | zero => intro m _ h; omega
  | succ k ih =>
    intro m hqc hlen
    simp only [List.replicate_succ, eventMux.steps, List.foldl_cons]
    cases hc : m.closed with
    | true => exact steps_closed _ _ (step_closed m _ hc)
    | false =>
      cases hq : m.queue.items with
      | nil =>
        refine steps_closed _ _ ?_
        simp [eventMux.step, eventMux.run, hc, hq, hqc, eventQueue.Pop, eventMux.closeAll]
      | cons e rest =>
        refine ih _ ?_ ?_
        · rw [(step_queue m MuxOp.run).2, hqc]; rfl
        · have h1 := (step_queue m MuxOp.run).1
          simp only [publishedBy, eventMux.processing, hc, hq, pushedBy, List.append_nil,
            Bool.false_eq_true, if_false, List.head?_cons, Option.toList, List.cons_append,
            List.nil_append, List.cons.injEq, true_and] at h1
          rw [h1]
          rw [hq] at hlen
          simp only [List.length_cons] at hlen
          omega

theorem recvStep_event (s : Session) (st : SessionState) (e : ServerEvent)
    (hc : st.crashed = false) (hs : st.stopped = false)
    (hd : (s.handleCallback e).crashed = false) :
    s.recvStep st (some e) =
      { st with sent := st.sent ++ (s.handleCallback e).sent,
                mux := st.mux.step (MuxOp.enqueue e) } := by
  simp [Session.recvStep, hc, hs, hd, eventMux.step]

theorem recvStep_none (s : Session) (st : SessionState)
    (hc : st.crashed = false) (hs : st.stopped = false) :
    s.recvStep st none = { st with mux := st.mux.step MuxOp.close, stopped := true } := by
  simp [Session.recvStep, hc, hs, eventMux.step]

theorem recvStep_stopped (s : Session) (st : SessionState) (r : Option ServerEvent)
    (h : st.stopped = true) : s.recvStep st r = st := by
  simp [Session.recvStep, h]

theorem startRecvLoop_stopped (s : Session) (st : SessionState)
    (recvs : List (Option ServerEvent)) (h : st.stopped = true) :
    s.startRecvLoop st recvs = st := by
  induction recvs with
  | nil => rfl
  | cons r rest ih =>
    simp only [Session.startRecvLoop, List.foldl_cons] at ih ⊢
    rw [recvStep_stopped s st r h]
    exact ih

/-- The receive loop acts on the multiplexer by one `Enqueue` for each received
event, in receive order, and one `Close` at the receive error; after that it
has returned. -/
theorem startRecvLoop_ops (s : Session) (events : List ServerEvent)
    (more : List (Option ServerEvent))
    (hnopanic : ∀ e ∈ events, (s.handleCallback e).crashed = false) :
    ∀ st : SessionState, st.crashed = false → st.stopped = false →
      (s.startRecvLoop st (events.map some ++ none :: more)).mux =
          st.mux.steps (recvOps events) ∧
        (s.startRecvLoop st (events.map some ++ none :: more)).stopped = true ∧
        (s.startRecvLoop st (events.map some ++ none :: more)).crashed = false := by
  induction events with
  | nil =>
    intro st hc hs
    simp only [List.map_nil, List.nil_append, Session.startRecvLoop, List.foldl_cons]
    rw [recvStep_none s st hc hs]
    have h := startRecvLoop_stopped s
      { st with mux := st.mux.step MuxOp.close, stopped := true } more rfl
    simp only [Session.startRecvLoop] at h
    rw [h]
    exact ⟨rfl, rfl, hc⟩
  | cons e rest ih =>
    intro st hc hs
    have hd := hnopanic e (List.mem_cons_self _ _)
    have h := ih (fun x hx => hnopanic x (List.mem_cons_of_mem _ hx))
      { st with sent := st.sent ++ (s.handleCallback e).sent,
                mux := st.mux.step (MuxOp.enqueue e) } hc hs
    simp only [List.map_cons, List.cons_append, Session.startRecvLoop, List.foldl_cons] at h ⊢
    rw [recvStep_event s st e hc hs hd]
    simpa [recvOps, eventMux.steps] using h

theorem steps_recvOps_queue (events : List ServerEvent) :
    ∀ m : eventMux, m.queue.closed = false →
      (m.steps (recvOps events)).queue =
        { items := m.queue.items ++ events, closed := true } := by
  induction events with
  | nil =>
    intro m h
    simp [recvOps, eventMux.steps, eventMux.step, eventMux.Close, eventQueue.Close]
  | cons e rest ih =>
    intro m h
    have h1 := ih (m.step (MuxOp.enqueue e))
      (by simp [eventMux.step, eventMux.Enqueue, eventQueue.Push, h])
    simp only [recvOps, eventMux.steps, List.map_cons, List.cons_append, List.foldl_cons] at h1 ⊢
    rw [h1]
    simp [eventMux.step, eventMux.Enqueue, eventQueue.Push, h]

theorem steps_append (m : eventMux) (a b : List MuxOp) :
    m.steps (a ++ b) = (m.steps a).steps b := by
  simp [eventMux.steps, List.foldl_append]

/-- C23 (as stated, refuted): on a session that `Session.Close` has been called
on, an event `stream.Recv` returns before its first error is passed to
`Enqueue` but never enters the queue: the queue is empty after the loop, and
when the multiplexer has closed nothing has been published and the global
subscription of the session has been enqueued nothing. -/
theorem C23_event_after_session_close_dropped :
    (bareSession.startRecvLoop (bareSession.Close attachedState)
        [some turnBeginA, none]).mux.queue.items = [] ∧
      ((bareSession.startRecvLoop (bareSession.Close attachedState)
        [some turnBeginA, none]).mux.steps [.run, .run, .pump 0]).closed = true ∧
      processedBy (bareSession.startRecvLoop (bareSession.Close attachedState)
        [some turnBeginA, none]).mux [.run, .run, .pump 0] = [] ∧
      ((bareSession.startRecvLoop (bareSession.Close attachedState)
        [some turnBeginA, none]).mux.steps [.run, .run, .pump 0]).enqueuedTo 0 = [] := by
  decide

/-- C23 (amended): a receive loop whose handlers do not panic, started on a
multiplexer that has not closed and whose queue is new, and given the events
`stream.Recv` returns before its first error: each iteration enqueues its
event, callback invocations included, and the error closes the queue, so the
loop leaves the queue closed, holding every event once in receive order. For
every interleaving of these actions with subscribe, unsubscribe, pump and
`run` actions in which nothing closes the queue before the loop does, the
events accepted into the queue are the received events; the events the
multiplexer has published are a prefix of them, and are all of them once the
multiplexer has closed its subscriptions; enough further iterations of `run`
publish all of them and then close. A global subscription that held L at the
start holds L followed by all the received events when the multiplexer closes.
Once the queue is closed no event is accepted any more: only the events
already queued are published. -/
theorem C23_receive_loop_publishes_in_order (s : Session) (st : SessionState)
    (events : List ServerEvent) (more : List (Option ServerEvent)) (ops extra : List MuxOp)
    (halive : st.crashed = false) (hrunning : st.stopped = false)
    (hnopanic : ∀ e ∈ events, (s.handleCallback e).crashed = false)
    (hopen : st.mux.closed = false) (hq : st.mux.queue = newEventQueue)
    (hfeed : ops.filter MuxOp.isFeed = recvOps events ++ extra) :
    (s.startRecvLoop st (events.map some ++ none :: more)).mux = st.mux.steps (recvOps events) ∧
      (s.startRecvLoop st (events.map some ++ none :: more)).mux.queue =
        { items := events, closed := true } ∧
      (s.startRecvLoop st (events.map some ++ none :: more)).stopped = true ∧
      (∀ (st1 : SessionState) (e : ServerEvent), e ∈ events → st1.crashed = false →
        st1.stopped = false →
        (s.recvStep st1 (some e)).mux = st1.mux.step (MuxOp.enqueue e) ∧
          (s.recvStep st1 (some e)).stopped = false) ∧
      acceptedBy st.mux ops = events ∧
      processedBy st.mux ops <+: events ∧
      ((st.mux.steps ops).closed = true → processedBy st.mux ops = events) ∧
      (st.mux.steps (ops ++ List.replicate (events.length + 1) MuxOp.run)).closed = true ∧
      processedBy st.mux (ops ++ List.replicate (events.length + 1) MuxOp.run) = events ∧
      (∀ sub L, st.mux.GlobalSub sub L → okFrom st.mux ops = true →
        (st.mux.steps ops).closed = true →
        (st.mux.steps ops).enqueuedTo sub = L ++ events) ∧
      (∀ (m1 : eventMux) (ops1 : List MuxOp), m1.queue.closed = true →
        acceptedBy m1 ops1 = [] ∧
          processedBy m1 ops1 ++ (m1.steps ops1).queue.items = m1.queue.items) := by
  have hqc : st.mux.queue.closed = false := by rw [hq]; rfl
  have hqi : st.mux.queue.items = [] := by rw [hq]; rfl
  have hdr : st.mux.Drained := fun h => by rw [hopen] at h; cases h
  obtain ⟨hl1, hl2, _⟩ := startRecvLoop_ops s events more hnopanic st halive hrunning
  have hfeed1 : ops.filter MuxOp.isFeed = events.map MuxOp.enqueue ++ MuxOp.close :: extra := by
    rw [hfeed]; simp [recvOps]
  -- the general fact for every sequence of actions with this feed
  have key : ∀ ops1 : List MuxOp,
      ops1.filter MuxOp.isFeed = events.map MuxOp.enqueue ++ MuxOp.close :: extra →
      acceptedBy st.mux ops1 = events ∧
        processedBy st.mux ops1 ++ (st.mux.steps ops1).queue.items = events ∧
        (st.mux.steps ops1).queue.closed = true ∧
        ((st.mux.steps ops1).closed = true → processedBy st.mux ops1 = events) := by
    intro ops1 hf
    obtain ⟨ha, hc⟩ := acceptedBy_feed ops1 st.mux events extra hqc hf
    have hcons := steps_conserve ops1 st.mux
    rw [ha, hqi, List.nil_append] at hcons
    refine ⟨ha, hcons, hc, fun hclosed => ?_⟩
    have hd := (Drained_steps ops1 st.mux hdr hclosed).1
    rw [hd, List.append_nil] at hcons
    exact hcons
  obtain ⟨ha, hcons, hc, hall⟩ := key ops hfeed1
  have hruns : (ops ++ List.replicate (events.length + 1) MuxOp.run).filter MuxOp.isFeed =
      events.map MuxOp.enqueue ++ MuxOp.close :: extra := by
    rw [List.filter_append, hfeed1]
    have hnil : (List.replicate (events.length + 1) MuxOp.run).filter MuxOp.isFeed = [] := by
      rw [List.filter_eq_nil_iff]
      intro x hx
      rw [(List.mem_replicate.mp hx).2]
      simp [MuxOp.isFeed]
    rw [hnil, List.append_nil]
  have hlive : (st.mux.steps (ops ++ List.replicate (events.length + 1) MuxOp.run)).closed
      = true := by
    rw [steps_append]
    refine runs_close _ _ hc ?_
    have hlen := congrArg List.length hcons
    simp only [List.length_append] at hlen
    omega
  refine ⟨hl1, ?_, hl2, ?_, ha, ⟨_, hcons⟩, hall, hlive, (key _ hruns).2.2.2 hlive, ?_, ?_⟩
  · rw [hl1, steps_recvOps_queue events st.mux hqc, hqi, List.nil_append]
  · intro st1 e he hc1 hs1
    rw [recvStep_event s st1 e hc1 hs1 (hnopanic e he)]
    exact ⟨rfl, hs1⟩
  · intro sub L hg hok hclosed
    have h := (GlobalSub_steps ops st.mux sub L hg hok).1
    rw [h, hall hclosed]
  · intro m1 ops1 h1
    have h2 := steps_conserve ops1 m1
    rw [acceptedBy_closed ops1 m1 h1, List.append_nil] at h2
    exact ⟨acceptedBy_closed ops1 m1 h1, h2⟩

/-- C23 (amended), applied to a session without handlers that receives a tool invocation
and a TURN_BEGIN before the receive error, interleaved with a subscription and
iterations of `run` and of a pump: when the multiplexer has closed, it has
published both events, in receive order. -/
theorem C23_receive_loop_publishes_in_order_witness :
    (freshState.mux.steps interleavedOps).closed = true ∧
      processedBy freshState.mux interleavedOps = [toolEvent pingRequest, turnBeginA] ∧
      (bareSession.startRecvLoop freshState
        ([toolEvent pingRequest, turnBeginA].map some ++ none :: [some turnEndA])).mux.queue =
          { items := [toolEvent pingRequest, turnBeginA], closed := true } :=
  ⟨by decide,
    (C23_receive_loop_publishes_in_order bareSession freshState [toolEvent pingRequest, turnBeginA]
      [some turnEndA] interleavedOps [] rfl rfl (by decide) rfl rfl
      (by decide)).2.2.2.2.2.2.1 (by decide),
    (C23_receive_loop_publishes_in_order bareSession freshState [toolEvent pingRequest, turnBeginA]
      [some turnEndA] interleavedOps [] rfl rfl (by decide) rfl rfl
      (by decide)).2.1⟩

/-! ## Stream.run and CollectTurns build the same Turn; the turn index -/

theorem payloadPresent_of_nonNil (e : ServerEvent) (h : e.payloadNonNil = true) :
    e.payloadPresent = true := by
  unfold ServerEvent.payloadNonNil at h
  unfold ServerEvent.payloadPresent
  cases hpay : e.Payload with
  | turn tb => cases tb <;> simp_all
  | stderrLine l => cases l <;> simp_all
  | message m => rfl
  | error x => rfl
  | unset => rfl
  | sessionInit => rfl
  | sessionClosed r => rfl
  | toolRequest r => rfl
  | hookRequest r => rfl
  | permissionRequest r => rfl

/-- On an event with no nil payload the fold of `CollectTurns` and the fold of
`Stream.run` do the same to a Turn. -/
theorem fold_eq_foldEvent (t : Turn) (e : ServerEvent) (h : e.payloadNonNil = true) :
    CollectTurns.fold t e = Stream.foldEvent t e := by
  unfold ServerEvent.payloadNonNil at h
  unfold CollectTurns.fold Stream.foldEvent
  cases hpay : e.Payload with
  | turn tb =>
    cases tb with
    | none => simp [hpay] at h
    | some tb => cases hk : tb.Kind <;> simp [hk]
  | message m =>
    cases m with
    | none => simp [hpay] at h
    | some m => rfl
  | stderrLine l =>
    cases l with
    | none => simp [hpay] at h
    | some l => rfl
  | error x =>
    cases x with
    | none => simp [hpay] at h
    | some x => rfl
  | unset => rfl
  | sessionInit => rfl
  | sessionClosed r => rfl
  | toolRequest r => rfl
  | hookRequest r => rfl
  | permissionRequest r => rfl

theorem foldAll_eq_foldEvents (es : List ServerEvent)
    (h : ∀ x ∈ es, x.payloadNonNil = true) :
    ∀ t : Turn, CollectTurns.foldAll t es = Stream.foldEvents t es := by
  induction es with
  | nil => intro t; rfl
  | cons e rest ih =>
    intro t
    have h1 := ih (fun x hx => h x (List.mem_cons_of_mem _ hx)) (CollectTurns.fold t e)
    simp only [CollectTurns.foldAll, Stream.foldEvents, List.foldl_cons] at h1 ⊢
    rw [h1, fold_eq_foldEvent t e (h e (List.mem_cons_self _ _))]

/-- A Stream that has no Turn yet and receives events that all carry the turn
id T starts the Turn T at the first of them. -/
theorem runLoop_start_all (T : String) (hT : T ≠ "") (es : List ServerEvent) (hne : es ≠ [])
    (hid : ∀ x ∈ es, x.TurnId = T) (ps : List MessageEvent) (tail : List StreamInput) :
    Stream.runLoop none ps (es.map StreamInput.event ++ tail) =
      Stream.runLoop (some (newTurn T)) ps (es.map StreamInput.event ++ tail) := by
  cases es with
  | nil => exact absurd rfl hne
  | cons x rest =>
    have hx : x.TurnId = T := hid x (List.mem_cons_self _ _)
    simp only [List.map_cons, List.cons_append]
    rw [runLoop_start x (by rw [hx]; exact hT), hx]

/-- Events of one turn id with a TURN_END only at the end: `Stream.run` delivers
the fold of all of them into a new Turn, and `CollectTurns` emits the fold of
all of them into a new Turn, and nothing else. -/
theorem single_turn_outputs (body : List ServerEvent) (e : ServerEvent) (T : String)
    (tail : List StreamInput) (hT : T ≠ "") (hid : ∀ x ∈ body ++ [e], x.TurnId = T)
    (hp : ∀ x ∈ body ++ [e], x.payloadPresent = true)
    (hbody : ∀ x ∈ body, isTurnEnd x = false) (hend : isTurnEnd e = true) :
    (Stream.run ((body ++ [e]).map StreamInput.event ++ tail)).done =
        some { Turn := some (Stream.foldEvent (Stream.foldEvents (newTurn T) body) e) } ∧
      CollectTurns (body ++ [e]) =
        [CollectTurns.fold (CollectTurns.foldAll (newTurn T) body) e] := by
  constructor
  · have h2 : (body ++ [e]).map StreamInput.event ++ tail =
        body.map StreamInput.event ++ (StreamInput.event e :: tail) := by simp
    rw [Stream.run, runLoop_start_all T hT (body ++ [e]) (by simp) hid, h2,
      runLoop_events body hbody, runLoop_event]
    simp [hend]
  · rw [CollectTurns_single_id T hT _ hp hid, collectFor_single T body e hbody hend]
    rfl

/-- C34: for every sequence of events that all carry the same turn id, not
empty, whose payloads are not nil, and whose only TURN_END is its last event,
`Stream.run` delivers one Turn and `CollectTurns` emits exactly one Turn, and
the two are equal in every field. -/
theorem C34_stream_and_collect_agree (body : List ServerEvent) (e : ServerEvent) (T : String)
    (tail : List StreamInput) (hT : T ≠ "") (hid : ∀ x ∈ body ++ [e], x.TurnId = T)
    (hnn : ∀ x ∈ body ++ [e], x.payloadNonNil = true)
    (hbody : ∀ x ∈ body, isTurnEnd x = false) (hend : isTurnEnd e = true) :
    ∃ t, (Stream.run ((body ++ [e]).map StreamInput.event ++ tail)).done
          = some { Turn := some t } ∧
      CollectTurns (body ++ [e]) = [t] ∧
      (Stream.run ((body ++ [e]).map StreamInput.event ++ tail)).err = none ∧
      t.TurnID = T ∧ t.Ended = true ∧ t.Events = body ++ [e] := by
  have hp : ∀ x ∈ body ++ [e], x.payloadPresent = true :=
    fun x hx => payloadPresent_of_nonNil x (hnn x hx)
  obtain ⟨h1, h2⟩ := single_turn_outputs body e T tail hT hid hp hbody hend
  have he : e.payloadNonNil = true := hnn e (by simp)
  have hb : ∀ x ∈ body, x.payloadNonNil = true := fun x hx => hnn x (by simp [hx])
  refine ⟨Stream.foldEvent (Stream.foldEvents (newTurn T) body) e, h1, ?_, ?_, ?_, ?_, ?_⟩
  · rw [h2, foldAll_eq_foldEvents body hb, fold_eq_foldEvent _ e he]
  · have h2 : (body ++ [e]).map StreamInput.event ++ tail =
        body.map StreamInput.event ++ (StreamInput.event e :: tail) := by simp
    rw [Stream.run, runLoop_start_all T hT (body ++ [e]) (by simp) hid, h2,
      runLoop_events body hbody, runLoop_event]
    simp [hend]
  · rw [(foldEvent_frame _ e).2.1, foldEvents_TurnID]; rfl
  · rw [foldEvent_Ended]; simp [hend]
  · rw [(foldEvent_frame _ e).1, foldEvents_Events]; rfl

/-- C34, applied to the events of the aggregation test: the Turn delivered by
the Stream is the one Turn `CollectTurns` emits. -/
theorem C34_stream_and_collect_agree_witness :
    ∃ t, (Stream.run (([turnBeginEvent, partialEvent] ++ [turnEndEvent]).map StreamInput.event
            ++ [StreamInput.chanClosed])).done = some { Turn := some t } ∧
      CollectTurns ([turnBeginEvent, partialEvent] ++ [turnEndEvent]) = [t] :=
  (C34_stream_and_collect_agree [turnBeginEvent, partialEvent] turnEndEvent "turn-1"
    [StreamInput.chanClosed] (by decide) (by decide) (by decide) (by decide) (by decide)).imp
    (fun _ h => ⟨h.1, h.2.1⟩)

theorem record_TurnIndex (t : Turn) (e : ServerEvent) :
    (Stream.record t e).TurnIndex = t.TurnIndex ∧ (Stream.record t e).Started = t.Started := by
  unfold Stream.record
  split <;> simp

/-- What folding one event in `Stream.run` does to the turn index and the
Started flag. -/
theorem foldEvent_TurnIndex (t : Turn) (e : ServerEvent) :
    (Stream.foldEvent t e).TurnIndex =
        (if isTurnBegin e = true then boundaryIndex e
         else if isTurnEnd e = true ∧ t.TurnIndex = 0 then boundaryIndex e
         else t.TurnIndex) ∧
      (Stream.foldEvent t e).Started = (t.Started || isTurnBegin e) := by
  have hr := record_TurnIndex t e
  unfold Stream.foldEvent isTurnBegin isTurnEnd boundaryIndex
  cases hpay : e.Payload with
  | turn tb =>
    cases tb with
    | none => simpa using hr
    | some tb =>
      cases hk : tb.Kind
      · simpa [hk] using hr
      · simp [hk, hr.2]
      · by_cases hz : t.TurnIndex = 0 <;> simp [hk, hz, hr.1, hr.2]
  | message m =>
    cases m with
    | none => simpa using hr
    | some m =>
      have hf := addMessage_frame (Stream.record t e) (some m)
      simp [hf.2.2.2.1, hf.2.2.2.2.1, hr.1, hr.2]
  | stderrLine l => cases l <;> simpa using hr
  | error x => cases x <;> simpa using hr
  | unset => simpa using hr
  | sessionInit => simpa using hr
  | sessionClosed r => simpa using hr
  | toolRequest r => simpa using hr
  | hookRequest r => simpa using hr
  | permissionRequest r => simpa using hr

/-- What folding one event in `CollectTurns` does to the turn index and the
boundary flags. -/
theorem fold_TurnIndex (t : Turn) (e : ServerEvent) :
    (CollectTurns.fold t e).TurnIndex =
        (if isTurnBegin e = true then boundaryIndex e
         else if isTurnEnd e = true ∧ t.TurnIndex = 0 then boundaryIndex e
         else t.TurnIndex) ∧
      (CollectTurns.fold t e).Started = (t.Started || isTurnBegin e) ∧
      (CollectTurns.fold t e).Ended = (t.Ended || isTurnEnd e) := by
  have hr := record_TurnIndex t e
  have hre := record_Ended t e
  unfold CollectTurns.fold isTurnBegin isTurnEnd boundaryIndex
  cases hpay : e.Payload with
  | turn tb =>
    cases tb with
    | none => simpa using ⟨hr.1, hr.2, hre⟩
    | some tb =>
      cases hk : tb.Kind
      · simpa [hk] using ⟨hr.1, hr.2, hre⟩
      · simp [hk, hr.2, hre]
      · by_cases hz : t.TurnIndex = 0 <;> simp [hk, hz, hr.1, hr.2]
  | message m =>
    have hf := addMessage_frame (Stream.record t e) m
    simp [hf.2.2.2.1, hf.2.2.2.2.1, hr.1, hr.2, addMessage_Ended, hre]
  | stderrLine l => cases l <;> simpa using ⟨hr.1, hr.2, hre⟩
  | error x => simpa using ⟨hr.1, hr.2, hre⟩
  | unset => simpa using ⟨hr.1, hr.2, hre⟩
  | sessionInit => simpa using ⟨hr.1, hr.2, hre⟩
  | sessionClosed r => simpa using ⟨hr.1, hr.2, hre⟩
  | toolRequest r => simpa using ⟨hr.1, hr.2, hre⟩
  | hookRequest r => simpa using ⟨hr.1, hr.2, hre⟩
  | permissionRequest r => simpa using ⟨hr.1, hr.2, hre⟩

/-- Events that are no turn boundary leave the turn index alone, in both folds. -/
theorem folds_keep_TurnIndex (es : List ServerEvent)
    (h : ∀ x ∈ es, isTurnBegin x = false ∧ isTurnEnd x = false) :
    ∀ t : Turn, (Stream.foldEvents t es).TurnIndex = t.TurnIndex ∧
      (CollectTurns.foldAll t es).TurnIndex = t.TurnIndex := by
  induction es with
  | nil => intro t; exact ⟨rfl, rfl⟩
  | cons e rest ih =>
    intro t
    obtain ⟨hb, he⟩ := h e (List.mem_cons_self _ _)
    have ih1 := ih (fun x hx => h x (List.mem_cons_of_mem _ hx))
    have h1 := ih1 (Stream.foldEvent t e)
    have h2 := ih1 (CollectTurns.fold t e)
    simp only [Stream.foldEvents, CollectTurns.foldAll, List.foldl_cons] at h1 h2 ⊢
    rw [h1.1, h2.2, (foldEvent_TurnIndex t e).1, (fold_TurnIndex t e).1]
    simp [hb, he]

theorem foldEvents_append (t : Turn) (a b : List ServerEvent) :
    Stream.foldEvents t (a ++ b) = Stream.foldEvents (Stream.foldEvents t a) b := by
  simp [Stream.foldEvents, List.foldl_append]

theorem foldAll_append (t : Turn) (a b : List ServerEvent) :
    CollectTurns.foldAll t (a ++ b) = CollectTurns.foldAll (CollectTurns.foldAll t a) b := by
  simp [CollectTurns.foldAll, List.foldl_append]

/-- C35 (as stated, refuted): a Turn that folds a TURN_BEGIN with the turn index
0 and then a TURN_END with the turn index 5 ends with the turn index 5, not 0,
in the Turn `Stream.run` delivers and in the Turn `CollectTurns` emits. -/
theorem C35_begin_index_zero_overwritten :
    (Stream.run [.event turnBeginZero, .event turnEndFive]).done.map
        (fun r => r.Turn.map (fun t => t.TurnIndex)) = some (some 5) ∧
      (CollectTurns [turnBeginZero, turnEndFive]).map (fun t => t.TurnIndex) = [5] := by
  decide

/-- C35 (amended): for events of one turn id whose last TURN_BEGIN carries the
turn index i and whose only TURN_END, the last event, carries the turn index
j, the Turn `Stream.run` delivers and the Turn `CollectTurns` emits have the
turn index i when i is not 0, and j when i is 0: the TURN_END takes a turn
index of 0 for one that was never set. With no TURN_BEGIN before the TURN_END
the turn index is j. -/
theorem C35_turn_index_of_boundaries (pre mid body : List ServerEvent) (b e : ServerEvent)
    (T : String) (i j : Nat) (tail : List StreamInput) (hT : T ≠ "")
    (hb : b.Payload = .turn (some { Kind := .TURN_BEGIN, TurnIndex := i }))
    (he : e.Payload = .turn (some { Kind := .TURN_END, TurnIndex := j }))
    (hid : ∀ x ∈ (pre ++ b :: mid) ++ [e], x.TurnId = T)
    (hp : ∀ x ∈ (pre ++ b :: mid) ++ [e], x.payloadPresent = true)
    (hpre : ∀ x ∈ pre, isTurnEnd x = false)
    (hmid : ∀ x ∈ mid, isTurnBegin x = false ∧ isTurnEnd x = false)
    (hid1 : ∀ x ∈ body ++ [e], x.TurnId = T)
    (hp1 : ∀ x ∈ body ++ [e], x.payloadPresent = true)
    (hbody : ∀ x ∈ body, isTurnBegin x = false ∧ isTurnEnd x = false) :
    (∃ t, (Stream.run (((pre ++ b :: mid) ++ [e]).map StreamInput.event ++ tail)).done
          = some { Turn := some t } ∧ t.TurnIndex = if i = 0 then j else i) ∧
      (∃ t, CollectTurns ((pre ++ b :: mid) ++ [e]) = [t] ∧
          t.TurnIndex = if i = 0 then j else i) ∧
      (∃ t, (Stream.run ((body ++ [e]).map StreamInput.event ++ tail)).done
          = some { Turn := some t } ∧ t.TurnIndex = j) ∧
      (∃ t, CollectTurns (body ++ [e]) = [t] ∧ t.TurnIndex = j) := by
  have hbB : isTurnBegin b = true ∧ isTurnEnd b = false ∧ boundaryIndex b = i := by
    simp [isTurnBegin, isTurnEnd, boundaryIndex, hb]
  have heE : isTurnBegin e = false ∧ isTurnEnd e = true ∧ boundaryIndex e = j := by
    simp [isTurnBegin, isTurnEnd, boundaryIndex, he]
  have hfirst : ∀ x ∈ pre ++ b :: mid, isTurnEnd x = false := by
    intro x hx
    rcases List.mem_append.mp hx with h1 | h1
    · exact hpre x h1
    · rcases List.mem_cons.mp h1 with h2 | h2
      · rw [h2]; exact hbB.2.1
      · exact (hmid x h2).2
  obtain ⟨hs, hc⟩ := single_turn_outputs (pre ++ b :: mid) e T tail hT hid hp hfirst heE.2.1
  obtain ⟨hs1, hc1⟩ := single_turn_outputs body e T tail hT hid1 hp1
    (fun x hx => (hbody x hx).2) heE.2.1
  have hsplit : pre ++ b :: mid = (pre ++ [b]) ++ mid := by simp
  have hidxS : (Stream.foldEvents (newTurn T) (pre ++ b :: mid)).TurnIndex = i := by
    rw [hsplit, foldEvents_append, (folds_keep_TurnIndex mid hmid _).1, foldEvents_append]
    simp only [Stream.foldEvents, List.foldl_cons, List.foldl_nil]
    rw [(foldEvent_TurnIndex _ b).1]
    simp [hbB.1, hbB.2.2]
  have hidxC : (CollectTurns.foldAll (newTurn T) (pre ++ b :: mid)).TurnIndex = i := by
    rw [hsplit, foldAll_append, (folds_keep_TurnIndex mid hmid _).2, foldAll_append]
    simp only [CollectTurns.foldAll, List.foldl_cons, List.foldl_nil]
    rw [(fold_TurnIndex _ b).1]
    simp [hbB.1, hbB.2.2]
  refine ⟨⟨_, hs, ?_⟩, ⟨_, hc, ?_⟩, ⟨_, hs1, ?_⟩, ⟨_, hc1, ?_⟩⟩
  · rw [(foldEvent_TurnIndex _ e).1, hidxS]
    by_cases hi : i = 0 <;> simp [heE.1, heE.2.1, heE.2.2, hi]
  · rw [(fold_TurnIndex _ e).1, hidxC]
    by_cases hi : i = 0 <;> simp [heE.1, heE.2.1, heE.2.2, hi]
  · rw [(foldEvent_TurnIndex _ e).1, (folds_keep_TurnIndex body hbody _).1]
    simp [heE.1, heE.2.1, heE.2.2, newTurn]
  · rw [(fold_TurnIndex _ e).1, (folds_keep_TurnIndex body hbody _).2]
    simp [heE.1, heE.2.1, heE.2.2, newTurn]

/-- C35 (amended), applied to the events of the aggregation test, whose
TURN_BEGIN carries the turn index 1: the turn index delivered is 1; and to a
message followed by a TURN_END with the turn index 5: it is 5. -/
theorem C35_turn_index_of_boundaries_witness :
    (∃ t, (Stream.run ((([] ++ turnBeginEvent :: [partialEvent]) ++ [turnEndFive]).map
            StreamInput.event ++ [])).done = some { Turn := some t } ∧
          t.TurnIndex = if 1 = 0 then 5 else 1) ∧
      (∃ t, CollectTurns ([partialEvent] ++ [turnEndFive]) = [t] ∧ t.TurnIndex = 5) :=
  ⟨(C35_turn_index_of_boundaries [] [partialEvent] [partialEvent] turnBeginEvent turnEndFive
      "turn-1" 1 5 [] (by decide) rfl rfl (by decide) (by decide) (by decide) (by decide)
      (by decide) (by decide) (by decide)).1,
    (C35_turn_index_of_boundaries [] [partialEvent] [partialEvent] turnBeginEvent turnEndFive
      "turn-1" 1 5 [] (by decide) rfl rfl (by decide) (by decide) (by decide) (by decide)
      (by decide) (by decide) (by decide)).2.2.2⟩

/-! ## The boundary flags of a Turn; events before the first turn id -/

theorem BoundariesLogged_newTurn (T : String) : (newTurn T).BoundariesLogged := by
  simp [Turn.BoundariesLogged, newTurn]

theorem BoundariesLogged_foldEvent (t : Turn) (e : ServerEvent) (h : t.BoundariesLogged) :
    (Stream.foldEvent t e).BoundariesLogged := by
  unfold Turn.BoundariesLogged at h ⊢
  rw [(foldEvent_TurnIndex t e).2, foldEvent_Ended, (foldEvent_frame t e).1, h.1, h.2]
  simp [List.any_append]

theorem BoundariesLogged_fold (t : Turn) (e : ServerEvent) (h : t.BoundariesLogged) :
    (CollectTurns.fold t e).BoundariesLogged := by
  unfold Turn.BoundariesLogged at h ⊢
  rw [(fold_TurnIndex t e).2.1, (fold_TurnIndex t e).2.2, fold_Events, h.1, h.2]
  simp [List.any_append]

/-- A property of Turns that holds of a new Turn and is kept by the fold of
`Stream.run` holds of the Turn the Stream is building, at every point. -/
theorem turnAfter_inv (P : Turn → Prop) (hnew : ∀ T, P (newTurn T))
    (hstep : ∀ t e, P t → P (Stream.foldEvent t e)) (inputs : List StreamInput) :
    ∀ turn : Option Turn, (∀ t, turn = some t → P t) →
      ∀ t, Stream.turnAfter turn inputs = some t → P t := by
  induction inputs with
  | nil => exact fun turn h t ht => h t (by simpa [Stream.turnAfter] using ht)
  | cons x rest ih =>
    intro turn h
    cases x with
    | ctxDone => exact fun t ht => h t (by simpa [Stream.turnAfter] using ht)
    | chanClosed => exact fun t ht => h t (by simpa [Stream.turnAfter] using ht)
    | event e =>
      have hsome : ∀ t0 : Turn, P t0 →
          ∀ t, Stream.turnAfter (some t0) (.event e :: rest) = some t → P t := by
        intro t0 h0 t ht
        rw [turnAfter_some] at ht
        by_cases hend : isTurnEnd e = true
        · simp only [hend, if_true, Option.some.injEq] at ht
          rw [← ht]
          exact hstep t0 e h0
        · simp only [hend, if_false] at ht
          refine ih (some (Stream.foldEvent t0 e)) ?_ t ht
          intro t1 ht1
          simp only [Option.some.injEq] at ht1
          rw [← ht1]
          exact hstep t0 e h0
      cases turn with
      | some t0 => exact hsome t0 (h t0 rfl)
      | none =>
        by_cases hid : e.TurnId = ""
        · rw [turnAfter_skip e hid]
          exact ih none (fun t ht => by cases ht)
        · rw [turnAfter_start e hid]
          exact hsome (newTurn e.TurnId) (hnew _)

/-- A property of Turns that holds of a new Turn and is kept by the fold of
`CollectTurns` holds of every Turn emitted for one turn id. -/
theorem collectFor_inv (T : String) (P : Turn → Prop) (hnew : P (newTurn T))
    (hstep : ∀ t e, P t → P (CollectTurns.fold t e)) (es : List ServerEvent) :
    ∀ cur : Option Turn, (∀ c, cur = some c → P c) →
      ∀ t ∈ CollectTurns.collectFor T cur es, P t := by
  induction es with
  | nil =>
    intro cur hcur t ht
    cases cur with
    | none => simp [CollectTurns.collectFor] at ht
    | some c =>
      simp only [CollectTurns.collectFor, Option.toList, List.mem_singleton] at ht
      rw [ht]
      exact hcur c rfl
  | cons e rest ih =>
    intro cur hcur t ht
    have hfold : P (CollectTurns.fold (cur.getD (newTurn T)) e) := by
      refine hstep _ e ?_
      cases cur with
      | none => exact hnew
      | some c => exact hcur c rfl
    simp only [CollectTurns.collectFor] at ht
    split at ht
    · rcases List.mem_cons.mp ht with h1 | h1
      · rw [h1]; exact hfold
      · exact ih none (fun c hc => by cases hc) t h1
    · refine ih _ ?_ t ht
      intro c hc
      simp only [Option.some.injEq] at hc
      rw [← hc]
      exact hfold

/-- A property of Turns that holds of every new Turn and is kept by the fold of
`CollectTurns` holds of every Turn it emits. -/
theorem CollectTurns_inv (P : Turn → Prop) (hnew : ∀ T, P (newTurn T))
    (hstep : ∀ t e, P t → P (CollectTurns.fold t e)) (events : List ServerEvent)
    (hp : ∀ e ∈ events, e.payloadPresent = true) : ∀ t ∈ CollectTurns events, P t := by
  intro t ht
  have hne := CollectTurns_TurnID_ne_empty events hp t ht
  have hmem : t ∈ (CollectTurns events).filter (fun y => decide (y.TurnID = t.TurnID)) := by
    simp [List.mem_filter, ht]
  rw [CollectTurns_filter t.TurnID hne events hp] at hmem
  exact collectFor_inv t.TurnID P (hnew _) hstep _ none (fun c hc => by cases hc) t hmem

/-- C36 (as stated, refuted): a TURN_END that no TURN_BEGIN precedes yields a
Turn with Ended = true and Started = false, delivered by `Stream.run` and
emitted by `CollectTurns`. -/
theorem C36_ended_without_started :
    (Stream.run [.event turnEndEvent]).done.map
        (fun r => r.Turn.map (fun t => (t.Started, t.Ended))) = some (some (false, true)) ∧
      (CollectTurns [turnEndEvent]).map (fun t => (t.Started, t.Ended)) = [(false, true)] := by
  decide

/-- C36 (amended): in every Turn `Stream.run` delivers, and in every Turn
`CollectTurns` emits for events with present payloads, Started is true exactly
when the log of the Turn holds a TURN_BEGIN and Ended exactly when it holds a
TURN_END. Neither requires a TURN_BEGIN before a TURN_END: a Turn with
Ended = true has Started = true exactly when a TURN_BEGIN is in its log. -/
theorem C36_boundary_flags_follow_log (inputs : List StreamInput) (events : List ServerEvent)
    (hp : ∀ e ∈ events, e.payloadPresent = true) :
    (∀ t, (Stream.run inputs).done = some { Turn := some t } →
        t.Started = t.Events.any isTurnBegin ∧ t.Ended = t.Events.any isTurnEnd) ∧
      (∀ t ∈ CollectTurns events,
        t.Started = t.Events.any isTurnBegin ∧ t.Ended = t.Events.any isTurnEnd) := by
  constructor
  · intro t ht
    have h1 := (runLoop_partials inputs none [] rfl).2 t ht
    exact turnAfter_inv Turn.BoundariesLogged BoundariesLogged_newTurn
      BoundariesLogged_foldEvent inputs none (fun t h => by cases h) t h1
  · exact CollectTurns_inv Turn.BoundariesLogged BoundariesLogged_newTurn BoundariesLogged_fold
      events hp

/-- C36 (amended), applied to a turn with both boundaries and to a turn with a
TURN_END only. -/
theorem C36_boundary_flags_follow_log_witness :
    (∀ t ∈ CollectTurns [turnBeginEvent, turnEndEvent, turnEndA],
        t.Started = t.Events.any isTurnBegin ∧ t.Ended = t.Events.any isTurnEnd) ∧
      (CollectTurns [turnBeginEvent, turnEndEvent, turnEndA]).map
        (fun t => (t.TurnID, t.Started, t.Ended))
          = [("turn-1", true, true), ("turn-a", false, true)] :=
  ⟨(C36_boundary_flags_follow_log [] [turnBeginEvent, turnEndEvent, turnEndA] (by decide)).2,
    by decide⟩

/-- Every event in the log of the Turn a Stream is building was in the log of
the Turn it started from or is one of the inputs. -/
theorem turnAfter_Events (inputs : List StreamInput) :
    ∀ (turn : Option Turn) (t : Turn), Stream.turnAfter turn inputs = some t →
      ∀ x ∈ t.Events, (∃ t0, turn = some t0 ∧ x ∈ t0.Events) ∨ StreamInput.event x ∈ inputs := by
  induction inputs with
  | nil =>
    intro turn t ht x hx
    exact Or.inl ⟨t, by simpa [Stream.turnAfter] using ht, hx⟩
  | cons i rest ih =>
    intro turn t ht x hx
    cases i with
    | ctxDone => exact Or.inl ⟨t, by simpa [Stream.turnAfter] using ht, hx⟩
    | chanClosed => exact Or.inl ⟨t, by simpa [Stream.turnAfter] using ht, hx⟩
    | event e =>
      have hsome : ∀ t0 : Turn, Stream.turnAfter (some t0) (.event e :: rest) = some t →
          x ∈ t0.Events ∨ StreamInput.event x ∈ StreamInput.event e :: rest := by
        intro t0 ht0
        rw [turnAfter_some] at ht0
        have hfold : ∀ y ∈ (Stream.foldEvent t0 e).Events,
            y ∈ t0.Events ∨ StreamInput.event y ∈ StreamInput.event e :: rest := by
          intro y hy
          rw [(foldEvent_frame t0 e).1] at hy
          rcases List.mem_append.mp hy with h1 | h1
          · exact Or.inl h1
          · rw [List.mem_singleton.mp h1]
            exact Or.inr (List.mem_cons_self _ _)
        by_cases hend : isTurnEnd e = true
        · simp only [hend, if_true, Option.some.injEq] at ht0
          rw [← ht0] at hx
          exact hfold x hx
        · simp only [hend, if_false] at ht0
          rcases ih _ t ht0 x hx with ⟨t1, ht1, hx1⟩ | h1
          · simp only [Option.some.injEq] at ht1
            rw [← ht1] at hx1
            exact hfold x hx1
          · exact Or.inr (List.mem_cons_of_mem _ h1)
      cases turn with
      | some t0 =>
        rcases hsome t0 ht with h1 | h1
        · exact Or.inl ⟨t0, rfl, h1⟩
        · exact Or.inr h1
      | none =>
        by_cases hid : e.TurnId = ""
        · rw [turnAfter_skip e hid] at ht
          rcases ih none t ht x hx with ⟨t1, ht1, _⟩ | h1
          · cases ht1
          · exact Or.inr (List.mem_cons_of_mem _ h1)
        · rw [turnAfter_start e hid] at ht
          rcases hsome (newTurn e.TurnId) ht with h1 | h1
          · simp [newTurn] at h1
          · exact Or.inr h1

theorem turnAfter_skips (es : List ServerEvent) (hskip : ∀ e ∈ es, e.TurnId = "")
    (tail : List StreamInput) :
    Stream.turnAfter none (es.map StreamInput.event ++ tail) = Stream.turnAfter none tail := by
  induction es with
  | nil => rfl
  | cons e rest ih =>
    simp only [List.map_cons, List.cons_append]
    rw [turnAfter_skip e (hskip e (List.mem_cons_self _ _))]
    exact ih (fun x hx => hskip x (List.mem_cons_of_mem _ hx))

/-- C37: the events a Stream receives before the first event that carries a
turn id leave no trace: whatever follows them, `Stream.run` sends, delivers
and builds exactly what it does when it receives what follows alone, so
nothing of them is in the Events, Messages, Partials, Stderr or Errors of the
Turn, nor on the partials feed. Every event in the log of the Turn is one of
those that follow, and while only such events have arrived there is no Turn
and nothing has been mirrored. -/
theorem C37_events_before_turn_id_discarded (skip : List ServerEvent) (rest : List StreamInput)
    (hskip : ∀ e ∈ skip, e.TurnId = "") :
    Stream.run (skip.map StreamInput.event ++ rest) = Stream.run rest ∧
      Stream.turnAfter none (skip.map StreamInput.event ++ rest) = Stream.turnAfter none rest ∧
      (∀ t, Stream.turnAfter none (skip.map StreamInput.event ++ rest) = some t →
        ∀ x ∈ t.Events, StreamInput.event x ∈ rest) ∧
      (∀ t, (Stream.run (skip.map StreamInput.event ++ rest)).done = some { Turn := some t } →
        ∀ x ∈ t.Events, StreamInput.event x ∈ rest) ∧
      Stream.turnAfter none (skip.map StreamInput.event) = none ∧
      (Stream.run (skip.map StreamInput.event)).partials = [] := by
  have h1 : Stream.run (skip.map StreamInput.event ++ rest) = Stream.run rest :=
    runLoop_skips skip hskip [] rest
  have h2 := turnAfter_skips skip hskip rest
  have h3 : ∀ t, Stream.turnAfter none (skip.map StreamInput.event ++ rest) = some t →
      ∀ x ∈ t.Events, StreamInput.event x ∈ rest := by
    intro t ht x hx
    rw [h2] at ht
    rcases turnAfter_Events rest none t ht x hx with ⟨t0, h0, _⟩ | h
    · cases h0
    · exact h
  have h5 : Stream.turnAfter none (skip.map StreamInput.event) = none := by
    have := turnAfter_skips skip hskip []
    simpa [Stream.turnAfter] using this
  refine ⟨h1, h2, h3, ?_, h5, ?_⟩
  · intro t ht
    exact h3 t ((runLoop_partials _ none [] rfl).2 t ht)
  · have := runLoop_skips skip hskip [] []
    simp only [List.append_nil] at this
    rw [Stream.run, this]
    rfl

/-- C37, applied to a stderr line without a turn id received before the events
of the aggregation test: the Stream delivers what it delivers without it. -/
theorem C37_events_before_turn_id_discarded_witness :
    Stream.run ([stderrNoTurn].map StreamInput.event ++
        [.event turnBeginEvent, .event partialEvent, .event turnEndEvent]) =
      Stream.run [.event turnBeginEvent, .event partialEvent, .event turnEndEvent] :=
  (C37_events_before_turn_id_discarded [stderrNoTurn]
    [.event turnBeginEvent, .event partialEvent, .event turnEndEvent] (by decide)).1

/-! ## Late subscribers at a TURN_END, the closed multiplexer, the guard of UnsubscribeRequest -/

theorem ClosedEmpty_step (m : eventMux) (op : MuxOp) (h : m.ClosedEmpty) :
    (m.step op).ClosedEmpty := by
  cases hc : m.closed with
  | true =>
    obtain ⟨hg, hb⟩ := h hc
    intro _
    cases op with
    | subscribeAll => simp [eventMux.step, eventMux.SubscribeAll, hc, hg, hb]
    | subscribeRequest r => simp [eventMux.step, eventMux.SubscribeRequest, hc, hg, hb]
    | unsubscribeRequest r sub =>
      cases sub with
      | none => exact ⟨hg, hb⟩
      | some i =>
        by_cases hr : r = ""
        · simp [eventMux.step, eventMux.UnsubscribeRequest, hr, hg, hb]
        · simp [eventMux.step, eventMux.UnsubscribeRequest, hr, hg, hb, eventMux.requestSubs,
            GoMap.get, GoMap.delete]
    | enqueue e => exact ⟨hg, hb⟩
    | close => exact ⟨hg, hb⟩
    | run => simp [eventMux.step, eventMux.run, hc, hg, hb]
    | pump i => exact ⟨hg, hb⟩
  | false =>
    intro h1
    cases op with
    | subscribeAll => simp [eventMux.step, eventMux.SubscribeAll, hc] at h1
    | subscribeRequest r => simp [eventMux.step, eventMux.SubscribeRequest, hc] at h1
    | unsubscribeRequest r sub =>
      cases sub with
      | none => simp [eventMux.step, eventMux.UnsubscribeRequest, hc] at h1
      | some i =>
        by_cases hr : r = "" <;>
          simp [eventMux.step, eventMux.UnsubscribeRequest, hc, hr] at h1
    | enqueue e => simp [eventMux.step, eventMux.Enqueue, hc] at h1
    | close => simp [eventMux.step, eventMux.Close, hc] at h1
    | pump i => simp [eventMux.step, hc] at h1
    | run =>
      cases hq : m.queue.items with
      | nil =>
        cases hqc : m.queue.closed with
        | false => simp [eventMux.step, eventMux.run, hc, hq, hqc, eventQueue.Pop] at h1
        | true =>
          have hrun : m.step MuxOp.run = m.closeAll := by
            simp [eventMux.step, eventMux.run, hc, hq, hqc, eventQueue.Pop]
          rw [hrun]
          simp [eventMux.closeAll, hc]
      | cons e rest =>
        simp [eventMux.step, eventMux.run, hc, hq, eventQueue.Pop, process_closed] at h1

theorem ClosedEmpty_steps (ops : List MuxOp) :
    ∀ m : eventMux, m.ClosedEmpty → (m.steps ops).ClosedEmpty := by
  induction ops with
  | nil => exact fun m h => h
  | cons op rest ih => exact fun m h => ih (m.step op) (ClosedEmpty_step m op h)

/-- C39: once a multiplexer has closed, in every state it reaches afterwards it
is closed and its global list and per-request map are empty; `SubscribeAll`
and `SubscribeRequest` called then leave both empty and return a new
subscription that is already closed, with nothing enqueued, which no later
action reopens or enqueues anything to. -/
theorem C39_closed_multiplexer_registers_nothing (history ops later : List MuxOp)
    (requestID : String) (hclosed : (newEventMux.steps history).closed = true) :
    ((newEventMux.steps history).steps ops).closed = true ∧
      ((newEventMux.steps history).steps ops).global = [] ∧
      ((newEventMux.steps history).steps ops).byRequest = [] ∧
      ((newEventMux.steps history).steps ops).SubscribeAll.1.global = [] ∧
      ((newEventMux.steps history).steps ops).SubscribeAll.1.byRequest = [] ∧
      ((newEventMux.steps history).steps ops).SubscribeAll.1.view
          ((newEventMux.steps history).steps ops).SubscribeAll.2 = some (true, []) ∧
      (((newEventMux.steps history).steps ops).SubscribeAll.1.steps later).view
          ((newEventMux.steps history).steps ops).SubscribeAll.2 = some (true, []) ∧
      (((newEventMux.steps history).steps ops).SubscribeRequest requestID).1.global = [] ∧
      (((newEventMux.steps history).steps ops).SubscribeRequest requestID).1.byRequest = [] ∧
      (((newEventMux.steps history).steps ops).SubscribeRequest requestID).1.view
          (((newEventMux.steps history).steps ops).SubscribeRequest requestID).2
        = some (true, []) ∧
      ((((newEventMux.steps history).steps ops).SubscribeRequest requestID).1.steps later).view
          (((newEventMux.steps history).steps ops).SubscribeRequest requestID).2
        = some (true, []) := by
  have hinv0 : newEventMux.ClosedEmpty := fun h => by cases h
  have hinv := ClosedEmpty_steps ops _ (ClosedEmpty_steps history _ hinv0)
  have hc := steps_closed ops _ hclosed
  generalize (newEventMux.steps history).steps ops = m at hinv hc
  obtain ⟨hg, hb⟩ := hinv hc
  have hview : ∀ (m1 : eventMux) (j : Nat), m1.sub j = some newSubscription.Close →
      m1.view j = some (true, []) ∧ (m1.steps later).view j = some (true, []) := by
    intro m1 j hj
    have hF : Frozen [] newSubscription.Close := ⟨rfl, rfl⟩
    obtain ⟨s, hs, hFs⟩ := steps_preserves (P := Frozen []) (fun e s h => h.Enqueue e)
      (fun s h => h.Close) (fun s h => h.run) later m1 j ⟨_, hj, hF⟩
    refine ⟨?_, ?_⟩
    · simp only [eventMux.view, hj, Option.map_some']
      rfl
    · simp only [eventMux.view, hs, Option.map_some', hFs.1, hFs.2]
  have hall : m.SubscribeAll.1.sub m.SubscribeAll.2 = some newSubscription.Close := by
    simp [eventMux.SubscribeAll, hc, eventMux.sub]
  have hreqs : (m.SubscribeRequest requestID).1.sub (m.SubscribeRequest requestID).2
      = some newSubscription.Close := by
    simp [eventMux.SubscribeRequest, hc, eventMux.sub]
  refine ⟨hc, hg, hb, ?_, ?_, (hview _ _ hall).1, (hview _ _ hall).2, ?_, ?_,
    (hview _ _ hreqs).1, (hview _ _ hreqs).2⟩
  · simp [eventMux.SubscribeAll, hc, hg]
  · simp [eventMux.SubscribeAll, hc, hb]
  · simp [eventMux.SubscribeRequest, hc, hg]
  · simp [eventMux.SubscribeRequest, hc, hb]

/-- C39, applied to a multiplexer that closed with a global and a request
subscription registered: a subscription obtained afterwards is closed and the
registry stays empty, whatever is enqueued later. -/
theorem C39_closed_multiplexer_registers_nothing_witness :
    (newEventMux.steps [.subscribeAll, .subscribeRequest "req-a", .close, .run]).closed = true ∧
      (((newEventMux.steps [.subscribeAll, .subscribeRequest "req-a", .close, .run]).steps
        [.subscribeAll]).SubscribeRequest "req-a").1.byRequest = [] ∧
      ((((newEventMux.steps [.subscribeAll, .subscribeRequest "req-a", .close, .run]).steps
        [.subscribeAll]).SubscribeRequest "req-a").1.steps [.enqueue turnBeginA, .run]).view
          (((newEventMux.steps [.subscribeAll, .subscribeRequest "req-a", .close, .run]).steps
            [.subscribeAll]).SubscribeRequest "req-a").2 = some (true, []) :=
  ⟨by decide,
    (C39_closed_multiplexer_registers_nothing
      [.subscribeAll, .subscribeRequest "req-a", .close, .run] [.subscribeAll]
      [.enqueue turnBeginA, .run] "req-a" (by decide)).2.2.2.2.2.2.2.2.1,
    (C39_closed_multiplexer_registers_nothing
      [.subscribeAll, .subscribeRequest "req-a", .close, .run] [.subscribeAll]
      [.enqueue turnBeginA, .run] "req-a" (by decide)).2.2.2.2.2.2.2.2.2.2⟩

/-- C40: `UnsubscribeRequest` called with an empty request id, or with a nil
subscription, leaves the multiplexer exactly as it was: the registry is
unchanged and the subscription passed in, if any, is not closed. The guard
matters: with a request id that is not empty, the subscription passed in is
closed even when it is not registered under that id. -/
theorem C40_unsubscribe_guard_is_noop (m : eventMux) (requestID : String) (sub : Nat) :
    m.UnsubscribeRequest "" (some sub) = m ∧
      m.UnsubscribeRequest requestID none = m ∧
      (m.UnsubscribeRequest "" (some sub)).sub sub = m.sub sub ∧
      (m.UnsubscribeRequest "" (some sub)).byRequest = m.byRequest ∧
      (m.UnsubscribeRequest "" (some sub)).global = m.global ∧
      (requestID ≠ "" →
        (m.UnsubscribeRequest requestID (some sub)).sub sub =
          (m.sub sub).map subscription.Close) := by
  refine ⟨?_, rfl, ?_, ?_, ?_, ?_⟩
  · simp [eventMux.UnsubscribeRequest]
  · simp [eventMux.UnsubscribeRequest]
  · simp [eventMux.UnsubscribeRequest]
  · simp [eventMux.UnsubscribeRequest]
  · intro hr
    simp only [eventMux.UnsubscribeRequest, hr, if_false, eventMux.sub]
    exact updateAt_get_self _ _ _

/-- C40, applied to the subscription under `req-a` of a multiplexer: called
with the empty request id it stays open and registered, called with `req-b` it
is closed. -/
theorem C40_unsubscribe_guard_is_noop_witness :
    (muxWithA.UnsubscribeRequest "" (some 0)).view 0 = some (false, []) ∧
      (muxWithA.UnsubscribeRequest "" (some 0)).requestSubs "req-a" = [0] ∧
      (muxWithA.UnsubscribeRequest "req-b" (some 0)).sub 0
        = (muxWithA.sub 0).map subscription.Close :=
  ⟨by rw [(C40_unsubscribe_guard_is_noop muxWithA "req-b" 0).1]; decide,
    by rw [(C40_unsubscribe_guard_is_noop muxWithA "req-b" 0).1]; decide,
    (C40_unsubscribe_guard_is_noop muxWithA "req-b" 0).2.2.2.2.2 (by decide)⟩

/-! ## Round trips through structpb and the map of a user input event -/

mutual
/-- Encoding what `AsInterface` gives returns the value it was given. -/
theorem NewValue_AsInterface : ∀ v : Value, structpb.NewValue v.AsInterface = some v
  | .null => rfl
  | .bool _ => rfl
  | .number _ => rfl
  | .string _ => rfl
  | .list items => by
    simp [Value.AsInterface, structpb.NewValue, NewList_AsSlice items]
  | .struct fields => by
    simp [Value.AsInterface, structpb.NewValue, NewStruct_AsMap fields]
theorem NewList_AsSlice : ∀ items : List Value,
    structpb.NewList (ListValue.AsSlice items) = some items
  | [] => rfl
  | v :: rest => by
    simp [ListValue.AsSlice, structpb.NewList, NewValue_AsInterface v, NewList_AsSlice rest]
theorem NewStruct_AsMap : ∀ fields : List (String × Value),
    structpb.NewStruct (Struct.AsMap fields) = some fields
  | [] => rfl
  | (k, v) :: rest => by
    simp [Struct.AsMap, structpb.NewStruct, NewValue_AsInterface v, NewStruct_AsMap rest]
end

mutual
/-- Decoding what `NewValue` gives returns the Go value it was given with its
integers turned into float64 and its `[]byte` values into base64 strings. -/
theorem AsInterface_NewValue : ∀ (g : GoValue) (v : Value),
    structpb.NewValue g = some v → v.AsInterface = g.normal
  | .nil, v, h => by
    simp only [structpb.NewValue, Option.some.injEq] at h
    rw [← h]; rfl
  | .bool _, v, h => by
    simp only [structpb.NewValue, Option.some.injEq] at h
    rw [← h]; rfl
  | .int _, v, h => by
    simp only [structpb.NewValue, Option.some.injEq] at h
    rw [← h]; rfl
  | .float64 _, v, h => by
    simp only [structpb.NewValue, Option.some.injEq] at h
    rw [← h]; rfl
  | .string _, v, h => by
    simp only [structpb.NewValue, Option.some.injEq] at h
    rw [← h]; rfl
  | .invalidString _, v, h => by simp [structpb.NewValue] at h
  | .bytes _, v, h => by
    simp only [structpb.NewValue, Option.some.injEq] at h
    rw [← h]; rfl
  | .slice items, v, h => by
    simp only [structpb.NewValue, Option.map_eq_some'] at h
    obtain ⟨vs, hvs, hv⟩ := h
    rw [← hv]
    simp [Value.AsInterface, GoValue.normal, AsSlice_NewList items vs hvs]
  | .map fields, v, h => by
    simp only [structpb.NewValue, Option.map_eq_some'] at h
    obtain ⟨vs, hvs, hv⟩ := h
    rw [← hv]
    simp [Value.AsInterface, GoValue.normal, AsMap_NewStruct fields vs hvs]
  | .other, v, h => by simp [structpb.NewValue] at h
theorem AsSlice_NewList : ∀ (items : List GoValue) (vs : List Value),
    structpb.NewList items = some vs → ListValue.AsSlice vs = GoValue.normalItems items
  | [], vs, h => by
    simp only [structpb.NewList, Option.some.injEq] at h
    rw [← h]; rfl
  | g :: rest, vs, h => by
    simp only [structpb.NewList] at h
    cases hg : structpb.NewValue g with
    | none => simp [hg] at h
    | some v =>
      simp only [hg, Option.map_eq_some'] at h
      obtain ⟨vs1, h1, hv⟩ := h
      rw [← hv]
      simp [ListValue.AsSlice, GoValue.normalItems, AsInterface_NewValue g v hg,
        AsSlice_NewList rest vs1 h1]
theorem AsMap_NewStruct : ∀ (fields : List (String × GoValue)) (vs : List (String × Value)),
    structpb.NewStruct fields = some vs → Struct.AsMap vs = GoValue.normalFields fields
  | [], vs, h => by
    simp only [structpb.NewStruct, Option.some.injEq] at h
    rw [← h]; rfl
  | (k, g) :: rest, vs, h => by
    simp only [structpb.NewStruct] at h
    cases hg : structpb.NewValue g with
    | none => simp [hg] at h
    | some v =>
      simp only [hg, Option.map_eq_some'] at h
      obtain ⟨vs1, h1, hv⟩ := h
      rw [← hv]
      simp [Struct.AsMap, GoValue.normalFields, AsInterface_NewValue g v hg,
        AsMap_NewStruct rest vs1 h1]
end

mutual
/-- A Go value made of the types of decoded JSON is left as it is by the
passage through `structpb`, and `NewValue` accepts it. -/
theorem normal_of_isJSON : ∀ g : GoValue, g.isJSON = true →
    g.normal = g ∧ ∃ v, structpb.NewValue g = some v
  | .nil, _ => ⟨rfl, _, rfl⟩
  | .bool _, _ => ⟨rfl, _, rfl⟩
  | .int _, h => by simp [GoValue.isJSON] at h
  | .float64 _, _ => ⟨rfl, _, rfl⟩
  | .string _, _ => ⟨rfl, _, rfl⟩
  | .invalidString _, h => by simp [GoValue.isJSON] at h
  | .bytes _, h => by simp [GoValue.isJSON] at h
  | .slice items, h => by
    simp only [GoValue.isJSON] at h
    obtain ⟨h1, vs, h2⟩ := normalItems_of_itemsJSON items h
    exact ⟨by simp [GoValue.normal, h1], Value.list vs, by simp [structpb.NewValue, h2]⟩
  | .map fields, h => by
    simp only [GoValue.isJSON] at h
    obtain ⟨h1, vs, h2⟩ := normalFields_of_fieldsJSON fields h
    exact ⟨by simp [GoValue.normal, h1], Value.struct vs, by simp [structpb.NewValue, h2]⟩
  | .other, h => by simp [GoValue.isJSON] at h
theorem normalItems_of_itemsJSON : ∀ items : List GoValue, GoValue.itemsJSON items = true →
    GoValue.normalItems items = items ∧ ∃ vs, structpb.NewList items = some vs
  | [], _ => ⟨rfl, _, rfl⟩
  | g :: rest, h => by
    simp only [GoValue.itemsJSON, Bool.and_eq_true] at h
    obtain ⟨h1, v, h2⟩ := normal_of_isJSON g h.1
    obtain ⟨h3, vs, h4⟩ := normalItems_of_itemsJSON rest h.2
    exact ⟨by simp [GoValue.normalItems, h1, h3], v :: vs, by simp [structpb.NewList, h2, h4]⟩
theorem normalFields_of_fieldsJSON : ∀ fields : List (String × GoValue),
    GoValue.fieldsJSON fields = true →
    GoValue.normalFields fields = fields ∧ ∃ vs, structpb.NewStruct fields = some vs
  | [], _ => ⟨rfl, _, rfl⟩
  | (k, g) :: rest, h => by
    simp only [GoValue.fieldsJSON, Bool.and_eq_true] at h
    obtain ⟨h1, v, h2⟩ := normal_of_isJSON g h.1
    obtain ⟨h3, vs, h4⟩ := normalFields_of_fieldsJSON rest h.2
    exact ⟨by simp [GoValue.normalFields, h1, h3], (k, v) :: vs,
      by simp [structpb.NewStruct, h2, h4]⟩
end

theorem normalItems_eq_map (items : List GoValue) :
    GoValue.normalItems items = items.map GoValue.normal := by
  induction items with
  | nil => rfl
  | cons g rest ih => simp [GoValue.normalItems, ih]

theorem AsInterface_eq_nil (v : Value) : v.AsInterface = GoValue.nil ↔ v = Value.null := by
  cases v <;> simp [Value.AsInterface]

/-- C31 (as stated, refuted): a tool-use block whose `Input` is nil comes back
from decoding and encoding with an empty struct as `Input`, and a tool-result
block whose `Content` is the null value comes back with a nil `Content`:
neither is the block that went in. -/
theorem C31_nil_input_and_null_content_change :
    (pb.ContentBlock.toolUse ⟨"tool-1", "ping", none⟩).roundTrip
        = some (.toolUse ⟨"tool-1", "ping", some []⟩) ∧
      pb.ContentBlock.toolUse ⟨"tool-1", "ping", some []⟩ ≠ .toolUse ⟨"tool-1", "ping", none⟩ ∧
      (pb.ContentBlock.toolResult ⟨"tool-1", some .null, false⟩).roundTrip
        = some (.toolResult ⟨"tool-1", none, false⟩) ∧
      pb.ContentBlock.toolResult ⟨"tool-1", none, false⟩
        ≠ .toolResult ⟨"tool-1", some .null, false⟩ := by
  refine ⟨rfl, ?_, rfl, ?_⟩ <;> simp

/-- C31 (amended): decoding a block with `MessageBlockFromProto` and encoding
the result with `MessageBlockToProto` succeeds on every text, thinking,
tool-use and tool-result block. It gives back the block itself for a text or
thinking block, for a tool-use block whose `Input` is not nil, and for a
tool-result block whose `Content` is nil or is not the null value. A nil
`Input` comes back as an empty struct, and a null `Content` comes back nil. -/
theorem C31_block_round_trip (t : pb.TextBlock) (th : pb.ThinkingBlock) (id name : String)
    (st : Struct) (v : Value) (isError : Bool) :
    (pb.ContentBlock.text t).roundTrip = some (.text t) ∧
      (pb.ContentBlock.thinking th).roundTrip = some (.thinking th) ∧
      (pb.ContentBlock.toolUse ⟨id, name, some st⟩).roundTrip
        = some (.toolUse ⟨id, name, some st⟩) ∧
      (pb.ContentBlock.toolUse ⟨id, name, none⟩).roundTrip
        = some (.toolUse ⟨id, name, some []⟩) ∧
      (pb.ContentBlock.toolResult ⟨id, none, isError⟩).roundTrip
        = some (.toolResult ⟨id, none, isError⟩) ∧
      (v ≠ Value.null →
        (pb.ContentBlock.toolResult ⟨id, some v, isError⟩).roundTrip
          = some (.toolResult ⟨id, some v, isError⟩)) ∧
      (pb.ContentBlock.toolResult ⟨id, some .null, isError⟩).roundTrip
        = some (.toolResult ⟨id, none, isError⟩) := by
  refine ⟨rfl, rfl, ?_, rfl, rfl, ?_, rfl⟩
  · simp [pb.ContentBlock.roundTrip, MessageBlockFromProto, MessageBlockToProto, StructToMap,
      MapToStruct, NewStruct_AsMap st]
  · intro hv
    have h1 : v.AsInterface ≠ GoValue.nil := fun h => hv ((AsInterface_eq_nil v).mp h)
    have h2 := NewValue_AsInterface v
    simp only [pb.ContentBlock.roundTrip, MessageBlockFromProto]
    cases hg : v.AsInterface with
    | nil => exact absurd hg h1
    | bool b => simp [MessageBlockToProto, ← hg, h2]
    | int n => simp [MessageBlockToProto, ← hg, h2]
    | float64 x => simp [MessageBlockToProto, ← hg, h2]
    | string s => simp [MessageBlockToProto, ← hg, h2]
    | invalidString raw => simp [MessageBlockToProto, ← hg, h2]
    | bytes b => simp [MessageBlockToProto, ← hg, h2]
    | slice items => simp [MessageBlockToProto, ← hg, h2]
    | map fields => simp [MessageBlockToProto, ← hg, h2]
    | other => simp [MessageBlockToProto, ← hg, h2]

/-- C31 (amended), applied to the text block `hi` of the round-trip test and to
a tool-result block whose content is a string. -/
theorem C31_block_round_trip_witness :
    (pb.ContentBlock.text ⟨"hi"⟩).roundTrip = some (.text ⟨"hi"⟩) ∧
      (pb.ContentBlock.toolResult ⟨"tool-1", some (.string "done"), false⟩).roundTrip
        = some (.toolResult ⟨"tool-1", some (.string "done"), false⟩) :=
  ⟨(C31_block_round_trip ⟨"hi"⟩ ⟨"", ""⟩ "tool-1" "ping" [] (.string "done") false).1,
    (C31_block_round_trip ⟨"hi"⟩ ⟨"", ""⟩ "tool-1" "ping" [] (.string "done") false).2.2.2.2.2.1
      (by simp)⟩

theorem foldl_set_get_of_not_mem {β : Type} (l : GoMap β) (k : String)
    (h : ∀ kv ∈ l, kv.1 ≠ k) :
    ∀ base : GoMap β,
      GoMap.get (l.foldl (fun payload kv => GoMap.set payload kv.1 kv.2) base) k
        = GoMap.get base k := by
  induction l with
  | nil => intro base; rfl
  | cons kv rest ih =>
    intro base
    rw [List.foldl_cons, ih (fun x hx => h x (List.mem_cons_of_mem _ hx))]
    exact GoMap.get_set_ne base kv.1 k kv.2 (fun hk => h kv (List.mem_cons_self _ _) hk.symm)

theorem foldl_set_get_of_mem {β : Type} (l : GoMap β) (hnodup : l.Pairwise (fun a b => a.1 ≠ b.1))
    (k : String) (v : β) (hmem : (k, v) ∈ l) :
    ∀ base : GoMap β,
      GoMap.get (l.foldl (fun payload kv => GoMap.set payload kv.1 kv.2) base) k = some v := by
  induction l with
  | nil => cases hmem
  | cons kv rest ih =>
    intro base
    rw [List.foldl_cons]
    rcases List.mem_cons.mp hmem with h1 | h1
    · have hrest : ∀ x ∈ rest, x.1 ≠ k := by
        intro x hx hk
        have := List.rel_of_pairwise_cons hnodup hx
        rw [← h1] at this
        exact this hk.symm
      rw [foldl_set_get_of_not_mem rest k hrest, ← h1]
      exact GoMap.get_set_self base k v
    · exact ih (List.Pairwise.of_cons hnodup) h1 _

/-- C33 (as stated, refuted): a user input event whose additional fields hold
`type` and `session_id` gives a map whose `type` is not `user`, and that has
the key `session_id` although the session id of the event is empty. -/
theorem C33_additional_fields_override :
    GoMap.get overriddenEvent.ToMap "type" = some (.string "assistant") ∧
      overriddenEvent.SessionID = "" ∧
      GoMap.get overriddenEvent.ToMap "session_id" = some (.string "s-9") :=
  ⟨rfl, rfl, rfl⟩

/-- C33 (amended): for every user input event whose additional fields use none
of the keys `type`, `message`, `parent_tool_use_id` and `session_id`, the map
of `ToMap` has `type` = `user`, a `message` map with exactly the keys `role`,
the role of the event or `user` when that is empty, and `content`, the content
of the event, and has `parent_tool_use_id` and `session_id` exactly when the
fields are not empty, with their values. Whatever the additional fields are,
a key they do not use has the value `ToMap` wrote itself, and a key they use
has the value they give it. -/
theorem C33_user_input_event_map (e : UserInputEvent)
    (hfree : ∀ kv ∈ e.AdditionalFields, kv.1 ∉ userInputKeys) :
    GoMap.get e.ToMap "type" = some (.string "user") ∧
      GoMap.get e.ToMap "message" = some (.map
        [("content", e.Message.Content),
          ("role", .string (if e.Message.Role = "" then "user" else e.Message.Role))]) ∧
      GoMap.get e.ToMap "parent_tool_use_id" =
        (if e.ParentToolUseID = "" then none else some (.string e.ParentToolUseID)) ∧
      GoMap.get e.ToMap "session_id" =
        (if e.SessionID = "" then none else some (.string e.SessionID)) ∧
      (∀ e1 : UserInputEvent, ∀ k, (∀ kv ∈ e1.AdditionalFields, kv.1 ≠ k) →
        GoMap.get e1.ToMap k = GoMap.get e1.baseMap k) ∧
      (∀ e1 : UserInputEvent, e1.AdditionalFields.Pairwise (fun a b => a.1 ≠ b.1) →
        ∀ k v, (k, v) ∈ e1.AdditionalFields → GoMap.get e1.ToMap k = some v) := by
  have hk : ∀ k ∈ userInputKeys, GoMap.get e.ToMap k = GoMap.get e.baseMap k := by
    intro k hk
    exact foldl_set_get_of_not_mem _ k (fun kv hkv h => hfree kv hkv (by rw [h]; exact hk)) _
  refine ⟨?_, ?_, ?_, ?_, fun e1 k h => foldl_set_get_of_not_mem _ k h _,
    fun e1 h k v hmem => foldl_set_get_of_mem _ h k v hmem _⟩
  · rw [hk "type" (by simp [userInputKeys])]
    by_cases hp : e.ParentToolUseID = "" <;> by_cases hs : e.SessionID = "" <;>
      simp [UserInputEvent.baseMap, hp, hs, GoMap.get, GoMap.set, GoMap.delete]
  · rw [hk "message" (by simp [userInputKeys])]
    by_cases hp : e.ParentToolUseID = "" <;> by_cases hs : e.SessionID = "" <;>
      simp [UserInputEvent.baseMap, hp, hs, GoMap.get, GoMap.set, GoMap.delete]
  · rw [hk "parent_tool_use_id" (by simp [userInputKeys])]
    by_cases hp : e.ParentToolUseID = "" <;> by_cases hs : e.SessionID = "" <;>
      simp [UserInputEvent.baseMap, hp, hs, GoMap.get, GoMap.set, GoMap.delete]
  · rw [hk "session_id" (by simp [userInputKeys])]
    by_cases hp : e.ParentToolUseID = "" <;> by_cases hs : e.SessionID = "" <;>
      simp [UserInputEvent.baseMap, hp, hs, GoMap.get, GoMap.set, GoMap.delete]

/-- C33 (amended), applied to the text event `hello` of session `s-1` with an
additional field `uuid`: the type is `user`, the session id is present. -/
theorem C33_user_input_event_map_witness :
    GoMap.get plainEvent.ToMap "type" = some (.string "user") ∧
      GoMap.get plainEvent.ToMap "session_id"
        = (if plainEvent.SessionID = "" then none else some (.string plainEvent.SessionID)) :=
  ⟨(C33_user_input_event_map plainEvent (by simp [plainEvent, userInputKeys])).1,
    (C33_user_input_event_map plainEvent (by simp [plainEvent, userInputKeys])).2.2.2.1⟩

/-! ## Stream.run with the bounded partials feed: early close, cancellation, delivery at TURN_END -/

theorem runLoop_partials_length (inputs : List StreamInput) :
    ∀ (turn : Option Turn) (ps : List MessageEvent),
      ps.length ≤ (Stream.runLoop turn ps inputs).partials.length := by
  induction inputs with
  | nil => intro turn ps; exact Nat.le_refl _
  | cons x rest ih =>
    intro turn ps
    cases x with
    | ctxDone => exact Nat.le_refl _
    | chanClosed => cases turn <;> exact Nat.le_refl _
    | event e =>
      cases turn with
      | some t =>
        rw [runLoop_event]
        split
        · exact Nat.le_refl _
        · exact Nat.le_trans (by simp) (ih _ _)
      | none =>
        by_cases hid : e.TurnId = ""
        · rw [runLoop_skip e hid]
          exact ih _ _
        · rw [runLoop_start e hid, runLoop_event]
          split
          · exact Nat.le_refl _
          · exact Nat.le_trans (by simp) (ih _ _)

theorem mirrored_length (e : ServerEvent) : (Stream.mirrored e).length ≤ 1 := by
  unfold Stream.mirrored
  cases hpay : e.Payload with
  | message m =>
    cases m with
    | none => simp
    | some m => cases hp : m.IsPartial <;> simp [hp]
  | turn tb => simp
  | stderrLine l => simp
  | error x => simp
  | unset => simp
  | sessionInit => simp
  | sessionClosed r => simp
  | toolRequest r => simp
  | hookRequest r => simp
  | permissionRequest r => simp

/-- One iteration of the loop with the bounded feed and a Turn under
construction: a TURN_END delivers the folded Turn and returns; another event
is folded, and mirrored when it is a partial message and the feed has room
for it; a partial message the feed has no room for leaves the loop waiting in
its send for good. -/
theorem runLoopOn_event (room : Nat) (t : Turn) (ps : List MessageEvent) (e : ServerEvent)
    (rest : List StreamInput) :
    Stream.runLoopOn room (some t) ps (.event e :: rest) =
      if isTurnEnd e = true then
        { partials := ps, done := some { Turn := some (Stream.foldEvent t e) }, err := none,
          returned := true }
      else if Stream.mirrored e = [] ∨ ps.length < room then
        Stream.runLoopOn room (some (Stream.foldEvent t e)) (ps ++ Stream.mirrored e) rest
      else { partials := ps, done := none, err := none, returned := false } := by
  simp only [Stream.runLoopOn, Stream.foldEvent, Stream.mirrored, isTurnEnd]
  cases hpay : e.Payload with
  | turn tb =>
    cases tb with
    | none => simp
    | some tb => cases hk : tb.Kind <;> simp [hk]
  | message m =>
    cases m with
    | none => simp
    | some m =>
      cases hp : m.IsPartial
      · simp [hp]
      · by_cases hroom : ps.length < room
        · simp [hp, hroom]
        · simp [hp, hroom]
  | stderrLine l => cases l <;> simp
  | error x => cases x <;> simp
  | unset => simp
  | sessionInit => simp
  | sessionClosed r => simp
  | toolRequest r => simp
  | hookRequest r => simp
  | permissionRequest r => simp

theorem runLoopOn_skip (room : Nat) (e : ServerEvent) (h : e.TurnId = "")
    (ps : List MessageEvent) (rest : List StreamInput) :
    Stream.runLoopOn room none ps (.event e :: rest) = Stream.runLoopOn room none ps rest := by
  simp [Stream.runLoopOn, h]

theorem runLoopOn_start (room : Nat) (e : ServerEvent) (h : e.TurnId ≠ "")
    (ps : List MessageEvent) (rest : List StreamInput) :
    Stream.runLoopOn room none ps (.event e :: rest) =
      Stream.runLoopOn room (some (newTurn e.TurnId)) ps (.event e :: rest) := by
  simp [Stream.runLoopOn, h]

/-- While the feed has room for every message the loop comes to send, the loop
with the bounded feed does what the loop of a drained feed does. -/
theorem runLoopOn_eq (room : Nat) (inputs : List StreamInput) :
    ∀ (turn : Option Turn) (ps : List MessageEvent),
      (Stream.runLoop turn ps inputs).partials.length ≤ room →
      Stream.runLoopOn room turn ps inputs = Stream.runLoop turn ps inputs := by
  induction inputs with
  | nil => intro turn ps _; rfl
  | cons x rest ih =>
    intro turn ps h
    cases x with
    | ctxDone => rfl
    | chanClosed => cases turn <;> rfl
    | event e =>
      have hsome : ∀ t : Turn, (Stream.runLoop (some t) ps (.event e :: rest)).partials.length
          ≤ room →
          Stream.runLoopOn room (some t) ps (.event e :: rest) =
            Stream.runLoop (some t) ps (.event e :: rest) := by
        intro t h
        rw [runLoop_event] at h ⊢
        rw [runLoopOn_event]
        by_cases hend : isTurnEnd e = true
        · simp [hend]
        · have hend1 : isTurnEnd e = false := by simpa using hend
          simp only [hend1, Bool.false_eq_true, if_false] at h ⊢
          have hlen := runLoop_partials_length rest (some (Stream.foldEvent t e))
            (ps ++ Stream.mirrored e)
          have hfit : Stream.mirrored e = [] ∨ ps.length < room := by
            rw [List.length_append] at hlen
            cases hm : Stream.mirrored e with
            | nil => exact Or.inl rfl
            | cons x xs =>
              have h1 := h
              rw [hm] at hlen h1
              simp only [List.length_cons] at hlen
              exact Or.inr (by omega)
          rw [if_pos hfit]
          exact ih _ _ h
      cases turn with
      | some t => exact hsome t h
      | none =>
        by_cases hid : e.TurnId = ""
        · rw [runLoop_skip e hid] at h ⊢
          rw [runLoopOn_skip room e hid]
          exact ih _ _ h
        · rw [runLoop_start e hid] at h ⊢
          rw [runLoopOn_start room e hid]
          exact hsome _ h

/-- When the loop comes to send more messages than the feed has room for, it
waits in that send for good: it never returns and delivers neither a
RunResult nor an error. -/
theorem runLoopOn_blocked (room : Nat) (inputs : List StreamInput) :
    ∀ (turn : Option Turn) (ps : List MessageEvent), ps.length ≤ room →
      room < (Stream.runLoop turn ps inputs).partials.length →
      (Stream.runLoopOn room turn ps inputs).returned = false ∧
        (Stream.runLoopOn room turn ps inputs).done = none ∧
        (Stream.runLoopOn room turn ps inputs).err = none := by
  induction inputs with
  | nil =>
    intro turn ps hps h
    exact absurd h (Nat.not_lt.mpr hps)
  | cons x rest ih =>
    intro turn ps hps h
    cases x with
    | ctxDone => exact absurd h (Nat.not_lt.mpr hps)
    | chanClosed => cases turn <;> exact absurd h (Nat.not_lt.mpr hps)
    | event e =>
      have hsome : ∀ t : Turn,
          room < (Stream.runLoop (some t) ps (.event e :: rest)).partials.length →
          (Stream.runLoopOn room (some t) ps (.event e :: rest)).returned = false ∧
            (Stream.runLoopOn room (some t) ps (.event e :: rest)).done = none ∧
            (Stream.runLoopOn room (some t) ps (.event e :: rest)).err = none := by
        intro t h
        rw [runLoop_event] at h
        rw [runLoopOn_event]
        by_cases hend : isTurnEnd e = true
        · simp only [hend, if_true] at h
          exact absurd h (Nat.not_lt.mpr hps)
        · have hend1 : isTurnEnd e = false := by simpa using hend
          simp only [hend1, Bool.false_eq_true, if_false] at h ⊢
          by_cases hfit : Stream.mirrored e = [] ∨ ps.length < room
          · rw [if_pos hfit]
            refine ih _ _ ?_ h
            rw [List.length_append]
            rcases hfit with hm | hlt
            · rw [hm]; simpa using hps
            · have := mirrored_length e
              omega
          · rw [if_neg hfit]
            exact ⟨rfl, rfl, rfl⟩
      cases turn with
      | some t => exact hsome t h
      | none =>
        by_cases hid : e.TurnId = ""
        · rw [runLoop_skip e hid] at h
          rw [runLoopOn_skip room e hid]
          exact ih _ _ hps h
        · rw [runLoop_start e hid] at h
          rw [runLoopOn_start room e hid]
          exact hsome _ h

theorem runLoop_events_partialsIn (es : List ServerEvent)
    (hno : ∀ e ∈ es, isTurnEnd e = false) (t : Turn) (ps : List MessageEvent)
    (tail : List StreamInput) :
    Stream.runLoop (some t) ps (es.map StreamInput.event ++ tail) =
      Stream.runLoop (some (Stream.foldEvents t es)) (ps ++ partialsIn es) tail :=
  runLoop_events es hno t ps tail

/-- What the loop of a drained feed has sent on `s.partials` when, after events
with no TURN_END among them, it finds its channel closed or its context done:
the partial messages of the events from the first that carries a turn id. -/
theorem runLoop_partials_before_stop (events : List ServerEvent)
    (hno : ∀ e ∈ events, isTurnEnd e = false) (stop : StreamInput) (rest : List StreamInput)
    (hstop : stop = .chanClosed ∨ stop = .ctxDone) (ps : List MessageEvent) :
    (Stream.runLoop none ps (events.map StreamInput.event ++ stop :: rest)).partials =
      ps ++ partialsIn (fromFirstTurnId events) := by
  induction events with
  | nil =>
    rcases hstop with h | h <;> subst h <;> simp [Stream.runLoop, partialsIn, fromFirstTurnId]
  | cons e es ih =>
    by_cases hid : e.TurnId = ""
    · simp only [List.map_cons, List.cons_append]
      rw [runLoop_skip e hid, ih (fun x hx => hno x (List.mem_cons_of_mem _ hx))]
      simp [fromFirstTurnId, hid]
    · have h1 : (e :: es).map StreamInput.event ++ stop :: rest =
          StreamInput.event e :: (es.map StreamInput.event ++ stop :: rest) := by simp
      have h2 : fromFirstTurnId (e :: es) = e :: es := by simp [fromFirstTurnId, hid]
      rw [h1, runLoop_start e hid, ← h1, runLoop_events_partialsIn (e :: es) hno, h2]
      rcases hstop with h | h <;> subst h <;> simp [Stream.runLoop]

/-- C2 (as stated, refuted): a Stream that has folded one event carrying a turn
id and then finds its channel closed, with no TURN_END seen, delivers a
RunResult whose Turn has Ended = false, and no error; the reader of its
partials feed takes nothing, as in `Session.Run`. -/
theorem C2_early_close_delivers_open_turn :
    (∀ e ∈ [turnBeginEvent, partialEvent], isTurnEnd e = false) ∧
      (Stream.runOn 0 (thenClosed [turnBeginEvent, partialEvent])).err = none ∧
      (Stream.runOn 0 (thenClosed [turnBeginEvent, partialEvent])).done.map
          (fun r => r.Turn.map (fun t => t.Ended)) = some (some false) := by
  decide

/-- C2 (amended): for every event sequence with no TURN_END that is followed by
closure of the subscription channel. When the partial messages among the
events from the first that carries a turn id are no more than the 64 the
feed holds plus those its reader takes, `Stream.run` returns; it delivers the
error `io.EOF` and no RunResult when no event carried a turn id, and otherwise
delivers no error and a RunResult whose Turn has Ended = false. When they are
more, `Stream.run` waits in its send on the feed for good: it never returns
and delivers neither a RunResult nor an error. -/
theorem C2_early_close (reads : Nat) (events : List ServerEvent)
    (hno : ∀ e ∈ events, isTurnEnd e = false) :
    ((partialsIn (fromFirstTurnId events)).length ≤ partialsBuffer + reads →
      (Stream.runOn reads (thenClosed events)).returned = true ∧
        ((∀ e ∈ events, e.TurnId = "") →
          (Stream.runOn reads (thenClosed events)).err = some .EOF ∧
          (Stream.runOn reads (thenClosed events)).done = none) ∧
        ((∃ e ∈ events, e.TurnId ≠ "") →
          (Stream.runOn reads (thenClosed events)).err = none ∧
          ∃ t, (Stream.runOn reads (thenClosed events)).done = some { Turn := some t } ∧
            t.Ended = false)) ∧
      (partialsBuffer + reads < (partialsIn (fromFirstTurnId events)).length →
        (Stream.runOn reads (thenClosed events)).returned = false ∧
          (Stream.runOn reads (thenClosed events)).done = none ∧
          (Stream.runOn reads (thenClosed events)).err = none) := by
  have hp : (Stream.runLoop none [] (thenClosed events)).partials =
      partialsIn (fromFirstTurnId events) := by
    have := runLoop_partials_before_stop events hno .chanClosed [] (Or.inl rfl) []
    simpa [thenClosed] using this
  constructor
  · intro hroom
    have heq : Stream.runOn reads (thenClosed events) = Stream.runLoop none [] (thenClosed events) :=
      runLoopOn_eq _ _ _ _ (by rw [hp]; exact hroom)
    rw [heq]
    exact runLoop_none_closed events hno []
  · intro hover
    exact runLoopOn_blocked _ _ _ _ (Nat.zero_le _) (by rw [hp]; exact hover)

/-- C2 (amended), applied to a TURN_BEGIN followed by a partial message, with a
reader that takes nothing. -/
theorem C2_early_close_witness :
    (∀ e ∈ [turnBeginEvent, partialEvent], isTurnEnd e = false) ∧
      (Stream.runOn 0 (thenClosed [turnBeginEvent, partialEvent])).returned = true ∧
      ((∃ e ∈ [turnBeginEvent, partialEvent], e.TurnId ≠ "") →
        (Stream.runOn 0 (thenClosed [turnBeginEvent, partialEvent])).err = none ∧
        ∃ t, (Stream.runOn 0 (thenClosed [turnBeginEvent, partialEvent])).done
            = some { Turn := some t } ∧ t.Ended = false) :=
  ⟨by decide, ((C2_early_close 0 [turnBeginEvent, partialEvent] (by decide)).1 (by decide)).1,
    ((C2_early_close 0 [turnBeginEvent, partialEvent] (by decide)).1 (by decide)).2.2⟩

/-- C16 (as stated, refuted): a Stream cancelled after a TURN_BEGIN, before any
TURN_END, has sent an error, `ctx.Err()`, on its `err` output. -/
theorem C16_cancel_sends_error :
    isTurnEnd turnBeginEvent = false ∧
      (Stream.runOn 0 (thenCancelled [turnBeginEvent] [])).err = some StreamError.ctxErr := by
  decide

/-- C16 (amended): when the context of a Stream is found done after events with
no TURN_END among them. When the partial messages among the events from the
first that carries a turn id are no more than the 64 the feed holds plus
those its reader takes, `Stream.run` returns without looking at anything
offered afterwards, delivers no RunResult, and sends exactly one error,
`ctx.Err()`, on its `err` output. When they are more, `Stream.run` waits in
its send on the feed and never finds the context done: it does not return and
sends neither a RunResult nor an error. -/
theorem C16_cancel_delivers_ctx_error (reads : Nat) (events : List ServerEvent)
    (rest : List StreamInput) (hno : ∀ e ∈ events, isTurnEnd e = false) :
    ((partialsIn (fromFirstTurnId events)).length ≤ partialsBuffer + reads →
      (Stream.runOn reads (thenCancelled events rest)).returned = true ∧
        (Stream.runOn reads (thenCancelled events rest)).done = none ∧
        (Stream.runOn reads (thenCancelled events rest)).err = some StreamError.ctxErr ∧
        Stream.runOn reads (thenCancelled events rest)
          = Stream.runOn reads (thenCancelled events [])) ∧
      (partialsBuffer + reads < (partialsIn (fromFirstTurnId events)).length →
        (Stream.runOn reads (thenCancelled events rest)).returned = false ∧
          (Stream.runOn reads (thenCancelled events rest)).done = none ∧
          (Stream.runOn reads (thenCancelled events rest)).err = none) := by
  have hp : ∀ rest1, (Stream.runLoop none [] (thenCancelled events rest1)).partials =
      partialsIn (fromFirstTurnId events) := by
    intro rest1
    have := runLoop_partials_before_stop events hno .ctxDone rest1 (Or.inr rfl) []
    simpa [thenCancelled] using this
  constructor
  · intro hroom
    have heq : ∀ rest1, Stream.runOn reads (thenCancelled events rest1) =
        Stream.runLoop none [] (thenCancelled events rest1) :=
      fun rest1 => runLoopOn_eq _ _ _ _ (by rw [hp]; exact hroom)
    rw [heq rest, heq []]
    obtain ⟨turn1, ps1, h⟩ := runLoop_no_turn_end events hno none []
    simp only [thenCancelled, h]
    exact ⟨rfl, rfl, rfl, rfl⟩
  · intro hover
    exact runLoopOn_blocked _ _ _ _ (Nat.zero_le _) (by rw [hp]; exact hover)

/-- C16 (amended), applied to a TURN_BEGIN followed by a partial message, with
a reader that takes nothing. -/
theorem C16_cancel_delivers_ctx_error_witness :
    (∀ e ∈ [turnBeginEvent, partialEvent], isTurnEnd e = false) ∧
      (Stream.runOn 0 (thenCancelled [turnBeginEvent, partialEvent]
        [StreamInput.event turnEndEvent])).done = none ∧
      (Stream.runOn 0 (thenCancelled [turnBeginEvent, partialEvent]
        [StreamInput.event turnEndEvent])).err = some StreamError.ctxErr :=
  ⟨by decide,
    ((C16_cancel_delivers_ctx_error 0 [turnBeginEvent, partialEvent]
      [StreamInput.event turnEndEvent] (by decide)).1 (by decide)).2.1,
    ((C16_cancel_delivers_ctx_error 0 [turnBeginEvent, partialEvent]
      [StreamInput.event turnEndEvent] (by decide)).1 (by decide)).2.2.1⟩

theorem partialsIn_manyPartials : (partialsIn manyPartials).length = 65 := by
  decide

/-- C17 (as stated, refuted): a Stream whose partials feed nobody reads, as in
`Session.Run`, and that receives a TURN_BEGIN, 65 partial messages and the
TURN_END of the turn, delivers nothing: it waits in the send of the 65th
partial message, never returns, and sends neither a RunResult nor an error. -/
theorem C17_full_partials_feed_delivers_nothing :
    isTurnEnd turnEndEvent = true ∧
      (Stream.runOn 0 ((manyPartials ++ [turnEndEvent]).map StreamInput.event)).done = none ∧
      (Stream.runOn 0 ((manyPartials ++ [turnEndEvent]).map StreamInput.event)).err = none ∧
      (Stream.runOn 0 ((manyPartials ++ [turnEndEvent]).map StreamInput.event)).returned
        = false := by
  have h := run_turn_end_delivers_once [] manyPartials [] turnEndEvent []
    (fun x hx => by cases hx) (by decide) (by decide) (by decide)
  have hb := runLoopOn_blocked (partialsBuffer + 0) ((manyPartials ++ [turnEndEvent]).map
    StreamInput.event) none [] (Nat.zero_le _)
    (by
      have h4 := h.2.2.2.1
      simp only [List.nil_append, List.append_nil, Stream.run] at h4
      rw [h4]
      show partialsBuffer + 0 < (partialsIn manyPartials).length
      rw [partialsIn_manyPartials]
      decide)
  exact ⟨by decide, hb.2.1, hb.2.2, hb.1⟩

/-- C17 (amended): when the events delivered to a Stream are some events
without a turn id, then events with no TURN_END among them, then a TURN_END,
the first of these carrying a turn id. When the partial messages among the
events before the TURN_END are no more than the 64 the feed holds plus those
its reader takes, `Stream.run` returns with one RunResult and no error,
whatever follows the TURN_END; the delivered Turn has Ended = true, carries
the turn id of that first event, and its log is exactly the events from that
first event to the TURN_END; the partial messages mirrored are those of the
events before the TURN_END, and nothing after the TURN_END is folded or
mirrored. When they are more, `Stream.run` waits in its send on the feed for
good: it never returns and delivers neither a RunResult nor an error. -/
theorem C17_turn_end_delivers_once (reads : Nat) (skip body post : List ServerEvent)
    (e : ServerEvent) (tail : List StreamInput)
    (hskip : ∀ x ∈ skip, x.TurnId = "")
    (hbody : ∀ x ∈ body, isTurnEnd x = false)
    (hend : isTurnEnd e = true)
    (hfirst : ∀ x, (body ++ [e]).head? = some x → x.TurnId ≠ "") :
    ((partialsIn body).length ≤ partialsBuffer + reads →
      (Stream.runOn reads ((skip ++ body ++ [e] ++ post).map StreamInput.event ++ tail)).returned
          = true ∧
        (Stream.runOn reads ((skip ++ body ++ [e] ++ post).map StreamInput.event ++ tail)).err
          = none ∧
        (∃ t, (Stream.runOn reads
              ((skip ++ body ++ [e] ++ post).map StreamInput.event ++ tail)).done
              = some { Turn := some t } ∧
            t.Ended = true ∧ t.Events = body ++ [e] ∧
            ∀ x, (body ++ [e]).head? = some x → t.TurnID = x.TurnId) ∧
        (Stream.runOn reads
            ((skip ++ body ++ [e] ++ post).map StreamInput.event ++ tail)).partials
          = partialsIn body ∧
        Stream.runOn reads ((skip ++ body ++ [e] ++ post).map StreamInput.event ++ tail)
          = Stream.runOn reads ((skip ++ body ++ [e]).map StreamInput.event)) ∧
      (partialsBuffer + reads < (partialsIn body).length →
        (Stream.runOn reads
            ((skip ++ body ++ [e] ++ post).map StreamInput.event ++ tail)).returned = false ∧
          (Stream.runOn reads
            ((skip ++ body ++ [e] ++ post).map StreamInput.event ++ tail)).done = none ∧
          (Stream.runOn reads
            ((skip ++ body ++ [e] ++ post).map StreamInput.event ++ tail)).err = none) := by
  obtain ⟨h1, h2, h3, h4, h5⟩ :=
    run_turn_end_delivers_once skip body post e tail hskip hbody hend hfirst
  have h4b : (Stream.run ((skip ++ body ++ [e]).map StreamInput.event)).partials
      = partialsIn body := by
    rw [← h5]; exact h4
  constructor
  · intro hroom
    have heq : Stream.runOn reads ((skip ++ body ++ [e] ++ post).map StreamInput.event ++ tail)
        = Stream.run ((skip ++ body ++ [e] ++ post).map StreamInput.event ++ tail) :=
      runLoopOn_eq _ _ _ _ (by
        have := h4
        simp only [Stream.run] at this
        rw [this]; exact hroom)
    have heq0 : Stream.runOn reads ((skip ++ body ++ [e]).map StreamInput.event)
        = Stream.run ((skip ++ body ++ [e]).map StreamInput.event) :=
      runLoopOn_eq _ _ _ _ (by
        have := h4b
        simp only [Stream.run] at this
        rw [this]; exact hroom)
    rw [heq, heq0]
    exact ⟨h1, h2, h3, h4, h5⟩
  · intro hover
    exact runLoopOn_blocked _ _ _ _ (Nat.zero_le _) (by
      have := h4
      simp only [Stream.run] at this
      rw [this]; exact hover)

/-- C17 (amended), applied to the events of the aggregation test followed by
one more event, with a reader that takes nothing: the Turn delivered has
Ended = true and the partial message is the one mirrored. -/
theorem C17_turn_end_delivers_once_witness :
    (∃ t, (Stream.runOn 0 (([] ++ [turnBeginEvent, partialEvent] ++ [turnEndEvent]
              ++ [stderrNoTurn]).map StreamInput.event ++ [])).done = some { Turn := some t } ∧
          t.Ended = true ∧ t.Events = [turnBeginEvent, partialEvent] ++ [turnEndEvent] ∧
          ∀ x, ([turnBeginEvent, partialEvent] ++ [turnEndEvent]).head? = some x →
            t.TurnID = x.TurnId) ∧
      (Stream.runOn 0 (([] ++ [turnBeginEvent, partialEvent] ++ [turnEndEvent]
          ++ [stderrNoTurn]).map StreamInput.event ++ [])).partials
        = partialsIn [turnBeginEvent, partialEvent] :=
  ⟨((C17_turn_end_delivers_once 0 [] [turnBeginEvent, partialEvent] [stderrNoTurn] turnEndEvent []
      (by decide) (by decide) (by decide) (by decide)).1 (by decide)).2.2.1,
    ((C17_turn_end_delivers_once 0 [] [turnBeginEvent, partialEvent] [stderrNoTurn] turnEndEvent []
      (by decide) (by decide) (by decide) (by decide)).1 (by decide)).2.2.2.1⟩

/-! ## Callback dispatch: the response to a handler that returns -/

/-- C7 (as stated, refuted): a tool handler that returns an error whose message
is not valid UTF-8 gets its invocation answered once, with a nil tool result:
`ToolResultError` returns nil for that message, so the response is not the
tool error result that carries the message. -/
theorem C7_invalid_utf8_error_gives_nil_result :
    garbledSession.handleCallback (toolEvent pingRequest) =
        { sent := [{ RequestId := "", SidecarSessionId := "sess-1",
                     Payload := .toolResponse "inv-1" none }],
          crashed := false } ∧
      ToolResultError (.invalid [255]) = none ∧
      ∀ text, ¬ IsToolErrorResult none text := by
  refine ⟨rfl, rfl, ?_⟩
  rintro text ⟨st, block, h, _⟩
  cases h

/-- C7 (amended): when the registered handler of a tool, hook or permission
invocation returns, exactly one response is sent, tagged with the invocation
id; it carries the value the handler returned when the handler returned no
error. When a hook or permission handler returned an error it carries the
canonical negative payload of the kind with the message of the error,
whatever value came with the error. When a tool handler returned an error it
carries the tool error result with the message of the error if that message
is valid UTF-8, and a nil tool result if it is not. -/
theorem C7_handler_result_answered (s : Session) (rid tid : String) :
    (∀ (req : ToolInvocationRequest) handler value err,
      s.handlers.Tool = some handler → handler req = .returned value err →
      ∃ result,
        s.handleCallback { RequestId := rid, TurnId := tid, Payload := .toolRequest req } =
          { sent := [{ RequestId := "", SidecarSessionId := s.sessionID,
                       Payload := .toolResponse req.InvocationId result }],
            crashed := false } ∧
        (err = none → result = value) ∧
        (∀ msg, err = some (.text msg) → IsToolErrorResult result msg) ∧
        (∀ raw, err = some (.invalid raw) → result = none)) ∧
    (∀ (req : HookInvocationRequest) handler value err,
      s.handlers.Hook = some handler → handler req = .returned value err →
      ∃ output,
        s.handleCallback { RequestId := rid, TurnId := tid, Payload := .hookRequest req } =
          { sent := [{ RequestId := "", SidecarSessionId := s.sessionID,
                       Payload := .hookResponse req.InvocationId output }],
            crashed := false } ∧
        (err = none → output = value) ∧
        (∀ msg, err = some msg → IsHookStop output msg)) ∧
    (∀ (req : PermissionDecisionRequest) handler value err,
      s.handlers.Permission = some handler → handler req = .returned value err →
      ∃ decision,
        s.handleCallback { RequestId := rid, TurnId := tid, Payload := .permissionRequest req } =
          { sent := [{ RequestId := "", SidecarSessionId := s.sessionID,
                       Payload := .permissionResponse req.InvocationId decision }],
            crashed := false } ∧
        (err = none → decision = value) ∧
        (∀ msg, err = some msg → IsPermissionDeny decision msg)) := by
  refine ⟨fun req handler value err hh hr => ?_, fun req handler value err hh hr => ?_,
    fun req handler value err hh hr => ?_⟩
  · cases err with
    | none =>
      exact ⟨value, by simp [Session.handleCallback, hh, hr, Session.sendToolResponse,
        send_sessionID], fun _ => rfl, fun msg h => (by cases h), fun raw h => (by cases h)⟩
    | some m =>
      refine ⟨ToolResultError m, by simp [Session.handleCallback, hh, hr,
        Session.sendToolResponse, send_sessionID], fun h => (by cases h), fun msg h => ?_,
        fun raw h => ?_⟩
      · cases h
        exact ToolResultError_isError msg
      · cases h
        exact ToolResultError_invalid raw
  · cases err with
    | none =>
      exact ⟨value, by simp [Session.handleCallback, hh, hr, Session.sendHookResponse,
        send_sessionID], fun _ => rfl, fun msg h => (by cases h)⟩
    | some m =>
      refine ⟨some (hookStopOutput m), by simp [Session.handleCallback, hh, hr,
        Session.sendHookResponse, send_sessionID], fun h => (by cases h), fun msg h => ?_⟩
      cases h
      exact ⟨_, rfl, rfl, rfl⟩
  · cases err with
    | none =>
      exact ⟨value, by simp [Session.handleCallback, hh, hr, Session.sendPermissionResponse,
        send_sessionID], fun _ => rfl, fun msg h => (by cases h)⟩
    | some m =>
      refine ⟨some { Behavior := "deny", Reason := m }, by simp [Session.handleCallback, hh, hr,
        Session.sendPermissionResponse, send_sessionID], fun h => (by cases h), fun msg h => ?_⟩
      cases h
      exact ⟨_, rfl, rfl, rfl⟩

/-- C7 (amended), applied to handlers that return a value together with the
error `boom`: each invocation gets one negative response carrying `boom`. -/
theorem C7_handler_result_answered_witness :
    (∃ result,
      failingSession.handleCallback (toolEvent pingRequest) =
        { sent := [{ RequestId := "", SidecarSessionId := "sess-1",
                     Payload := .toolResponse "inv-1" result }],
          crashed := false } ∧
      IsToolErrorResult result "boom") ∧
    (∃ output,
      failingSession.handleCallback (hookEvent hookRequest1) =
        { sent := [{ RequestId := "", SidecarSessionId := "sess-1",
                     Payload := .hookResponse "hook-1" output }],
          crashed := false } ∧
      IsHookStop output "boom") ∧
    (∃ decision,
      failingSession.handleCallback (permissionEvent permRequest) =
        { sent := [{ RequestId := "", SidecarSessionId := "sess-1",
                     Payload := .permissionResponse "perm-1" decision }],
          crashed := false } ∧
      IsPermissionDeny decision "boom") := by
  obtain ⟨r, h1, _, h2, _⟩ := (C7_handler_result_answered failingSession "" "").1 pingRequest
    _ _ _ rfl rfl
  obtain ⟨o, h3, _, h4⟩ := (C7_handler_result_answered failingSession "" "").2.1 hookRequest1
    _ _ _ rfl rfl
  obtain ⟨d, h5, _, h6⟩ := (C7_handler_result_answered failingSession "" "").2.2 permRequest
    _ _ _ rfl rfl
  exact ⟨⟨r, h1, h2 _ rfl⟩, ⟨o, h3, h4 _ rfl⟩, ⟨d, h5, h6 _ rfl⟩⟩

/-! ## Permission suggestions through structpb -/

/-- C32 (as stated, refuted): a permission update that holds the integer 30
under `timeout` is encoded without error, and `PermissionSuggestionList`
returns for it a map that holds the float64 30 under `timeout`, which is not
the update. Likewise an update that holds the two bytes of `hi` as a `[]byte`
comes back holding the string `aGk=`, their base64 encoding. -/
theorem C32_integer_comes_back_as_float :
    PermissionSuggestionsValue [[("timeout", .int 30)]]
        = some (some (.list [.struct [("timeout", .number 30)]])) ∧
      PermissionSuggestionList (some (.list [.struct [("timeout", .number 30)]]))
        = some [.map [("timeout", .float64 30)]] ∧
      GoValue.map [("timeout", .float64 30)] ≠ GoValue.map [("timeout", .int 30)] ∧
      PermissionSuggestionsValue [[("data", .bytes [104, 105])]]
        = some (some (.list [.struct [("data", .string "aGk=")]])) ∧
      PermissionSuggestionList (some (.list [.struct [("data", .string "aGk=")]]))
        = some [.map [("data", .string "aGk=")]] ∧
      GoValue.map [("data", .string "aGk=")] ≠ GoValue.map [("data", .bytes [104, 105])] := by
  refine ⟨rfl, rfl, ?_, rfl, rfl, ?_⟩ <;> simp

/-- C32 (amended): for every list of permission updates that is not empty.
When the updates are made only of the types of decoded JSON (nil, bool,
float64, string, `[]any`, `map[string]any`), `PermissionSuggestionsValue`
encodes the list without error and `PermissionSuggestionList` on the encoded
value returns the list of the updates themselves. Whatever the updates are
made of, when `PermissionSuggestionsValue` encodes the list without error,
`PermissionSuggestionList` on the encoded value returns a list of the same
length. For the empty list the encoded value is nil, and
`PermissionSuggestionList` returns nil for a nil value. -/
theorem C32_suggestions_round_trip (us : List (GoMap GoValue)) (hne : us ≠ []) :
    ((∀ u ∈ us, (GoValue.map u).isJSON = true) →
      ∃ v, PermissionSuggestionsValue us = some (some v) ∧
        PermissionSuggestionList (some v) = some (us.map GoValue.map)) ∧
      (∀ v, PermissionSuggestionsValue us = some (some v) →
        ∃ raw, PermissionSuggestionList (some v) = some raw ∧ raw.length = us.length) ∧
      PermissionSuggestionsValue [] = some none ∧
      PermissionSuggestionList none = none := by
  have hlen : ¬ us.length = 0 := fun h => hne (List.length_eq_zero.mp h)
  have hlist : ∀ v, PermissionSuggestionsValue us = some (some v) →
      PermissionSuggestionList (some v) = some (us.map (fun u => (GoValue.map u).normal)) := by
    intro v henc
    simp only [PermissionSuggestionsValue, hlen, if_false, Option.map_eq_some',
      Option.some.injEq] at henc
    obtain ⟨v0, hv0, hv⟩ := henc
    subst hv
    have h1 := AsInterface_NewValue _ _ hv0
    simp [PermissionSuggestionList, h1, GoValue.normal, normalItems_eq_map, List.map_map,
      Function.comp_def]
  refine ⟨?_, fun v henc => ⟨_, hlist v henc, by simp⟩, rfl, rfl⟩
  intro hjson
  have hitems : GoValue.itemsJSON (us.map GoValue.map) = true := by
    clear hne hlen hlist
    induction us with
    | nil => rfl
    | cons u rest ih =>
      simp only [List.map_cons, GoValue.itemsJSON, Bool.and_eq_true]
      exact ⟨hjson u (List.mem_cons_self _ _),
        ih (fun x hx => hjson x (List.mem_cons_of_mem _ hx))⟩
  obtain ⟨_, vs, hvs⟩ := normalItems_of_itemsJSON _ hitems
  have henc : PermissionSuggestionsValue us = some (some (.list vs)) := by
    simp [PermissionSuggestionsValue, hlen, structpb.NewValue, hvs]
  refine ⟨.list vs, henc, ?_⟩
  rw [hlist _ henc]
  congr 1
  exact List.map_congr_left (fun u hu => (normal_of_isJSON _ (hjson u hu)).1)

/-- C32 (amended), applied to the update of the suggestion test: it is encoded,
and the list returned for the encoded value has the one update in it. -/
theorem C32_suggestions_round_trip_witness :
    ∃ v, PermissionSuggestionsValue
          [[("type", GoValue.string "addRules"), ("behavior", .string "allow")]]
        = some (some v) ∧
      PermissionSuggestionList (some v)
        = some ([[("type", GoValue.string "addRules"), ("behavior", .string "allow")]].map
            GoValue.map) :=
  (C32_suggestions_round_trip
    [[("type", .string "addRules"), ("behavior", .string "allow")]] (by simp)).1
      (by simp [GoValue.isJSON, GoValue.fieldsJSON])

/-! ## A handler that panics: the dispatch goroutine and the receive loop under every schedule -/

theorem runStep_crashed (s : Session) (r : SessionRun) (op : SessionOp)
    (h : r.state.crashed = true) : s.runStep r op = r := by
  cases op <;> simp [Session.runStep, h]

theorem runSteps_crashed (s : Session) (ops : List SessionOp) (r : SessionRun)
    (h : r.state.crashed = true) : s.runSteps r ops = r := by
  induction ops with
  | nil => rfl
  | cons op rest ih =>
    simp only [Session.runSteps, List.foldl_cons] at ih ⊢
    rw [runStep_crashed s r op h]
    exact ih

theorem isInvocation_of_crashed (s : Session) (event : ServerEvent)
    (h : (s.handleCallback event).crashed = true) : event.isInvocation = true := by
  unfold ServerEvent.isInvocation
  unfold Session.handleCallback at h
  cases hpay : event.Payload <;> simp_all

/-- The iteration of the receive loop in `Session.recvStep` is the schedule in
which the goroutine of the event ends before the loop enqueues the event. -/
theorem recvStep_eq_runSteps (s : Session) (st : SessionState) (event : ServerEvent)
    (hc : st.crashed = false) (hs : st.stopped = false) :
    (s.runSteps { state := st, held := none, running := [] }
        ([.recv (some event)] ++ (if event.isInvocation then [.finish 0] else []) ++
          [.enqueue])).state = s.recvStep st (some event) := by
  by_cases hinv : event.isInvocation = true
  · cases hd : (s.handleCallback event).crashed <;>
      simp [Session.runSteps, Session.runStep, Session.recvStep, hc, hs, hinv, hd]
  · have hinv1 : event.isInvocation = false := by simpa using hinv
    have hd : s.handleCallback event = { sent := [], crashed := false } := by
      unfold ServerEvent.isInvocation at hinv1
      unfold Session.handleCallback
      cases hpay : event.Payload <;> simp_all
    simp [Session.runSteps, Session.runStep, Session.recvStep, hc, hs, hinv1, hd]

/-- C8 (as stated, refuted): a tool handler that panics leaves its invocation
without any response and ends the process. In the schedule `panicLate` the
loop has enqueued the invocation and the event after it when the panic comes,
and the event received afterwards is never enqueued; in the schedule
`panicAtOnce` the panic comes before the invocation is enqueued and nothing
is. In both no response is sent. -/
theorem C8_panic_unanswered_and_loop_stops :
    (panickingSession.handleCallback (toolEvent pingRequest)).sent.length = 0 ∧
      (panickingSession.handleCallback (toolEvent pingRequest)).crashed = true ∧
      (panickingSession.runSteps freshRun panicLate).state.sent.length = 0 ∧
      (panickingSession.runSteps freshRun panicLate).state.crashed = true ∧
      (panickingSession.runSteps freshRun panicLate).state.mux.queue.items
        = [toolEvent pingRequest, turnBeginA] ∧
      (panickingSession.runSteps freshRun panicAtOnce).state.sent.length = 0 ∧
      (panickingSession.runSteps freshRun panicAtOnce).state.crashed = true ∧
      (panickingSession.runSteps freshRun panicAtOnce).state.mux.queue.items = [] := by
  decide

/-- C8 (amended): a handler that fails by panicking is not recovered. The
dispatch goroutine of its invocation sends no response and ends in the panic.
While that goroutine runs the process is alive: the receive loop enqueues the
invocation event and is then in the state it was in before, with that event
enqueued and that goroutine running. When the goroutine ends, whenever that
is, the process is terminated: nothing has been sent for the invocation, and
no later step of any goroutine dispatches, enqueues or sends anything. -/
theorem C8_panic_not_recovered (s : Session) (rid tid : String) :
    (∀ (req : ToolInvocationRequest) handler,
      s.handlers.Tool = some handler → handler req = .panicked →
      s.handleCallback { RequestId := rid, TurnId := tid, Payload := .toolRequest req }
        = { sent := [], crashed := true }) ∧
    (∀ (req : HookInvocationRequest) handler,
      s.handlers.Hook = some handler → handler req = .panicked →
      s.handleCallback { RequestId := rid, TurnId := tid, Payload := .hookRequest req }
        = { sent := [], crashed := true }) ∧
    (∀ (req : PermissionDecisionRequest) handler,
      s.handlers.Permission = some handler → handler req = .panicked →
      s.handleCallback { RequestId := rid, TurnId := tid, Payload := .permissionRequest req }
        = { sent := [], crashed := true }) ∧
    (∀ (event : ServerEvent) (r : SessionRun) (i : Nat) (later : List SessionOp),
      s.handleCallback event = { sent := [], crashed := true } → r.state.crashed = false →
      (r.state.stopped = false → r.held = none →
        (s.runSteps r [.recv (some event), .enqueue]).state
            = { r.state with mux := r.state.mux.Enqueue event } ∧
          (s.runSteps r [.recv (some event), .enqueue]).held = none ∧
          (s.runSteps r [.recv (some event), .enqueue]).running
            = r.running ++ [s.handleCallback event]) ∧
      (r.running[i]? = some (s.handleCallback event) →
        (s.runStep r (.finish i)).state = { r.state with crashed := true } ∧
          s.runSteps (s.runStep r (.finish i)) later = s.runStep r (.finish i))) := by
  refine ⟨fun req handler hh hp => ?_, fun req handler hh hp => ?_,
    fun req handler hh hp => ?_, fun event r i later hd halive => ⟨fun hs hheld => ?_,
      fun hrun => ?_⟩⟩
  · simp [Session.handleCallback, hh, hp]
  · simp [Session.handleCallback, hh, hp]
  · simp [Session.handleCallback, hh, hp]
  · have hinv : event.isInvocation = true :=
      isInvocation_of_crashed s event (by rw [hd])
    simp [Session.runSteps, Session.runStep, halive, hs, hheld, hinv]
  · have hstep : (s.runStep r (.finish i)).state = { r.state with crashed := true } := by
      simp [Session.runStep, halive, hrun, hd]
    exact ⟨hstep, runSteps_crashed s later _ (by rw [hstep])⟩

/-- C8 (amended), applied to the session whose tool handler panics: the
goroutine of the invocation sends nothing, the loop enqueues the invocation
while the handler runs, and the process is terminated when the goroutine
ends after that. -/
theorem C8_panic_not_recovered_witness :
    panickingSession.handleCallback (toolEvent pingRequest) = { sent := [], crashed := true } ∧
      (panickingSession.runSteps freshRun
          [.recv (some (toolEvent pingRequest)), .enqueue]).state
        = { freshRun.state with mux := freshRun.state.mux.Enqueue (toolEvent pingRequest) } ∧
      (panickingSession.runStep
          (panickingSession.runSteps freshRun [.recv (some (toolEvent pingRequest)), .enqueue])
          (.finish 0)).state
        = { (panickingSession.runSteps freshRun
              [.recv (some (toolEvent pingRequest)), .enqueue]).state with crashed := true } :=
  ⟨(C8_panic_not_recovered panickingSession "" "").1 pingRequest _ rfl rfl,
    (((C8_panic_not_recovered panickingSession "" "").2.2.2 (toolEvent pingRequest) freshRun 0 []
      rfl rfl).1 rfl rfl).1,
    (((C8_panic_not_recovered panickingSession "" "").2.2.2 (toolEvent pingRequest)
      (panickingSession.runSteps freshRun [.recv (some (toolEvent pingRequest)), .enqueue]) 0 []
      rfl rfl).2 rfl).1⟩

/-! ## One iteration of the loop among the actions of other goroutines -/

theorem steps_induction {I : eventMux → Prop} (ops : List MuxOp)
    (hstep : ∀ (m : eventMux) (op : MuxOp), op ∈ ops → I m → I (m.step op)) :
    ∀ m : eventMux, I m → I (m.steps ops) := by
  induction ops with
  | nil => exact fun m h => h
  | cons op rest ih =>
    intro m h
    exact ih (fun m1 op1 h1 => hstep m1 op1 (List.mem_cons_of_mem _ h1)) (m.step op)
      (hstep m op (List.mem_cons_self _ _) h)

/-- A property of multiplexers kept by the actions found in the gaps and by the
calls of `f` on the listed subscriptions is kept by the calls made among
those actions. -/
theorem applyAround_induction {I : eventMux → Prop} (f : subscription → subscription)
    (ids : List Nat) :
    ∀ (gaps : List (List MuxOp)),
      (∀ (m : eventMux) (op : MuxOp), (∃ gap ∈ gaps, op ∈ gap) → I m → I (m.step op)) →
      (∀ (m : eventMux) (i : Nat), i ∈ ids → I m → I { m with subs := updateAt f m.subs i }) →
      ∀ m : eventMux, I m → I (eventMux.applyAround f m ids gaps) := by
  induction ids with
  | nil => exact fun gaps _ _ m h => h
  | cons i rest ih =>
    intro gaps hstep hupd m h
    simp only [eventMux.applyAround]
    have h1 : I (m.steps (gaps.headD [])) := by
      cases gaps with
      | nil => exact h
      | cons g gs =>
        exact steps_induction g
          (fun m1 op hop => hstep m1 op ⟨g, List.mem_cons_self _ _, hop⟩) m h
    refine ih gaps.tail (fun m1 op hop => hstep m1 op ?_)
      (fun m1 i1 hi => hupd m1 i1 (List.mem_cons_of_mem _ hi)) _
      (hupd _ i (List.mem_cons_self _ _) h1)
    obtain ⟨gap, hgap, hop1⟩ := hop
    exact ⟨gap, List.mem_of_mem_tail hgap, hop1⟩

theorem applyAround_nil_gaps (f : subscription → subscription) (ids : List Nat) :
    ∀ m : eventMux, eventMux.applyAround f m ids [] =
      { m with subs := ids.foldl (fun acc i => updateAt f acc i) m.subs } := by
  induction ids with
  | nil => intro m; rfl
  | cons i rest ih =>
    intro m
    simp only [eventMux.applyAround, List.headD_nil, List.tail_nil, List.foldl_cons]
    rw [ih]
    rfl

/-- With no action of another goroutine the body of the loop is the atomic
processing. -/
theorem processAround_idle (m : eventMux) (e : ServerEvent) :
    m.processAround e Interleaving.idle = m.process e := by
  unfold eventMux.processAround eventMux.process eventMux.beforeEvict
  simp only [Interleaving.idle, applyAround_nil_gaps]
  by_cases hend : isTurnEnd e = true
  · by_cases hr : e.RequestId = ""
    · simp [hend, hr, eventMux.closeRequest, eventMux.steps, enqueueEach]
    · simp [hend, hr, eventMux.closeRequest, eventMux.steps, enqueueEach, closeEach,
        eventMux.requestSubs]
  · simp [hend, enqueueEach]

theorem upd_sub (f : subscription → subscription) (m : eventMux) (i j : Nat) :
    eventMux.sub { m with subs := updateAt f m.subs i } j =
      if j = i then (m.sub j).map f else m.sub j := by
  unfold eventMux.sub
  by_cases h : j = i
  · subst h
    simp [updateAt_get_self]
  · simp [h, updateAt_get_ne f m.subs i j h]

theorem Sound_Enqueue (s : subscription) (e : ServerEvent) (h : s.Sound) : (s.Enqueue e).Sound := by
  unfold subscription.Sound subscription.Enqueue eventQueue.Push at *
  split <;> simpa using h

theorem Sound_Close (s : subscription) (h : s.Sound) : s.Close.Sound := by
  unfold subscription.Sound subscription.Close at *
  split
  · exact h
  · intro _; rfl

theorem Sound_run (s : subscription) (h : s.Sound) : s.run.Sound := by
  unfold subscription.Sound at *
  rw [run_once, run_closed]
  exact h

theorem Close_closed_of_Sound (s : subscription) (h : s.Sound) : s.Close.queue.closed = true := by
  cases ho : s.once with
  | true => exact Close_closed_of_closed s (h ho)
  | false => exact Close_closed_of_once s ho

/-- A property of subscriptions that `Close` and the pump keep holds of a heap
object after any action that is no iteration of the loop, once it holds of it. -/
theorem step_foreign_sub {P : subscription → Prop} (hC : ∀ s, P s → P s.Close)
    (hR : ∀ s, P s → P s.run) (m : eventMux) (op : MuxOp) (j : Nat) (hop : op.isRun = false)
    (h : ∃ s, m.sub j = some s ∧ P s) : ∃ s, (m.step op).sub j = some s ∧ P s := by
  unfold eventMux.sub at *
  cases op with
  | subscribeAll =>
    obtain ⟨s, hs, hP⟩ := h
    refine ⟨s, ?_, hP⟩
    simp only [eventMux.step, eventMux.SubscribeAll]
    split <;> exact get_append_of_some hs _
  | subscribeRequest r =>
    obtain ⟨s, hs, hP⟩ := h
    refine ⟨s, ?_, hP⟩
    simp only [eventMux.step, eventMux.SubscribeRequest]
    split <;> exact get_append_of_some hs _
  | unsubscribeRequest r sub =>
    simp only [eventMux.step, eventMux.UnsubscribeRequest]
    cases sub with
    | none => exact h
    | some i =>
      simp only
      split
      · exact h
      · exact updateAt_preserves hC h i
  | enqueue e => exact h
  | close => exact h
  | run => simp [MuxOp.isRun] at hop
  | pump i => exact updateAt_preserves hR h i

/-- A property of subscriptions that the pump keeps holds of a heap object
after any action that is no iteration of the loop and does not close the
object, once it holds of it. -/
theorem step_gentle_sub {P : subscription → Prop} (hR : ∀ s, P s → P s.run) (m : eventMux)
    (op : MuxOp) (j : Nat) (hop : op.isRun = false) (hcl : op.closes j = false)
    (h : ∃ s, m.sub j = some s ∧ P s) : ∃ s, (m.step op).sub j = some s ∧ P s := by
  unfold eventMux.sub at *
  cases op with
  | subscribeAll =>
    obtain ⟨s, hs, hP⟩ := h
    refine ⟨s, ?_, hP⟩
    simp only [eventMux.step, eventMux.SubscribeAll]
    split <;> exact get_append_of_some hs _
  | subscribeRequest r =>
    obtain ⟨s, hs, hP⟩ := h
    refine ⟨s, ?_, hP⟩
    simp only [eventMux.step, eventMux.SubscribeRequest]
    split <;> exact get_append_of_some hs _
  | unsubscribeRequest r sub =>
    simp only [eventMux.step, eventMux.UnsubscribeRequest]
    cases sub with
    | none => exact h
    | some i =>
      simp only
      split
      · exact h
      · rename_i hr
        have hij : j ≠ i := by
          intro hji
          simp [MuxOp.closes, hji, hr] at hcl
        obtain ⟨s, hs, hP⟩ := h
        exact ⟨s, by simp only [updateAt_get_ne _ m.subs i j hij]; exact hs, hP⟩
  | enqueue e => exact h
  | close => exact h
  | run => simp [MuxOp.isRun] at hop
  | pump i => exact updateAt_preserves hR h i

theorem step_requestSubs_mem (m : eventMux) (op : MuxOp) (j : Nat) (A : String)
    (hop : op.isRun = false) (hcl : op.closes j = false) (h : j ∈ m.requestSubs A) :
    j ∈ (m.step op).requestSubs A := by
  cases op with
  | subscribeAll =>
    simp only [eventMux.step, eventMux.SubscribeAll]
    split <;> exact h
  | subscribeRequest r =>
    simp only [eventMux.step]
    rw [requestSubs_SubscribeRequest]
    split
    · rename_i hc
      rw [← hc.2]
      exact List.mem_append_left _ h
    · exact h
  | unsubscribeRequest r sub =>
    simp only [eventMux.step]
    cases sub with
    | none => exact h
    | some i =>
      by_cases hr : r = ""
      · simpa [eventMux.UnsubscribeRequest, hr] using h
      · rw [requestSubs_Unsubscribe m r i hr]
        have hij : j ≠ i := by
          intro hji
          simp [MuxOp.closes, hji, hr] at hcl
        split
        · rename_i hk
          rw [← hk]
          exact (List.mem_erase_of_ne hij).mpr h
        · exact h
  | enqueue e => exact h
  | close => exact h
  | run => simp [MuxOp.isRun] at hop
  | pump i => exact h

/-- What an action that closes the subscription `j` does to it. -/
theorem step_closes_sub (m : eventMux) (op : MuxOp) (j : Nat) (hcl : op.closes j = true) :
    (m.step op).sub j = (m.sub j).map subscription.Close := by
  cases op with
  | unsubscribeRequest r sub =>
    cases sub with
    | none => simp [MuxOp.closes] at hcl
    | some i =>
      simp only [MuxOp.closes, Bool.and_eq_true, decide_eq_true_eq, Bool.not_eq_true',
        decide_eq_false_iff_not] at hcl
      obtain ⟨hij, hr⟩ := hcl
      subst hij
      simp only [eventMux.step, eventMux.UnsubscribeRequest, hr, if_false, eventMux.sub]
      exact updateAt_get_self _ _ _
  | subscribeAll => simp [MuxOp.closes] at hcl
  | subscribeRequest r => simp [MuxOp.closes] at hcl
  | enqueue e => simp [MuxOp.closes] at hcl
  | close => simp [MuxOp.closes] at hcl
  | run => simp [MuxOp.closes] at hcl
  | pump i => simp [MuxOp.closes] at hcl

/-- An action that is no iteration of the loop keeps what a subscription has
been enqueued, and leaves it registered under its request id or closed. -/
theorem Holds_step (m : eventMux) (op : MuxOp) (j : Nat) (A : String) (L : List ServerEvent)
    (hop : op.isRun = false) (h : m.Holds j A L) : (m.step op).Holds j A L := by
  obtain ⟨s, hs, hL, hS, hreg⟩ := h
  by_cases hcl : op.closes j = true
  · refine ⟨s.Close, by rw [step_closes_sub m op j hcl, hs]; rfl, ?_, Sound_Close s hS,
      Or.inr (Close_closed_of_Sound s hS)⟩
    rw [Close_enqueued]
    exact hL
  · have hcl1 : op.closes j = false := by simpa using hcl
    rcases hreg with hreg | hclosed
    · obtain ⟨s1, hs1, hL1, hS1⟩ := step_gentle_sub
        (P := fun s => s.enqueued = L ∧ s.Sound)
        (fun s h => ⟨by rw [run_enqueued]; exact h.1, Sound_run s h.2⟩) m op j hop hcl1
        ⟨s, hs, hL, hS⟩
      exact ⟨s1, hs1, hL1, hS1, Or.inl (step_requestSubs_mem m op j A hop hcl1 hreg)⟩
    · obtain ⟨s1, hs1, hL1, hS1, hc1⟩ := step_foreign_sub
        (P := fun s => s.enqueued = L ∧ s.Sound ∧ s.queue.closed = true)
        (fun s h => ⟨by rw [Close_enqueued]; exact h.1, Sound_Close s h.2.1,
          Close_closed_of_closed s h.2.2⟩)
        (fun s h => ⟨by rw [run_enqueued]; exact h.1, Sound_run s h.2.1,
          by rw [run_closed]; exact h.2.2⟩) m op j hop ⟨s, hs, hL, hS, hclosed⟩
      exact ⟨s1, hs1, hL1, hS1, Or.inr hc1⟩

theorem Holds_steps (ops : List MuxOp) (j : Nat) (A : String) (L : List ServerEvent)
    (hops : ∀ op ∈ ops, op.isRun = false) (m : eventMux) (h : m.Holds j A L) :
    (m.steps ops).Holds j A L :=
  steps_induction (I := fun m => m.Holds j A L) ops
    (fun m1 op hop h1 => Holds_step m1 op j A L (hops op hop) h1) m h

theorem upd_requestSubs (f : subscription → subscription) (m : eventMux) (i : Nat) (k : String) :
    eventMux.requestSubs { m with subs := updateAt f m.subs i } k = m.requestSubs k := rfl

theorem Holds_upd_ne (f : subscription → subscription) (m : eventMux) (i j : Nat) (A : String)
    (L : List ServerEvent) (hij : j ≠ i) (h : m.Holds j A L) :
    eventMux.Holds { m with subs := updateAt f m.subs i } j A L := by
  obtain ⟨s, hs, hL, hS, hreg⟩ := h
  exact ⟨s, by rw [upd_sub, if_neg hij]; exact hs, hL, hS, hreg⟩

theorem Holds_upd_Close (m : eventMux) (i j : Nat) (A : String) (L : List ServerEvent)
    (h : m.Holds j A L) :
    eventMux.Holds { m with subs := updateAt subscription.Close m.subs i } j A L := by
  by_cases hij : j = i
  · obtain ⟨s, hs, hL, hS, hreg⟩ := h
    refine ⟨s.Close, by rw [upd_sub, if_pos hij, hs]; rfl, ?_, Sound_Close s hS,
      Or.inr (Close_closed_of_Sound s hS)⟩
    rw [Close_enqueued]; exact hL
  · exact Holds_upd_ne _ m i j A L hij h

/-- The Enqueue of an event to the subscription itself adds the event to what
it has been enqueued when it is open, and nothing when it is closed. -/
theorem Holds_upd_Enqueue (m : eventMux) (j : Nat) (A : String) (L : List ServerEvent)
    (e : ServerEvent) (h : m.Holds j A L) :
    eventMux.Holds { m with subs := updateAt (fun s => s.Enqueue e) m.subs j } j A (L ++ [e]) ∨
      eventMux.Holds { m with subs := updateAt (fun s => s.Enqueue e) m.subs j } j A L := by
  obtain ⟨s, hs, hL, hS, hreg⟩ := h
  cases hc : s.queue.closed with
  | true =>
    refine Or.inr ⟨s, ?_, hL, hS, hreg⟩
    rw [upd_sub, if_pos rfl, hs]
    simp [Enqueue_closed s e hc]
  | false =>
    refine Or.inl ⟨s.Enqueue e, by rw [upd_sub, if_pos rfl, hs]; rfl, ?_, Sound_Enqueue s e hS,
      ?_⟩
    · rw [(Enqueue_open s e hc).1, hL]
    · rcases hreg with hreg | hclosed
      · exact Or.inl hreg
      · rw [hc] at hclosed; cases hclosed

theorem headD_ops {P : MuxOp → Prop} (gaps : List (List MuxOp))
    (h : ∀ gap ∈ gaps, ∀ op ∈ gap, P op) : ∀ op ∈ gaps.headD [], P op := by
  cases gaps with
  | nil => intro op hop; cases hop
  | cons g gs => exact h g (List.mem_cons_self _ _)

theorem tail_ops {P : MuxOp → Prop} (gaps : List (List MuxOp))
    (h : ∀ gap ∈ gaps, ∀ op ∈ gap, P op) : ∀ gap ∈ gaps.tail, ∀ op ∈ gap, P op :=
  fun gap hgap => h gap (List.mem_of_mem_tail hgap)

/-- A subscription that is not among the recipients keeps what it has been
enqueued while the event is enqueued to the recipients. -/
theorem applyAround_Holds_not_mem (e : ServerEvent) (ids : List Nat) (gaps : List (List MuxOp))
    (j : Nat) (A : String) (L : List ServerEvent)
    (hgaps : ∀ gap ∈ gaps, ∀ op ∈ gap, op.isRun = false) (hj : j ∉ ids) (m : eventMux)
    (h : m.Holds j A L) :
    (eventMux.applyAround (fun s => s.Enqueue e) m ids gaps).Holds j A L :=
  applyAround_induction (I := fun m => m.Holds j A L) _ ids gaps
    (fun m1 op hop h1 => by
      obtain ⟨gap, hg, hop1⟩ := hop
      exact Holds_step m1 op j A L (hgaps gap hg op hop1) h1)
    (fun m1 i hi h1 => Holds_upd_ne _ m1 i j A L (fun hji => hj (by rw [hji]; exact hi)) h1) m h

/-- While the event is enqueued to recipients among which no pointer occurs
twice, a subscription is enqueued the event once at most, after what it
held. -/
theorem applyAround_Holds_once (e : ServerEvent) (j : Nat) (A : String) (L : List ServerEvent)
    (ids : List Nat) :
    ∀ (gaps : List (List MuxOp)) (m : eventMux), ids.Nodup →
      (∀ gap ∈ gaps, ∀ op ∈ gap, op.isRun = false) → m.Holds j A L →
      (eventMux.applyAround (fun s => s.Enqueue e) m ids gaps).Holds j A (L ++ [e]) ∨
        (eventMux.applyAround (fun s => s.Enqueue e) m ids gaps).Holds j A L := by
  induction ids with
  | nil => exact fun gaps m _ _ h => Or.inr h
  | cons i rest ih =>
    intro gaps m hnd hgaps h
    simp only [eventMux.applyAround]
    have h1 : (m.steps (gaps.headD [])).Holds j A L :=
      Holds_steps _ j A L (headD_ops gaps hgaps) m h
    have hnd1 : rest.Nodup := (List.nodup_cons.mp hnd).2
    by_cases hij : j = i
    · subst hij
      have hnot : j ∉ rest := (List.nodup_cons.mp hnd).1
      rcases Holds_upd_Enqueue _ j A L e h1 with h2 | h2
      · exact Or.inl (applyAround_Holds_not_mem e rest gaps.tail j A _ (tail_ops gaps hgaps)
          hnot _ h2)
      · exact Or.inr (applyAround_Holds_not_mem e rest gaps.tail j A _ (tail_ops gaps hgaps)
          hnot _ h2)
    · exact ih gaps.tail _ hnd1 (tail_ops gaps hgaps) (Holds_upd_ne _ _ i j A L hij h1)

theorem applyAround_enqueued_kept (f : subscription → subscription)
    (hf : ∀ s : subscription, (f s).enqueued = s.enqueued) (ids : List Nat)
    (gaps : List (List MuxOp)) (j : Nat) (L : List ServerEvent)
    (hgaps : ∀ gap ∈ gaps, ∀ op ∈ gap, op.isRun = false) (m : eventMux)
    (h : ∃ s, m.sub j = some s ∧ s.enqueued = L) :
    ∃ s, (eventMux.applyAround f m ids gaps).sub j = some s ∧ s.enqueued = L :=
  applyAround_induction (I := fun m => ∃ s, m.sub j = some s ∧ s.enqueued = L) _ ids gaps
    (fun m1 op hop h1 => by
      obtain ⟨gap, hg, hop1⟩ := hop
      exact step_foreign_sub (P := fun s => s.enqueued = L)
        (fun s h => (Close_enqueued s).trans h) (fun s h => (run_enqueued s).trans h)
        m1 op j (hgaps gap hg op hop1) h1)
    (fun m1 i _ h1 => by
      obtain ⟨s, hs, hL⟩ := h1
      by_cases hji : j = i
      · exact ⟨f s, by rw [upd_sub, if_pos hji, hs]; rfl, by rw [hf]; exact hL⟩
      · exact ⟨s, by rw [upd_sub, if_neg hji]; exact hs, hL⟩) m h

theorem applyAround_enqueued_not_mem (f : subscription → subscription) (ids : List Nat)
    (gaps : List (List MuxOp)) (j : Nat) (L : List ServerEvent)
    (hgaps : ∀ gap ∈ gaps, ∀ op ∈ gap, op.isRun = false) (hj : j ∉ ids) (m : eventMux)
    (h : ∃ s, m.sub j = some s ∧ s.enqueued = L) :
    ∃ s, (eventMux.applyAround f m ids gaps).sub j = some s ∧ s.enqueued = L :=
  applyAround_induction (I := fun m => ∃ s, m.sub j = some s ∧ s.enqueued = L) _ ids gaps
    (fun m1 op hop h1 => by
      obtain ⟨gap, hg, hop1⟩ := hop
      exact step_foreign_sub (P := fun s => s.enqueued = L)
        (fun s h => (Close_enqueued s).trans h) (fun s h => (run_enqueued s).trans h)
        m1 op j (hgaps gap hg op hop1) h1)
    (fun m1 i hi h1 => by
      obtain ⟨s, hs, hL⟩ := h1
      have hji : j ≠ i := fun hji => hj (by rw [hji]; exact hi)
      exact ⟨s, by rw [upd_sub, if_neg hji]; exact hs, hL⟩) m h

/-- A recipient that is open when the recipients are computed, and that no
action closes before the event has been enqueued to every recipient, is
enqueued the event after what it held. -/
theorem applyAround_open (e : ServerEvent) (j : Nat) (L : List ServerEvent) (ids : List Nat) :
    ∀ (gaps : List (List MuxOp)) (m : eventMux), ids.Nodup → j ∈ ids →
      (∀ gap ∈ gaps, ∀ op ∈ gap, op.isRun = false) →
      (∀ gap ∈ gaps, ∀ op ∈ gap, op.closes j = false) →
      (∃ s, m.sub j = some s ∧ s.enqueued = L ∧ s.queue.closed = false) →
      ∃ s, (eventMux.applyAround (fun s => s.Enqueue e) m ids gaps).sub j = some s ∧
        s.enqueued = L ++ [e] := by
  induction ids with
  | nil => intro gaps m _ hj; cases hj
  | cons i rest ih =>
    intro gaps m hnd hj hgaps hgentle h
    simp only [eventMux.applyAround]
    have h1 : ∃ s, (m.steps (gaps.headD [])).sub j = some s ∧ s.enqueued = L ∧
        s.queue.closed = false :=
      steps_induction (I := fun m => ∃ s, m.sub j = some s ∧ s.enqueued = L ∧
          s.queue.closed = false) _
        (fun m1 op hop h1 => step_gentle_sub
          (P := fun s => s.enqueued = L ∧ s.queue.closed = false)
          (fun s h => ⟨by rw [run_enqueued]; exact h.1, by rw [run_closed]; exact h.2⟩)
          m1 op j (headD_ops gaps hgaps op hop) (headD_ops gaps hgentle op hop) h1) m h
    by_cases hij : j = i
    · subst hij
      obtain ⟨s, hs, hL, hc⟩ := h1
      refine applyAround_enqueued_not_mem _ rest gaps.tail j _ (tail_ops gaps hgaps)
        (List.nodup_cons.mp hnd).1 _ ⟨s.Enqueue e, ?_, ?_⟩
      · rw [upd_sub, if_pos rfl, hs]; rfl
      · rw [(Enqueue_open s e hc).1, hL]
    · have hj1 : j ∈ rest := by
        rcases List.mem_cons.mp hj with h2 | h2
        · exact absurd h2 hij
        · exact h2
      obtain ⟨s, hs, hL, hc⟩ := h1
      exact ih gaps.tail _ (List.nodup_cons.mp hnd).2 hj1 (tail_ops gaps hgaps)
        (tail_ops gaps hgentle) ⟨s, by rw [upd_sub, if_neg hij]; exact hs, hL, hc⟩

/-- Once one of the actions has closed a subscription, the subscription is
closed with what it had been enqueued before. -/
theorem steps_closes_frozen (j : Nat) (L : List ServerEvent) (gap : List MuxOp) :
    ∀ m : eventMux, (∀ op ∈ gap, op.isRun = false) → (∃ op ∈ gap, op.closes j = true) →
      (∃ s, m.sub j = some s ∧ s.enqueued = L ∧ s.Sound) →
      ∃ s, (m.steps gap).sub j = some s ∧ Frozen L s := by
  induction gap with
  | nil => intro m _ h; obtain ⟨op, hop, _⟩ := h; cases hop
  | cons op rest ih =>
    intro m hgap hex h
    by_cases hcl : op.closes j = true
    · obtain ⟨s, hs, hL, hS⟩ := h
      have h1 : ∃ s1, (m.step op).sub j = some s1 ∧ Frozen L s1 :=
        ⟨s.Close, by rw [step_closes_sub m op j hcl, hs]; rfl, Close_closed_of_Sound s hS,
          by rw [Close_enqueued]; exact hL⟩
      exact steps_preserves (P := Frozen L) (fun e s h => h.Enqueue e) (fun s h => h.Close)
        (fun s h => h.run) rest (m.step op) j h1
    · have hex1 : ∃ op1 ∈ rest, op1.closes j = true := by
        obtain ⟨op1, hop1, hc1⟩ := hex
        rcases List.mem_cons.mp hop1 with h2 | h2
        · rw [h2] at hc1; exact absurd hc1 hcl
        · exact ⟨op1, h2, hc1⟩
      exact ih (m.step op) (fun op1 h1 => hgap op1 (List.mem_cons_of_mem _ h1)) hex1
        (step_foreign_sub (P := fun s => s.enqueued = L ∧ s.Sound)
          (fun s h => ⟨by rw [Close_enqueued]; exact h.1, Sound_Close s h.2⟩)
          (fun s h => ⟨by rw [run_enqueued]; exact h.1, Sound_run s h.2⟩) m op j
          (hgap op (List.mem_cons_self _ _)) h)

theorem applyAround_frozen (f : subscription → subscription)
    (hf : ∀ (L : List ServerEvent) (s : subscription), Frozen L s → Frozen L (f s))
    (ids : List Nat) (gaps : List (List MuxOp)) (j : Nat) (L : List ServerEvent) (m : eventMux)
    (h : ∃ s, m.sub j = some s ∧ Frozen L s) :
    ∃ s, (eventMux.applyAround f m ids gaps).sub j = some s ∧ Frozen L s :=
  applyAround_induction (I := fun m => ∃ s, m.sub j = some s ∧ Frozen L s) _ ids gaps
    (fun m1 op _ h1 => step_preserves (P := Frozen L) (fun e s h => h.Enqueue e)
      (fun s h => h.Close) (fun s h => h.run) m1 op j h1)
    (fun m1 i _ h1 => by
      obtain ⟨s, hs, hF⟩ := h1
      by_cases hji : j = i
      · exact ⟨f s, by rw [upd_sub, if_pos hji, hs]; rfl, hf L s hF⟩
      · exact ⟨s, by rw [upd_sub, if_neg hji]; exact hs, hF⟩) m h

/-- A recipient that an action closes before the event has been enqueued to
the first recipient is enqueued nothing. -/
theorem applyAround_closed_first (e : ServerEvent) (j : Nat) (L : List ServerEvent)
    (ids : List Nat) (gaps : List (List MuxOp)) (m : eventMux) (hne : ids ≠ [])
    (hgaps : ∀ gap ∈ gaps, ∀ op ∈ gap, op.isRun = false)
    (hex : ∃ op ∈ gaps.headD [], op.closes j = true)
    (h : ∃ s, m.sub j = some s ∧ s.enqueued = L ∧ s.Sound) :
    ∃ s, (eventMux.applyAround (fun s => s.Enqueue e) m ids gaps).sub j = some s ∧
      s.enqueued = L := by
  cases ids with
  | nil => exact absurd rfl hne
  | cons i rest =>
    simp only [eventMux.applyAround]
    obtain ⟨s1, hs1, hF1⟩ := steps_closes_frozen j L (gaps.headD []) m (headD_ops gaps hgaps)
      hex h
    have h2 : ∃ s, eventMux.sub { m.steps (gaps.headD []) with
        subs := updateAt (fun s => s.Enqueue e) (m.steps (gaps.headD [])).subs i } j = some s ∧
          Frozen L s := by
      by_cases hji : j = i
      · exact ⟨s1.Enqueue e, by rw [upd_sub, if_pos hji, hs1]; rfl, hF1.Enqueue e⟩
      · exact ⟨s1, by rw [upd_sub, if_neg hji]; exact hs1, hF1⟩
    obtain ⟨s, hs, hF⟩ := applyAround_frozen (fun s => s.Enqueue e)
      (fun L s h => h.Enqueue e) rest gaps.tail j L _ h2
    exact ⟨s, hs, hF.2⟩

/-- The subscriptions `closeRequest` closes end closed, and so does one that
was closed before; what they have been enqueued is kept. -/
theorem applyAround_Close_closed (j : Nat) (L : List ServerEvent) (ids : List Nat) :
    ∀ (gaps : List (List MuxOp)) (m : eventMux),
      (∀ gap ∈ gaps, ∀ op ∈ gap, op.isRun = false) →
      (∃ s, m.sub j = some s ∧ s.enqueued = L ∧ s.Sound ∧
        (j ∈ ids ∨ s.queue.closed = true)) →
      ∃ s, (eventMux.applyAround subscription.Close m ids gaps).sub j = some s ∧
        Frozen L s := by
  induction ids with
  | nil =>
    intro gaps m _ h
    obtain ⟨s, hs, hL, _, hc⟩ := h
    rcases hc with hc | hc
    · cases hc
    · exact ⟨s, hs, hc, hL⟩
  | cons i rest ih =>
    intro gaps m hgaps h
    simp only [eventMux.applyAround]
    have h1 : ∃ s, (m.steps (gaps.headD [])).sub j = some s ∧ s.enqueued = L ∧ s.Sound ∧
        (j ∈ i :: rest ∨ s.queue.closed = true) :=
      steps_induction (I := fun m => ∃ s, m.sub j = some s ∧ s.enqueued = L ∧ s.Sound ∧
          (j ∈ i :: rest ∨ s.queue.closed = true)) _
        (fun m1 op hop h1 => step_foreign_sub
          (P := fun s => s.enqueued = L ∧ s.Sound ∧ (j ∈ i :: rest ∨ s.queue.closed = true))
          (fun s h => ⟨by rw [Close_enqueued]; exact h.1, Sound_Close s h.2.1,
            Or.inr (Close_closed_of_Sound s h.2.1)⟩)
          (fun s h => ⟨by rw [run_enqueued]; exact h.1, Sound_run s h.2.1,
            by rw [run_closed]; exact h.2.2⟩)
          m1 op j (headD_ops gaps hgaps op hop) h1) m h
    obtain ⟨s, hs, hL, hS, hc⟩ := h1
    by_cases hji : j = i
    · exact ih gaps.tail _ (tail_ops gaps hgaps) ⟨s.Close, by rw [upd_sub, if_pos hji, hs]; rfl,
        by rw [Close_enqueued]; exact hL, Sound_Close s hS,
        Or.inr (Close_closed_of_Sound s hS)⟩
    · refine ih gaps.tail _ (tail_ops gaps hgaps) ⟨s, by rw [upd_sub, if_neg hji]; exact hs,
        hL, hS, ?_⟩
      rcases hc with hc | hc
      · rcases List.mem_cons.mp hc with h2 | h2
        · exact absurd h2 hji
        · exact Or.inl h2
      · exact Or.inr hc

/-- No action registers a pointer that already points into the heap. -/
theorem step_unregistered (m : eventMux) (op : MuxOp) (j : Nat) (S : String → Prop)
    (h : j < m.subs.length ∧ j ∉ m.global ∧ ∀ k, S k → j ∉ m.requestSubs k) :
    j < (m.step op).subs.length ∧ j ∉ (m.step op).global ∧
      ∀ k, S k → j ∉ (m.step op).requestSubs k := by
  obtain ⟨hlt, hg, hr⟩ := h
  obtain ⟨h1, h2, h3⟩ := step_registry m op
  refine ⟨lt_of_lt_of_le hlt h3, fun hx => ?_, fun k hk hx => ?_⟩
  · rcases h1 j hx with h4 | ⟨h4, _⟩
    · exact hg h4
    · omega
  · rcases h2 k j hx with h4 | ⟨h4, _⟩
    · exact hr k hk h4
    · omega

theorem applyAround_unregistered (f : subscription → subscription) (ids : List Nat)
    (gaps : List (List MuxOp)) (j : Nat) (S : String → Prop) (m : eventMux)
    (h : j < m.subs.length ∧ j ∉ m.global ∧ ∀ k, S k → j ∉ m.requestSubs k) :
    j < (eventMux.applyAround f m ids gaps).subs.length ∧
      j ∉ (eventMux.applyAround f m ids gaps).global ∧
      ∀ k, S k → j ∉ (eventMux.applyAround f m ids gaps).requestSubs k :=
  applyAround_induction
    (I := fun m => j < m.subs.length ∧ j ∉ m.global ∧ ∀ k, S k → j ∉ m.requestSubs k)
    f ids gaps (fun m1 op _ h1 => step_unregistered m1 op j S h1)
    (fun m1 i _ h1 => ⟨by simpa [updateAt_length] using h1.1, h1.2.1, h1.2.2⟩) m h

theorem steps_unregistered (ops : List MuxOp) (j : Nat) (S : String → Prop) (m : eventMux)
    (h : j < m.subs.length ∧ j ∉ m.global ∧ ∀ k, S k → j ∉ m.requestSubs k) :
    j < (m.steps ops).subs.length ∧ j ∉ (m.steps ops).global ∧
      ∀ k, S k → j ∉ (m.steps ops).requestSubs k :=
  steps_induction
    (I := fun m => j < m.subs.length ∧ j ∉ m.global ∧ ∀ k, S k → j ∉ m.requestSubs k)
    ops (fun m1 op _ h1 => step_unregistered m1 op j S h1) m h

theorem WF_Holds (m : eventMux) (hwf : m.WF) (A : String) (j : Nat)
    (hreg : j ∈ m.requestSubs A) : m.Holds j A (m.enqueuedTo j) := by
  obtain ⟨s, hs, _, ho⟩ := hwf.request_open A j hreg
  refine ⟨s, hs, by simp [eventMux.enqueuedTo, hs], fun h => ?_, Or.inl hreg⟩
  rw [ho] at h
  cases h

theorem WF_Valid (m : eventMux) (hwf : m.WF) : m.Valid :=
  ⟨fun x hx => isOpen_lt (hwf.global_open x hx), fun k x hx => isOpen_lt (hwf.request_open k x hx)⟩

theorem recipients_nodup (m : eventMux) (hwf : m.WF) (e : ServerEvent) :
    (m.subscriptionsFor e).Nodup := by
  unfold eventMux.subscriptionsFor
  split
  · exact hwf.global_nodup
  · exact List.Nodup.append hwf.global_nodup (hwf.request_nodup _)
      (fun x hg hr => hwf.request_global _ x hr hg)

theorem view_of_frozen (m : eventMux) (j : Nat) (L : List ServerEvent)
    (h : ∃ s, m.sub j = some s ∧ Frozen L s) : m.view j = some (true, L) := by
  obtain ⟨s, hs, hc, hL⟩ := h
  simp [eventMux.view, hs, hc, hL]

/-- What the subscription holds when the event has been enqueued to the
recipients, it holds, closed, when `closeRequest` has returned. -/
theorem processAround_tail (m : eventMux) (A : String) (hA : A ≠ "") (j : Nat) (e : ServerEvent)
    (hend : isTurnEnd e = true) (htag : e.RequestId = A) (il : Interleaving)
    (hil : il.foreign) (L : List ServerEvent)
    (h1 : (eventMux.applyAround (fun s => s.Enqueue e) m (m.subscriptionsFor e)
      il.enqueues).Holds j A L) :
    ∃ s, (m.processAround e il).sub j = some s ∧ Frozen L s := by
  subst htag
  have h2 : (m.beforeEvict e il).Holds j e.RequestId L :=
    Holds_steps il.evict j _ L hil.2.1 _ h1
  obtain ⟨s, hs, hL, hS, hreg⟩ := h2
  simp only [eventMux.processAround, hend, if_true, hA, if_false]
  exact applyAround_Close_closed j L _ il.closes _ hil.2.2 ⟨s, hs, hL, hS, hreg⟩

theorem processAround_unregistered (m : eventMux) (hwf : m.WF) (A : String) (hA : A ≠ "")
    (j : Nat) (hreg : j ∈ m.requestSubs A) (e : ServerEvent) (hend : isTurnEnd e = true)
    (htag : e.RequestId = A) (il : Interleaving) :
    j ∉ (m.processAround e il).global ∧ ∀ k, j ∉ (m.processAround e il).requestSubs k := by
  subst htag
  have h0 : j < m.subs.length ∧ j ∉ m.global ∧ ∀ k, k ≠ e.RequestId → j ∉ m.requestSubs k :=
    ⟨isOpen_lt (hwf.request_open _ j hreg), hwf.request_global _ j hreg,
      fun k hk hx => hk (hwf.request_key _ _ j hx hreg)⟩
  have h1 := applyAround_unregistered (fun s => s.Enqueue e) (m.subscriptionsFor e) il.enqueues
    j (fun k => k ≠ e.RequestId) m h0
  have h2 := steps_unregistered il.evict j (fun k => k ≠ e.RequestId) _ h1
  have h3 : j < (eventMux.mk (m.beforeEvict e il).queue
        ((m.beforeEvict e il).byRequest.delete e.RequestId) (m.beforeEvict e il).global
        (m.beforeEvict e il).closed (m.beforeEvict e il).subs).subs.length ∧
      j ∉ (eventMux.mk (m.beforeEvict e il).queue
        ((m.beforeEvict e il).byRequest.delete e.RequestId) (m.beforeEvict e il).global
        (m.beforeEvict e il).closed (m.beforeEvict e il).subs).global ∧
      ∀ k, True → j ∉ (eventMux.mk (m.beforeEvict e il).queue
        ((m.beforeEvict e il).byRequest.delete e.RequestId) (m.beforeEvict e il).global
        (m.beforeEvict e il).closed (m.beforeEvict e il).subs).requestSubs k := by
    refine ⟨h2.1, h2.2.1, fun k _ hx => ?_⟩
    simp only [eventMux.requestSubs] at hx
    rw [getD_delete] at hx
    split at hx
    · cases hx
    · rename_i hk
      exact h2.2.2 k hk hx
  have h4 := applyAround_unregistered subscription.Close
    ((m.beforeEvict e il).requestSubs e.RequestId) il.closes j (fun _ => True) _ h3
  simp only [eventMux.processAround, hend, if_true, hA, if_false]
  exact ⟨h4.2.1, fun k => h4.2.2 k trivial⟩

/-- A subscription registered under the request id of a TURN_END when the
recipients are computed, after the loop has worked on the TURN_END among the
actions of other goroutines: it is closed; it has been enqueued the TURN_END
after what it held, or nothing; it has been enqueued the TURN_END when no
action closed it meanwhile, and nothing when an action closed it before the
first Enqueue; and it is in no list of the registry. -/
theorem processAround_registered (m : eventMux) (hwf : m.WF) (A : String) (hA : A ≠ "")
    (j : Nat) (hreg : j ∈ m.requestSubs A) (e : ServerEvent) (hend : isTurnEnd e = true)
    (htag : e.RequestId = A) (il : Interleaving) (hil : il.foreign) :
    ((∃ s, (m.processAround e il).sub j = some s ∧ Frozen (m.enqueuedTo j ++ [e]) s) ∨
        ∃ s, (m.processAround e il).sub j = some s ∧ Frozen (m.enqueuedTo j) s) ∧
      ((∀ gap ∈ il.enqueues, ∀ op ∈ gap, op.closes j = false) →
        ∃ s, (m.processAround e il).sub j = some s ∧ Frozen (m.enqueuedTo j ++ [e]) s) ∧
      ((∃ op ∈ il.enqueues.headD [], op.closes j = true) →
        ∃ s, (m.processAround e il).sub j = some s ∧ Frozen (m.enqueuedTo j) s) ∧
      j ∉ (m.processAround e il).global ∧ ∀ k, j ∉ (m.processAround e il).requestSubs k := by
  have hH := WF_Holds m hwf A j hreg
  have hnd := recipients_nodup m hwf e
  have hmem : j ∈ m.subscriptionsFor e := by
    unfold eventMux.subscriptionsFor
    rw [htag, if_neg hA]
    exact List.mem_append_right _ hreg
  have honce := applyAround_Holds_once e j A (m.enqueuedTo j) (m.subscriptionsFor e)
    il.enqueues m hnd hil.1 hH
  have hne : m.enqueuedTo j ≠ m.enqueuedTo j ++ [e] := by
    intro h
    have := congrArg List.length h
    simp at this
  obtain ⟨hu1, hu2⟩ := processAround_unregistered m hwf A hA j hreg e hend htag il
  refine ⟨?_, fun hgentle => ?_, fun hfirst => ?_, hu1, hu2⟩
  · rcases honce with h | h
    · exact Or.inl (processAround_tail m A hA j e hend htag il hil _ h)
    · exact Or.inr (processAround_tail m A hA j e hend htag il hil _ h)
  · obtain ⟨s0, hs0, hc0, _⟩ := hwf.request_open A j hreg
    obtain ⟨s1, hs1, hL1⟩ := applyAround_open e j (m.enqueuedTo j) (m.subscriptionsFor e)
      il.enqueues m hnd hmem hil.1 hgentle ⟨s0, hs0, by simp [eventMux.enqueuedTo, hs0], hc0⟩
    rcases honce with h | h
    · exact processAround_tail m A hA j e hend htag il hil _ h
    · obtain ⟨s2, hs2, hL2, _⟩ := h
      rw [hs1] at hs2
      cases hs2
      exact absurd (hL2.symm.trans hL1) hne
  · obtain ⟨s0, hs0, hL0, hS0, _⟩ := hH
    obtain ⟨s1, hs1, hL1⟩ := applyAround_closed_first e j (m.enqueuedTo j)
      (m.subscriptionsFor e) il.enqueues m (List.ne_nil_of_mem hmem) hil.1 hfirst
      ⟨s0, hs0, hL0, hS0⟩
    rcases honce with h | h
    · obtain ⟨s2, hs2, hL2, _⟩ := h
      rw [hs1] at hs2
      cases hs2
      exact absurd (hL1.symm.trans hL2) hne
    · exact processAround_tail m A hA j e hend htag il hil _ h

theorem append_singleton_get {subs : List subscription} {x s : subscription} {j : Nat}
    (h : (subs ++ [x])[j]? = some s) : subs[j]? = some s ∨ s = x := by
  by_cases hj : j < subs.length
  · rw [List.getElem?_append_left hj] at h
    exact Or.inl h
  · rw [List.getElem?_append_right (Nat.le_of_not_lt hj)] at h
    cases hk : j - subs.length with
    | zero =>
      rw [hk] at h
      simp at h
      exact Or.inr h.symm
    | succ n =>
      rw [hk] at h
      simp at h

theorem updateAt_get_cases (f : subscription → subscription) (subs : List subscription)
    (i j : Nat) (s1 : subscription) (h : (updateAt f subs i)[j]? = some s1) :
    ∃ s, subs[j]? = some s ∧ (s1 = f s ∨ s1 = s) := by
  by_cases hji : j = i
  · subst hji
    rw [updateAt_get_self] at h
    cases hs : subs[j]? with
    | none => simp [hs] at h
    | some s =>
      simp [hs] at h
      exact ⟨s, rfl, Or.inl h.symm⟩
  · rw [updateAt_get_ne f subs i j hji] at h
    exact ⟨s1, h, Or.inr rfl⟩

/-- The subscriptions created while the loop works on an event have been
enqueued nothing: a property that new subscriptions have, and that `Close`
and the pump keep, holds of every heap object from a given pointer on after
an action that is no iteration of the loop, once it holds of them before. -/
theorem step_foreign_from {P : subscription → Prop} (hC : ∀ s, P s → P s.Close)
    (hR : ∀ s, P s → P s.run) (hnew : P newSubscription) (hnewc : P newSubscription.Close)
    (n : Nat) (m : eventMux) (op : MuxOp) (hop : op.isRun = false)
    (h : ∀ j, n ≤ j → ∀ s, m.sub j = some s → P s) :
    ∀ j, n ≤ j → ∀ s, (m.step op).sub j = some s → P s := by
  intro j hj s hs
  unfold eventMux.sub at *
  cases op with
  | subscribeAll =>
    simp only [eventMux.step, eventMux.SubscribeAll] at hs
    split at hs
    · rcases append_singleton_get hs with h1 | h1
      · exact h j hj s h1
      · rw [h1]; exact hnewc
    · rcases append_singleton_get hs with h1 | h1
      · exact h j hj s h1
      · rw [h1]; exact hnew
  | subscribeRequest r =>
    simp only [eventMux.step, eventMux.SubscribeRequest] at hs
    split at hs
    · rcases append_singleton_get hs with h1 | h1
      · exact h j hj s h1
      · rw [h1]; exact hnewc
    · rcases append_singleton_get hs with h1 | h1
      · exact h j hj s h1
      · rw [h1]; exact hnew
  | unsubscribeRequest r sub =>
    simp only [eventMux.step, eventMux.UnsubscribeRequest] at hs
    cases sub with
    | none => exact h j hj s hs
    | some i =>
      simp only at hs
      split at hs
      · exact h j hj s hs
      · obtain ⟨s0, hs0, h1 | h1⟩ := updateAt_get_cases _ _ _ _ _ hs
        · rw [h1]; exact hC s0 (h j hj s0 hs0)
        · rw [h1]; exact h j hj s0 hs0
  | enqueue e => exact h j hj s hs
  | close => exact h j hj s hs
  | run => simp [MuxOp.isRun] at hop
  | pump i =>
    simp only [eventMux.step] at hs
    obtain ⟨s0, hs0, h1 | h1⟩ := updateAt_get_cases _ _ _ _ _ hs
    · rw [h1]; exact hR s0 (h j hj s0 hs0)
    · rw [h1]; exact h j hj s0 hs0

theorem Valid_upd (f : subscription → subscription) (m : eventMux) (i : Nat) (h : m.Valid) :
    eventMux.Valid { m with subs := updateAt f m.subs i } := by
  unfold eventMux.Valid at *
  simp only [updateAt_length]
  exact h

/-- A subscription created while the loop works on a TURN_END, and registered
under the request id of the TURN_END when `closeRequest` takes the mutex,
ends closed with nothing enqueued to it. -/
theorem processAround_late (m : eventMux) (hwf : m.WF) (A : String) (hA : A ≠ "")
    (e : ServerEvent) (hend : isTurnEnd e = true) (htag : e.RequestId = A) (il : Interleaving)
    (hil : il.foreign) (j : Nat) (hnew : m.subs.length ≤ j)
    (hreg : j ∈ (m.beforeEvict e il).requestSubs A) :
    ∃ s, (m.processAround e il).sub j = some s ∧ Frozen [] s := by
  subst htag
  have hP0 : m.Valid ∧ ∀ j, m.subs.length ≤ j → ∀ s, m.sub j = some s →
      s.enqueued = [] ∧ s.Sound := by
    refine ⟨WF_Valid m hwf, fun j hj s hs => ?_⟩
    simp [eventMux.sub, List.getElem?_eq_none hj] at hs
  have hstep : ∀ (m1 : eventMux) (op : MuxOp), op.isRun = false →
      (m1.Valid ∧ ∀ j, m.subs.length ≤ j → ∀ s, m1.sub j = some s →
        s.enqueued = [] ∧ s.Sound) →
      (m1.step op).Valid ∧ ∀ j, m.subs.length ≤ j → ∀ s, (m1.step op).sub j = some s →
        s.enqueued = [] ∧ s.Sound :=
    fun m1 op hop h1 => ⟨Valid_step m1 op h1.1,
      step_foreign_from (P := fun s => s.enqueued = [] ∧ s.Sound)
        (fun s h => ⟨(Close_enqueued s).trans h.1, Sound_Close s h.2⟩)
        (fun s h => ⟨(run_enqueued s).trans h.1, Sound_run s h.2⟩)
        ⟨rfl, fun h => by cases h⟩ ⟨rfl, fun _ => rfl⟩ m.subs.length m1 op hop h1.2⟩
  have h1 := applyAround_induction
    (I := fun m1 => m1.Valid ∧ ∀ j, m.subs.length ≤ j → ∀ s, m1.sub j = some s →
      s.enqueued = [] ∧ s.Sound)
    (fun s => s.Enqueue e) (m.subscriptionsFor e) il.enqueues
    (fun m1 op hop h1 => by
      obtain ⟨gap, hg, hop1⟩ := hop
      exact hstep m1 op (hil.1 gap hg op hop1) h1)
    (fun m1 i hi h1 => by
      refine ⟨Valid_upd _ m1 i h1.1, fun j hj s hs => ?_⟩
      have hi1 : i < m.subs.length := by
        rcases mem_subscriptionsFor m e i hi with h2 | ⟨_, h2⟩
        · exact isOpen_lt (hwf.global_open i h2)
        · exact isOpen_lt (hwf.request_open _ i h2)
      have hji : j ≠ i := by omega
      rw [upd_sub, if_neg hji] at hs
      exact h1.2 j hj s hs) m hP0
  have h2 : (m.beforeEvict e il).Valid ∧ ∀ j, m.subs.length ≤ j → ∀ s,
      (m.beforeEvict e il).sub j = some s → s.enqueued = [] ∧ s.Sound :=
    steps_induction
      (I := fun m1 => m1.Valid ∧ ∀ j, m.subs.length ≤ j → ∀ s, m1.sub j = some s →
        s.enqueued = [] ∧ s.Sound) il.evict
      (fun m1 op hop h1 => hstep m1 op (hil.2.1 op hop) h1) _ h1
  obtain ⟨s, hs⟩ := sub_of_lt _ j (h2.1.2 _ j hreg)
  obtain ⟨hL, hS⟩ := h2.2 j hnew s hs
  simp only [eventMux.processAround, hend, if_true, hA, if_false]
  exact applyAround_Close_closed j [] _ il.closes _ hil.2.2 ⟨s, hs, hL, hS, Or.inl hreg⟩

theorem runAround_eq_processAround (m : eventMux) (e : ServerEvent) (rest : List ServerEvent)
    (il : Interleaving) (hopen : m.closed = false) (hhead : m.queue.items = e :: rest) :
    m.runAround il =
      eventMux.processAround { m with queue := { m.queue with items := rest } } e il := by
  simp [eventMux.runAround, hopen, eventQueue.Pop, hhead]

theorem runAround_idle (m : eventMux) : m.runAround Interleaving.idle = m.run := by
  unfold eventMux.runAround eventMux.run
  split
  · rfl
  · split
    · rfl
    · rfl
    · exact processAround_idle _ _

/-! ## A TURN_END among the actions of other goroutines: the subscriptions of the request, late subscribers -/

/-- C5 (as stated, refuted): the multiplexer of the routing test has a global
subscription (pointer 0), a subscription under `req-a` (pointer 1), and the
TURN_END of `req-a` at the head of its queue. When the
`UnsubscribeRequest("req-a", 1)` of a returning Stream takes effect after
`subscriptionsFor` has released the mutex and before the first Enqueue, the
subscription under `req-a` ends closed with nothing enqueued to it, although
it was registered under `req-a` when the recipients were computed; the global
subscription is enqueued the TURN_END. -/
theorem C5_unsubscribed_before_enqueue_misses_turn_end :
    1 ∈ muxBeforeTurnEndA.requestSubs "req-a" ∧
      muxBeforeTurnEndA.queue.items = [turnEndA] ∧
      muxBeforeTurnEndA.subscriptionsFor turnEndA = [0, 1] ∧
      (muxBeforeTurnEndA.runAround (earlyUnsubscribe 1)).view 1 = some (true, []) ∧
      (muxBeforeTurnEndA.runAround (earlyUnsubscribe 1)).view 0 = some (false, [turnEndA]) := by
  decide

/-- C5 (amended): for every request id A and every subscription registered
under A, when the recipients of a TURN_END tagged A are computed, in a
multiplexer the client has driven: whatever other goroutines do while the
loop works on the TURN_END, the subscription ends closed and in no list of
the registry, it has been enqueued the TURN_END after everything it held or
nothing more than it held, and whatever happens afterwards it stays closed
and is enqueued nothing more. It has been enqueued the TURN_END when no
`UnsubscribeRequest` closed it before its Enqueue, and nothing when an
`UnsubscribeRequest` closed it before the first Enqueue. With no action of
another goroutine the iteration is the atomic one. -/
theorem C5_turn_end_closes_request (ops : List MuxOp) (A : String) (sub : Nat)
    (e : ServerEvent) (rest : List ServerEvent) (il : Interleaving)
    (hok : okFrom newEventMux ops = true) (hA : A ≠ "")
    (hreg : sub ∈ (newEventMux.steps ops).requestSubs A)
    (hhead : (newEventMux.steps ops).queue.items = e :: rest)
    (hend : isTurnEnd e = true) (htag : e.RequestId = A) (hil : il.foreign) :
    ((newEventMux.steps ops).runAround il).isClosed sub ∧
      (((newEventMux.steps ops).runAround il).enqueuedTo sub
          = (newEventMux.steps ops).enqueuedTo sub ++ [e] ∨
        ((newEventMux.steps ops).runAround il).enqueuedTo sub
          = (newEventMux.steps ops).enqueuedTo sub) ∧
      ((∀ gap ∈ il.enqueues, ∀ op ∈ gap, op.closes sub = false) →
        ((newEventMux.steps ops).runAround il).enqueuedTo sub
          = (newEventMux.steps ops).enqueuedTo sub ++ [e]) ∧
      ((∃ op ∈ il.enqueues.headD [], op.closes sub = true) →
        ((newEventMux.steps ops).runAround il).enqueuedTo sub
          = (newEventMux.steps ops).enqueuedTo sub) ∧
      sub ∉ ((newEventMux.steps ops).runAround il).global ∧
      (∀ k, sub ∉ ((newEventMux.steps ops).runAround il).requestSubs k) ∧
      (∀ later,
        (((newEventMux.steps ops).runAround il).steps later).enqueuedTo sub
            = ((newEventMux.steps ops).runAround il).enqueuedTo sub ∧
          (((newEventMux.steps ops).runAround il).steps later).isClosed sub) ∧
      (newEventMux.steps ops).runAround Interleaving.idle = (newEventMux.steps ops).run := by
  have hwf : (newEventMux.steps ops).WF := WF_steps ops _ WF_newEventMux hok
  have hopen : (newEventMux.steps ops).closed = false :=
    closed_false_of_registered _ hwf A sub hreg
  rw [runAround_eq_processAround _ e rest il hopen hhead]
  generalize newEventMux.steps ops = m at hwf hreg ⊢
  obtain ⟨h1, h2, h3, h4, h5⟩ := processAround_registered
    { m with queue := { m.queue with items := rest } } (WF_queue m _ hwf) A hA sub hreg e hend
    htag il hil
  have hold : eventMux.enqueuedTo { m with queue := { m.queue with items := rest } } sub
      = m.enqueuedTo sub := rfl
  rw [hold] at h1 h2 h3
  have hfro : ∀ L, (∃ s, (eventMux.processAround
        { m with queue := { m.queue with items := rest } } e il).sub sub = some s ∧
        Frozen L s) →
      (eventMux.processAround { m with queue := { m.queue with items := rest } } e
        il).enqueuedTo sub = L ∧
      (eventMux.processAround { m with queue := { m.queue with items := rest } } e
        il).isClosed sub ∧
      ∀ later, ((eventMux.processAround { m with queue := { m.queue with items := rest } } e
          il).steps later).enqueuedTo sub = L ∧
        ((eventMux.processAround { m with queue := { m.queue with items := rest } } e
          il).steps later).isClosed sub := by
    intro L hF
    have h0 := steps_frozen [] _ sub L hF
    exact ⟨h0.1, h0.2, fun later => steps_frozen later _ sub L hF⟩
  refine ⟨?_, ?_, fun hg => (hfro _ (h2 hg)).1, fun hf => (hfro _ (h3 hf)).1, h4, h5, ?_,
    runAround_idle m⟩
  · rcases h1 with h | h
    · exact (hfro _ h).2.1
    · exact (hfro _ h).2.1
  · rcases h1 with h | h
    · exact Or.inl (hfro _ h).1
    · exact Or.inr (hfro _ h).1
  · intro later
    rcases h1 with h | h
    · exact ⟨by rw [(hfro _ h).1]; exact ((hfro _ h).2.2 later).1, ((hfro _ h).2.2 later).2⟩
    · exact ⟨by rw [(hfro _ h).1]; exact ((hfro _ h).2.2 later).1, ((hfro _ h).2.2 later).2⟩

/-- C5 (amended), applied to the multiplexer of the routing test: with no
action of another goroutine the subscription under `req-a` (pointer 1) ends
with the TURN_END and gets nothing of what follows; with the
`UnsubscribeRequest` of its Stream before the first Enqueue it gets nothing. -/
theorem C5_turn_end_closes_request_witness :
    (muxBeforeTurnEndA.runAround Interleaving.idle).enqueuedTo 1
        = muxBeforeTurnEndA.enqueuedTo 1 ++ [turnEndA] ∧
      ((muxBeforeTurnEndA.runAround Interleaving.idle).steps
          [.enqueue turnBeginA, .run]).enqueuedTo 1
        = (muxBeforeTurnEndA.runAround Interleaving.idle).enqueuedTo 1 ∧
      (muxBeforeTurnEndA.runAround (earlyUnsubscribe 1)).enqueuedTo 1
        = muxBeforeTurnEndA.enqueuedTo 1 :=
  ⟨(C5_turn_end_closes_request
      [.subscribeAll, .subscribeRequest "req-a", .enqueue turnEndA] "req-a" 1 turnEndA []
      Interleaving.idle (by decide) (by decide) (by decide) (by decide) (by decide) (by decide)
      (by simp [Interleaving.foreign, Interleaving.idle])).2.2.1
        (by simp [Interleaving.idle]),
    ((C5_turn_end_closes_request
      [.subscribeAll, .subscribeRequest "req-a", .enqueue turnEndA] "req-a" 1 turnEndA []
      Interleaving.idle (by decide) (by decide) (by decide) (by decide) (by decide) (by decide)
      (by simp [Interleaving.foreign, Interleaving.idle])).2.2.2.2.2.2.1
        [.enqueue turnBeginA, .run]).1,
    (C5_turn_end_closes_request
      [.subscribeAll, .subscribeRequest "req-a", .enqueue turnEndA] "req-a" 1 turnEndA []
      (earlyUnsubscribe 1) (by decide) (by decide) (by decide) (by decide) (by decide)
      (by decide)
      (by simp [Interleaving.foreign, earlyUnsubscribe, MuxOp.isRun])).2.2.2.1
        ⟨MuxOp.unsubscribeRequest "req-a" (some 1), by simp [earlyUnsubscribe], by decide⟩⟩

/-- C38 (as stated, refuted): while the multiplexer works on the TURN_END of
`req-a`, a `SubscribeRequest("req-a")` that takes effect after
`subscriptionsFor` has returned the recipients and before `closeRequest`
takes the mutex gets a subscription (pointer 1) that is then evicted and
closed with nothing enqueued to it, while the subscription registered before
(pointer 0) is closed with the TURN_END enqueued. -/
theorem C38_late_subscriber_evicted_without_turn_end :
    (muxWithA.processAround turnEndA lateSubscribe).view 1 = some (true, []) ∧
      (muxWithA.processAround turnEndA lateSubscribe).view 0 = some (true, [turnEndA]) ∧
      (muxWithA.beforeEvict turnEndA lateSubscribe).requestSubs "req-a" = [0, 1] ∧
      (muxWithA.processAround turnEndA lateSubscribe).requestSubs "req-a" = [] := by
  decide

/-- C38 (amended): routing a TURN_END tagged A and evicting the subscriptions
of A are two critical sections, with the Enqueues between them. With no
action of another goroutine meanwhile the body of the loop is the atomic
processing. A `SubscribeRequest(A)` that takes effect before `closeRequest`
takes the mutex registers a new subscription under A, and every subscription
created meanwhile that is registered under A when `closeRequest` takes the
mutex ends evicted and closed with nothing enqueued to it. A subscription
that was registered under A when the recipients were computed ends closed and
in no list of the registry; it has been enqueued the TURN_END after what it
held when no `UnsubscribeRequest` closed it before its Enqueue, and nothing
when an `UnsubscribeRequest` closed it before the first Enqueue. When no
action takes effect after `closeRequest` has released the mutex, no
subscription is registered under A afterwards. -/
theorem C38_route_then_evict_two_sections (m : eventMux) (A : String) (e : ServerEvent)
    (il : Interleaving) (hwf : m.WF) (hA : A ≠ "") (hend : isTurnEnd e = true)
    (htag : e.RequestId = A) (hil : il.foreign) :
    m.processAround e Interleaving.idle = m.process e ∧
      (m.closed = false →
        (m.beforeEvict e ⟨[], [.subscribeRequest A], []⟩).requestSubs A
          = m.requestSubs A ++ [m.subs.length]) ∧
      (∀ j, m.subs.length ≤ j → j ∈ (m.beforeEvict e il).requestSubs A →
        (m.processAround e il).view j = some (true, [])) ∧
      (∀ j ∈ m.requestSubs A,
        ((m.processAround e il).view j = some (true, m.enqueuedTo j ++ [e]) ∨
            (m.processAround e il).view j = some (true, m.enqueuedTo j)) ∧
          ((∀ gap ∈ il.enqueues, ∀ op ∈ gap, op.closes j = false) →
            (m.processAround e il).view j = some (true, m.enqueuedTo j ++ [e])) ∧
          ((∃ op ∈ il.enqueues.headD [], op.closes j = true) →
            (m.processAround e il).view j = some (true, m.enqueuedTo j)) ∧
          j ∉ (m.processAround e il).global ∧
          ∀ k, j ∉ (m.processAround e il).requestSubs k) ∧
      (il.closes = [] → (m.processAround e il).requestSubs A = []) := by
  refine ⟨processAround_idle m e, fun hopen => ?_, fun j hnew hreg => ?_, fun j hreg => ?_,
    fun hcl => ?_⟩
  · simp only [eventMux.beforeEvict, applyAround_nil_gaps, eventMux.steps, List.foldl_cons,
      List.foldl_nil, eventMux.step]
    rw [requestSubs_SubscribeRequest]
    simp [hopen, eventMux.requestSubs, foldl_updateAt_length]
  · exact view_of_frozen _ j _ (processAround_late m hwf A hA e hend htag il hil j hnew hreg)
  · obtain ⟨h1, h2, h3, h4, h5⟩ := processAround_registered m hwf A hA j hreg e hend htag il hil
    refine ⟨?_, fun hg => view_of_frozen _ j _ (h2 hg), fun hf => view_of_frozen _ j _ (h3 hf),
      h4, h5⟩
    rcases h1 with h | h
    · exact Or.inl (view_of_frozen _ j _ h)
    · exact Or.inr (view_of_frozen _ j _ h)
  · subst htag
    simp only [eventMux.processAround, hend, if_true, hA, if_false, hcl, applyAround_nil_gaps,
      eventMux.requestSubs]
    rw [getD_delete]
    simp

/-- C38 (amended), applied to a multiplexer with a subscription under `req-a`
while it works on the TURN_END of `req-a` and a `SubscribeRequest("req-a")`
takes effect before the first Enqueue: the subscription gets the TURN_END,
the late subscriber (pointer 1) gets nothing. -/
theorem C38_route_then_evict_two_sections_witness :
    (∀ j ∈ muxWithA.requestSubs "req-a",
        (muxWithA.processAround turnEndA lateSubscribe).view j
          = some (true, muxWithA.enqueuedTo j ++ [turnEndA])) ∧
      (muxWithA.processAround turnEndA lateSubscribe).view 1 = some (true, []) :=
  ⟨fun j hj =>
    ((C38_route_then_evict_two_sections muxWithA "req-a" turnEndA lateSubscribe
      (WF_steps [.subscribeRequest "req-a"] _ WF_newEventMux (by decide)) (by decide)
      (by decide) rfl (by simp [Interleaving.foreign, lateSubscribe, MuxOp.isRun])).2.2.2.1
        j hj).2.1 (by simp [lateSubscribe, MuxOp.closes]),
    (C38_route_then_evict_two_sections muxWithA "req-a" turnEndA lateSubscribe
      (WF_steps [.subscribeRequest "req-a"] _ WF_newEventMux (by decide)) (by decide)
      (by decide) rfl (by simp [Interleaving.foreign, lateSubscribe, MuxOp.isRun])).2.2.1
        1 (by decide) (by decide)⟩

end Client
